import Mathlib

/-!
# Verification development for the tigate control plane

Shallow embedding of

* `maintainer/maintainer.go` (the per-changefeed maintainer event loop),
* `maintainer/operator/operator_controller.go` (the operator controller),
* `coordinator/scheduler_basic.go` (the basic coordinator scheduler),
* `logservice/schemastore/persist_storage.go` (the persistent schema store),
* `downstreamadapter/dispatcher/dispatcher.go` (block events of a dispatcher),
* `pkg/common/txn_event_gen.go` (the generated MessagePack codec),
* `downstreamadapter/sink/helper/eventrouter/partition/index_value.go` (the
  index-value partition generator),

followed by the theorems that settle the specification's claims about them.

Conventions.  A Go `uint64` is a `Nat` (no arithmetic is performed on
timestamps, only comparisons; where the range matters it is a hypothesis
`≤ MaxUint64`).  A Go map is a function into `Option` where only lookups and
updates are performed, and an association list where the code ranges over it;
the list order stands for Go's unspecified iteration order, so every theorem
holds for every order.  Collaborators that live outside the embedded files
(controller, bootstrapper, barrier, node manager, clock) are read through an
explicit environment record.
-/

namespace Tigate

/-! ## Maintainer: data model -/

/-- Node identifiers (`node.ID`): opaque, compared for equality only. -/
abbrev NodeID := Nat

/-- The largest `uint64`, `math.MaxUint64`. -/
def MaxUint64 : Nat := 18446744073709551615

/-- The watermark `heartbeatpb.Watermark`. -/
structure Watermark where
  CheckpointTs : Nat
  ResolvedTs : Nat
deriving DecidableEq, Repr

/-- Modelled from the spec: `heartbeatpb.NewMaxWatermark` is not among the
embedded sources; it is the unit of the min-merge monoid, both components at
`math.MaxUint64`. -/
def NewMaxWatermark : Watermark :=
  { CheckpointTs := MaxUint64, ResolvedTs := MaxUint64 }

/-- Modelled from the spec: `Watermark.UpdateMin` is not among the embedded
sources; "min-merge across watermarks" lowers each component of the receiver
to the other watermark's component when that one is smaller. -/
def Watermark.UpdateMin (w other : Watermark) : Watermark :=
  { CheckpointTs := if w.CheckpointTs > other.CheckpointTs then other.CheckpointTs
                    else w.CheckpointTs,
    ResolvedTs := if w.ResolvedTs > other.ResolvedTs then other.ResolvedTs
                  else w.ResolvedTs }

/-- The component states of `heartbeatpb.ComponentState` that the spec lists. -/
inductive ComponentState where
  | Absent
  | Working
  | Stopped
  | Prepared
  | Preparing
deriving DecidableEq, Repr

/-- A `heartbeatpb.RunningError`, reduced to its code. -/
abbrev RunningError := Nat

/-- The request `heartbeatpb.HeartBeatRequest`; `Statuses` is the number of span
statuses it carries (they are forwarded to the controller untouched). -/
structure HeartBeatRequest where
  Watermark : Option Watermark
  Statuses : Nat
  Warning : Option RunningError
  Err : Option RunningError
deriving DecidableEq, Repr

/-- The message bodies `onMessage` dispatches on; `Unexpected` is any other
message type (the `default` branch). -/
inductive MessageBody where
  | HeartBeatRequest (req : HeartBeatRequest)
  | BlockStatusRequest
  | MaintainerBootstrapResponse
  | MaintainerCloseResponse (success : Bool)
  | RemoveMaintainerRequest (cascade : Bool)
  | CheckpointTsMessage (checkpointTs : Nat)
  | Unexpected
deriving DecidableEq, Repr

/-- The message `messaging.TargetMessage`: sender and body. -/
structure TargetMessage where
  From : NodeID
  body : MessageBody
deriving DecidableEq, Repr

/-- The three event types of the maintainer's stream. -/
inductive Event where
  | EventInit
  | EventMessage (message : TargetMessage)
  | EventPeriod
deriving DecidableEq, Repr

/-- Messages handed to `mc.SendCommand`, by destination. -/
inductive OutMsg where
  | MaintainerCloseRequest (dest : NodeID)
  | MaintainerBootstrapRequest (dest : NodeID)
  | DispatcherStatus (dest : NodeID)
  | CheckpointTsMessage (dest : NodeID) (checkpointTs : Nat)
deriving DecidableEq, Repr

/-- Ways in which a handler does not return. -/
inductive Fault where
  | unlockOfUnlockedMutex
  | lockOfHeldMutex
  | unexpectedMessageType
deriving DecidableEq, Repr

/-- What the maintainer reads from its collaborators while it handles one
event: the clock, the controller (`ScheduleFinished`, `GetTaskSizeByNodeID`,
the node of the DDL dispatcher), the bootstrapper (`GetAllNodes`, the nodes it
still has to ask), the node manager (`GetAliveNodes`) and the barrier (the
nodes it resends to).  Lists are in the iteration order of the Go maps. -/
structure Env where
  now : Int
  scheduleFinished : Bool
  allNodes : List NodeID
  taskSize : NodeID → Nat
  aliveNodes : List NodeID
  bootstrapResend : List NodeID
  barrierResend : List NodeID
  ddlDispatcherNode : Option NodeID

/-- The fields of `Maintainer` that its handlers read or write, with the
messages sent so far and the number of `MaintainerGauge` decrements.  Times are
nanoseconds. -/
structure Maintainer where
  watermark : Watermark
  checkpointTsByCapture : NodeID → Option Watermark
  state : ComponentState
  removed : Bool
  initialized : Bool
  nodesClosed : NodeID → Bool
  statusChanged : Bool
  nodeChanged : Bool
  removing : Bool
  cascadeRemoving : Bool
  lastPrintStatusTime : Int
  lastCheckpointTsTime : Int
  errLock : Bool
  runningErrors : NodeID → Option RunningError
  runningWarnings : NodeID → Option RunningError
  sent : List OutMsg
  gaugeDecrements : Nat

/-- Two seconds, in nanoseconds. -/
def twoSeconds : Int := 2000000000

/-- Twenty seconds, in nanoseconds. -/
def twentySeconds : Int := 20000000000

/-! ## Maintainer: operations -/

/-- The call `m.errLock.Lock()`. -/
def Maintainer.lockErr (m : Maintainer) : Except Fault Maintainer :=
  if m.errLock then Except.error Fault.lockOfHeldMutex
  else Except.ok { m with errLock := true }

/-- The call `m.errLock.Unlock()`; unlocking a free mutex is fatal in Go. -/
def Maintainer.unlockErr (m : Maintainer) : Except Fault Maintainer :=
  if m.errLock then Except.ok { m with errLock := false }
  else Except.error Fault.unlockOfUnlockedMutex

/-- The method `sendMessages`: every message is handed to the message center. -/
def Maintainer.sendMessages (m : Maintainer) (msgs : List OutMsg) : Maintainer :=
  { m with sent := m.sent ++ msgs }

/-- The loop of `calCheckpointTs` over `bootstrapper.GetAllNodes()`, started
from the accumulator `w`: `none` is the early `return` on a node that has
tasks but no recorded heartbeat, `some` the accumulated minimum. -/
def minWatermarkFrom (taskSize : NodeID → Nat) (byCapture : NodeID → Option Watermark) :
    List NodeID → Watermark → Option Watermark
  | [], w => some w
  | id :: rest, w =>
    if taskSize id > 0 then
      match byCapture id with
      | none => none
      | some reported => minWatermarkFrom taskSize byCapture rest (w.UpdateMin reported)
    else minWatermarkFrom taskSize byCapture rest w

/-- The watermark `newWatermark` that `calCheckpointTs` computes once its gates
are passed. -/
def Maintainer.newWatermark (m : Maintainer) (env : Env) : Option Watermark :=
  minWatermarkFrom env.taskSize m.checkpointTsByCapture env.allNodes NewMaxWatermark

/-- The two guarded assignments that end `calCheckpointTs`. -/
def Watermark.publish (old computed : Watermark) : Watermark :=
  { CheckpointTs := if computed.CheckpointTs ≠ MaxUint64 then computed.CheckpointTs
                    else old.CheckpointTs,
    ResolvedTs := if computed.ResolvedTs ≠ MaxUint64 then computed.ResolvedTs
                  else old.ResolvedTs }

/-- The method `calCheckpointTs` (`updateMetrics` only sets gauges). -/
def Maintainer.calCheckpointTs (m : Maintainer) (env : Env) : Maintainer :=
  if env.now - m.lastCheckpointTsTime < twoSeconds || !env.scheduleFinished then m
  else
    let m1 := { m with lastCheckpointTsTime := env.now }
    match m1.newWatermark env with
    | none => m1
    | some computed => { m1 with watermark := m1.watermark.publish computed }

/-- The method `onHeartBeatRequest`, with the lock calls as written. -/
def Maintainer.onHeartBeatRequest (m : Maintainer) (msg : NodeID) (req : HeartBeatRequest) :
    Except Fault Maintainer :=
  let m1 : Maintainer :=
    match req.Watermark with
    | some w =>
      { m with checkpointTsByCapture :=
          fun n => if n = msg then some w else m.checkpointTsByCapture n }
    | none => m
  let afterWarning : Except Fault Maintainer :=
    match req.Warning with
    | some warning =>
      match m1.lockErr with
      | Except.error e => Except.error e
      | Except.ok a =>
        Maintainer.unlockErr
          { a with runningWarnings :=
              fun n => if n = msg then some warning else a.runningWarnings n }
    | none => Except.ok m1
  match afterWarning with
  | Except.error e => Except.error e
  | Except.ok m2 =>
    match req.Err with
    | some err =>
      match m2.unlockErr with
      | Except.error e => Except.error e
      | Except.ok a =>
        Maintainer.unlockErr
          { a with runningErrors :=
              fun n => if n = msg then some err else a.runningErrors n }
    | none => Except.ok m2

/-- The method `sendMaintainerCloseRequestToAllNode`: the new state and whether
no request had to be sent. -/
def Maintainer.sendMaintainerCloseRequestToAllNode (m : Maintainer) (env : Env) :
    Maintainer × Bool :=
  let msgs := (env.aliveNodes.filter (fun n => !m.nodesClosed n)).map
    OutMsg.MaintainerCloseRequest
  (m.sendMessages msgs, msgs.length == 0)

/-- The method `tryCloseChangefeed`. -/
def Maintainer.tryCloseChangefeed (m : Maintainer) (env : Env) : Maintainer × Bool :=
  let m1 := if m.state ≠ ComponentState.Stopped then { m with statusChanged := true } else m
  if !m1.cascadeRemoving then (m1, true)
  else m1.sendMaintainerCloseRequestToAllNode env

/-- The method `onRemoveMaintainer`. -/
def Maintainer.onRemoveMaintainer (m : Maintainer) (env : Env) (cascade : Bool) : Maintainer :=
  let m1 := { m with removing := true, cascadeRemoving := cascade }
  let r := m1.tryCloseChangefeed env
  if r.2 then
    { r.1 with removed := true, state := ComponentState.Stopped,
               gaugeDecrements := r.1.gaugeDecrements + 1 }
  else r.1

/-- The method `onNodeClosed`. -/
def Maintainer.onNodeClosed (m : Maintainer) (env : Env) (sender : NodeID) (success : Bool) :
    Maintainer :=
  let m1 := if success then
      { m with nodesClosed := fun n => if n = sender then true else m.nodesClosed n }
    else m
  m1.onRemoveMaintainer env m1.cascadeRemoving

/-- The method `onCheckpointTsPersisted`. -/
def Maintainer.onCheckpointTsPersisted (m : Maintainer) (env : Env) (checkpointTs : Nat) :
    Maintainer :=
  match env.ddlDispatcherNode with
  | none => m
  | some n => m.sendMessages [OutMsg.CheckpointTsMessage n checkpointTs]

/-- The method `onMessage`.  Block-status requests are answered with the
barrier's acknowledgement; bootstrap responses only reach the bootstrapper and
the controller. -/
def Maintainer.onMessage (m : Maintainer) (env : Env) (msg : TargetMessage) :
    Except Fault Maintainer :=
  match msg.body with
  | MessageBody.HeartBeatRequest req => m.onHeartBeatRequest msg.From req
  | MessageBody.BlockStatusRequest =>
    Except.ok (m.sendMessages [OutMsg.DispatcherStatus msg.From])
  | MessageBody.MaintainerBootstrapResponse => Except.ok m
  | MessageBody.MaintainerCloseResponse success =>
    Except.ok (m.onNodeClosed env msg.From success)
  | MessageBody.RemoveMaintainerRequest cascade => Except.ok (m.onRemoveMaintainer env cascade)
  | MessageBody.CheckpointTsMessage ts => Except.ok (m.onCheckpointTsPersisted env ts)
  | MessageBody.Unexpected => Except.error Fault.unexpectedMessageType

/-- The method `onNodeChanged`: a bootstrap request goes to every alive node the
bootstrapper does not know yet; the rest happens inside the collaborators. -/
def Maintainer.onNodeChanged (m : Maintainer) (env : Env) : Maintainer :=
  m.sendMessages
    ((env.aliveNodes.filter (fun n => !env.allNodes.contains n)).map
      OutMsg.MaintainerBootstrapRequest)

/-- The method `handleResendMessage`. -/
def Maintainer.handleResendMessage (m : Maintainer) (env : Env) : Maintainer :=
  let m1 := m.sendMessages (env.bootstrapResend.map OutMsg.MaintainerBootstrapRequest)
  let m2 := if m1.removing then (m1.sendMaintainerCloseRequestToAllNode env).1 else m1
  m2.sendMessages (env.barrierResend.map OutMsg.DispatcherStatus)

/-- The method `collectMetrics`, as far as it touches the maintainer. -/
def Maintainer.collectMetrics (m : Maintainer) (env : Env) : Maintainer :=
  if env.now - m.lastPrintStatusTime > twentySeconds then
    { m with lastPrintStatusTime := env.now }
  else m

/-- The method `onPeriodTask`. -/
def Maintainer.onPeriodTask (m : Maintainer) (env : Env) : Maintainer :=
  ((m.handleResendMessage env).collectMetrics env).calCheckpointTs env

/-- The method `onInit`: the initialisation itself runs on another goroutine. -/
def Maintainer.onInit (m : Maintainer) : Bool :=
  !m.initialized

/-- The method `HandleEvent`: the new state and the returned flag. -/
def Maintainer.HandleEvent (m : Maintainer) (env : Env) (event : Event) :
    Except Fault (Maintainer × Bool) :=
  if m.state = ComponentState.Stopped then Except.ok (m, false)
  else
    let m1 := if m.nodeChanged then { m.onNodeChanged env with nodeChanged := false } else m
    match event with
    | Event.EventInit => Except.ok (m1, m1.onInit)
    | Event.EventMessage message =>
      match m1.onMessage env message with
      | Except.error e => Except.error e
      | Except.ok m2 => Except.ok (m2, false)
    | Event.EventPeriod => Except.ok (m1.onPeriodTask env, false)

/-- The checkpoint that `GetMaintainerStatus` reports. -/
def Maintainer.GetMaintainerStatus (m : Maintainer) : Nat :=
  m.watermark.CheckpointTs

/-- The maintainer that `NewMaintainer` builds for a start checkpoint. -/
def NewMaintainer (checkpointTs : Nat) : Maintainer :=
  { watermark := { CheckpointTs := checkpointTs, ResolvedTs := checkpointTs },
    checkpointTsByCapture := fun _ => none,
    state := ComponentState.Working,
    removed := false,
    initialized := false,
    nodesClosed := fun _ => false,
    statusChanged := true,
    nodeChanged := false,
    removing := false,
    cascadeRemoving := false,
    lastPrintStatusTime := 0,
    lastCheckpointTsTime := 0,
    errLock := false,
    runningErrors := fun _ => none,
    runningWarnings := fun _ => none,
    sent := [],
    gaugeDecrements := 0 }

/-! ## Maintainer: sample inputs -/

/-- A period tick three seconds after start: node `1` is the only node the
bootstrapper knows, it holds one replica, and nothing is being scheduled. -/
def tickEnv : Env :=
  { now := 3000000000,
    scheduleFinished := true,
    allNodes := [1],
    taskSize := fun n => if n = 1 then 1 else 0,
    aliveNodes := [1],
    bootstrapResend := [],
    barrierResend := [],
    ddlDispatcherNode := none }

/-- A heartbeat from node `n` that carries the watermark `w` and nothing else. -/
def heartbeatFrom (n : NodeID) (w : Watermark) : Event :=
  Event.EventMessage
    { From := n,
      body := MessageBody.HeartBeatRequest
        { Watermark := some w, Statuses := 0, Warning := none, Err := none } }

/-- A freshly built maintainer at checkpoint `c` that has recorded the
watermark `w` for node `1`. -/
def maintainerWithReport (c : Nat) (w : Watermark) : Maintainer :=
  { NewMaintainer c with
    checkpointTsByCapture := fun n => if n = 1 then some w else none }

/-! ## Coordinator: the basic scheduler (`coordinator/scheduler_basic.go`) -/

/-- Changefeed identifiers (`model.ChangeFeedID`), compared for equality only. -/
abbrev ChangeFeedID := Nat

/-- Capture identifiers (`model.CaptureID`) are strings; `""` is "no capture". -/
abbrev CaptureID := String

/-- The scheduler status of a state machine; only `SchedulerStatusAbsent` is
named by the scheduler. -/
inductive SchedulerStatus where
  | SchedulerStatusAbsent
  | SchedulerStatusCommiting
  | SchedulerStatusWorking
  | SchedulerStatusRemoving
deriving DecidableEq, Repr

/-- The fields of `StateMachine` that the scheduler reads. -/
structure StateMachine where
  State : SchedulerStatus
  Primary : CaptureID
deriving DecidableEq, Repr

/-- The task `MoveInferior`. -/
structure MoveInferior where
  ID : ChangeFeedID
  DestCapture : CaptureID
deriving DecidableEq, Repr

/-- The task `AddInferior`. -/
structure AddInferior where
  ID : ChangeFeedID
  CaptureID : CaptureID
deriving DecidableEq, Repr

/-- The task `RemoveInferior`. -/
structure RemoveInferior where
  ID : ChangeFeedID
  CaptureID : CaptureID
deriving DecidableEq, Repr

/-- The wrapper `ScheduleTask`: three pointers, of which the scheduler sets one. -/
structure ScheduleTask where
  MoveInferior : Option MoveInferior
  AddInferior : Option AddInferior
  RemoveInferior : Option RemoveInferior
deriving DecidableEq, Repr

/-- The scheduler `BasicScheduler`; `batchSize` is a Go `int`. -/
structure BasicScheduler where
  batchSize : Int
deriving DecidableEq, Repr

/-- The map `stateMachines`, as the list of its entries in iteration order;
`stateMachines[id]` is `List.lookup`. -/
abbrev StateMachines := List (ChangeFeedID × StateMachine)

/-- The first loop of `Schedule`, from the accumulated `newInferiors` and
`allFind`: it stops as soon as the batch is full. -/
def collectNewInferiors (batchSize : Int) (stateMachines : StateMachines) :
    List ChangeFeedID → List ChangeFeedID → Bool → List ChangeFeedID × Bool
  | [], newInferiors, allFind => (newInferiors, allFind)
  | inf :: rest, newInferiors, allFind =>
    if (newInferiors.length : Int) ≥ batchSize then (newInferiors, allFind)
    else
      match stateMachines.lookup inf with
      | none => collectNewInferiors batchSize stateMachines rest (newInferiors ++ [inf]) false
      | some st =>
        if st.State = SchedulerStatus.SchedulerStatusAbsent then
          collectNewInferiors batchSize stateMachines rest (newInferiors ++ [inf]) allFind
        else collectNewInferiors batchSize stateMachines rest newInferiors allFind

/-- The loop of `newBurstAddInferiors`, from the index `idx` and the tasks built
so far; `none` is the panic of an index out of range. -/
def burstAddLoop (captureIDs : List CaptureID) :
    List ChangeFeedID → Nat → List ScheduleTask → Option (List ScheduleTask)
  | [], _, addInferiorTasks => some addInferiorTasks
  | infID :: rest, idx, addInferiorTasks =>
    match captureIDs[idx]? with
    | none => none
    | some targetCapture =>
      burstAddLoop captureIDs rest
        (if idx + 1 ≥ captureIDs.length then 0 else idx + 1)
        (addInferiorTasks ++
          [{ MoveInferior := none,
             AddInferior := some { ID := infID, CaptureID := targetCapture },
             RemoveInferior := none }])

/-- The function `newBurstAddInferiors`. -/
def newBurstAddInferiors (newInferiors : List ChangeFeedID) (captureIDs : List CaptureID) :
    Option (List ScheduleTask) :=
  burstAddLoop captureIDs newInferiors 0 []

/-- The loop of `newBurstRemoveInferiors`; `none` is the nil dereference of an
identifier without a state machine. -/
def burstRemoveLoop (stateMachines : StateMachines) :
    List ChangeFeedID → List ScheduleTask → Option (List ScheduleTask)
  | [], removeTasks => some removeTasks
  | id :: rest, removeTasks =>
    match stateMachines.lookup id with
    | none => none
    | some ccf =>
      if ccf.Primary = "" then burstRemoveLoop stateMachines rest removeTasks
      else
        burstRemoveLoop stateMachines rest
          (removeTasks ++
            [{ MoveInferior := none,
               AddInferior := none,
               RemoveInferior := some { ID := id, CaptureID := ccf.Primary } }])

/-- The function `newBurstRemoveInferiors`; an empty result is the `nil` slice,
which appends nothing. -/
def newBurstRemoveInferiors (rmInferiors : List ChangeFeedID) (stateMachines : StateMachines) :
    Option (List ScheduleTask) :=
  burstRemoveLoop stateMachines rmInferiors []

/-- The remove part of `Schedule`, entered behind the fast-path test. -/
def removeInferiorTasks (allChangefeeds : List ChangeFeedID) (stateMachines : StateMachines) :
    Option (List ScheduleTask) :=
  let intersectionIDS :=
    allChangefeeds.filter (fun inf => (stateMachines.lookup inf).isSome)
  let rmInferiorIDs :=
    (stateMachines.map Prod.fst).filter (fun key => !intersectionIDS.contains key)
  newBurstRemoveInferiors rmInferiorIDs stateMachines

/-- The method `BasicScheduler.Schedule`; `aliveServers` is the list of the keys
of the server map in iteration order, and `none` is a panic. -/
def BasicScheduler.Schedule (b : BasicScheduler) (allChangefeeds : List ChangeFeedID)
    (aliveServers : List CaptureID) (stateMachines : StateMachines) :
    Option (List ScheduleTask) :=
  let lenEqual : Bool := allChangefeeds.length == stateMachines.length
  let collected := collectNewInferiors b.batchSize stateMachines allChangefeeds [] true
  let newInferiors := collected.1
  let allFind := collected.2
  let addPart : Option (List ScheduleTask × Bool) :=
    if newInferiors.length > 0 then
      if aliveServers.length = 0 then some ([], true)
      else (newBurstAddInferiors newInferiors aliveServers).map (fun ts => (ts, false))
    else some ([], false)
  match addPart with
  | none => none
  | some (tasks, true) => some tasks
  | some (tasks, false) =>
    if !lenEqual || !allFind then
      (removeInferiorTasks allChangefeeds stateMachines).map (fun rm => tasks ++ rm)
    else some tasks

/-- The identifiers of the `AddInferior` tasks of a result, in order. -/
def addedIDs (tasks : List ScheduleTask) : List ChangeFeedID :=
  tasks.filterMap (fun t => t.AddInferior.map (fun a => a.ID))

/-- A changefeed `Schedule` has to place: it has no state machine, or its state
machine is absent. -/
def needsAdd (stateMachines : StateMachines) (inf : ChangeFeedID) : Bool :=
  match stateMachines.lookup inf with
  | none => true
  | some st => decide (st.State = SchedulerStatus.SchedulerStatusAbsent)

/-- The number of tasks of a result that add an inferior to the capture `c`. -/
def addCount (tasks : List ScheduleTask) (c : CaptureID) : Nat :=
  (tasks.filter (fun t =>
    match t.AddInferior with
    | some a => decide (a.CaptureID = c)
    | none => false)).length

/-- The number of positions `i < m` that round-robin over `n` slots sends to
slot `j`. -/
def slotCount (n m j : Nat) : Nat :=
  ((List.range m).filter (fun i => i % n = j)).length

/-! ## Operator controller (`maintainer/operator/operator_controller.go`) -/

/-- Dispatcher identifiers (`common.DispatcherID`), compared for equality only. -/
abbrev DispatcherID := Nat

/-- The replica `replica.SpanReplication`, as far as the controller reads it:
its identifier and the node it is bound to. -/
structure SpanReplication where
  ID : DispatcherID
  nodeID : NodeID
deriving DecidableEq, Repr

/-- What distinguishes the operator variants inside the controller.  A
merge-split operator carries the primary identifier; the primary also carries
the group and the new spans, a secondary is marked as such. -/
inductive OperatorBody where
  | Add (dest : NodeID)
  | Move (origin dest : NodeID)
  | Remove
  | Split (origin : NodeID) (splitSpans : List Nat)
  | MergeSplit (primaryID : DispatcherID) (group : List DispatcherID) (splitSpans : List Nat)
      (secondary : Bool)
deriving DecidableEq, Repr

/-- An operator as the controller sees it: `ID()`, `AffectedNodes()` and its
variant.  `IsFinished()` and `Schedule()` depend on state the controller does
not own and are read through the environment. -/
structure Operator where
  ID : DispatcherID
  AffectedNodes : List NodeID
  body : OperatorBody
deriving DecidableEq, Repr

/-- The record `operator.OperatorWithTime`; times are nanoseconds. -/
structure OperatorWithTime where
  OP : Operator
  Time : Int
  EnqueueTime : Int
  Removed : Bool
deriving DecidableEq, Repr

/-- The calls the controller makes on operators and on the message center, in
the order in which it makes them. -/
inductive Call where
  | Start (op : Operator)
  | PostFinish (op : Operator)
  | OnTaskRemoved (op : Operator)
  | OnNodeRemove (op : Operator) (n : NodeID)
  | Schedule (op : Operator)
  | SendCommand (msg : Nat)
deriving DecidableEq, Repr

/-- What the controller reads from outside during one call: the clock, the
alive nodes of the node manager, each operator's `IsFinished()` and
`Schedule()`, and the random source behind `rand.Intn`. -/
structure OpEnv where
  now : Int
  aliveNodes : List NodeID
  isFinished : Operator → Bool
  schedule : Operator → Option Nat
  random : Nat

/-- The answers of the `ReplicationDB` during one call. -/
structure ReplicationDB where
  GetTaskByID : DispatcherID → Option SpanReplication
  TryRemoveAll : List SpanReplication
  TryRemoveBySchemaID : Int → List SpanReplication
  TryRemoveByTableIDs : List Int → List SpanReplication

/-- The controller.  `operators` and `runningQueue` hold pointers to
`OperatorWithTime` records: `items` is the store of the records allocated so
far, `nextItem` the next free address. -/
structure Controller where
  batchSize : Int
  operators : DispatcherID → Option Nat
  runningQueue : List Nat
  items : Nat → OperatorWithTime
  nextItem : Nat
  calls : List Call

/-- The controller that `NewOperatorController` builds. -/
def NewOperatorController (batchSize : Int) : Controller :=
  { batchSize := batchSize,
    operators := fun _ => none,
    runningQueue := [],
    items := fun _ =>
      { OP := { ID := 0, AffectedNodes := [], body := OperatorBody.Remove },
        Time := 0, EnqueueTime := 0, Removed := true },
    nextItem := 0,
    calls := [] }

/-- Half a second, in nanoseconds. -/
def halfSecond : Int := 500000000

/-- Modelled from the spec: `operator.OperatorQueue` is not among the embedded
sources; the running queue is "a min-heap on `(next_fire_time, seq)`", so the
entry that `heap.Pop` takes is the one with the least `Time`, the earliest
pushed among equals.  The queue is kept in push order. -/
def popIndex (items : Nat → OperatorWithTime) : List Nat → Option Nat
  | [] => none
  | a :: rest =>
    some (rest.foldl (fun best x => if (items x).Time < (items best).Time then x else best) a)

/-- Modelled from the spec: `heap.Pop` on the running queue (see `popIndex`):
the entry taken and the entries left. -/
def heapPop (items : Nat → OperatorWithTime) (queue : List Nat) : Option (Nat × List Nat) :=
  match popIndex items queue with
  | none => none
  | some a => some (a, queue.erase a)

/-- Modelled from the spec: `operator.NewOperatorWithTime` is not among the
embedded sources; the record starts with the given fire time, enqueued now, and
not removed. -/
def NewOperatorWithTime (op : Operator) (time : Int) : OperatorWithTime :=
  { OP := op, Time := time, EnqueueTime := time, Removed := false }

/-- Modelled from the spec: `NewRemoveDispatcherOperator` is not among the
embedded sources; a Remove operator is attached to the replica it is built
for. -/
def NewRemoveDispatcherOperator (replicaSet : SpanReplication) : Operator :=
  { ID := replicaSet.ID, AffectedNodes := [replicaSet.nodeID], body := OperatorBody.Remove }

/-- Modelled from the spec: `NewMergeSplitDispatcherOperator` is not among the
embedded sources; the operator is attached to `replicaSet` and refers to the
primary; a secondary is the one built with an `onFinished` callback. -/
def NewMergeSplitDispatcherOperator (primaryID : DispatcherID) (replicaSet : SpanReplication)
    (group : List SpanReplication) (splitSpans : List Nat) (secondary : Bool) : Operator :=
  { ID := replicaSet.ID, AffectedNodes := [replicaSet.nodeID],
    body := OperatorBody.MergeSplit primaryID (group.map (fun r => r.ID)) splitSpans secondary }

/-- The method `checkAffectedNodes`: the `OnNodeRemove` calls it makes. -/
def checkAffectedNodes (env : OpEnv) (op : Operator) : List Call :=
  (op.AffectedNodes.filter (fun n => !env.aliveNodes.contains n)).map (Call.OnNodeRemove op)

/-- The method `pushOperator`. -/
def Controller.pushOperator (oc : Controller) (env : OpEnv) (op : Operator) : Controller :=
  { oc with
    calls := oc.calls ++ checkAffectedNodes env op ++ [Call.Start op],
    items := fun a => if a = oc.nextItem then NewOperatorWithTime op env.now else oc.items a,
    nextItem := oc.nextItem + 1,
    operators := fun id => if id = op.ID then some oc.nextItem else oc.operators id,
    runningQueue := oc.runningQueue ++ [oc.nextItem] }

/-- The method `AddOperator`: the new state and the returned flag. -/
def Controller.AddOperator (oc : Controller) (env : OpEnv) (db : ReplicationDB)
    (op : Operator) : Controller × Bool :=
  match oc.operators op.ID with
  | some _ => (oc, false)
  | none =>
    match db.GetTaskByID op.ID with
    | none => (oc, false)
    | some _ => (oc.pushOperator env op, true)

/-- The method `removeReplicaSet`. -/
def Controller.removeReplicaSet (oc : Controller) (env : OpEnv) (op : Operator) : Controller :=
  match oc.operators op.ID with
  | some old =>
    Controller.pushOperator
      { oc with
        calls := oc.calls ++ [Call.OnTaskRemoved (oc.items old).OP,
                              Call.PostFinish (oc.items old).OP],
        items := fun a => if a = old then { oc.items old with Removed := true } else oc.items a,
        operators := fun id => if id = op.ID then none else oc.operators id }
      env op
  | none => oc.pushOperator env op

/-- The loop shared by `RemoveAllTasks`, `RemoveTasksBySchemaID` and
`RemoveTasksByTableIDs`. -/
def Controller.removeTasks (oc : Controller) (env : OpEnv) (replicaSets : List SpanReplication) :
    Controller :=
  replicaSets.foldl (fun c r => c.removeReplicaSet env (NewRemoveDispatcherOperator r)) oc

/-- The method `RemoveAllTasks`. -/
def Controller.RemoveAllTasks (oc : Controller) (env : OpEnv) (db : ReplicationDB) : Controller :=
  oc.removeTasks env db.TryRemoveAll

/-- The method `RemoveTasksBySchemaID`. -/
def Controller.RemoveTasksBySchemaID (oc : Controller) (env : OpEnv) (db : ReplicationDB)
    (schemaID : Int) : Controller :=
  oc.removeTasks env (db.TryRemoveBySchemaID schemaID)

/-- The method `RemoveTasksByTableIDs`. -/
def Controller.RemoveTasksByTableIDs (oc : Controller) (env : OpEnv) (db : ReplicationDB)
    (tables : List Int) : Controller :=
  oc.removeTasks env (db.TryRemoveByTableIDs tables)

/-- The method `pollQueueingOperator`: the new state, the operator to execute
(if any) and the flag `next`. -/
def Controller.pollQueueingOperator (oc : Controller) (env : OpEnv) :
    Controller × Option Operator × Bool :=
  match heapPop oc.items oc.runningQueue with
  | none => (oc, none, false)
  | some (a, rest) =>
    let item := oc.items a
    if item.Removed then ({ oc with runningQueue := rest }, none, true)
    else if env.isFinished item.OP then
      ({ oc with
         runningQueue := rest,
         calls := oc.calls ++ [Call.PostFinish item.OP],
         items := fun x => if x = a then { item with Removed := true } else oc.items x,
         operators := fun id => if id = item.OP.ID then none else oc.operators id },
       none, true)
    else if env.now < item.Time then
      ({ oc with runningQueue := rest ++ [a] }, none, false)
    else
      ({ oc with
         items := fun x => if x = a then { item with Time := env.now + halfSecond }
                           else oc.items x,
         runningQueue := rest ++ [a] },
       some item.OP, true)

/-- The loop of `Execute` with `executedItem` operators executed so far; `none`
only when the fuel runs out.  The returned time is the next wake-up. -/
def Controller.executeLoop (env : OpEnv) :
    Nat → Controller → Int → Option (Controller × Int)
  | 0, _, _ => none
  | fuel + 1, oc, executedItem =>
    match oc.pollQueueingOperator env with
    | (oc1, _, false) => some (oc1, env.now + 200000000)
    | (oc1, none, true) => Controller.executeLoop env fuel oc1 executedItem
    | (oc1, some r, true) =>
      let sends : List Call :=
        match env.schedule r with
        | some msg => [Call.SendCommand msg]
        | none => []
      let oc2 := { oc1 with calls := oc1.calls ++ [Call.Schedule r] ++ sends }
      if executedItem + 1 ≥ oc2.batchSize then some (oc2, env.now + 50000000)
      else Controller.executeLoop env fuel oc2 (executedItem + 1)

/-- The method `Execute`: every turn of its loop drops a queue entry for good,
ends the call, or counts towards the batch, so the fuel given here is never
used up. -/
def Controller.Execute (oc : Controller) (env : OpEnv) : Option (Controller × Int) :=
  Controller.executeLoop env (oc.runningQueue.length + oc.batchSize.toNat + 1) oc 0

/-- The first loop of `AddMergeSplitOperator`: whether every replica of the
group is free of operators and present in the `ReplicationDB`. -/
def Controller.groupIsFree (oc : Controller) (db : ReplicationDB) :
    List SpanReplication → Bool
  | [] => true
  | replicaSet :: rest =>
    match oc.operators replicaSet.ID with
    | some _ => false
    | none =>
      match db.GetTaskByID replicaSet.ID with
      | none => false
      | some _ => Controller.groupIsFree oc db rest

/-- The method `AddMergeSplitOperator`; `none` is a panic (`rand.Intn 0` on an
empty group, `splitSpans[0]` on empty new spans). -/
def Controller.AddMergeSplitOperator (oc : Controller) (env : OpEnv) (db : ReplicationDB)
    (affectedReplicaSets : List SpanReplication) (splitSpans : List Nat) :
    Option (Controller × Bool) :=
  if !oc.groupIsFree db affectedReplicaSets then some (oc, false)
  else
    match affectedReplicaSets[env.random % affectedReplicaSets.length]? with
    | none => none
    | some primary =>
      let primaryID := primary.ID
      let primaryOp :=
        NewMergeSplitDispatcherOperator primaryID primary affectedReplicaSets splitSpans false
      let oc1 := affectedReplicaSets.foldl
        (fun c replicaSet =>
          c.pushOperator env
            (if replicaSet.ID = primaryID then primaryOp
             else NewMergeSplitDispatcherOperator primaryID replicaSet [] [] true))
        oc
      match splitSpans with
      | [] => none
      | _ :: _ => some (oc1, true)

/-- The live entries of the running queue for the dispatcher `id`: the queued
records of an operator of `id` that are not marked `Removed`. -/
def Controller.liveEntries (oc : Controller) (id : DispatcherID) : List Nat :=
  oc.runningQueue.filter (fun a => decide ((oc.items a).OP.ID = id) && !(oc.items a).Removed)

/-- The consistency of the operators map with the running queue: no record is
queued twice, queued records have been allocated, a queued record that is not
marked `Removed` is the map's value for its dispatcher, and every value of the
map is queued, not marked `Removed`, and filed under its own dispatcher. -/
structure Controller.Consistent (oc : Controller) : Prop where
  nodup : oc.runningQueue.Nodup
  allocated : ∀ a ∈ oc.runningQueue, a < oc.nextItem
  queueLive : ∀ a ∈ oc.runningQueue, (oc.items a).Removed = false →
    oc.operators (oc.items a).OP.ID = some a
  mapLive : ∀ id a, oc.operators id = some a →
    a ∈ oc.runningQueue ∧ (oc.items a).Removed = false ∧ (oc.items a).OP.ID = id

/-- The controller states that can be reached from a new controller by
`AddOperator`, the three `RemoveTasks` methods, `AddMergeSplitOperator` on a
group of pairwise distinct replicas, and `Execute`, whatever the environment
answers. -/
inductive Controller.Reachable : Controller → Prop where
  | init (batchSize : Int) : Controller.Reachable (NewOperatorController batchSize)
  | addOperator {oc : Controller} (env : OpEnv) (db : ReplicationDB) (op : Operator) :
      Controller.Reachable oc → Controller.Reachable (oc.AddOperator env db op).1
  | removeAllTasks {oc : Controller} (env : OpEnv) (db : ReplicationDB) :
      Controller.Reachable oc → Controller.Reachable (oc.RemoveAllTasks env db)
  | removeTasksBySchemaID {oc : Controller} (env : OpEnv) (db : ReplicationDB) (schemaID : Int) :
      Controller.Reachable oc → Controller.Reachable (oc.RemoveTasksBySchemaID env db schemaID)
  | removeTasksByTableIDs {oc : Controller} (env : OpEnv) (db : ReplicationDB)
      (tables : List Int) :
      Controller.Reachable oc → Controller.Reachable (oc.RemoveTasksByTableIDs env db tables)
  | addMergeSplitOperator {oc oc2 : Controller} (env : OpEnv) (db : ReplicationDB)
      (group : List SpanReplication) (splitSpans : List Nat) (ok : Bool) :
      Controller.Reachable oc → (group.map (fun r => r.ID)).Nodup →
      oc.AddMergeSplitOperator env db group splitSpans = some (oc2, ok) →
      Controller.Reachable oc2
  | execute {oc oc2 : Controller} (env : OpEnv) (wake : Int) :
      Controller.Reachable oc → oc.Execute env = some (oc2, wake) →
      Controller.Reachable oc2

/-! ## Operator controller: sample inputs -/

/-- An environment at time 0 in which node `1` is alive, no operator has
finished and no operator has a message to send. -/
def idleOpEnv : OpEnv :=
  { now := 0, aliveNodes := [1], isFinished := fun _ => false,
    schedule := fun _ => none, random := 0 }

/-- A `ReplicationDB` that holds the replicas 7 and 8 on node `1`. -/
def twoReplicaDB : ReplicationDB :=
  { GetTaskByID := fun id =>
      if id = 7 ∨ id = 8 then some { ID := id, nodeID := 1 } else none,
    TryRemoveAll := [{ ID := 7, nodeID := 1 }, { ID := 8, nodeID := 1 }],
    TryRemoveBySchemaID := fun _ => [{ ID := 7, nodeID := 1 }],
    TryRemoveByTableIDs := fun _ => [{ ID := 8, nodeID := 1 }] }

/-- An Add operator that places replica 7 on node `1`. -/
def addSeven : Operator :=
  { ID := 7, AffectedNodes := [1], body := OperatorBody.Add 1 }

/-! ## Schema store (`logservice/schemastore/persist_storage.go`): data model -/

/-- The DDL action types of `model.ActionType` that the schema store names;
`ActionOther` is any other type. -/
inductive ActionType where
  | ActionCreateSchema
  | ActionDropSchema
  | ActionCreateTable
  | ActionDropTable
  | ActionAddColumn
  | ActionDropColumn
  | ActionAddIndex
  | ActionDropIndex
  | ActionAddForeignKey
  | ActionDropForeignKey
  | ActionTruncateTable
  | ActionModifyColumn
  | ActionRebaseAutoID
  | ActionRenameTable
  | ActionSetDefaultValue
  | ActionShardRowID
  | ActionModifyTableComment
  | ActionRenameIndex
  | ActionAddTablePartition
  | ActionCreateView
  | ActionOther (code : Nat)
deriving DecidableEq, Repr

/-- The fields of `model.TableInfo` that the schema store reads: `ID` and
`Name.O`. -/
structure TableInfo where
  ID : Int
  Name : String
deriving DecidableEq, Repr

/-- The field of `model.DBInfo` that the schema store reads: `Name.O`. -/
structure DBInfo where
  Name : String
deriving DecidableEq, Repr

/-- The influence types of `common.InfluenceType`. -/
inductive InfluenceType where
  | Normal
  | DB
  | All
deriving DecidableEq, Repr

/-- The record `common.InfluencedTables`; fields a literal leaves out hold their
zero value. -/
structure InfluencedTables where
  InfluenceType : InfluenceType
  TableIDs : List Int
  SchemaID : Int
  SchemaName : String
deriving DecidableEq, Repr

/-- The record `common.Table`. -/
structure Table where
  SchemaID : Int
  SchemaName : String
  TableID : Int
  TableName : String
deriving DecidableEq, Repr

/-- The record `PersistedDDLEvent` (`Typ` is its field `Type`).  Pointers are options (`none` is `nil`); the
slice `NeedAddedTables` is a list (`[]` is the unset `nil` slice). -/
structure PersistedDDLEvent where
  ID : Int
  Typ : ActionType
  SchemaID : Int
  TableID : Int
  SchemaName : String
  TableInfo : Option TableInfo
  DBInfo : Option DBInfo
  Query : String
  SchemaVersion : Int
  FinishedTs : Nat
  BlockedTables : Option InfluencedTables
  NeedDroppedTables : Option InfluencedTables
  NeedAddedTables : List Table
deriving DecidableEq, Repr

/-- The record `common.DDLEvent`, as `buildDDLEvent` fills it (`Typ` is its
field `Type`). -/
structure DDLEvent where
  Typ : ActionType
  SchemaID : Int
  TableID : Int
  SchemaName : String
  TableName : String
  Query : String
  TableInfo : Option TableInfo
  FinishedTs : Nat
  BlockedTables : Option InfluencedTables
  NeedDroppedTables : Option InfluencedTables
  NeedAddedTables : List Table
deriving DecidableEq, Repr

/-- The record `BasicTableInfo`. -/
structure BasicTableInfo where
  SchemaID : Int
  Name : String
  InKVSnap : Bool
deriving DecidableEq, Repr

/-- The record `BasicDatabaseInfo`; `Tables` is the key set of the Go map. -/
structure BasicDatabaseInfo where
  Name : String
  Tables : Int → Bool

/-- The record `upperBoundMeta`. -/
structure upperBoundMeta where
  FinishedDDLTs : Nat
  SchemaVersion : Int
  ResolvedTs : Nat
deriving DecidableEq, Repr

/-- Modelled from the spec: `versionedTableInfoStore` is not among the embedded
sources; a versioned-info store belongs to one table, is built once ("blocks
further reads until initialization completes") and holds table-info versions,
kept here as the list of their timestamps. -/
structure versionedTableInfoStore where
  tableID : Int
  initialized : Bool
  versions : List Nat
deriving DecidableEq, Repr

/-- The state of a `sync.RWMutex`: whether a writer holds it and how many
readers hold it. -/
structure RWMutex where
  writer : Bool
  readers : Nat
deriving DecidableEq, Repr

/-- Ways in which a call on the schema store does not return. -/
inductive StoreFault where
  | panic
  | fatal
  | nilDereference
  | unlockOfUnlockedRWMutex
  | blocked
deriving DecidableEq, Repr

/-- The errors the schema store returns. -/
inductive StoreError where
  | startTsSmallerThanGcTs
  | snapTsSmallerThanGcTs
  | tableNotFound
  | databaseNotFound
deriving DecidableEq, Repr

/-- The store `persistentStorage`.  Maps that the code only looks up or updates
are functions into `Option`; `tableRegisteredCount` reads 0 for an absent key,
as the Go map does.  `disk` is the DDL-event keyspace of the local database:
the events written, the latest first. -/
structure persistentStorage where
  mu : RWMutex
  gcTs : Nat
  upperBound : upperBoundMeta
  upperBoundChanged : Bool
  tableMap : Int → Option BasicTableInfo
  databaseMap : Int → Option BasicDatabaseInfo
  tablesDDLHistory : Int → Option (List Nat)
  tableTriggerDDLHistory : List Nat
  tableInfoStoreMap : Int → Option versionedTableInfoStore
  tableRegisteredCount : Int → Int
  disk : List PersistedDDLEvent

/-- The result of a call on the store: the new store and the returned value,
or the fault that ends the call with the store as it is at that point. -/
abbrev StoreResult (α : Type) := Except (StoreFault × persistentStorage) (persistentStorage × α)

/-! ## Schema store: the mutex, the disk and the binary search -/

/-- The call `mu.Lock()`; a held mutex blocks the caller. -/
def persistentStorage.Lock (p : persistentStorage) :
    Except (StoreFault × persistentStorage) persistentStorage :=
  if p.mu.writer ∨ p.mu.readers > 0 then Except.error (StoreFault.blocked, p)
  else Except.ok { p with mu := { p.mu with writer := true } }

/-- The call `mu.Unlock()`; it is fatal when no writer holds the mutex. -/
def persistentStorage.Unlock (p : persistentStorage) :
    Except (StoreFault × persistentStorage) persistentStorage :=
  if p.mu.writer then Except.ok { p with mu := { p.mu with writer := false } }
  else Except.error (StoreFault.unlockOfUnlockedRWMutex, p)

/-- The call `mu.RLock()`; a writer blocks the caller. -/
def persistentStorage.RLock (p : persistentStorage) :
    Except (StoreFault × persistentStorage) persistentStorage :=
  if p.mu.writer then Except.error (StoreFault.blocked, p)
  else Except.ok { p with mu := { p.mu with readers := p.mu.readers + 1 } }

/-- The call `mu.RUnlock()`; it is fatal when no reader holds the mutex. -/
def persistentStorage.RUnlock (p : persistentStorage) :
    Except (StoreFault × persistentStorage) persistentStorage :=
  if p.mu.readers > 0 then Except.ok { p with mu := { p.mu with readers := p.mu.readers - 1 } }
  else Except.error (StoreFault.unlockOfUnlockedRWMutex, p)

/-- Modelled from the spec: `readDDLEvent` is not among the embedded sources;
it reads the key `ddl_event/{finished_ts}` of the DDL-event log, here the
latest event written with that finished timestamp (`none` when there is
none). -/
def readDDLEvent (disk : List PersistedDDLEvent) (ts : Nat) : Option PersistedDDLEvent :=
  disk.find? (fun e => e.FinishedTs = ts)

/-- Modelled from the spec: `writeDDLEvents` is not among the embedded sources;
it appends the events to the DDL-event log, each under its finished
timestamp. -/
def writeDDLEvents (disk : List PersistedDDLEvent) (ddlEvents : List PersistedDDLEvent) :
    List PersistedDDLEvent :=
  ddlEvents.reverse ++ disk

/-- Modelled from the spec: `cleanObseleteData` is not among the embedded
sources; the garbage collection "deletes obsolete disk keys", here the events
that are not above the new `gcTs`. -/
def cleanObseleteData (disk : List PersistedDDLEvent) (gcTs : Nat) : List PersistedDDLEvent :=
  disk.filter (fun e => e.FinishedTs > gcTs)

/-- The loop of Go's `sort.Search`: binary search in `[i, j)` for the least
index at which `f` holds; the interval shrinks at every turn, so `fuel ≥ j - i`
is never used up. -/
def searchLoop (f : Nat → Bool) : Nat → Nat → Nat → Nat
  | 0, i, _ => i
  | fuel + 1, i, j =>
    if i < j then
      if !f ((i + j) / 2) then searchLoop f fuel ((i + j) / 2 + 1) j
      else searchLoop f fuel i ((i + j) / 2)
    else i

/-- Go's `sort.Search(n, f)`. -/
def sortSearch (n : Nat) (f : Nat → Bool) : Nat :=
  searchLoop f n 0 n

/-- The search `sort.Search(len(history), func(i) { history[i] > ts })` that the
store runs on its histories. -/
def searchAbove (history : List Nat) (ts : Nat) : Nat :=
  sortSearch history.length (fun i => decide (history.getD i 0 > ts))

/-- The function `buildDDLEvent`. -/
def buildDDLEvent (rawEvent : PersistedDDLEvent) : DDLEvent :=
  { Typ := rawEvent.Typ,
    SchemaID := rawEvent.SchemaID,
    TableID := rawEvent.TableID,
    SchemaName := rawEvent.SchemaName,
    TableName := match rawEvent.TableInfo with
      | some info => info.Name
      | none => "",
    Query := rawEvent.Query,
    TableInfo := rawEvent.TableInfo,
    FinishedTs := rawEvent.FinishedTs,
    BlockedTables := rawEvent.BlockedTables,
    NeedDroppedTables := rawEvent.NeedDroppedTables,
    NeedAddedTables := rawEvent.NeedAddedTables }

/-! ## Schema store: reading -/

/-- The loop that reads one event per target timestamp and builds the events
to return; `none` when a timestamp is not on disk. -/
def readEvents (disk : List PersistedDDLEvent) : List Nat → Option (List DDLEvent)
  | [] => some []
  | ts :: rest =>
    match readDDLEvent disk ts with
    | none => none
    | some rawEvent =>
      match readEvents disk rest with
      | none => none
      | some events => some (buildDDLEvent rawEvent :: events)

/-- The timestamps `allTargetTs` that `fetchTableDDLEvents` copies out of a
history: from the searched index on, those not above `endTs`. -/
def targetTsOf (history : List Nat) (start endTs : Nat) : List Nat :=
  (history.drop (searchAbove history start)).filter (fun ts => decide (ts ≤ endTs))

/-- The method `fetchTableDDLEvents`, with the lock calls as written. -/
def persistentStorage.fetchTableDDLEvents (p : persistentStorage) (tableID : Int)
    (start endTs : Nat) : StoreResult (Except StoreError (List DDLEvent)) :=
  match p.RLock with
  | Except.error e => Except.error e
  | Except.ok p1 =>
    if start < p1.gcTs then
      match p1.Unlock with
      | Except.error e => Except.error e
      | Except.ok p2 => Except.ok (p2, Except.error StoreError.startTsSmallerThanGcTs)
    else
      match p1.tablesDDLHistory tableID with
      | none =>
        match p1.RUnlock with
        | Except.error e => Except.error e
        | Except.ok p2 => Except.ok (p2, Except.ok [])
      | some history =>
        if searchAbove history start = history.length then
          match p1.RUnlock with
          | Except.error e => Except.error e
          | Except.ok p2 => Except.ok (p2, Except.ok [])
        else
          match p1.RUnlock with
          | Except.error e => Except.error e
          | Except.ok p2 =>
            match readEvents p2.disk (targetTsOf history start endTs) with
            | none => Except.error (StoreFault.fatal, p2)
            | some events => Except.ok (p2, Except.ok events)

/-- The inner loop of `fetchTableTriggerDDLEvents`: it appends history entries
to `allTargetTs` and breaks once `len(allTargetTs) >= need`, where `need` is
`limit - len(events)`. -/
def collectBatch (need : Int) : List Nat → List Nat → List Nat
  | [], allTargetTs => allTargetTs
  | ts :: rest, allTargetTs =>
    if ((allTargetTs ++ [ts]).length : Int) ≥ need then allTargetTs ++ [ts]
    else collectBatch need rest (allTargetTs ++ [ts])

/-- The loop over `allTargetTs` in `fetchTableTriggerDDLEvents`: each event is
read and appended unless the filter discards it; `none` when a timestamp is
not on disk. -/
def appendKept (tableFilter : ActionType → String → String → Bool)
    (disk : List PersistedDDLEvent) : List Nat → List DDLEvent → Option (List DDLEvent)
  | [], events => some events
  | ts :: rest, events =>
    match readDDLEvent disk ts with
    | none => none
    | some rawEvent =>
      if tableFilter rawEvent.Typ rawEvent.SchemaName
          (match rawEvent.TableInfo with
           | some info => info.Name
           | none => "") then
        appendKept tableFilter disk rest events
      else appendKept tableFilter disk rest (events ++ [buildDDLEvent rawEvent])

/-- The outer loop of `fetchTableTriggerDDLEvents`; the outer `none` only when
the fuel runs out before the loop returns.  Every turn starts with
`make([]uint64, 0, limit)`, which panics on a negative `limit`. -/
def persistentStorage.triggerLoop (tableFilter : ActionType → String → String → Bool)
    (limit : Int) :
    Nat → persistentStorage → List DDLEvent → Nat →
      Option (StoreResult (Except StoreError (List DDLEvent)))
  | 0, _, _, _ => none
  | fuel + 1, p, events, nextStartTs =>
    if limit < 0 then some (Except.error (StoreFault.panic, p))
    else
    match p.RLock with
    | Except.error e => some (Except.error e)
    | Except.ok p1 =>
      if searchAbove p1.tableTriggerDDLHistory nextStartTs = p1.tableTriggerDDLHistory.length then
        match p1.RUnlock with
        | Except.error e => some (Except.error e)
        | Except.ok p2 => some (Except.ok (p2, Except.ok events))
      else
        match p1.RUnlock with
        | Except.error e => some (Except.error e)
        | Except.ok p2 =>
          match collectBatch (limit - events.length)
              (p1.tableTriggerDDLHistory.drop
                (searchAbove p1.tableTriggerDDLHistory nextStartTs)) [] with
          | [] => some (Except.ok (p2, Except.ok events))
          | first :: more =>
            match appendKept tableFilter p2.disk (first :: more) events with
            | none => some (Except.error (StoreFault.fatal, p2))
            | some events2 =>
              if (events2.length : Int) ≥ limit then some (Except.ok (p2, Except.ok events2))
              else
                persistentStorage.triggerLoop tableFilter limit fuel p2 events2
                  ((first :: more).getLast (List.cons_ne_nil first more))

/-- The method `fetchTableTriggerDDLEvents`, run for at most `fuel` turns of its
outer loop (`none` when that is not enough). -/
def persistentStorage.fetchTableTriggerDDLEvents (p : persistentStorage) (fuel : Nat)
    (tableFilter : ActionType → String → String → Bool) (start : Nat) (limit : Int) :
    Option (StoreResult (Except StoreError (List DDLEvent))) :=
  match p.Lock with
  | Except.error e => some (Except.error e)
  | Except.ok p1 =>
    if start < p1.gcTs then
      match p1.Unlock with
      | Except.error e => some (Except.error e)
      | Except.ok p2 => some (Except.ok (p2, Except.error StoreError.startTsSmallerThanGcTs))
    else
      match p1.Unlock with
      | Except.error e => some (Except.error e)
      | Except.ok p2 => persistentStorage.triggerLoop tableFilter limit fuel p2 [] start

/-! ## Schema store: ingesting DDL events -/

/-- The function `fillSchemaName`. -/
def fillSchemaName (event : PersistedDDLEvent) (databaseMap : Int → Option BasicDatabaseInfo) :
    Except StoreFault PersistedDDLEvent :=
  match event.Typ with
  | ActionType.ActionCreateSchema | ActionType.ActionDropSchema =>
    match event.DBInfo with
    | none => Except.error StoreFault.nilDereference
    | some info => Except.ok { event with SchemaName := info.Name }
  | _ =>
    match databaseMap event.SchemaID with
    | none => Except.error StoreFault.panic
    | some databaseInfo => Except.ok { event with SchemaName := databaseInfo.Name }

/-- The function `fillInfluencedTableInfo` (its two map arguments are unused). -/
def fillInfluencedTableInfo (event : PersistedDDLEvent) : Except StoreFault PersistedDDLEvent :=
  match event.Typ with
  | ActionType.ActionCreateSchema | ActionType.ActionAddColumn | ActionType.ActionDropColumn
  | ActionType.ActionAddIndex | ActionType.ActionDropIndex | ActionType.ActionAddForeignKey
  | ActionType.ActionDropForeignKey | ActionType.ActionModifyColumn
  | ActionType.ActionRebaseAutoID | ActionType.ActionSetDefaultValue
  | ActionType.ActionShardRowID | ActionType.ActionModifyTableComment
  | ActionType.ActionRenameIndex => Except.ok event
  | ActionType.ActionDropSchema =>
    Except.ok { event with
      NeedDroppedTables := some
        { InfluenceType := InfluenceType.DB, TableIDs := [],
          SchemaID := event.SchemaID, SchemaName := event.SchemaName } }
  | ActionType.ActionCreateTable =>
    match event.TableInfo with
    | none => Except.error StoreFault.nilDereference
    | some info =>
      Except.ok { event with
        NeedAddedTables :=
          [{ SchemaID := event.SchemaID, SchemaName := event.SchemaName,
             TableID := event.TableID, TableName := info.Name }] }
  | ActionType.ActionDropTable =>
    Except.ok { event with
      NeedDroppedTables := some
        { InfluenceType := InfluenceType.Normal, TableIDs := [event.TableID],
          SchemaID := 0, SchemaName := "" } }
  | ActionType.ActionTruncateTable =>
    match event.TableInfo with
    | none => Except.error StoreFault.nilDereference
    | some info =>
      Except.ok { event with
        NeedDroppedTables := some
          { InfluenceType := InfluenceType.Normal, TableIDs := [event.TableID],
            SchemaID := 0, SchemaName := "" },
        NeedAddedTables :=
          [{ SchemaID := event.SchemaID, SchemaName := "", TableID := info.ID,
             TableName := "" }] }
  | ActionType.ActionRenameTable =>
    Except.ok { event with
      BlockedTables := some
        { InfluenceType := InfluenceType.Normal, TableIDs := [event.TableID],
          SchemaID := 0, SchemaName := "" } }
  | ActionType.ActionCreateView =>
    Except.ok { event with
      BlockedTables := some
        { InfluenceType := InfluenceType.All, TableIDs := [], SchemaID := 0, SchemaName := "" } }
  | _ => Except.error StoreFault.panic

/-- The function `shouldSkipDDL`. -/
def shouldSkipDDL (event : PersistedDDLEvent) (databaseMap : Int → Option BasicDatabaseInfo)
    (tableMap : Int → Option BasicTableInfo) : Bool :=
  match event.Typ with
  | ActionType.ActionCreateSchema => (databaseMap event.SchemaID).isSome
  | ActionType.ActionCreateTable => (tableMap event.TableID).isSome
  | _ => false

/-- The closure `addTableHistory` of `updateDDLHistory`. -/
def addTableHistory (tablesDDLHistory : Int → Option (List Nat)) (tableID : Int)
    (finishedTs : Nat) : Int → Option (List Nat) :=
  fun t => if t = tableID then some ((tablesDDLHistory t).getD [] ++ [finishedTs])
           else tablesDDLHistory t

/-- The loops of `updateDDLHistory` that call `addTableHistory` once for every
key of a map, `keys` being the key set. -/
def addTableHistoryForAll (tablesDDLHistory : Int → Option (List Nat)) (keys : Int → Bool)
    (finishedTs : Nat) : Int → Option (List Nat) :=
  fun t => if keys t then some ((tablesDDLHistory t).getD [] ++ [finishedTs])
           else tablesDDLHistory t

/-- The function `updateDDLHistory`, on the store whose maps it is given; the new
trigger history is the one it returns. -/
def persistentStorage.updateDDLHistory (p : persistentStorage) (ddlEvent : PersistedDDLEvent) :
    Except (StoreFault × persistentStorage) persistentStorage :=
  match ddlEvent.Typ with
  | ActionType.ActionCreateSchema | ActionType.ActionCreateView =>
    Except.ok { p with
      tableTriggerDDLHistory := p.tableTriggerDDLHistory ++ [ddlEvent.FinishedTs],
      tablesDDLHistory := addTableHistoryForAll p.tablesDDLHistory
        (fun t => (p.tableMap t).isSome) ddlEvent.FinishedTs }
  | ActionType.ActionDropSchema =>
    match p.databaseMap ddlEvent.SchemaID with
    | none => Except.error (StoreFault.nilDereference, p)
    | some databaseInfo =>
      Except.ok { p with
        tableTriggerDDLHistory := p.tableTriggerDDLHistory ++ [ddlEvent.FinishedTs],
        tablesDDLHistory := addTableHistoryForAll p.tablesDDLHistory databaseInfo.Tables
          ddlEvent.FinishedTs }
  | ActionType.ActionCreateTable | ActionType.ActionDropTable | ActionType.ActionRenameTable =>
    Except.ok { p with
      tableTriggerDDLHistory := p.tableTriggerDDLHistory ++ [ddlEvent.FinishedTs],
      tablesDDLHistory := addTableHistory p.tablesDDLHistory ddlEvent.TableID
        ddlEvent.FinishedTs }
  | ActionType.ActionAddColumn | ActionType.ActionDropColumn | ActionType.ActionAddIndex
  | ActionType.ActionDropIndex | ActionType.ActionAddForeignKey
  | ActionType.ActionDropForeignKey | ActionType.ActionModifyColumn
  | ActionType.ActionRebaseAutoID | ActionType.ActionSetDefaultValue
  | ActionType.ActionShardRowID | ActionType.ActionModifyTableComment
  | ActionType.ActionRenameIndex =>
    Except.ok { p with
      tablesDDLHistory := addTableHistory p.tablesDDLHistory ddlEvent.TableID
        ddlEvent.FinishedTs }
  | ActionType.ActionTruncateTable =>
    match ddlEvent.TableInfo with
    | none =>
      Except.error (StoreFault.nilDereference,
        { p with
          tablesDDLHistory :=
            addTableHistory p.tablesDDLHistory ddlEvent.TableID ddlEvent.FinishedTs })
    | some info =>
      Except.ok { p with
        tablesDDLHistory := addTableHistory
          (addTableHistory p.tablesDDLHistory ddlEvent.TableID ddlEvent.FinishedTs)
          info.ID ddlEvent.FinishedTs }
  | _ => Except.error (StoreFault.panic, p)

/-- The closure `addTableToDB` of `updateDatabaseInfoAndTableInfo`. -/
def persistentStorage.addTableToDB (p : persistentStorage) (schemaID tableID : Int) :
    Except (StoreFault × persistentStorage) persistentStorage :=
  match p.databaseMap schemaID with
  | none => Except.error (StoreFault.panic, p)
  | some databaseInfo =>
    Except.ok { p with
      databaseMap := fun s =>
        if s = schemaID then
          some { databaseInfo with
            Tables := fun t => if t = tableID then true else databaseInfo.Tables t }
        else p.databaseMap s }

/-- The closure `removeTableFromDB` of `updateDatabaseInfoAndTableInfo`. -/
def persistentStorage.removeTableFromDB (p : persistentStorage) (schemaID tableID : Int) :
    Except (StoreFault × persistentStorage) persistentStorage :=
  match p.databaseMap schemaID with
  | none => Except.error (StoreFault.panic, p)
  | some databaseInfo =>
    Except.ok { p with
      databaseMap := fun s =>
        if s = schemaID then
          some { databaseInfo with
            Tables := fun t => if t = tableID then false else databaseInfo.Tables t }
        else p.databaseMap s }

/-- The closure `createTable` of `updateDatabaseInfoAndTableInfo`. -/
def persistentStorage.createTable (p : persistentStorage) (event : PersistedDDLEvent)
    (schemaID tableID : Int) : Except (StoreFault × persistentStorage) persistentStorage :=
  match p.addTableToDB schemaID tableID with
  | Except.error e => Except.error e
  | Except.ok p1 =>
    match event.TableInfo with
    | none => Except.error (StoreFault.nilDereference, p1)
    | some info =>
      Except.ok { p1 with
        tableMap := fun t =>
          if t = tableID then some { SchemaID := schemaID, Name := info.Name, InKVSnap := false }
          else p1.tableMap t }

/-- The closure `dropTable` of `updateDatabaseInfoAndTableInfo`. -/
def persistentStorage.dropTable (p : persistentStorage) (schemaID tableID : Int) :
    Except (StoreFault × persistentStorage) persistentStorage :=
  match p.removeTableFromDB schemaID tableID with
  | Except.error e => Except.error e
  | Except.ok p1 =>
    Except.ok { p1 with tableMap := fun t => if t = tableID then none else p1.tableMap t }

/-- The `ActionRenameTable` branch of `updateDatabaseInfoAndTableInfo`. -/
def persistentStorage.renameTable (p : persistentStorage) (event : PersistedDDLEvent) :
    Except (StoreFault × persistentStorage) persistentStorage :=
  match p.tableMap event.TableID with
  | none => Except.error (StoreFault.nilDereference, p)
  | some tableInfo =>
    let moved : Except (StoreFault × persistentStorage) persistentStorage :=
      if tableInfo.SchemaID ≠ event.SchemaID then
        match persistentStorage.removeTableFromDB
            { p with
              tableMap := fun t =>
                if t = event.TableID then some { tableInfo with SchemaID := event.SchemaID }
                else p.tableMap t }
            tableInfo.SchemaID event.TableID with
        | Except.error e => Except.error e
        | Except.ok p1 => p1.addTableToDB event.SchemaID event.TableID
      else Except.ok p
    match moved with
    | Except.error e => Except.error e
    | Except.ok p2 =>
      match event.TableInfo with
      | none => Except.error (StoreFault.nilDereference, p2)
      | some info =>
        Except.ok { p2 with
          tableMap := fun t =>
            if t = event.TableID then
              (p2.tableMap t).map (fun old => { old with Name := info.Name })
            else p2.tableMap t }

/-- The function `updateDatabaseInfoAndTableInfo`, on the store whose maps it is
given. -/
def persistentStorage.updateDatabaseInfoAndTableInfo (p : persistentStorage)
    (event : PersistedDDLEvent) : Except (StoreFault × persistentStorage) persistentStorage :=
  match event.Typ with
  | ActionType.ActionCreateSchema =>
    Except.ok { p with
      databaseMap := fun s =>
        if s = event.SchemaID then some { Name := event.SchemaName, Tables := fun _ => false }
        else p.databaseMap s }
  | ActionType.ActionDropSchema =>
    Except.ok { p with
      databaseMap := fun s => if s = event.SchemaID then none else p.databaseMap s }
  | ActionType.ActionCreateTable => p.createTable event event.SchemaID event.TableID
  | ActionType.ActionDropTable => p.dropTable event.SchemaID event.TableID
  | ActionType.ActionAddColumn | ActionType.ActionDropColumn | ActionType.ActionAddIndex
  | ActionType.ActionDropIndex | ActionType.ActionAddForeignKey
  | ActionType.ActionDropForeignKey | ActionType.ActionModifyColumn
  | ActionType.ActionRebaseAutoID => Except.ok p
  | ActionType.ActionTruncateTable =>
    match p.dropTable event.SchemaID event.TableID with
    | Except.error e => Except.error e
    | Except.ok p1 =>
      match event.TableInfo with
      | none => Except.error (StoreFault.nilDereference, p1)
      | some info => p1.createTable event event.SchemaID info.ID
  | ActionType.ActionRenameTable => p.renameTable event
  | ActionType.ActionSetDefaultValue | ActionType.ActionShardRowID
  | ActionType.ActionModifyTableComment | ActionType.ActionRenameIndex
  | ActionType.ActionCreateView => Except.ok p
  | ActionType.ActionAddTablePartition => Except.ok p
  | ActionType.ActionOther _ => Except.error (StoreFault.panic, p)

/-- Modelled from the spec: `newEmptyVersionedTableInfoStore` is not among the
embedded sources; the new store of a table holds no version and is not yet
initialized. -/
def newEmptyVersionedTableInfoStore (tableID : Int) : versionedTableInfoStore :=
  { tableID := tableID, initialized := false, versions := [] }

/-- Modelled from the spec: the store methods `addInitialTableInfo`,
`applyDDLFromPersistStorage` and `applyDDL` are not among the embedded sources;
each adds the table-info version of the given timestamp. -/
def versionedTableInfoStore.addVersion (store : versionedTableInfoStore) (version : Nat) :
    versionedTableInfoStore :=
  { store with versions := store.versions ++ [version] }

/-- Modelled from the spec: the store method `gc` is not among the embedded
sources; it drops the versions that are not above `gcTs`. -/
def versionedTableInfoStore.gc (store : versionedTableInfoStore) (gcTs : Nat) :
    versionedTableInfoStore :=
  { store with versions := store.versions.filter (fun v => decide (v > gcTs)) }

/-- The function `updateRegisteredTableInfoStore`, on the store whose map it is
given. -/
def persistentStorage.updateRegisteredTableInfoStore (p : persistentStorage)
    (event : PersistedDDLEvent) : Except (StoreFault × persistentStorage) persistentStorage :=
  match event.Typ with
  | ActionType.ActionCreateSchema | ActionType.ActionDropSchema
  | ActionType.ActionCreateTable | ActionType.ActionAddIndex | ActionType.ActionDropIndex
  | ActionType.ActionAddForeignKey | ActionType.ActionDropForeignKey
  | ActionType.ActionRenameTable | ActionType.ActionCreateView => Except.ok p
  | ActionType.ActionDropTable | ActionType.ActionAddColumn | ActionType.ActionDropColumn
  | ActionType.ActionTruncateTable | ActionType.ActionModifyColumn
  | ActionType.ActionRebaseAutoID | ActionType.ActionSetDefaultValue
  | ActionType.ActionShardRowID | ActionType.ActionModifyTableComment
  | ActionType.ActionRenameIndex =>
    Except.ok { p with
      tableInfoStoreMap := fun t =>
        if t = event.TableID then
          (p.tableInfoStoreMap t).map (fun store => store.addVersion event.FinishedTs)
        else p.tableInfoStoreMap t }
  | _ => Except.error (StoreFault.panic, p)

/-- The body of the loop of `handleSortedDDLEvents` for one event: the new store
and the event as the loop leaves it in `ddlEvents`. -/
def persistentStorage.handleDDLEvent (p : persistentStorage) (event : PersistedDDLEvent) :
    StoreResult PersistedDDLEvent :=
  match fillSchemaName event p.databaseMap with
  | Except.error f => Except.error (f, p)
  | Except.ok named =>
    match fillInfluencedTableInfo named with
    | Except.error f => Except.error (f, p)
    | Except.ok filled =>
      if shouldSkipDDL filled p.databaseMap p.tableMap then Except.ok (p, filled)
      else
        match p.updateDDLHistory filled with
        | Except.error e => Except.error e
        | Except.ok p1 =>
          match p1.updateDatabaseInfoAndTableInfo filled with
          | Except.error e => Except.error e
          | Except.ok p2 =>
            match p2.updateRegisteredTableInfoStore filled with
            | Except.error e => Except.error e
            | Except.ok p3 => Except.ok (p3, filled)

/-- The loop of `handleSortedDDLEvents`: the new store and the events as the loop
leaves them. -/
def persistentStorage.handleDDLEvents (p : persistentStorage) :
    List PersistedDDLEvent → StoreResult (List PersistedDDLEvent)
  | [] => Except.ok (p, [])
  | event :: rest =>
    match p.handleDDLEvent event with
    | Except.error e => Except.error e
    | Except.ok (p1, filled) =>
      match persistentStorage.handleDDLEvents p1 rest with
      | Except.error e => Except.error e
      | Except.ok (p2, filledRest) => Except.ok (p2, filled :: filledRest)

/-- The method `handleSortedDDLEvents`; the returned list is what it hands to
`writeDDLEvents`. -/
def persistentStorage.handleSortedDDLEvents (p : persistentStorage)
    (ddlEvents : List PersistedDDLEvent) : StoreResult (List PersistedDDLEvent) :=
  match p.Lock with
  | Except.error e => Except.error e
  | Except.ok p1 =>
    match p1.handleDDLEvents ddlEvents with
    | Except.error e => Except.error e
    | Except.ok (p2, filled) =>
      match p2.Unlock with
      | Except.error e => Except.error e
      | Except.ok p3 => Except.ok ({ p3 with disk := writeDDLEvents p3.disk filled }, filled)

/-! ## Schema store: garbage collection -/

/-- The first loop of `cleanObseleteDataInMemory`: it marks every table of the
snapshot as `InKVSnap`; on a table that is not in `tableMap` it dereferences
`nil`, which the flag `false` reports together with the map as marked so far. -/
def markInKVSnap (tableMap : Int → Option BasicTableInfo) :
    List Int → (Int → Option BasicTableInfo) × Bool
  | [] => (tableMap, true)
  | tableID :: rest =>
    match tableMap tableID with
    | none => (tableMap, false)
    | some info =>
      markInKVSnap
        (fun t => if t = tableID then some { info with InKVSnap := true } else tableMap t) rest

/-- What the second loop of `cleanObseleteDataInMemory` leaves of one table's
history. -/
def cleanHistory (gcTs : Nat) (tablesInKVSnap : List Int) (tableID : Int)
    (history : List Nat) : Option (List Nat) :=
  if !tablesInKVSnap.contains tableID then none
  else if searchAbove history gcTs = history.length then none
  else some (history.drop (searchAbove history gcTs))

/-- The method `cleanObseleteDataInMemory`; `tablesInKVSnap` is the key list of
the map it is given.  The deferred `Unlock` also runs when the call panics. -/
def persistentStorage.cleanObseleteDataInMemory (p : persistentStorage) (gcTs : Nat)
    (tablesInKVSnap : List Int) : StoreResult Unit :=
  match p.Lock with
  | Except.error e => Except.error e
  | Except.ok p1 =>
    match markInKVSnap p1.tableMap tablesInKVSnap with
    | (marked, false) =>
      match persistentStorage.Unlock { p1 with gcTs := gcTs, tableMap := marked } with
      | Except.error e => Except.error e
      | Except.ok p2 => Except.error (StoreFault.nilDereference, p2)
    | (marked, true) =>
      match persistentStorage.Unlock
          { p1 with
            gcTs := gcTs,
            tableMap := marked,
            tablesDDLHistory := fun t =>
              match p1.tablesDDLHistory t with
              | none => none
              | some history => cleanHistory gcTs tablesInKVSnap t history,
            tableTriggerDDLHistory :=
              p1.tableTriggerDDLHistory.drop (searchAbove p1.tableTriggerDDLHistory gcTs),
            tableInfoStoreMap := fun t =>
              (p1.tableInfoStoreMap t).map (fun store => store.gc gcTs) } with
      | Except.error e => Except.error e
      | Except.ok p2 => Except.ok (p2, ())

/-- The method `doGc`; `tablesInKVSnap` is the key list of the table map that
`writeSchemaSnapshotAndMeta` returns for the new `gcTs`. -/
def persistentStorage.doGc (p : persistentStorage) (gcTs : Nat) (tablesInKVSnap : List Int) :
    StoreResult Unit :=
  match p.Lock with
  | Except.error e => Except.error e
  | Except.ok p1 =>
    if gcTs > p1.upperBound.ResolvedTs then Except.error (StoreFault.panic, p1)
    else if gcTs ≤ p1.gcTs then
      match p1.Unlock with
      | Except.error e => Except.error e
      | Except.ok p2 => Except.ok (p2, ())
    else
      match p1.Unlock with
      | Except.error e => Except.error e
      | Except.ok p2 =>
        match p2.cleanObseleteDataInMemory gcTs tablesInKVSnap with
        | Except.error e => Except.error e
        | Except.ok (p3, _) =>
          Except.ok ({ p3 with disk := cleanObseleteData p3.disk gcTs }, ())

/-! ## Schema store: registering tables -/

/-- The loop of `buildVersionedTableInfoStore` over the table's history: every
version is read from disk, its schema name is looked up, and it is applied to
the store; both a missing event and a missing database are fatal. -/
def applyHistory (disk : List PersistedDDLEvent) (databaseMap : Int → Option BasicDatabaseInfo) :
    List Nat → versionedTableInfoStore → Option versionedTableInfoStore
  | [], store => some store
  | version :: rest, store =>
    match readDDLEvent disk version with
    | none => none
    | some ddlEvent =>
      match databaseMap ddlEvent.SchemaID with
      | none => none
      | some _ => applyHistory disk databaseMap rest (store.addVersion version)

/-- The method `buildVersionedTableInfoStore` for the store of `tableID`, which
`registerTable` has just put into `tableInfoStoreMap`; `kvSnapSchemaID` is the
schema id that the kv-snapshot on disk records for the table.  The closure
`getSchemaName` takes and releases the read lock around its lookup. -/
def persistentStorage.buildVersionedTableInfoStore (p : persistentStorage)
    (store : versionedTableInfoStore) (kvSnapSchemaID : Int) :
    StoreResult (Option StoreError) :=
  match p.RLock with
  | Except.error e => Except.error e
  | Except.ok p1 =>
    match p1.tableMap store.tableID with
    | none => Except.error (StoreFault.panic, p1)
    | some tableBasicInfo =>
      match p1.RUnlock with
      | Except.error e => Except.error e
      | Except.ok p2 =>
        let seeded : Option versionedTableInfoStore :=
          if tableBasicInfo.InKVSnap then
            match p2.databaseMap kvSnapSchemaID with
            | none => none
            | some _ => some (store.addVersion p1.gcTs)
          else some store
        match seeded with
        | none => Except.ok (p2, some StoreError.databaseNotFound)
        | some store1 =>
          match applyHistory p2.disk p2.databaseMap
              ((p1.tablesDDLHistory store.tableID).getD []) store1 with
          | none =>
            Except.error (StoreFault.fatal,
              { p2 with
                tableInfoStoreMap := fun t =>
                  if t = store.tableID then some store1 else p2.tableInfoStoreMap t })
          | some store2 =>
            Except.ok
              ({ p2 with
                 tableInfoStoreMap := fun t =>
                   if t = store.tableID then some { store2 with initialized := true }
                   else p2.tableInfoStoreMap t },
               none)

/-- The method `registerTable`; waiting for a store that is never initialized
blocks the caller. -/
def persistentStorage.registerTable (p : persistentStorage) (tableID : Int) (startTs : Nat)
    (kvSnapSchemaID : Int) : StoreResult (Option StoreError) :=
  match p.Lock with
  | Except.error e => Except.error e
  | Except.ok p1 =>
    if startTs < p1.gcTs then
      match p1.Unlock with
      | Except.error e => Except.error e
      | Except.ok p2 => Except.ok (p2, some StoreError.startTsSmallerThanGcTs)
    else
      let counted : persistentStorage :=
        { p1 with
          tableRegisteredCount := fun t =>
            if t = tableID then p1.tableRegisteredCount t + 1 else p1.tableRegisteredCount t }
      match counted.tableInfoStoreMap tableID with
      | some store =>
        match counted.Unlock with
        | Except.error e => Except.error e
        | Except.ok p2 =>
          if store.initialized then Except.ok (p2, none)
          else Except.error (StoreFault.blocked, p2)
      | none =>
        match persistentStorage.Unlock
            { counted with
              tableInfoStoreMap := fun t =>
                if t = tableID then some (newEmptyVersionedTableInfoStore tableID)
                else counted.tableInfoStoreMap t } with
        | Except.error e => Except.error e
        | Except.ok p2 =>
          p2.buildVersionedTableInfoStore (newEmptyVersionedTableInfoStore tableID)
            kvSnapSchemaID

/-- The method `unregisterTable`. -/
def persistentStorage.unregisterTable (p : persistentStorage) (tableID : Int) :
    StoreResult (Option StoreError) :=
  match p.Lock with
  | Except.error e => Except.error e
  | Except.ok p1 =>
    let counted : persistentStorage :=
      { p1 with
        tableRegisteredCount := fun t =>
          if t = tableID then p1.tableRegisteredCount t - 1 else p1.tableRegisteredCount t }
    if counted.tableRegisteredCount tableID ≤ 0 then
      match counted.tableInfoStoreMap tableID with
      | none =>
        match counted.Unlock with
        | Except.error e => Except.error e
        | Except.ok p2 => Except.ok (p2, some StoreError.tableNotFound)
      | some _ =>
        match persistentStorage.Unlock
            { counted with
              tableInfoStoreMap := fun t =>
                if t = tableID then none else counted.tableInfoStoreMap t } with
        | Except.error e => Except.error e
        | Except.ok p2 => Except.ok (p2, none)
    else
      match counted.Unlock with
      | Except.error e => Except.error e
      | Except.ok p2 => Except.ok (p2, none)

/-! ## Schema store: properties of the histories and sample stores -/

/-- Every per-table history and the table-trigger history are strictly
increasing. -/
def persistentStorage.HistoriesSorted (p : persistentStorage) : Prop :=
  (∀ t history, p.tablesDDLHistory t = some history → history.Pairwise (fun a b => a < b)) ∧
  p.tableTriggerDDLHistory.Pairwise (fun a b => a < b)

/-- Every entry of every history is below `bound`. -/
def persistentStorage.EntriesBelow (p : persistentStorage) (bound : Nat) : Prop :=
  (∀ t history, p.tablesDDLHistory t = some history → ∀ x ∈ history, x < bound) ∧
  ∀ x ∈ p.tableTriggerDDLHistory, x < bound

/-- The store that `newPersistentStorage` builds from the upstream snapshot at
`gcTs` (`initializeFromKVStorage`), given the maps the snapshot yields. -/
def newPersistentStorage (gcTs : Nat) (databaseMap : Int → Option BasicDatabaseInfo)
    (tableMap : Int → Option BasicTableInfo) : persistentStorage :=
  { mu := { writer := false, readers := 0 },
    gcTs := gcTs,
    upperBound := { FinishedDDLTs := 0, SchemaVersion := 0, ResolvedTs := gcTs },
    upperBoundChanged := false,
    tableMap := tableMap,
    databaseMap := databaseMap,
    tablesDDLHistory := fun _ => none,
    tableTriggerDDLHistory := [],
    tableInfoStoreMap := fun _ => none,
    tableRegisteredCount := fun _ => 0,
    disk := [] }

/-- A DDL event of the given type with the other fields at their zero values,
apart from a `TableInfo` and a `DBInfo` to read names from. -/
def ddlEventOf (typ : ActionType) (schemaID tableID : Int) (finishedTs : Nat) :
    PersistedDDLEvent :=
  { ID := 0, Typ := typ, SchemaID := schemaID, TableID := tableID, SchemaName := "",
    TableInfo := some { ID := tableID, Name := "t" }, DBInfo := some { Name := "d" },
    Query := "", SchemaVersion := 0, FinishedTs := finishedTs,
    BlockedTables := none, NeedDroppedTables := none, NeedAddedTables := [] }

/-- A store at `gcTs = 5` that holds database 1 with table 7, whose history is
`[20, 30]`, with the trigger history `[10, 20]` and the three events on disk. -/
def sampleStorage : persistentStorage :=
  { mu := { writer := false, readers := 0 },
    gcTs := 5,
    upperBound := { FinishedDDLTs := 30, SchemaVersion := 0, ResolvedTs := 40 },
    upperBoundChanged := false,
    tableMap := fun t =>
      if t = 7 then some { SchemaID := 1, Name := "t", InKVSnap := false } else none,
    databaseMap := fun s =>
      if s = 1 then some { Name := "d", Tables := fun t => decide (t = 7) } else none,
    tablesDDLHistory := fun t => if t = 7 then some [20, 30] else none,
    tableTriggerDDLHistory := [10, 20],
    tableInfoStoreMap := fun _ => none,
    tableRegisteredCount := fun _ => 0,
    disk := [ddlEventOf ActionType.ActionAddColumn 1 7 30,
             ddlEventOf ActionType.ActionCreateTable 1 7 20,
             ddlEventOf ActionType.ActionCreateSchema 1 0 10] }

/-- A filter that discards nothing. -/
def keepAll : ActionType → String → String → Bool :=
  fun _ _ _ => false

/-- Whether `fetchTableTriggerDDLEvents` keeps the event it reads for the
timestamp `ts`, that is, whether the filter's `ShouldDiscardDDL` does not
discard it. -/
def keepsTs (tableFilter : ActionType → String → String → Bool)
    (disk : List PersistedDDLEvent) (ts : Nat) : Bool :=
  match readDDLEvent disk ts with
  | none => true
  | some rawEvent =>
    !tableFilter rawEvent.Typ rawEvent.SchemaName
      (match rawEvent.TableInfo with
       | some info => info.Name
       | none => "")

/-- A create event that repeats what the store already holds: a create-schema
whose schema id is in `databaseMap`, or a create-table whose table id is in
`tableMap` (in a database the store holds); the event carries the info record
its name is read from. -/
def persistentStorage.isDuplicateCreate (p : persistentStorage) (event : PersistedDDLEvent) :
    Prop :=
  (event.Typ = ActionType.ActionCreateSchema ∧ event.DBInfo.isSome = true ∧
    (p.databaseMap event.SchemaID).isSome = true) ∨
  (event.Typ = ActionType.ActionCreateTable ∧ event.TableInfo.isSome = true ∧
    (p.databaseMap event.SchemaID).isSome = true ∧
    (p.tableMap event.TableID).isSome = true)

/-- The store that a call leaves behind, whether it returns or a fault ends it. -/
def finalState {α : Type} : StoreResult α → persistentStorage
  | Except.error (_, p) => p
  | Except.ok (p, _) => p

/-- The registration count of `tableID` raised by one. -/
def countRaised (count : Int → Int) (tableID : Int) : Int → Int :=
  fun t => if t = tableID then count t + 1 else count t

/-- The registration count of `tableID` lowered by one. -/
def countLowered (count : Int → Int) (tableID : Int) : Int → Int :=
  fun t => if t = tableID then count t - 1 else count t

/-- A call of `registerTable` or of `unregisterTable`. -/
inductive RegistryCall where
  | register (tableID : Int) (startTs : Nat) (kvSnapSchemaID : Int)
  | unregister (tableID : Int)

/-- What a completed call adds to the registration count of table `t`. -/
def RegistryCall.delta : RegistryCall → Int → Int
  | RegistryCall.register tableID _ _, t => if t = tableID then 1 else 0
  | RegistryCall.unregister tableID, t => if t = tableID then -1 else 0

/-- The number of registers of table `t` among `calls` minus the number of its
unregisters. -/
def balance (calls : List RegistryCall) (t : Int) : Int :=
  (calls.map (fun c => c.delta t)).sum

/-- The store after a sequence of calls each of which returns without an error;
`none` when one of them returns an error or does not return. -/
def persistentStorage.runCalls : persistentStorage → List RegistryCall →
    Option persistentStorage
  | p, [] => some p
  | p, RegistryCall.register tableID startTs kvSnapSchemaID :: rest =>
    match p.registerTable tableID startTs kvSnapSchemaID with
    | Except.ok (p2, none) => persistentStorage.runCalls p2 rest
    | _ => none
  | p, RegistryCall.unregister tableID :: rest =>
    match p.unregisterTable tableID with
    | Except.ok (p2, none) => persistentStorage.runCalls p2 rest
    | _ => none

/-- No registration count is negative, and the versioned store of a table is in
`tableInfoStoreMap` exactly when the table's registration count is positive. -/
def persistentStorage.StoreIffRegistered (p : persistentStorage) : Prop :=
  ∀ t, 0 ≤ p.tableRegisteredCount t ∧
    ((p.tableInfoStoreMap t).isSome = true ↔ 0 < p.tableRegisteredCount t)

/-- The store after a sequence of `doGc` calls, each with its `gcTs` and the
tables of its kv-snapshot, that all complete; `none` when one of them does
not. -/
def persistentStorage.runGc : persistentStorage → List (Nat × List Int) →
    Option persistentStorage
  | p, [] => some p
  | p, (gcTs, tablesInKVSnap) :: rest =>
    match p.doGc gcTs tablesInKVSnap with
    | Except.ok (p2, _) => persistentStorage.runGc p2 rest
    | Except.error _ => none

/-- The loop of `Execute` when the clock and the operators answer anew at every
turn: the turn number `turn` reads `envs turn`.  `Controller.executeLoop` is the
case of one answer for the whole call. -/
def Controller.executeLoopAt (envs : Nat → OpEnv) :
    Nat → Nat → Controller → Int → Option (Controller × Int)
  | 0, _, _, _ => none
  | fuel + 1, turn, oc, executedItem =>
    match oc.pollQueueingOperator (envs turn) with
    | (oc1, _, false) => some (oc1, (envs turn).now + 200000000)
    | (oc1, none, true) => Controller.executeLoopAt envs fuel (turn + 1) oc1 executedItem
    | (oc1, some r, true) =>
      let sends : List Call :=
        match (envs turn).schedule r with
        | some msg => [Call.SendCommand msg]
        | none => []
      let oc2 := { oc1 with calls := oc1.calls ++ [Call.Schedule r] ++ sends }
      if executedItem + 1 ≥ oc2.batchSize then some (oc2, (envs turn).now + 50000000)
      else Controller.executeLoopAt envs fuel (turn + 1) oc2 (executedItem + 1)

/-- Whether a call is a `Schedule()` on an operator. -/
def Call.isSchedule : Call → Bool
  | Call.Schedule _ => true
  | _ => false

/-- Whether a call is a `SendCommand` on the message center. -/
def Call.isSendCommand : Call → Bool
  | Call.SendCommand _ => true
  | _ => false

/-- The dispatcher whose operator a call is made on; a `SendCommand` is a call
on the message center. -/
def Call.opID : Call → Option DispatcherID
  | Call.Start op => some op.ID
  | Call.PostFinish op => some op.ID
  | Call.OnTaskRemoved op => some op.ID
  | Call.OnNodeRemove op _ => some op.ID
  | Call.Schedule op => some op.ID
  | Call.SendCommand _ => none

/-- The controller states that can be reached from the state `start` by
`AddOperator`, the three `RemoveTasks` methods, `AddMergeSplitOperator` and
`Execute`, whatever the environment answers. -/
inductive Controller.ReachableFrom (start : Controller) : Controller → Prop where
  | refl : Controller.ReachableFrom start start
  | addOperator {oc : Controller} (env : OpEnv) (db : ReplicationDB) (op : Operator) :
      Controller.ReachableFrom start oc →
      Controller.ReachableFrom start (oc.AddOperator env db op).1
  | removeAllTasks {oc : Controller} (env : OpEnv) (db : ReplicationDB) :
      Controller.ReachableFrom start oc →
      Controller.ReachableFrom start (oc.RemoveAllTasks env db)
  | removeTasksBySchemaID {oc : Controller} (env : OpEnv) (db : ReplicationDB)
      (schemaID : Int) :
      Controller.ReachableFrom start oc →
      Controller.ReachableFrom start (oc.RemoveTasksBySchemaID env db schemaID)
  | removeTasksByTableIDs {oc : Controller} (env : OpEnv) (db : ReplicationDB)
      (tables : List Int) :
      Controller.ReachableFrom start oc →
      Controller.ReachableFrom start (oc.RemoveTasksByTableIDs env db tables)
  | addMergeSplitOperator {oc oc2 : Controller} (env : OpEnv) (db : ReplicationDB)
      (group : List SpanReplication) (splitSpans : List Nat) (ok : Bool) :
      Controller.ReachableFrom start oc →
      oc.AddMergeSplitOperator env db group splitSpans = some (oc2, ok) →
      Controller.ReachableFrom start oc2
  | execute {oc oc2 : Controller} (env : OpEnv) (wake : Int) :
      Controller.ReachableFrom start oc → oc.Execute env = some (oc2, wake) →
      Controller.ReachableFrom start oc2

/-- The record at address `a` is allocated, marked `Removed`, and holds the
operator `op`. -/
def Controller.Dropped (oc : Controller) (a : Nat) (op : Operator) : Prop :=
  a < oc.nextItem ∧ (oc.items a).Removed = true ∧ (oc.items a).OP = op

/-! ## Dispatcher (`downstreamadapter/dispatcher/dispatcher.go`) -/

/-- The stages of `heartbeatpb.BlockStage`. -/
inductive BlockStage where
  | NONE
  | WAITING
  | WRITING
  | DONE
deriving DecidableEq, Repr

/-- The actions of `heartbeatpb.Action`. -/
inductive Action where
  | Write
  | Pass
deriving DecidableEq, Repr

/-- What `GetType()` answers for a block event; `Other` is any type that is
neither a DDL nor a sync point. -/
inductive BlockEventType where
  | TypeDDLEvent
  | TypeSyncPointEvent
  | Other
deriving DecidableEq, Repr

/-- The record `common.SchemaIDChange`. -/
structure SchemaIDChange where
  TableID : Int
  OldSchemaID : Int
  NewSchemaID : Int
deriving DecidableEq, Repr

/-- A block event (`commonEvent.BlockEvent`) as the dispatcher reads it through
`GetType`, `GetCommitTs`, `GetBlockedTables`, `GetNeedDroppedTables`,
`GetNeedAddedTables` and `GetUpdatedSchemas`; `none` is `nil`. -/
structure BlockEvent where
  typ : BlockEventType
  CommitTs : Nat
  BlockedTables : Option InfluencedTables
  NeedDroppedTables : Option InfluencedTables
  NeedAddedTables : Option (List Table)
  UpdatedSchemas : Option (List SchemaIDChange)
deriving DecidableEq, Repr

/-- The span `heartbeatpb.TableSpan`; keys are byte strings. -/
structure TableSpan where
  TableID : Int
  StartKey : List Nat
  EndKey : List Nat
deriving DecidableEq, Repr

/-- The functions of the package `spanz` that `isCompleteSpan` calls; the
package is not among the embedded sources. -/
structure Spanz where
  GetTableRange : Int → List Nat × List Nat
  ToComparableKey : List Nat → List Nat
  StartCompare : List Nat → List Nat → Int
  EndCompare : List Nat → List Nat → Int

/-- The function `isCompleteSpan`. -/
def isCompleteSpan (spanz : Spanz) (tableSpan : TableSpan) : Bool :=
  let range := spanz.GetTableRange tableSpan.TableID
  if spanz.StartCompare (spanz.ToComparableKey range.1) tableSpan.StartKey = 0 ∧
      spanz.EndCompare (spanz.ToComparableKey range.2) tableSpan.EndKey = 0 then true
  else false

/-- The key `BlockEventIdentifier` of the resend tasks. -/
structure BlockEventIdentifier where
  CommitTs : Nat
  IsSyncPoint : Bool
deriving DecidableEq, Repr

/-- The message `heartbeatpb.TableSpanBlockStatus` with its `State`. -/
structure TableSpanBlockStatus where
  ID : Nat
  IsBlocked : Bool
  BlockTs : Nat
  BlockTables : Option InfluencedTables
  NeedDroppedTables : Option InfluencedTables
  NeedAddedTables : Option (List Table)
  UpdatedSchemas : Option (List SchemaIDChange)
  IsSyncPoint : Bool
  Stage : BlockStage
deriving DecidableEq, Repr

/-- The acknowledgement `heartbeatpb.ACK`. -/
structure ACK where
  CommitTs : Nat
  IsSyncPoint : Bool
deriving DecidableEq, Repr

/-- The action `heartbeatpb.DispatcherAction`. -/
structure DispatcherAction where
  Action : Action
  CommitTs : Nat
  IsSyncPoint : Bool
deriving DecidableEq, Repr

/-- The message `heartbeatpb.DispatcherStatus`; `none` is `nil`. -/
structure DispatcherStatus where
  Ack : Option ACK
  Action : Option DispatcherAction
deriving DecidableEq, Repr

/-- The calls the dispatcher makes on its sink for block events. -/
inductive SinkCall where
  | WriteBlockEvent (event : BlockEvent)
  | PassBlockEvent (event : BlockEvent)
deriving DecidableEq, Repr

/-- The fields of `Dispatcher` that the handling of block events reads or
writes: `blockStatus` is the pair of the pending event and its stage,
`isDDLSpan` is whether `tableSpan` is `heartbeatpb.DDLSpan`; the calls made on
the sink, the messages put on `blockStatusesChan`, the errors put on `errCh`
and the `Update` calls on `schemaIDToDispatchers` are recorded in order. -/
structure Dispatcher where
  id : Nat
  tableSpan : TableSpan
  isDDLSpan : Bool
  schemaID : Int
  blockPendingEvent : Option BlockEvent
  blockStage : BlockStage
  resendTaskMap : BlockEventIdentifier → Option TableSpanBlockStatus
  sinkCalls : List SinkCall
  blockStatusesChan : List TableSpanBlockStatus
  errCh : List Nat
  schemaIDUpdates : List (Int × Int)

/-- Modelled from the spec: the methods of `BlockStatus` are not among the
embedded sources; `getEventAndStage` reads the pending event and its stage. -/
def Dispatcher.getEventAndStage (d : Dispatcher) : Option BlockEvent × BlockStage :=
  (d.blockPendingEvent, d.blockStage)

/-- Modelled from the spec: `BlockStatus.updateBlockStage` (not among the
embedded sources) sets the stage of the pending event. -/
def Dispatcher.updateBlockStage (d : Dispatcher) (stage : BlockStage) : Dispatcher :=
  { d with blockStage := stage }

/-- Modelled from the spec: `BlockStatus.setBlockEvent` (not among the embedded
sources) records the pending event with its stage. -/
def Dispatcher.setBlockEvent (d : Dispatcher) (event : BlockEvent) (stage : BlockStage) :
    Dispatcher :=
  { d with blockPendingEvent := some event, blockStage := stage }

/-- Modelled from the spec: `BlockStatus.clear` (not among the embedded sources)
forgets the pending event. -/
def Dispatcher.clearBlockStatus (d : Dispatcher) : Dispatcher :=
  { d with blockPendingEvent := none, blockStage := BlockStage.NONE }

/-- The method `cancelResendTask`. -/
def Dispatcher.cancelResendTask (d : Dispatcher) (identifier : BlockEventIdentifier) :
    Dispatcher :=
  match d.resendTaskMap identifier with
  | none => d
  | some _ =>
    { d with resendTaskMap := fun k => if k = identifier then none else d.resendTaskMap k }

/-- The method `shouldBlock`. -/
def Dispatcher.shouldBlock (d : Dispatcher) (spanz : Spanz) (event : BlockEvent) : Bool :=
  match event.typ with
  | BlockEventType.TypeDDLEvent =>
    match event.BlockedTables with
    | some blockedTables =>
      match blockedTables.InfluenceType with
      | InfluenceType.Normal =>
        if blockedTables.TableIDs.length > 1 then true
        else if !isCompleteSpan spanz d.tableSpan then true
        else false
      | InfluenceType.DB | InfluenceType.All => true
    | none => false
  | BlockEventType.TypeSyncPointEvent => true
  | BlockEventType.Other => false

/-- The loop that ends `dealWithBlockEvent`: the first change that names the
dispatcher's table decides; a wrong old schema ID is only logged. -/
def Dispatcher.updateSchemaID (d : Dispatcher) : List SchemaIDChange → Dispatcher
  | [] => d
  | schemaIDChange :: rest =>
    if schemaIDChange.TableID = d.tableSpan.TableID then
      if schemaIDChange.OldSchemaID ≠ d.schemaID then d
      else
        { d with
          schemaID := schemaIDChange.NewSchemaID,
          schemaIDUpdates :=
            d.schemaIDUpdates ++ [(schemaIDChange.OldSchemaID, schemaIDChange.NewSchemaID)] }
    else Dispatcher.updateSchemaID d rest

/-- The method `dealWithBlockEvent`; `writeErr` is the error that the sink's
`WriteBlockEvent` returns (`none` is `nil`). -/
def Dispatcher.dealWithBlockEvent (d : Dispatcher) (spanz : Spanz) (writeErr : Option Nat)
    (event : BlockEvent) : Dispatcher :=
  let finish (d1 : Dispatcher) : Dispatcher :=
    match event.UpdatedSchemas with
    | some changes => if !d1.isDDLSpan then d1.updateSchemaID changes else d1
    | none => d1
  if !d.shouldBlock spanz event then
    let d1 := { d with sinkCalls := d.sinkCalls ++ [SinkCall.WriteBlockEvent event] }
    match writeErr with
    | some err => { d1 with errCh := d1.errCh ++ [err] }
    | none =>
      if event.NeedAddedTables.isSome || event.NeedDroppedTables.isSome then
        let message : TableSpanBlockStatus :=
          { ID := d1.id, IsBlocked := false, BlockTs := event.CommitTs, BlockTables := none,
            NeedDroppedTables := event.NeedDroppedTables,
            NeedAddedTables := event.NeedAddedTables, UpdatedSchemas := none,
            IsSyncPoint := false, Stage := BlockStage.NONE }
        finish
          { d1 with
            resendTaskMap := fun k =>
              if k = { CommitTs := event.CommitTs, IsSyncPoint := false } then some message
              else d1.resendTaskMap k,
            blockStatusesChan := d1.blockStatusesChan ++ [message] }
      else finish d1
  else
    let d1 := d.setBlockEvent event BlockStage.WAITING
    let message : TableSpanBlockStatus :=
      { ID := d1.id, IsBlocked := true, BlockTs := event.CommitTs,
        BlockTables := event.BlockedTables,
        NeedDroppedTables := event.NeedDroppedTables,
        NeedAddedTables := event.NeedAddedTables,
        UpdatedSchemas := event.UpdatedSchemas,
        IsSyncPoint := decide (event.typ = BlockEventType.TypeSyncPointEvent),
        Stage := BlockStage.WAITING }
    finish
      { d1 with
        resendTaskMap := fun k =>
          if k = { CommitTs := event.CommitTs,
                   IsSyncPoint := decide (event.typ = BlockEventType.TypeSyncPointEvent) }
          then some message
          else d1.resendTaskMap k,
        blockStatusesChan := d1.blockStatusesChan ++ [message] }

/-- The method `HandleDispatcherStatus`; `writeErr` is the error that the sink's
`WriteBlockEvent` returns (`none` is `nil`). -/
def Dispatcher.HandleDispatcherStatus (d : Dispatcher) (writeErr : Option Nat)
    (dispatcherStatus : DispatcherStatus) : Dispatcher :=
  let d1 : Dispatcher :=
    match dispatcherStatus.Ack with
    | some ack => d.cancelResendTask { CommitTs := ack.CommitTs, IsSyncPoint := ack.IsSyncPoint }
    | none => d
  match dispatcherStatus.Action with
  | none => d1
  | some action =>
    let report (d2 : Dispatcher) : Dispatcher :=
      Dispatcher.clearBlockStatus
        { d2 with
          blockStatusesChan := d2.blockStatusesChan ++
            [{ ID := d2.id, IsBlocked := true, BlockTs := action.CommitTs, BlockTables := none,
               NeedDroppedTables := none, NeedAddedTables := none, UpdatedSchemas := none,
               IsSyncPoint := action.IsSyncPoint, Stage := BlockStage.DONE }] }
    match d1.getEventAndStage with
    | (some pendingEvent, blockStatus) =>
      if action.CommitTs = pendingEvent.CommitTs ∧ blockStatus = BlockStage.WAITING then
        let d2 := d1.updateBlockStage BlockStage.WRITING
        if action.Action = Action.Write then
          let d3 := { d2 with sinkCalls := d2.sinkCalls ++ [SinkCall.WriteBlockEvent pendingEvent] }
          match writeErr with
          | some err => { d3 with errCh := d3.errCh ++ [err] }
          | none => report d3
        else report { d2 with sinkCalls := d2.sinkCalls ++ [SinkCall.PassBlockEvent pendingEvent] }
      else report d1
    | (none, _) => report d1

/-- A dispatcher of table 7 on the complete span, in schema 1, that waits with
the DDL event of commit timestamp 10, which blocks the tables 7 and 8. -/
def waitingDispatcher : Dispatcher :=
  { id := 1,
    tableSpan := { TableID := 7, StartKey := [], EndKey := [] },
    isDDLSpan := false,
    schemaID := 1,
    blockPendingEvent := some
      { typ := BlockEventType.TypeDDLEvent, CommitTs := 10,
        BlockedTables := some
          { InfluenceType := InfluenceType.Normal, TableIDs := [7, 8], SchemaID := 0,
            SchemaName := "" },
        NeedDroppedTables := none, NeedAddedTables := none, UpdatedSchemas := none },
    blockStage := BlockStage.WAITING,
    resendTaskMap := fun _ => none,
    sinkCalls := [],
    blockStatusesChan := [],
    errCh := [],
    schemaIDUpdates := [] }

/-- A sequence of events handed to `HandleEvent` one after the other, each with
what the collaborators answer while it is handled. -/
def Maintainer.handleEvents : Maintainer → List (Env × Event) → Except Fault Maintainer
  | m, [] => Except.ok m
  | m, (env, event) :: rest =>
    match m.HandleEvent env event with
    | Except.error e => Except.error e
    | Except.ok (m1, _) => Maintainer.handleEvents m1 rest


/-! ## The generated codec of `pkg/common/txn_event_gen.go`

The file is generated by `tinylib/msgp`.  The package `msgp` and the codec of
the column flags are taken as a parameter (`Msgp`); the three `MarshalMsg`,
`UnmarshalMsg` and `Msgsize` methods are embedded over it.  The instance
`msgp` of the parameter gives the encodings the library chooses. -/

/-- A byte string: a `[]byte`, or the bytes of a `string`. -/
abbrev Bytes := List Nat

/-- The bytes of an ASCII string literal of the source. -/
def ascii (s : String) : Bytes := s.toList.map Char.toNat

/-- The bytes of a map key: the MessagePack header of a short string
(`0xa0` plus the length) and the characters. -/
def mapKey (s : String) : Bytes := (0xa0 + s.length) :: ascii s

/-- The Go integer types other than `int64` and `uint64`, by width: `int8` and
`uint8`, `int16` and `uint16`, `int32` and `uint32`, `int` and `uint` (64
bits). -/
inductive IntWidth where
  | w8
  | w16
  | w32
  | word
deriving DecidableEq, Repr

/-- A value of type `interface{}` as the codec hands it to the library, with
its dynamic type: nil (the zero value), an `int64`, a `uint64`, a `string`, a
`[]byte` (compared by content), a `bool`, a `float64` or `float32` (its IEEE
bits), a value of another signed (`sint`) or unsigned (`usint`) integer type,
or a value of a type the library does not encode (`other`).  Maps, slices of
values, times, complex numbers and extensions are left out. -/
inductive Intf where
  | nil
  | int (v : Int)
  | uint (v : Nat)
  | str (s : Bytes)
  | bin (b : Bytes)
  | bool (b : Bool)
  | other (tag : Nat)
  | float64 (bits : Nat)
  | float32 (bits : Nat)
  | sint (width : IntWidth) (v : Int)
  | usint (width : IntWidth) (v : Nat)
deriving DecidableEq, Repr

/-- One item of the context `msgp.WrapError` attaches: a field name or an
index. -/
inductive ErrCtx where
  | field (name : String)
  | index (i : Nat)
deriving DecidableEq, Repr

/-- An error of the codec: a library error, possibly wrapped with context. -/
inductive MsgpError where
  | raw (code : Nat)
  | wrapped (err : MsgpError) (ctx : List ErrCtx)
deriving DecidableEq, Repr

/-- The call `msgp.WrapError(err, ctx...)`. -/
def WrapError (err : MsgpError) (ctx : List ErrCtx) : MsgpError :=
  MsgpError.wrapped err ctx

/-- The type `ColumnFlagType`, an unsigned 64-bit set of flags. -/
abbrev ColumnFlagType := Nat

/-- The functions and constants the generated file uses and that are declared
outside it: the package `msgp`, and the generated methods of
`ColumnFlagType` (`FlagMarshalMsg`, `FlagUnmarshalMsg`, `FlagMsgsize`).
`…Bytes` readers return the value read and the remaining bytes. -/
structure Msgp where
  StringPrefixSize : Nat
  ByteSize : Nat
  Int64Size : Nat
  Uint64Size : Nat
  ArrayHeaderSize : Nat
  NilSize : Nat
  GuessSize : Intf → Nat
  Require : Bytes → Nat → Bytes
  AppendString : Bytes → Bytes → Bytes
  AppendByte : Bytes → Nat → Bytes
  AppendInt64 : Bytes → Int → Bytes
  AppendUint64 : Bytes → Nat → Bytes
  AppendArrayHeader : Bytes → Nat → Bytes
  AppendNil : Bytes → Bytes
  AppendIntf : Bytes → Intf → Except MsgpError Bytes
  ReadMapHeaderBytes : Bytes → Except MsgpError (Nat × Bytes)
  ReadMapKeyZC : Bytes → Except MsgpError (Bytes × Bytes)
  ReadStringBytes : Bytes → Except MsgpError (Bytes × Bytes)
  ReadByteBytes : Bytes → Except MsgpError (Nat × Bytes)
  ReadInt64Bytes : Bytes → Except MsgpError (Int × Bytes)
  ReadUint64Bytes : Bytes → Except MsgpError (Nat × Bytes)
  ReadArrayHeaderBytes : Bytes → Except MsgpError (Nat × Bytes)
  ReadIntfBytes : Bytes → Except MsgpError (Intf × Bytes)
  IsNil : Bytes → Bool
  ReadNilBytes : Bytes → Except MsgpError Bytes
  Skip : Bytes → Except MsgpError Bytes
  FlagMsgsize : ColumnFlagType → Nat
  FlagMarshalMsg : ColumnFlagType → Bytes → Except MsgpError Bytes
  FlagUnmarshalMsg : ColumnFlagType → Bytes → Except MsgpError (ColumnFlagType × Bytes)

/-- The fields of `Column` the codec reads and writes; strings are byte
strings. -/
structure Column where
  Name : Bytes
  Typ : Nat
  Charset : Bytes
  Collation : Bytes
  Flag : ColumnFlagType
  Value : Intf
deriving DecidableEq, Repr

/-- The value `new(Column)`. -/
def Column.zero : Column :=
  { Name := [], Typ := 0, Charset := [], Collation := [], Flag := 0, Value := Intf.nil }

/-- The method `(*Column).Msgsize`. -/
def Column.Msgsize (lib : Msgp) (z : Column) : Nat :=
  1 + 5 + lib.StringPrefixSize + z.Name.length + 5 + lib.ByteSize + 8 +
    lib.StringPrefixSize + z.Charset.length + 10 + lib.StringPrefixSize +
    z.Collation.length + 5 + lib.FlagMsgsize z.Flag + 7 + lib.GuessSize z.Value

/-- The method `(*Column).MarshalMsg`: the bytes `o` on success. -/
def Column.MarshalMsg (lib : Msgp) (z : Column) (b : Bytes) : Except MsgpError Bytes :=
  let o := lib.Require b (z.Msgsize lib)
  let o := o ++ [0x86, 0xa4, 0x6e, 0x61, 0x6d, 0x65]
  let o := lib.AppendString o z.Name
  let o := o ++ [0xa4, 0x74, 0x79, 0x70, 0x65]
  let o := lib.AppendByte o z.Typ
  let o := o ++ [0xa7, 0x63, 0x68, 0x61, 0x72, 0x73, 0x65, 0x74]
  let o := lib.AppendString o z.Charset
  let o := o ++ [0xa9, 0x63, 0x6f, 0x6c, 0x6c, 0x61, 0x74, 0x69, 0x6f, 0x6e]
  let o := lib.AppendString o z.Collation
  let o := o ++ [0xa4, 0x66, 0x6c, 0x61, 0x67]
  match lib.FlagMarshalMsg z.Flag o with
  | Except.error err => Except.error (WrapError err [ErrCtx.field "Flag"])
  | Except.ok o =>
    let o := o ++ [0xa6, 0x63, 0x6f, 0x6c, 0x75, 0x6d, 0x6e]
    match lib.AppendIntf o z.Value with
    | Except.error err => Except.error (WrapError err [ErrCtx.field "Value"])
    | Except.ok o => Except.ok o

/-- One turn of the `switch msgp.UnsafeString(field)` of
`(*Column).UnmarshalMsg`: the receiver and the remaining bytes afterwards. -/
def Column.unmarshalField (lib : Msgp) (z : Column) (field bts : Bytes) :
    Except MsgpError (Column × Bytes) :=
  if field = ascii "name" then
    match lib.ReadStringBytes bts with
    | Except.error err => Except.error (WrapError err [ErrCtx.field "Name"])
    | Except.ok (v, bts) => Except.ok ({ z with Name := v }, bts)
  else if field = ascii "type" then
    match lib.ReadByteBytes bts with
    | Except.error err => Except.error (WrapError err [ErrCtx.field "Type"])
    | Except.ok (v, bts) => Except.ok ({ z with Typ := v }, bts)
  else if field = ascii "charset" then
    match lib.ReadStringBytes bts with
    | Except.error err => Except.error (WrapError err [ErrCtx.field "Charset"])
    | Except.ok (v, bts) => Except.ok ({ z with Charset := v }, bts)
  else if field = ascii "collation" then
    match lib.ReadStringBytes bts with
    | Except.error err => Except.error (WrapError err [ErrCtx.field "Collation"])
    | Except.ok (v, bts) => Except.ok ({ z with Collation := v }, bts)
  else if field = ascii "flag" then
    match lib.FlagUnmarshalMsg z.Flag bts with
    | Except.error err => Except.error (WrapError err [ErrCtx.field "Flag"])
    | Except.ok (v, bts) => Except.ok ({ z with Flag := v }, bts)
  else if field = ascii "column" then
    match lib.ReadIntfBytes bts with
    | Except.error err => Except.error (WrapError err [ErrCtx.field "Value"])
    | Except.ok (v, bts) => Except.ok ({ z with Value := v }, bts)
  else
    match lib.Skip bts with
    | Except.error err => Except.error (WrapError err [])
    | Except.ok bts => Except.ok (z, bts)

/-- The loop `for zb0001 > 0` of `(*Column).UnmarshalMsg`. -/
def Column.unmarshalFields (lib : Msgp) : Nat → Column → Bytes →
    Except MsgpError (Column × Bytes)
  | 0, z, bts => Except.ok (z, bts)
  | zb0001 + 1, z, bts =>
    match lib.ReadMapKeyZC bts with
    | Except.error err => Except.error (WrapError err [])
    | Except.ok (field, bts) =>
      match Column.unmarshalField lib z field bts with
      | Except.error err => Except.error err
      | Except.ok (z, bts) => Column.unmarshalFields lib zb0001 z bts

/-- The method `(*Column).UnmarshalMsg`: the receiver afterwards and the
remaining bytes `o`. -/
def Column.UnmarshalMsg (lib : Msgp) (z : Column) (bts : Bytes) :
    Except MsgpError (Column × Bytes) :=
  match lib.ReadMapHeaderBytes bts with
  | Except.error err => Except.error (WrapError err [])
  | Except.ok (zb0001, bts) => Column.unmarshalFields lib zb0001 z bts

/-- The slice an `UnmarshalMsg` decodes an array of `n` entries into:
`z.X[:n]` if the receiver's slice is long enough, `make([]*T, n)` otherwise.
The capacity of a slice is taken to be its length. -/
def resliceOrMake {α : Type} (xs : List (Option α)) (n : Nat) : List (Option α) :=
  if xs.length ≥ n then xs.take n else List.replicate n none

/-- The fields of `RowChangedEvent` the codec reads and writes; `none` is a
nil column. -/
structure RowChangedEvent where
  PhysicalTableID : Int
  StartTs : Nat
  CommitTs : Nat
  Columns : List (Option Column)
  PreColumns : List (Option Column)
  ReplicatingTs : Nat
deriving DecidableEq, Repr

/-- The value `new(RowChangedEvent)`. -/
def RowChangedEvent.zero : RowChangedEvent :=
  { PhysicalTableID := 0, StartTs := 0, CommitTs := 0, Columns := [], PreColumns := [],
    ReplicatingTs := 0 }

/-- The loops `for za := range z.Columns` and `for za := range z.PreColumns`
of `(*RowChangedEvent).Msgsize`. -/
def columnsMsgsize (lib : Msgp) : List (Option Column) → Nat
  | [] => 0
  | none :: rest => lib.NilSize + columnsMsgsize lib rest
  | some c :: rest => c.Msgsize lib + columnsMsgsize lib rest

/-- The method `(*RowChangedEvent).Msgsize`. -/
def RowChangedEvent.Msgsize (lib : Msgp) (z : RowChangedEvent) : Nat :=
  1 + 16 + lib.Int64Size + 8 + lib.Uint64Size + 9 + lib.Uint64Size + 8 + lib.ArrayHeaderSize +
    columnsMsgsize lib z.Columns + (12 + lib.ArrayHeaderSize) +
    columnsMsgsize lib z.PreColumns + (15 + lib.Uint64Size)

/-- The loops over `z.Columns` and `z.PreColumns` of
`(*RowChangedEvent).MarshalMsg`, from index `za` on; `field` is the name the
error is wrapped with. -/
def marshalColumns (lib : Msgp) (field : String) : Nat → List (Option Column) → Bytes →
    Except MsgpError Bytes
  | _, [], o => Except.ok o
  | za, none :: rest, o => marshalColumns lib field (za + 1) rest (lib.AppendNil o)
  | za, some c :: rest, o =>
    match c.MarshalMsg lib o with
    | Except.error err => Except.error (WrapError err [ErrCtx.field field, ErrCtx.index za])
    | Except.ok o => marshalColumns lib field (za + 1) rest o

/-- The method `(*RowChangedEvent).MarshalMsg`. -/
def RowChangedEvent.MarshalMsg (lib : Msgp) (z : RowChangedEvent) (b : Bytes) :
    Except MsgpError Bytes :=
  let o := lib.Require b (z.Msgsize lib)
  let o := o ++ [0x86, 0xaf, 0x50, 0x68, 0x79, 0x73, 0x69, 0x63, 0x61, 0x6c, 0x54, 0x61, 0x62,
    0x6c, 0x65, 0x49, 0x44]
  let o := lib.AppendInt64 o z.PhysicalTableID
  let o := o ++ [0xa7, 0x53, 0x74, 0x61, 0x72, 0x74, 0x54, 0x73]
  let o := lib.AppendUint64 o z.StartTs
  let o := o ++ [0xa8, 0x43, 0x6f, 0x6d, 0x6d, 0x69, 0x74, 0x54, 0x73]
  let o := lib.AppendUint64 o z.CommitTs
  let o := o ++ [0xa7, 0x63, 0x6f, 0x6c, 0x75, 0x6d, 0x6e, 0x73]
  let o := lib.AppendArrayHeader o (z.Columns.length % 4294967296)
  match marshalColumns lib "Columns" 0 z.Columns o with
  | Except.error err => Except.error err
  | Except.ok o =>
    let o := o ++ [0xab, 0x70, 0x72, 0x65, 0x2d, 0x63, 0x6f, 0x6c, 0x75, 0x6d, 0x6e, 0x73]
    let o := lib.AppendArrayHeader o (z.PreColumns.length % 4294967296)
    match marshalColumns lib "PreColumns" 0 z.PreColumns o with
    | Except.error err => Except.error err
    | Except.ok o =>
      let o := o ++ [0xae, 0x72, 0x65, 0x70, 0x6c, 0x69, 0x63, 0x61, 0x74, 0x69, 0x6e, 0x67,
        0x2d, 0x74, 0x73]
      let o := lib.AppendUint64 o z.ReplicatingTs
      Except.ok o

/-- The loops over `z.Columns` and `z.PreColumns` of
`(*RowChangedEvent).UnmarshalMsg`, from index `za` on, over the entries the
slice holds before: the decoded entries and the remaining bytes. -/
def unmarshalColumns (lib : Msgp) (field : String) : Nat → List (Option Column) → Bytes →
    Except MsgpError (List (Option Column) × Bytes)
  | _, [], bts => Except.ok ([], bts)
  | za, entry :: rest, bts =>
    if lib.IsNil bts then
      match lib.ReadNilBytes bts with
      | Except.error err => Except.error err
      | Except.ok bts =>
        match unmarshalColumns lib field (za + 1) rest bts with
        | Except.error err => Except.error err
        | Except.ok (done, bts) => Except.ok (none :: done, bts)
    else
      let target := match entry with
        | none => Column.zero
        | some c => c
      match target.UnmarshalMsg lib bts with
      | Except.error err => Except.error (WrapError err [ErrCtx.field field, ErrCtx.index za])
      | Except.ok (c, bts) =>
        match unmarshalColumns lib field (za + 1) rest bts with
        | Except.error err => Except.error err
        | Except.ok (done, bts) => Except.ok (some c :: done, bts)

/-- One turn of the `switch` of `(*RowChangedEvent).UnmarshalMsg`. -/
def RowChangedEvent.unmarshalField (lib : Msgp) (z : RowChangedEvent) (field bts : Bytes) :
    Except MsgpError (RowChangedEvent × Bytes) :=
  if field = ascii "PhysicalTableID" then
    match lib.ReadInt64Bytes bts with
    | Except.error err => Except.error (WrapError err [ErrCtx.field "PhysicalTableID"])
    | Except.ok (v, bts) => Except.ok ({ z with PhysicalTableID := v }, bts)
  else if field = ascii "StartTs" then
    match lib.ReadUint64Bytes bts with
    | Except.error err => Except.error (WrapError err [ErrCtx.field "StartTs"])
    | Except.ok (v, bts) => Except.ok ({ z with StartTs := v }, bts)
  else if field = ascii "CommitTs" then
    match lib.ReadUint64Bytes bts with
    | Except.error err => Except.error (WrapError err [ErrCtx.field "CommitTs"])
    | Except.ok (v, bts) => Except.ok ({ z with CommitTs := v }, bts)
  else if field = ascii "columns" then
    match lib.ReadArrayHeaderBytes bts with
    | Except.error err => Except.error (WrapError err [ErrCtx.field "Columns"])
    | Except.ok (zb0002, bts) =>
      match unmarshalColumns lib "Columns" 0 (resliceOrMake z.Columns zb0002) bts with
      | Except.error err => Except.error err
      | Except.ok (columns, bts) => Except.ok ({ z with Columns := columns }, bts)
  else if field = ascii "pre-columns" then
    match lib.ReadArrayHeaderBytes bts with
    | Except.error err => Except.error (WrapError err [ErrCtx.field "PreColumns"])
    | Except.ok (zb0003, bts) =>
      match unmarshalColumns lib "PreColumns" 0 (resliceOrMake z.PreColumns zb0003) bts with
      | Except.error err => Except.error err
      | Except.ok (columns, bts) => Except.ok ({ z with PreColumns := columns }, bts)
  else if field = ascii "replicating-ts" then
    match lib.ReadUint64Bytes bts with
    | Except.error err => Except.error (WrapError err [ErrCtx.field "ReplicatingTs"])
    | Except.ok (v, bts) => Except.ok ({ z with ReplicatingTs := v }, bts)
  else
    match lib.Skip bts with
    | Except.error err => Except.error (WrapError err [])
    | Except.ok bts => Except.ok (z, bts)

/-- The loop `for zb0001 > 0` of `(*RowChangedEvent).UnmarshalMsg`. -/
def RowChangedEvent.unmarshalFields (lib : Msgp) : Nat → RowChangedEvent → Bytes →
    Except MsgpError (RowChangedEvent × Bytes)
  | 0, z, bts => Except.ok (z, bts)
  | zb0001 + 1, z, bts =>
    match lib.ReadMapKeyZC bts with
    | Except.error err => Except.error (WrapError err [])
    | Except.ok (field, bts) =>
      match RowChangedEvent.unmarshalField lib z field bts with
      | Except.error err => Except.error err
      | Except.ok (z, bts) => RowChangedEvent.unmarshalFields lib zb0001 z bts

/-- The method `(*RowChangedEvent).UnmarshalMsg`. -/
def RowChangedEvent.UnmarshalMsg (lib : Msgp) (z : RowChangedEvent) (bts : Bytes) :
    Except MsgpError (RowChangedEvent × Bytes) :=
  match lib.ReadMapHeaderBytes bts with
  | Except.error err => Except.error (WrapError err [])
  | Except.ok (zb0001, bts) => RowChangedEvent.unmarshalFields lib zb0001 z bts

/-- The fields of `TxnEvent` the codec reads and writes; `none` is a nil
row. -/
structure TxnEvent where
  ClusterID : Nat
  DispatcherID : Bytes
  Rows : List (Option RowChangedEvent)
  ResolvedTs : Nat
  StartTs : Nat
  CommitTs : Nat
deriving DecidableEq, Repr

/-- The zero `TxnEvent`. -/
def TxnEvent.zero : TxnEvent :=
  { ClusterID := 0, DispatcherID := [], Rows := [], ResolvedTs := 0, StartTs := 0,
    CommitTs := 0 }

/-- The loop `for za0001 := range z.Rows` of `(*TxnEvent).Msgsize`. -/
def rowsMsgsize (lib : Msgp) : List (Option RowChangedEvent) → Nat
  | [] => 0
  | none :: rest => lib.NilSize + rowsMsgsize lib rest
  | some r :: rest => r.Msgsize lib + rowsMsgsize lib rest

/-- The method `(*TxnEvent).Msgsize`. -/
def TxnEvent.Msgsize (lib : Msgp) (z : TxnEvent) : Nat :=
  1 + 11 + lib.Uint64Size + 14 + lib.StringPrefixSize + z.DispatcherID.length + 5 +
    lib.ArrayHeaderSize + rowsMsgsize lib z.Rows +
    (12 + lib.Uint64Size + 9 + lib.Uint64Size + 10 + lib.Uint64Size)

/-- The loop over `z.Rows` of `(*TxnEvent).MarshalMsg`, from index `za` on. -/
def marshalRows (lib : Msgp) : Nat → List (Option RowChangedEvent) → Bytes →
    Except MsgpError Bytes
  | _, [], o => Except.ok o
  | za, none :: rest, o => marshalRows lib (za + 1) rest (lib.AppendNil o)
  | za, some r :: rest, o =>
    match r.MarshalMsg lib o with
    | Except.error err => Except.error (WrapError err [ErrCtx.field "Rows", ErrCtx.index za])
    | Except.ok o => marshalRows lib (za + 1) rest o

/-- The method `(*TxnEvent).MarshalMsg`. -/
def TxnEvent.MarshalMsg (lib : Msgp) (z : TxnEvent) (b : Bytes) : Except MsgpError Bytes :=
  let o := lib.Require b (z.Msgsize lib)
  let o := o ++ [0x86, 0xaa, 0x63, 0x6c, 0x75, 0x73, 0x74, 0x65, 0x72, 0x2d, 0x69, 0x64]
  let o := lib.AppendUint64 o z.ClusterID
  let o := o ++ [0xad, 0x64, 0x69, 0x73, 0x70, 0x61, 0x74, 0x63, 0x68, 0x65, 0x72, 0x2d, 0x69,
    0x64]
  let o := lib.AppendString o z.DispatcherID
  let o := o ++ [0xa4, 0x72, 0x6f, 0x77, 0x73]
  let o := lib.AppendArrayHeader o (z.Rows.length % 4294967296)
  match marshalRows lib 0 z.Rows o with
  | Except.error err => Except.error err
  | Except.ok o =>
    let o := o ++ [0xab, 0x72, 0x65, 0x73, 0x6f, 0x6c, 0x76, 0x65, 0x64, 0x2d, 0x74, 0x73]
    let o := lib.AppendUint64 o z.ResolvedTs
    let o := o ++ [0xa8, 0x73, 0x74, 0x61, 0x72, 0x74, 0x2d, 0x74, 0x73]
    let o := lib.AppendUint64 o z.StartTs
    let o := o ++ [0xa9, 0x63, 0x6f, 0x6d, 0x6d, 0x69, 0x74, 0x2d, 0x74, 0x73]
    let o := lib.AppendUint64 o z.CommitTs
    Except.ok o

/-- The loop over `z.Rows` of `(*TxnEvent).UnmarshalMsg`, from index `za` on,
over the entries the slice holds before. -/
def unmarshalRows (lib : Msgp) : Nat → List (Option RowChangedEvent) → Bytes →
    Except MsgpError (List (Option RowChangedEvent) × Bytes)
  | _, [], bts => Except.ok ([], bts)
  | za, entry :: rest, bts =>
    if lib.IsNil bts then
      match lib.ReadNilBytes bts with
      | Except.error err => Except.error err
      | Except.ok bts =>
        match unmarshalRows lib (za + 1) rest bts with
        | Except.error err => Except.error err
        | Except.ok (done, bts) => Except.ok (none :: done, bts)
    else
      let target := match entry with
        | none => RowChangedEvent.zero
        | some r => r
      match target.UnmarshalMsg lib bts with
      | Except.error err => Except.error (WrapError err [ErrCtx.field "Rows", ErrCtx.index za])
      | Except.ok (r, bts) =>
        match unmarshalRows lib (za + 1) rest bts with
        | Except.error err => Except.error err
        | Except.ok (done, bts) => Except.ok (some r :: done, bts)

/-- One turn of the `switch` of `(*TxnEvent).UnmarshalMsg`. -/
def TxnEvent.unmarshalField (lib : Msgp) (z : TxnEvent) (field bts : Bytes) :
    Except MsgpError (TxnEvent × Bytes) :=
  if field = ascii "cluster-id" then
    match lib.ReadUint64Bytes bts with
    | Except.error err => Except.error (WrapError err [ErrCtx.field "ClusterID"])
    | Except.ok (v, bts) => Except.ok ({ z with ClusterID := v }, bts)
  else if field = ascii "dispatcher-id" then
    match lib.ReadStringBytes bts with
    | Except.error err => Except.error (WrapError err [ErrCtx.field "DispatcherID"])
    | Except.ok (v, bts) => Except.ok ({ z with DispatcherID := v }, bts)
  else if field = ascii "rows" then
    match lib.ReadArrayHeaderBytes bts with
    | Except.error err => Except.error (WrapError err [ErrCtx.field "Rows"])
    | Except.ok (zb0002, bts) =>
      match unmarshalRows lib 0 (resliceOrMake z.Rows zb0002) bts with
      | Except.error err => Except.error err
      | Except.ok (rows, bts) => Except.ok ({ z with Rows := rows }, bts)
  else if field = ascii "resolved-ts" then
    match lib.ReadUint64Bytes bts with
    | Except.error err => Except.error (WrapError err [ErrCtx.field "ResolvedTs"])
    | Except.ok (v, bts) => Except.ok ({ z with ResolvedTs := v }, bts)
  else if field = ascii "start-ts" then
    match lib.ReadUint64Bytes bts with
    | Except.error err => Except.error (WrapError err [ErrCtx.field "StartTs"])
    | Except.ok (v, bts) => Except.ok ({ z with StartTs := v }, bts)
  else if field = ascii "commit-ts" then
    match lib.ReadUint64Bytes bts with
    | Except.error err => Except.error (WrapError err [ErrCtx.field "CommitTs"])
    | Except.ok (v, bts) => Except.ok ({ z with CommitTs := v }, bts)
  else
    match lib.Skip bts with
    | Except.error err => Except.error (WrapError err [])
    | Except.ok bts => Except.ok (z, bts)

/-- The loop `for zb0001 > 0` of `(*TxnEvent).UnmarshalMsg`. -/
def TxnEvent.unmarshalFields (lib : Msgp) : Nat → TxnEvent → Bytes →
    Except MsgpError (TxnEvent × Bytes)
  | 0, z, bts => Except.ok (z, bts)
  | zb0001 + 1, z, bts =>
    match lib.ReadMapKeyZC bts with
    | Except.error err => Except.error (WrapError err [])
    | Except.ok (field, bts) =>
      match TxnEvent.unmarshalField lib z field bts with
      | Except.error err => Except.error err
      | Except.ok (z, bts) => TxnEvent.unmarshalFields lib zb0001 z bts

/-- The method `(*TxnEvent).UnmarshalMsg`: the receiver afterwards and the
remaining bytes `o`. -/
def TxnEvent.UnmarshalMsg (lib : Msgp) (z : TxnEvent) (bts : Bytes) :
    Except MsgpError (TxnEvent × Bytes) :=
  match lib.ReadMapHeaderBytes bts with
  | Except.error err => Except.error (WrapError err [])
  | Except.ok (zb0001, bts) => TxnEvent.unmarshalFields lib zb0001 z bts

/-- The bytes `msgp.AppendString` writes for a string. -/
def Msgp.encString (lib : Msgp) (s : Bytes) : Bytes := lib.AppendString [] s

/-- The bytes `msgp.AppendByte` writes for a byte. -/
def Msgp.encByte (lib : Msgp) (v : Nat) : Bytes := lib.AppendByte [] v

/-- The bytes `msgp.AppendInt64` writes for a number. -/
def Msgp.encInt64 (lib : Msgp) (v : Int) : Bytes := lib.AppendInt64 [] v

/-- The bytes `msgp.AppendUint64` writes for a number. -/
def Msgp.encUint64 (lib : Msgp) (v : Nat) : Bytes := lib.AppendUint64 [] v

/-- The bytes `msgp.AppendArrayHeader` writes for a length. -/
def Msgp.encArrayHeader (lib : Msgp) (n : Nat) : Bytes := lib.AppendArrayHeader [] n

/-- The bytes `msgp.AppendNil` writes. -/
def Msgp.encNil (lib : Msgp) : Bytes := lib.AppendNil []

/-- A string the library can carry: fewer than `2^32` bytes, each below 256. -/
def IsString (s : Bytes) : Prop := s.length < 4294967296 ∧ ∀ x ∈ s, x < 256

/-- What the round trip of a column value needs of a library: `AppendIntf`
writes the value, and `ReadIntfBytes` reads the same value, of the same
dynamic type, back from these bytes, whatever follows them. -/
def Msgp.ReadsBack (lib : Msgp) (v : Intf) : Prop :=
  ∃ vb, lib.AppendIntf [] v = Except.ok vb ∧
    ∀ rest, lib.ReadIntfBytes (vb ++ rest) = Except.ok (v, rest)

/-- The contract of the library the round trip rests on: `Require` keeps the
bytes, every `Append…` call returns its buffer followed by the encoding of
the value, every reader reads back what the matching `Append…` wrote and
returns what follows it, map headers and map keys are the MessagePack bytes
the generated code writes literally, and a map header is not nil. -/
structure Msgp.Lawful (lib : Msgp) : Prop where
  require : ∀ b n, lib.Require b n = b
  appendString : ∀ o s, lib.AppendString o s = o ++ lib.encString s
  appendByte : ∀ o v, lib.AppendByte o v = o ++ lib.encByte v
  appendInt64 : ∀ o v, lib.AppendInt64 o v = o ++ lib.encInt64 v
  appendUint64 : ∀ o v, lib.AppendUint64 o v = o ++ lib.encUint64 v
  appendArrayHeader : ∀ o n, lib.AppendArrayHeader o n = o ++ lib.encArrayHeader n
  appendNil : ∀ o, lib.AppendNil o = o ++ lib.encNil
  appendIntf : ∀ o v vb, lib.AppendIntf [] v = Except.ok vb →
    lib.AppendIntf o v = Except.ok (o ++ vb)
  flagMarshal : ∀ o f fb, lib.FlagMarshalMsg f [] = Except.ok fb →
    lib.FlagMarshalMsg f o = Except.ok (o ++ fb)
  readMapHeader : ∀ n rest, n < 16 →
    lib.ReadMapHeaderBytes ((0x80 + n) :: rest) = Except.ok (n, rest)
  readMapKey : ∀ key rest, key.length < 32 → (∀ x ∈ key, x < 256) →
    lib.ReadMapKeyZC ((0xa0 + key.length) :: key ++ rest) = Except.ok (key, rest)
  readString : ∀ s rest, IsString s →
    lib.ReadStringBytes (lib.encString s ++ rest) = Except.ok (s, rest)
  readByte : ∀ v rest, v < 256 →
    lib.ReadByteBytes (lib.encByte v ++ rest) = Except.ok (v, rest)
  readInt64 : ∀ v rest, -9223372036854775808 ≤ v → v < 9223372036854775808 →
    lib.ReadInt64Bytes (lib.encInt64 v ++ rest) = Except.ok (v, rest)
  readUint64 : ∀ v rest, v < 18446744073709551616 →
    lib.ReadUint64Bytes (lib.encUint64 v ++ rest) = Except.ok (v, rest)
  readArrayHeader : ∀ n rest, n < 4294967296 →
    lib.ReadArrayHeaderBytes (lib.encArrayHeader n ++ rest) = Except.ok (n, rest)
  isNil : ∀ rest, lib.IsNil (lib.encNil ++ rest) = true
  readNil : ∀ rest, lib.ReadNilBytes (lib.encNil ++ rest) = Except.ok rest
  isNil_map : ∀ n rest, n < 16 → lib.IsNil ((0x80 + n) :: rest) = false
  flag : ∀ f, f < 18446744073709551616 →
    ∃ fb, lib.FlagMarshalMsg f [] = Except.ok fb ∧
      ∀ prior rest, lib.FlagUnmarshalMsg prior (fb ++ rest) = Except.ok (f, rest)

/-- The size contract of the library: the size constants bound what the
`Append…` calls add to the buffer, `FlagMsgsize` and `GuessSize` bound what
the flag codec and `AppendIntf` add, and `Require` adds nothing. -/
structure Msgp.SizeBounds (lib : Msgp) : Prop where
  require : ∀ b n, (lib.Require b n).length = b.length
  string : ∀ o s, (lib.AppendString o s).length ≤ o.length + (lib.StringPrefixSize + s.length)
  byte : ∀ o v, (lib.AppendByte o v).length ≤ o.length + lib.ByteSize
  int64 : ∀ o v, (lib.AppendInt64 o v).length ≤ o.length + lib.Int64Size
  uint64 : ∀ o v, (lib.AppendUint64 o v).length ≤ o.length + lib.Uint64Size
  arrayHeader : ∀ o n, (lib.AppendArrayHeader o n).length ≤ o.length + lib.ArrayHeaderSize
  nil : ∀ o, (lib.AppendNil o).length ≤ o.length + lib.NilSize
  intf : ∀ o v out, lib.AppendIntf o v = Except.ok out →
    out.length ≤ o.length + lib.GuessSize v
  flag : ∀ o f out, lib.FlagMarshalMsg f o = Except.ok out →
    out.length ≤ o.length + lib.FlagMsgsize f

/-- A column within the ranges of its Go types: strings the library can
carry, a byte, 64-bit flags, and a value the library reads back as
written. -/
def Column.Fits (lib : Msgp) (c : Column) : Prop :=
  IsString c.Name ∧ c.Typ < 256 ∧ IsString c.Charset ∧ IsString c.Collation ∧
    c.Flag < 18446744073709551616 ∧ lib.ReadsBack c.Value

/-- A row within the ranges of its Go types, with fewer than `2^32` columns
and every column fitting. -/
def RowChangedEvent.Fits (lib : Msgp) (r : RowChangedEvent) : Prop :=
  -9223372036854775808 ≤ r.PhysicalTableID ∧ r.PhysicalTableID < 9223372036854775808 ∧
    r.StartTs < 18446744073709551616 ∧ r.CommitTs < 18446744073709551616 ∧
    r.ReplicatingTs < 18446744073709551616 ∧
    r.Columns.length < 4294967296 ∧ r.PreColumns.length < 4294967296 ∧
    (∀ c, some c ∈ r.Columns → c.Fits lib) ∧ (∀ c, some c ∈ r.PreColumns → c.Fits lib)

/-- A transaction event within the ranges of its Go types, with fewer than
`2^32` rows and every row fitting. -/
def TxnEvent.Fits (lib : Msgp) (e : TxnEvent) : Prop :=
  e.ClusterID < 18446744073709551616 ∧ IsString e.DispatcherID ∧
    e.ResolvedTs < 18446744073709551616 ∧ e.StartTs < 18446744073709551616 ∧
    e.CommitTs < 18446744073709551616 ∧ e.Rows.length < 4294967296 ∧
    (∀ r, some r ∈ e.Rows → r.Fits lib)

/-- The two big-endian bytes of a number below `2^16`. -/
def be16 (v : Nat) : Bytes := [v / 256 % 256, v % 256]

/-- The four big-endian bytes of a number below `2^32`. -/
def be32 (v : Nat) : Bytes := [v / 16777216 % 256, v / 65536 % 256, v / 256 % 256, v % 256]

/-- The eight big-endian bytes of a number below `2^64`. -/
def be64 (v : Nat) : Bytes :=
  [v / 72057594037927936 % 256, v / 281474976710656 % 256, v / 1099511627776 % 256,
    v / 4294967296 % 256, v / 16777216 % 256, v / 65536 % 256, v / 256 % 256, v % 256]

/-- Reads `n` big-endian bytes onto `acc`. -/
def readBE : Nat → Nat → Bytes → Option (Nat × Bytes)
  | 0, acc, bts => some (acc, bts)
  | _ + 1, _, [] => none
  | n + 1, acc, b :: bts => readBE n (acc * 256 + b) bts

/-- Modelled from the spec: the package `msgp` (`github.com/tinylib/msgp`) is
a library outside the repository; this is its error `ErrShortBytes`. -/
def ErrShortBytes : MsgpError := MsgpError.raw 0

/-- Modelled from the spec: the `TypeError` of the package `msgp` (also built
by `badPrefix`): the lead byte is that of another type. -/
def ErrTypeError : MsgpError := MsgpError.raw 1

/-- Modelled from the spec: the error `ErrUnsupportedType` of the package
`msgp`. -/
def ErrUnsupportedType : MsgpError := MsgpError.raw 2

/-- Modelled from the spec: the error `UintOverflow` of the package `msgp`. -/
def ErrUintOverflow : MsgpError := MsgpError.raw 3

/-- Modelled from the spec: the error `UintBelowZero` of the package `msgp`. -/
def ErrUintBelowZero : MsgpError := MsgpError.raw 4

/-- Modelled from the spec: the error `InvalidPrefixError` of the package
`msgp`. -/
def ErrInvalidPrefix : MsgpError := MsgpError.raw 5

/-- The error that stands for a successful read of an `interface{}` value the
type `Intf` has no constructor for (a map, an array, an extension). -/
def ErrOutsideModel : MsgpError := MsgpError.raw 6

/-- Modelled from the spec: what `msgp.AppendUint64` appends: the shortest of
the MessagePack encodings positive fixint, `uint8` (`0xcc`), `uint16`
(`0xcd`), `uint32` (`0xce`) and `uint64` (`0xcf`). -/
def encUint (u : Nat) : Bytes :=
  if u ≤ 127 then [u]
  else if u ≤ 255 then [0xcc, u]
  else if u ≤ 65535 then 0xcd :: be16 u
  else if u ≤ 4294967295 then 0xce :: be32 u
  else 0xcf :: be64 u

/-- Modelled from the spec: what `msgp.AppendInt64` appends: a positive fixint
up to 127, then `int16` (`0xd1`), `int32` (`0xd2`) or `int64` (`0xd3`); for a
negative number a negative fixint down to -32, then `int8` (`0xd0`), `int16`,
`int32` or `int64`, in two's complement. -/
def encInt (i : Int) : Bytes :=
  if 0 ≤ i then
    if i ≤ 127 then [i.toNat]
    else if i ≤ 32767 then 0xd1 :: be16 i.toNat
    else if i ≤ 2147483647 then 0xd2 :: be32 i.toNat
    else 0xd3 :: be64 i.toNat
  else if -32 ≤ i then [(i + 256).toNat]
  else if -128 ≤ i then [0xd0, (i + 256).toNat]
  else if -32768 ≤ i then 0xd1 :: be16 (i + 65536).toNat
  else if -2147483648 ≤ i then 0xd2 :: be32 (i + 4294967296).toNat
  else 0xd3 :: be64 (i + 18446744073709551616).toNat

/-- Modelled from the spec: the header `msgp.AppendString` writes for a string
of `n` bytes: fixstr (`0xa0 + n`) up to 31, then `str8` (`0xd9`), `str16`
(`0xda`) or `str32` (`0xdb`). -/
def encStrPrefix (n : Nat) : Bytes :=
  if n ≤ 31 then [0xa0 + n]
  else if n ≤ 255 then [0xd9, n]
  else if n ≤ 65535 then 0xda :: be16 n
  else 0xdb :: be32 n

/-- Modelled from the spec: the header `msgp.AppendBytes` writes for a slice of
`n` bytes: `bin8` (`0xc4`), `bin16` (`0xc5`) or `bin32` (`0xc6`). -/
def encBinPrefix (n : Nat) : Bytes :=
  if n ≤ 255 then [0xc4, n]
  else if n ≤ 65535 then 0xc5 :: be16 n
  else 0xc6 :: be32 n

/-- Modelled from the spec: what `msgp.AppendArrayHeader` appends: fixarray
(`0x90 + n`) up to 15, then `array16` (`0xdc`) or `array32` (`0xdd`). -/
def encArrayPrefix (n : Nat) : Bytes :=
  if n ≤ 15 then [0x90 + n]
  else if n ≤ 65535 then 0xdc :: be16 n
  else 0xdd :: be32 n

/-- The number of values of an integer type of the given width. -/
def IntWidth.modulus : IntWidth → Nat
  | IntWidth.w8 => 256
  | IntWidth.w16 => 65536
  | IntWidth.w32 => 4294967296
  | IntWidth.word => 18446744073709551616

/-- Modelled from the spec: the size constant of the package `msgp` for an
integer type of the given width (`Int8Size`, `Int16Size`, `Int32Size`,
`IntSize`). -/
def IntWidth.size : IntWidth → Nat
  | IntWidth.w8 => 2
  | IntWidth.w16 => 3
  | IntWidth.w32 => 5
  | IntWidth.word => 9

/-- The signed number a two's complement bit pattern `u` below `modulus`
stands for. -/
def asSigned (modulus u : Nat) : Int :=
  if 2 * u < modulus then (u : Int) else (u : Int) - (modulus : Int)

/-- Modelled from the spec: `msgp.AppendIntf`, by the dynamic type of the
value: nil, `bool` (`0xc3`, `0xc2`), the floats (`0xcb`, `0xca` and the IEEE
bits), strings and byte slices with their headers, and every integer type
through `AppendInt64` or `AppendUint64` after the conversion to 64 bits; a
type it does not know is an error. -/
def appendIntf (o : Bytes) (v : Intf) : Except MsgpError Bytes :=
  match v with
  | Intf.nil => Except.ok (o ++ [0xc0])
  | Intf.bool b => Except.ok (o ++ [if b then 0xc3 else 0xc2])
  | Intf.int i => Except.ok (o ++ encInt i)
  | Intf.uint u => Except.ok (o ++ encUint u)
  | Intf.str s => Except.ok (o ++ (encStrPrefix s.length ++ s))
  | Intf.bin b => Except.ok (o ++ (encBinPrefix b.length ++ b))
  | Intf.float64 bits => Except.ok (o ++ 0xcb :: be64 bits)
  | Intf.float32 bits => Except.ok (o ++ 0xca :: be32 bits)
  | Intf.sint width i =>
    Except.ok (o ++ encInt (asSigned width.modulus (i % (width.modulus : Int)).toNat))
  | Intf.usint width u => Except.ok (o ++ encUint (u % width.modulus))
  | Intf.other _ => Except.error ErrUnsupportedType

/-- Modelled from the spec: `msgp.GuessSize`, by the dynamic type of the
value; 512 for a type it does not know. -/
def guessSize (v : Intf) : Nat :=
  match v with
  | Intf.nil => 1
  | Intf.bool _ => 1
  | Intf.int _ => 9
  | Intf.uint _ => 9
  | Intf.str s => 5 + s.length
  | Intf.bin b => 5 + b.length
  | Intf.float64 _ => 9
  | Intf.float32 _ => 5
  | Intf.sint width _ => width.size
  | Intf.usint width _ => width.size
  | Intf.other _ => 512

/-- Reads `n` big-endian bytes as a number; too few bytes are
`ErrShortBytes`. -/
def readUintN (n : Nat) (bts : Bytes) : Except MsgpError (Nat × Bytes) :=
  match readBE n 0 bts with
  | none => Except.error ErrShortBytes
  | some r => Except.ok r

/-- Takes the next `n` bytes; too few bytes are `ErrShortBytes`. -/
def readBytesN (n : Nat) (bts : Bytes) : Except MsgpError (Bytes × Bytes) :=
  if n ≤ bts.length then Except.ok (bts.take n, bts.drop n)
  else Except.error ErrShortBytes

/-- Modelled from the spec: `msgp.ReadUint64Bytes`: it accepts a positive
fixint and every `uint` and `int` encoding whose value is not negative. -/
def readUint64Bytes (b : Bytes) : Except MsgpError (Nat × Bytes) :=
  match b with
  | [] => Except.error ErrShortBytes
  | lead :: rest =>
    if lead < 0x80 then Except.ok (lead, rest)
    else if lead = 0xcc then readUintN 1 rest
    else if lead = 0xcd then readUintN 2 rest
    else if lead = 0xce then readUintN 4 rest
    else if lead = 0xcf then readUintN 8 rest
    else if lead = 0xd0 then
      match readUintN 1 rest with
      | Except.error err => Except.error err
      | Except.ok (u, o) => if u < 128 then Except.ok (u, o) else Except.error ErrUintBelowZero
    else if lead = 0xd1 then
      match readUintN 2 rest with
      | Except.error err => Except.error err
      | Except.ok (u, o) => if u < 32768 then Except.ok (u, o) else Except.error ErrUintBelowZero
    else if lead = 0xd2 then
      match readUintN 4 rest with
      | Except.error err => Except.error err
      | Except.ok (u, o) =>
        if u < 2147483648 then Except.ok (u, o) else Except.error ErrUintBelowZero
    else if lead = 0xd3 then
      match readUintN 8 rest with
      | Except.error err => Except.error err
      | Except.ok (u, o) =>
        if u < 9223372036854775808 then Except.ok (u, o) else Except.error ErrUintBelowZero
    else if 0xe0 ≤ lead ∧ lead < 0x100 then Except.error ErrUintBelowZero
    else Except.error ErrTypeError

/-- Modelled from the spec: `msgp.ReadInt64Bytes`: it accepts the fixints and
every `int` and `uint` encoding whose value is within `int64`. -/
def readInt64Bytes (b : Bytes) : Except MsgpError (Int × Bytes) :=
  match b with
  | [] => Except.error ErrShortBytes
  | lead :: rest =>
    if lead < 0x80 then Except.ok ((lead : Int), rest)
    else if 0xe0 ≤ lead ∧ lead < 0x100 then Except.ok ((lead : Int) - 256, rest)
    else if lead = 0xd0 then (readUintN 1 rest).map (fun r => (asSigned 256 r.1, r.2))
    else if lead = 0xd1 then (readUintN 2 rest).map (fun r => (asSigned 65536 r.1, r.2))
    else if lead = 0xd2 then (readUintN 4 rest).map (fun r => (asSigned 4294967296 r.1, r.2))
    else if lead = 0xd3 then
      (readUintN 8 rest).map (fun r => (asSigned 18446744073709551616 r.1, r.2))
    else if lead = 0xcc then (readUintN 1 rest).map (fun r => ((r.1 : Int), r.2))
    else if lead = 0xcd then (readUintN 2 rest).map (fun r => ((r.1 : Int), r.2))
    else if lead = 0xce then (readUintN 4 rest).map (fun r => ((r.1 : Int), r.2))
    else if lead = 0xcf then
      match readUintN 8 rest with
      | Except.error err => Except.error err
      | Except.ok (u, o) =>
        if u > 9223372036854775807 then Except.error ErrUintOverflow
        else Except.ok ((u : Int), o)
    else Except.error ErrTypeError

/-- Modelled from the spec: `msgp.ReadByteBytes`, which is `ReadUint8Bytes`:
`ReadUint64Bytes` and a range check. -/
def readByteBytes (b : Bytes) : Except MsgpError (Nat × Bytes) :=
  match readUint64Bytes b with
  | Except.error err => Except.error err
  | Except.ok (v, o) => if v > 255 then Except.error ErrUintOverflow else Except.ok (v, o)

/-- Modelled from the spec: `msgp.ReadStringZC`, which `ReadStringBytes`
converts to a string: the header of a fixstr, `str8`, `str16` or `str32` and
that many bytes. -/
def readStringZC (b : Bytes) : Except MsgpError (Bytes × Bytes) :=
  match b with
  | [] => Except.error ErrShortBytes
  | lead :: rest =>
    if 0xa0 ≤ lead ∧ lead ≤ 0xbf then readBytesN (lead - 0xa0) rest
    else if lead = 0xd9 then
      match readUintN 1 rest with
      | Except.error err => Except.error err
      | Except.ok (n, rest) => readBytesN n rest
    else if lead = 0xda then
      match readUintN 2 rest with
      | Except.error err => Except.error err
      | Except.ok (n, rest) => readBytesN n rest
    else if lead = 0xdb then
      match readUintN 4 rest with
      | Except.error err => Except.error err
      | Except.ok (n, rest) => readBytesN n rest
    else Except.error ErrTypeError

/-- Modelled from the spec: `msgp.ReadBytesZC` and `msgp.ReadBytesBytes`: the
header of a `bin8`, `bin16` or `bin32` and that many bytes. -/
def readBytesZC (b : Bytes) : Except MsgpError (Bytes × Bytes) :=
  match b with
  | [] => Except.error ErrShortBytes
  | lead :: rest =>
    if lead = 0xc4 then
      match readUintN 1 rest with
      | Except.error err => Except.error err
      | Except.ok (n, rest) => readBytesN n rest
    else if lead = 0xc5 then
      match readUintN 2 rest with
      | Except.error err => Except.error err
      | Except.ok (n, rest) => readBytesN n rest
    else if lead = 0xc6 then
      match readUintN 4 rest with
      | Except.error err => Except.error err
      | Except.ok (n, rest) => readBytesN n rest
    else Except.error ErrTypeError

/-- Modelled from the spec: `msgp.ReadMapKeyZC`: `ReadStringZC`, and
`ReadBytesZC` when the key is encoded as a byte slice. -/
def readMapKeyZC (b : Bytes) : Except MsgpError (Bytes × Bytes) :=
  match b with
  | [] => Except.error ErrShortBytes
  | lead :: _ =>
    if lead = 0xc4 ∨ lead = 0xc5 ∨ lead = 0xc6 then readBytesZC b else readStringZC b

/-- Modelled from the spec: `msgp.ReadMapHeaderBytes`: a fixmap
(`0x80 + n`), `map16` (`0xde`) or `map32` (`0xdf`). -/
def readMapHeaderBytes (b : Bytes) : Except MsgpError (Nat × Bytes) :=
  match b with
  | [] => Except.error ErrShortBytes
  | lead :: rest =>
    if 0x80 ≤ lead ∧ lead ≤ 0x8f then Except.ok (lead - 0x80, rest)
    else if lead = 0xde then readUintN 2 rest
    else if lead = 0xdf then readUintN 4 rest
    else Except.error ErrTypeError

/-- Modelled from the spec: `msgp.ReadArrayHeaderBytes`: a fixarray
(`0x90 + n`), `array16` (`0xdc`) or `array32` (`0xdd`). -/
def readArrayHeaderBytes (b : Bytes) : Except MsgpError (Nat × Bytes) :=
  match b with
  | [] => Except.error ErrShortBytes
  | lead :: rest =>
    if 0x90 ≤ lead ∧ lead ≤ 0x9f then Except.ok (lead - 0x90, rest)
    else if lead = 0xdc then readUintN 2 rest
    else if lead = 0xdd then readUintN 4 rest
    else Except.error ErrTypeError

/-- Modelled from the spec: `msgp.ReadNilBytes`. -/
def readNilBytes (b : Bytes) : Except MsgpError Bytes :=
  match b with
  | [] => Except.error ErrShortBytes
  | lead :: rest => if lead = 0xc0 then Except.ok rest else Except.error ErrTypeError

/-- Modelled from the spec: `msgp.ReadIntfBytes`: the reader is chosen by the
type of the lead byte (`NextType`), so every `int` encoding, the fixints
among them, is read as an `int64` and every `uint` encoding as a `uint64`.
Maps, arrays and extensions are outside `Intf`. -/
def readIntfBytes (b : Bytes) : Except MsgpError (Intf × Bytes) :=
  match b with
  | [] => Except.error ErrShortBytes
  | lead :: rest =>
    if lead < 0x80 ∨ (0xe0 ≤ lead ∧ lead < 0x100) ∨ (0xd0 ≤ lead ∧ lead ≤ 0xd3) then
      (readInt64Bytes b).map (fun r => (Intf.int r.1, r.2))
    else if 0xcc ≤ lead ∧ lead ≤ 0xcf then
      (readUint64Bytes b).map (fun r => (Intf.uint r.1, r.2))
    else if lead = 0xc0 then Except.ok (Intf.nil, rest)
    else if lead = 0xc2 then Except.ok (Intf.bool false, rest)
    else if lead = 0xc3 then Except.ok (Intf.bool true, rest)
    else if lead = 0xca then (readUintN 4 rest).map (fun r => (Intf.float32 r.1, r.2))
    else if lead = 0xcb then (readUintN 8 rest).map (fun r => (Intf.float64 r.1, r.2))
    else if (0xa0 ≤ lead ∧ lead ≤ 0xbf) ∨ (0xd9 ≤ lead ∧ lead ≤ 0xdb) then
      (readStringZC b).map (fun r => (Intf.str r.1, r.2))
    else if 0xc4 ≤ lead ∧ lead ≤ 0xc6 then
      (readBytesZC b).map (fun r => (Intf.bin r.1, r.2))
    else if lead = 0xc1 ∨ 0x100 ≤ lead then Except.error ErrInvalidPrefix
    else Except.error ErrOutsideModel

/-- Modelled from the spec: `getSize` of the package `msgp`: the number of
bytes the next object takes without the objects nested in it, and the number
of nested objects that follow. -/
def getSize (b : Bytes) : Except MsgpError (Nat × Nat) :=
  match b with
  | [] => Except.error ErrShortBytes
  | lead :: rest =>
    if lead < 0x80 then Except.ok (1, 0)
    else if lead ≤ 0x8f then Except.ok (1, 2 * (lead - 0x80))
    else if lead ≤ 0x9f then Except.ok (1, lead - 0x90)
    else if lead ≤ 0xbf then Except.ok (1 + (lead - 0xa0), 0)
    else if lead = 0xc0 ∨ lead = 0xc2 ∨ lead = 0xc3 then Except.ok (1, 0)
    else if lead = 0xc4 then (readUintN 1 rest).map (fun r => (2 + r.1, 0))
    else if lead = 0xc5 then (readUintN 2 rest).map (fun r => (3 + r.1, 0))
    else if lead = 0xc6 then (readUintN 4 rest).map (fun r => (5 + r.1, 0))
    else if lead = 0xc7 then (readUintN 1 rest).map (fun r => (3 + r.1, 0))
    else if lead = 0xc8 then (readUintN 2 rest).map (fun r => (4 + r.1, 0))
    else if lead = 0xc9 then (readUintN 4 rest).map (fun r => (6 + r.1, 0))
    else if lead = 0xca ∨ lead = 0xce ∨ lead = 0xd2 then Except.ok (5, 0)
    else if lead = 0xcb ∨ lead = 0xcf ∨ lead = 0xd3 then Except.ok (9, 0)
    else if lead = 0xcc ∨ lead = 0xd0 then Except.ok (2, 0)
    else if lead = 0xcd ∨ lead = 0xd1 then Except.ok (3, 0)
    else if lead = 0xd4 then Except.ok (3, 0)
    else if lead = 0xd5 then Except.ok (4, 0)
    else if lead = 0xd6 then Except.ok (6, 0)
    else if lead = 0xd7 then Except.ok (10, 0)
    else if lead = 0xd8 then Except.ok (18, 0)
    else if lead = 0xd9 then (readUintN 1 rest).map (fun r => (2 + r.1, 0))
    else if lead = 0xda then (readUintN 2 rest).map (fun r => (3 + r.1, 0))
    else if lead = 0xdb then (readUintN 4 rest).map (fun r => (5 + r.1, 0))
    else if lead = 0xdc then (readUintN 2 rest).map (fun r => (3, r.1))
    else if lead = 0xdd then (readUintN 4 rest).map (fun r => (5, r.1))
    else if lead = 0xde then (readUintN 2 rest).map (fun r => (3, 2 * r.1))
    else if lead = 0xdf then (readUintN 4 rest).map (fun r => (5, 2 * r.1))
    else if 0xe0 ≤ lead ∧ lead < 0x100 then Except.ok (1, 0)
    else Except.error ErrInvalidPrefix

/-- Modelled from the spec: the recursion of `msgp.Skip` over `pending`
objects; every turn drops at least one byte, so `fuel` above the number of
bytes is never used up. -/
def skipObjects : Nat → Nat → Bytes → Except MsgpError Bytes
  | _, 0, b => Except.ok b
  | 0, _ + 1, _ => Except.error ErrShortBytes
  | fuel + 1, pending + 1, b =>
    match getSize b with
    | Except.error err => Except.error err
    | Except.ok (sz, asz) =>
      if b.length < sz then Except.error ErrShortBytes
      else skipObjects fuel (pending + asz) (b.drop sz)

/-- Modelled from the spec: the package `msgp` of `github.com/tinylib/msgp`
and the generated codec of `ColumnFlagType` (a `uint64`: `AppendUint64`,
`ReadUint64Bytes`, `Uint64Size`), neither of which is among the embedded
sources: the size constants and the `Append…` and `Read…Bytes` functions
with the MessagePack encodings they choose. `Require` only grows the
capacity. -/
def msgp : Msgp :=
  { StringPrefixSize := 5
    ByteSize := 2
    Int64Size := 9
    Uint64Size := 9
    ArrayHeaderSize := 5
    NilSize := 1
    GuessSize := guessSize
    Require := fun b _ => b
    AppendString := fun o s => o ++ (encStrPrefix s.length ++ s)
    AppendByte := fun o v => o ++ encUint (v % 256)
    AppendInt64 := fun o v => o ++ encInt v
    AppendUint64 := fun o v => o ++ encUint v
    AppendArrayHeader := fun o n => o ++ encArrayPrefix n
    AppendNil := fun o => o ++ [0xc0]
    AppendIntf := appendIntf
    ReadMapHeaderBytes := readMapHeaderBytes
    ReadMapKeyZC := readMapKeyZC
    ReadStringBytes := readStringZC
    ReadByteBytes := readByteBytes
    ReadInt64Bytes := readInt64Bytes
    ReadUint64Bytes := readUint64Bytes
    ReadArrayHeaderBytes := readArrayHeaderBytes
    ReadIntfBytes := readIntfBytes
    IsNil := fun bts =>
      match bts with
      | [] => false
      | t :: _ => t == 0xc0
    ReadNilBytes := readNilBytes
    Skip := fun b => skipObjects (b.length + 1) 1 b
    FlagMsgsize := fun _ => 9
    FlagMarshalMsg := fun f o => Except.ok (o ++ encUint f)
    FlagUnmarshalMsg := fun _ bts =>
      match readUint64Bytes bts with
      | Except.error err => Except.error (WrapError err [])
      | Except.ok r => Except.ok r }

/-- A column value the library reads back as it was written: nil, a `bool`,
an `int64`, a `float64` or `float32`, a string or byte slice shorter than
`2^32`, or a `uint64` of at least 128.  A `uint64` below 128 is written as a
positive fixint, which is read as an `int64`; the narrower integer types,
`int` and `uint` are read as `int64` or `uint64`. -/
def Intf.Native : Intf → Prop
  | Intf.nil => True
  | Intf.bool _ => True
  | Intf.int v => -9223372036854775808 ≤ v ∧ v < 9223372036854775808
  | Intf.uint v => 128 ≤ v ∧ v < 18446744073709551616
  | Intf.str s => IsString s
  | Intf.bin b => IsString b
  | Intf.float64 bits => bits < 18446744073709551616
  | Intf.float32 bits => bits < 4294967296
  | Intf.sint _ _ => False
  | Intf.usint _ _ => False
  | Intf.other _ => False

/-- A value within the range of its Go type. -/
def Intf.InRange : Intf → Prop
  | Intf.nil => True
  | Intf.bool _ => True
  | Intf.int v => -9223372036854775808 ≤ v ∧ v < 9223372036854775808
  | Intf.uint v => v < 18446744073709551616
  | Intf.str s => IsString s
  | Intf.bin b => IsString b
  | Intf.float64 bits => bits < 18446744073709551616
  | Intf.float32 bits => bits < 4294967296
  | Intf.sint width v => -(width.modulus : Int) ≤ 2 * v ∧ 2 * v < (width.modulus : Int)
  | Intf.usint width v => v < width.modulus
  | Intf.other _ => True

/-- A column within the ranges of its Go types whose value the library reads
back as written. -/
def Column.Native (c : Column) : Prop :=
  IsString c.Name ∧ c.Typ < 256 ∧ IsString c.Charset ∧ IsString c.Collation ∧
    c.Flag < 18446744073709551616 ∧ c.Value.Native

/-- A row within the ranges of its Go types, with fewer than `2^32` columns,
whose column values the library reads back as written. -/
def RowChangedEvent.Native (r : RowChangedEvent) : Prop :=
  -9223372036854775808 ≤ r.PhysicalTableID ∧ r.PhysicalTableID < 9223372036854775808 ∧
    r.StartTs < 18446744073709551616 ∧ r.CommitTs < 18446744073709551616 ∧
    r.ReplicatingTs < 18446744073709551616 ∧
    r.Columns.length < 4294967296 ∧ r.PreColumns.length < 4294967296 ∧
    (∀ c, some c ∈ r.Columns → c.Native) ∧ (∀ c, some c ∈ r.PreColumns → c.Native)

/-- A transaction event within the ranges of its Go types, with fewer than
`2^32` rows, whose column values the library reads back as written. -/
def TxnEvent.Native (e : TxnEvent) : Prop :=
  e.ClusterID < 18446744073709551616 ∧ IsString e.DispatcherID ∧
    e.ResolvedTs < 18446744073709551616 ∧ e.StartTs < 18446744073709551616 ∧
    e.CommitTs < 18446744073709551616 ∧ e.Rows.length < 4294967296 ∧
    (∀ r, some r ∈ e.Rows → r.Native)

/-- A sample column: name `id`, type 3, a flag set, the `uint64` value 7. -/
def sampleColumn : Column :=
  { Name := ascii "id", Typ := 3, Charset := [], Collation := ascii "utf8mb4_bin", Flag := 5,
    Value := Intf.uint 7 }

/-- A sample row with a nil pre-column. -/
def sampleRow : RowChangedEvent :=
  { PhysicalTableID := -4, StartTs := 100, CommitTs := 101, Columns := [some sampleColumn],
    PreColumns := [none, some { sampleColumn with Value := Intf.str (ascii "x") }],
    ReplicatingTs := 99 }

/-- A sample transaction event with a nil row. -/
def sampleTxnEvent : TxnEvent :=
  { ClusterID := 1, DispatcherID := ascii "d-1", Rows := [some sampleRow, none],
    ResolvedTs := 90, StartTs := 100, CommitTs := 101 }

/-- A sample column of the given name, flags and value. -/
def columnOf (name : String) (flag : ColumnFlagType) (value : Intf) : Column :=
  { Name := ascii name, Typ := 3, Charset := [], Collation := ascii "utf8mb4_bin", Flag := flag,
    Value := value }

/-- A sample row whose values the library reads back as written: the `int64`
values 7 and -300, the `uint64` value 200, a string, a byte slice, a `bool`,
the `float64` 1.5 and nil, with a nil pre-column. -/
def nativeRow : RowChangedEvent :=
  { PhysicalTableID := -4, StartTs := 100, CommitTs := 443000000000000000,
    Columns := [some (columnOf "id" 5 (Intf.int 7)), some (columnOf "a" 0 (Intf.uint 200)),
      some (columnOf "b" 0 (Intf.int (-300))), some (columnOf "c" 0 (Intf.bin [0, 255])),
      some (columnOf "d" 0 (Intf.bool true)),
      some (columnOf "e" 256 (Intf.float64 4609434218613702656)),
      some (columnOf "f" 0 Intf.nil)],
    PreColumns := [none, some (columnOf "id" 5 (Intf.str (ascii "x")))],
    ReplicatingTs := 99 }

/-- A sample transaction event of the row `nativeRow` and a nil row. -/
def nativeTxnEvent : TxnEvent :=
  { ClusterID := 1, DispatcherID := ascii "d-1", Rows := [some nativeRow, none],
    ResolvedTs := 90, StartTs := 100, CommitTs := 443000000000000000 }


/-! ## Schema store: the readers that take the mutex -/

/-- The method `getAllPhysicalTables`, with the lock calls as written;
`loadAllPhysicalTablesInSnap` (not among the embedded sources) reads the disk
snapshot for the given `gcTs` and `snapTs`. -/
def persistentStorage.getAllPhysicalTables (p : persistentStorage)
    (loadAllPhysicalTablesInSnap : Nat → Nat → Except StoreError (List Table))
    (snapTs : Nat) : StoreResult (Except StoreError (List Table)) :=
  match p.Lock with
  | Except.error e => Except.error e
  | Except.ok p1 =>
    if snapTs < p1.gcTs then Except.ok (p1, Except.error StoreError.snapTsSmallerThanGcTs)
    else
      match p1.Unlock with
      | Except.error e => Except.error e
      | Except.ok p2 => Except.ok (p2, loadAllPhysicalTablesInSnap p1.gcTs snapTs)

/-- The method `getTableInfo`, with the lock calls as written; `getTableInfo`
of the versioned store (not among the embedded sources) is the argument
`storeGetTableInfo`. -/
def persistentStorage.getTableInfo (p : persistentStorage)
    (storeGetTableInfo : versionedTableInfoStore → Nat → Except StoreError TableInfo)
    (tableID : Int) (ts : Nat) : StoreResult (Except StoreError TableInfo) :=
  match p.Lock with
  | Except.error e => Except.error e
  | Except.ok p1 =>
    match p1.tableInfoStoreMap tableID with
    | none => Except.ok (p1, Except.error StoreError.tableNotFound)
    | some store =>
      match p1.Unlock with
      | Except.error e => Except.error e
      | Except.ok p2 => Except.ok (p2, storeGetTableInfo store ts)

/-- The table map and the database map agree: every table of `tableMap` is in
the `Tables` set of the database its `SchemaID` names, and every member of a
database's `Tables` set is in `tableMap` with that schema id. -/
def persistentStorage.MapsConsistent (p : persistentStorage) : Prop :=
  (∀ t info, p.tableMap t = some info →
    ∃ db, p.databaseMap info.SchemaID = some db ∧ db.Tables t = true) ∧
  (∀ s db t, p.databaseMap s = some db → db.Tables t = true →
    ∃ info, p.tableMap t = some info ∧ info.SchemaID = s)

/-- The event that drops database 1 at timestamp 50. -/
def dropSchemaOne : PersistedDDLEvent :=
  ddlEventOf ActionType.ActionDropSchema 1 0 50

/-- The event that truncates table 7 of database 1 at timestamp 50; the new
table has the id 8. -/
def truncateSeven : PersistedDDLEvent :=
  { ddlEventOf ActionType.ActionTruncateTable 1 7 50 with
    TableInfo := some { ID := 8, Name := "t" } }

/-! ## Dispatcher: handling a batch of events -/

/-- An event handed to `HandleEvents`, by what `GetType()` answers, with what
the method reads from it: `GetCommitTs()`, the `ResolvedTs` of a resolved
event, and the block event itself for a DDL or a sync point (whose `typ` is
that of the constructor).  `Unexpected` is any other type. -/
inductive DispatcherEvent where
  | ResolvedEvent (CommitTs ResolvedTs : Nat)
  | DMLEvent (CommitTs : Nat)
  | DDLEvent (event : BlockEvent)
  | SyncPointEvent (event : BlockEvent)
  | HandshakeEvent (CommitTs : Nat)
  | Unexpected (CommitTs : Nat)
deriving DecidableEq, Repr

/-- What `event.GetCommitTs()` answers. -/
def DispatcherEvent.GetCommitTs : DispatcherEvent → Nat
  | DispatcherEvent.ResolvedEvent commitTs _ => commitTs
  | DispatcherEvent.DMLEvent commitTs => commitTs
  | DispatcherEvent.DDLEvent event => event.CommitTs
  | DispatcherEvent.SyncPointEvent event => event.CommitTs
  | DispatcherEvent.HandshakeEvent commitTs => commitTs
  | DispatcherEvent.Unexpected commitTs => commitTs

/-- A DML, DDL or sync point event: the types whose branch of `HandleEvents`
sets `block = true`. -/
def DispatcherEvent.setsBlock : DispatcherEvent → Bool
  | DispatcherEvent.DMLEvent _ => true
  | DispatcherEvent.DDLEvent _ => true
  | DispatcherEvent.SyncPointEvent _ => true
  | _ => false

/-- A resolved-ts event. -/
def DispatcherEvent.isResolved : DispatcherEvent → Bool
  | DispatcherEvent.ResolvedEvent _ _ => true
  | _ => false

/-- The dispatcher as `HandleEvents` uses it: the fields for block events, the
resolved timestamp (`resolvedTs.Get()` reads it, `resolvedTs.Set` stores it),
`lastSyncPointTs`, and the commit timestamps of the DML events handed to
`sink.AddDMLEvent`, in order. -/
structure EventDispatcher extends Dispatcher where
  resolvedTs : Nat
  lastSyncPointTs : Nat
  dmlEvents : List Nat

/-- Ways in which `HandleEvents` does not return. -/
inductive DispatcherFault where
  | panic
deriving DecidableEq, Repr

/-- The body of the loop of `HandleEvents` for one event of a batch of `n`
events: the dispatcher and the value of `block` afterwards. -/
def EventDispatcher.handleEvent (d : EventDispatcher) (spanz : Spanz) (writeErr : Option Nat)
    (n : Nat) (block : Bool) (event : DispatcherEvent) :
    Except DispatcherFault (EventDispatcher × Bool) :=
  if event.GetCommitTs < d.resolvedTs then Except.ok (d, block)
  else
    match event with
    | DispatcherEvent.ResolvedEvent _ resolvedTs =>
      Except.ok ({ d with resolvedTs := resolvedTs }, block)
    | DispatcherEvent.DMLEvent commitTs =>
      Except.ok ({ d with dmlEvents := d.dmlEvents ++ [commitTs] }, true)
    | DispatcherEvent.DDLEvent event =>
      if n ≠ 1 then Except.error DispatcherFault.panic
      else
        Except.ok
          ({ d with
             toDispatcher := d.toDispatcher.dealWithBlockEvent spanz writeErr
               { event with typ := BlockEventType.TypeDDLEvent } },
           true)
    | DispatcherEvent.SyncPointEvent event =>
      if n ≠ 1 then Except.error DispatcherFault.panic
      else
        Except.ok
          ({ d with
             toDispatcher := d.toDispatcher.dealWithBlockEvent spanz writeErr
               { event with typ := BlockEventType.TypeSyncPointEvent },
             lastSyncPointTs := event.CommitTs },
           true)
    | DispatcherEvent.HandshakeEvent _ => Except.ok (d, block)
    | DispatcherEvent.Unexpected _ => Except.error DispatcherFault.panic

/-- The loop of `HandleEvents` over the events that remain of a batch of `n`
events. -/
def EventDispatcher.handleEventsFrom (spanz : Spanz) (writeErr : Option Nat) (n : Nat) :
    List DispatcherEvent → EventDispatcher → Bool →
      Except DispatcherFault (EventDispatcher × Bool)
  | [], d, block => Except.ok (d, block)
  | event :: rest, d, block =>
    match d.handleEvent spanz writeErr n block event with
    | Except.error e => Except.error e
    | Except.ok (d1, block1) =>
      EventDispatcher.handleEventsFrom spanz writeErr n rest d1 block1

/-- The method `HandleEvents`: the dispatcher afterwards and the returned
`block`. -/
def EventDispatcher.HandleEvents (d : EventDispatcher) (spanz : Spanz) (writeErr : Option Nat)
    (dispatcherEvents : List DispatcherEvent) :
    Except DispatcherFault (EventDispatcher × Bool) :=
  EventDispatcher.handleEventsFrom spanz writeErr dispatcherEvents.length dispatcherEvents d
    false

/-- The waiting dispatcher with the resolved timestamp 10. -/
def sampleEventDispatcher : EventDispatcher :=
  { toDispatcher := waitingDispatcher, resolvedTs := 10, lastSyncPointTs := 0, dmlEvents := [] }

/-- A `spanz` for which every span is complete. -/
def sampleSpanz : Spanz :=
  { GetTableRange := fun _ => ([], []),
    ToComparableKey := fun k => k,
    StartCompare := fun _ _ => 0,
    EndCompare := fun _ _ => 0 }

/-! ## Dispatcher: the filter configuration -/

/-- The fields of `config.EventFilterRule` that `toFilterConfigPB` reads. -/
structure EventFilterRule where
  Matcher : List String
  IgnoreEvent : List String
  IgnoreSQL : List String
  IgnoreInsertValueExpr : String
  IgnoreUpdateNewValueExpr : String
  IgnoreUpdateOldValueExpr : String
  IgnoreDeleteValueExpr : String
deriving DecidableEq, Repr

/-- The fields of `config.FilterConfig` that `toFilterConfigPB` reads; `none`
is a nil rule. -/
structure FilterConfig where
  Rules : List String
  IgnoreTxnStartTs : List Nat
  EventFilters : List (Option EventFilterRule)
deriving DecidableEq, Repr

/-- The message `eventpb.EventFilterRule`. -/
structure EventFilterRulePB where
  Matcher : List String
  IgnoreEvent : List String
  IgnoreSql : List String
  IgnoreInsertValueExpr : String
  IgnoreUpdateNewValueExpr : String
  IgnoreUpdateOldValueExpr : String
  IgnoreDeleteValueExpr : String
deriving DecidableEq, Repr

/-- The message `eventpb.FilterConfig`; `none` is a nil rule. -/
structure FilterConfigPB where
  Rules : List String
  IgnoreTxnStartTs : List Nat
  EventFilters : List (Option EventFilterRulePB)
deriving DecidableEq, Repr

/-- The inner loop of `toFilterConfigPB`: every event name is appended to
`ignoreEvent`. -/
def appendIgnoreEvents : List String → List String → List String
  | [], ignoreEvent => ignoreEvent
  | event :: rest, ignoreEvent => appendIgnoreEvents rest (ignoreEvent ++ [event])

/-- The body of the outer loop of `toFilterConfigPB`: the rule it appends for
`eventFilter`, whose `ignoreEvent` starts as `make([]string, len)`. -/
def convertEventFilter (eventFilter : EventFilterRule) : EventFilterRulePB :=
  { Matcher := eventFilter.Matcher,
    IgnoreEvent := appendIgnoreEvents eventFilter.IgnoreEvent
      (List.replicate eventFilter.IgnoreEvent.length ""),
    IgnoreSql := eventFilter.IgnoreSQL,
    IgnoreInsertValueExpr := eventFilter.IgnoreInsertValueExpr,
    IgnoreUpdateNewValueExpr := eventFilter.IgnoreUpdateNewValueExpr,
    IgnoreUpdateOldValueExpr := eventFilter.IgnoreUpdateOldValueExpr,
    IgnoreDeleteValueExpr := eventFilter.IgnoreDeleteValueExpr }

/-- The outer loop of `toFilterConfigPB`: one rule is appended per input rule;
reading a nil rule is a nil dereference (`none`). -/
def appendEventFilters : List (Option EventFilterRule) → List (Option EventFilterRulePB) →
    Option (List (Option EventFilterRulePB))
  | [], eventFilters => some eventFilters
  | none :: _, _ => none
  | some eventFilter :: rest, eventFilters =>
    appendEventFilters rest (eventFilters ++ [some (convertEventFilter eventFilter)])

/-- The function `toFilterConfigPB`; `EventFilters` starts as
`make([]*eventpb.EventFilterRule, len(filter.EventFilters))`. -/
def toFilterConfigPB (filter : FilterConfig) : Option FilterConfigPB :=
  match appendEventFilters filter.EventFilters
      (List.replicate filter.EventFilters.length none) with
  | none => none
  | some eventFilters =>
    some { Rules := filter.Rules, IgnoreTxnStartTs := filter.IgnoreTxnStartTs,
           EventFilters := eventFilters }

/-- The one-to-one conversion of a rule: the same matcher, event names, SQL
patterns and value expressions. -/
def oneToOneRule (eventFilter : EventFilterRule) : EventFilterRulePB :=
  { Matcher := eventFilter.Matcher,
    IgnoreEvent := eventFilter.IgnoreEvent,
    IgnoreSql := eventFilter.IgnoreSQL,
    IgnoreInsertValueExpr := eventFilter.IgnoreInsertValueExpr,
    IgnoreUpdateNewValueExpr := eventFilter.IgnoreUpdateNewValueExpr,
    IgnoreUpdateOldValueExpr := eventFilter.IgnoreUpdateOldValueExpr,
    IgnoreDeleteValueExpr := eventFilter.IgnoreDeleteValueExpr }

/-! ## The index-value partition generator
(`downstreamadapter/sink/helper/eventrouter/partition/index_value.go`) -/

/-- The functions the generator calls that are declared outside the file: the
hasher `hash.PositionInertia` (its state is kept as a number), the flag test
`IsHandleKey` and `model.ColumnValueString`. -/
structure PartitionLib where
  Reset : Nat → Nat
  Write : Nat → List Bytes → Nat
  Sum32 : Nat → Nat
  IsHandleKey : ColumnFlagType → Bool
  ColumnValueString : Intf → Bytes

/-- What the generator reads from `row.TableInfo`: the names and
`IndexByName`, which answers the column names and offsets of an index
(`none` when there is no such index). -/
structure PartitionTableInfo where
  SchemaName : Bytes
  TableName : Bytes
  IndexByName : Bytes → Option (List Bytes × List Nat)

/-- The generator `IndexValuePartitionGenerator`: the state of its hasher,
whether its mutex is held, and the index name. -/
structure IndexValuePartitionGenerator where
  hasher : Nat
  lock : Bool
  IndexName : Bytes

/-- Ways in which `GeneratePartitionIndexAndKey` does not return. -/
inductive PartitionFault where
  | blocked
  | indexOutOfRange
  | divideByZero
deriving DecidableEq, Repr

/-- The error `ErrDispatcherFailed`. -/
inductive PartitionError where
  | ErrDispatcherFailed
deriving DecidableEq, Repr

/-- The conversion `uint32(x)` of an `int32`. -/
def toUint32 (x : Int) : Nat := (x % 4294967296).toNat

/-- The conversion `int32(x)` of a `uint32`. -/
def toInt32 (x : Nat) : Int :=
  if x % 4294967296 < 2147483648 then ((x % 4294967296 : Nat) : Int)
  else ((x % 4294967296 : Nat) : Int) - 4294967296

/-- The loop over the dispatch columns when no index name is set: the handle
key columns are written to the hasher. -/
def writeHandleKeys (lib : PartitionLib) : List (Option Column) → Nat → Nat
  | [], hasher => hasher
  | none :: rest, hasher => writeHandleKeys lib rest hasher
  | some col :: rest, hasher =>
    if lib.IsHandleKey col.Flag then
      writeHandleKeys lib rest (lib.Write hasher [col.Name, lib.ColumnValueString col.Value])
    else writeHandleKeys lib rest hasher

/-- The loop `for idx := 0; idx < len(names); idx++` over the columns of the
index, from `idx` on: `names` and `offsets` are what remains of the two
slices.  An offset beyond the columns, or no offset left for a name, is an
index out of range. -/
def writeIndexColumns (lib : PartitionLib) (dispatchCols : List (Option Column)) :
    List Bytes → List Nat → Nat → Except PartitionFault Nat
  | [], _, hasher => Except.ok hasher
  | _ :: _, [], _ => Except.error PartitionFault.indexOutOfRange
  | name :: names, offset :: offsets, hasher =>
    match dispatchCols.get? offset with
    | none => Except.error PartitionFault.indexOutOfRange
    | some none => writeIndexColumns lib dispatchCols names offsets hasher
    | some (some col) =>
      writeIndexColumns lib dispatchCols names offsets
        (lib.Write hasher [name, lib.ColumnValueString col.Value])

/-- The method `GeneratePartitionIndexAndKey`: the generator afterwards and
the three returned values.  `strconv.FormatInt(int64(sum32), 10)` is the
decimal representation `Nat.repr`. -/
def IndexValuePartitionGenerator.GeneratePartitionIndexAndKey
    (r : IndexValuePartitionGenerator) (lib : PartitionLib) (tableInfo : PartitionTableInfo)
    (row : RowChangedEvent) (partitionNum : Int) :
    Except PartitionFault
      (IndexValuePartitionGenerator × (Int × String × Option PartitionError)) :=
  if r.lock then Except.error PartitionFault.blocked
  else
    let hasher := lib.Write (lib.Reset r.hasher) [tableInfo.SchemaName, tableInfo.TableName]
    let dispatchCols := if row.Columns.length = 0 then row.PreColumns else row.Columns
    let finish (hasher : Nat) :
        Except PartitionFault
          (IndexValuePartitionGenerator × (Int × String × Option PartitionError)) :=
      let sum32 := lib.Sum32 hasher % 4294967296
      if toUint32 partitionNum = 0 then Except.error PartitionFault.divideByZero
      else
        Except.ok ({ r with hasher := hasher, lock := false },
          (toInt32 (sum32 % toUint32 partitionNum), Nat.repr sum32, none))
    if r.IndexName = [] then finish (writeHandleKeys lib dispatchCols hasher)
    else
      match tableInfo.IndexByName r.IndexName with
      | none =>
        Except.ok ({ r with hasher := hasher, lock := false },
          (0, "", some PartitionError.ErrDispatcherFailed))
      | some (names, offsets) =>
        match writeIndexColumns lib dispatchCols names offsets hasher with
        | Except.error e => Except.error e
        | Except.ok hasher1 => finish hasher1

/-- A sample hasher: the state is a sum of the bytes written, `Reset` gives
17; every column flag with the lowest bit set is a handle key; values are
printed as their native string. -/
def samplePartitionLib : PartitionLib :=
  { Reset := fun _ => 17,
    Write := fun h bss => h * 31 + (bss.map List.sum).sum,
    Sum32 := fun h => h,
    IsHandleKey := fun f => f % 2 = 1,
    ColumnValueString := fun v =>
      match v with
      | Intf.str s => s
      | Intf.uint u => ascii (Nat.repr u)
      | _ => [] }

/-- A sample table `d.t` with the index `idx` on its first column. -/
def samplePartitionTableInfo : PartitionTableInfo :=
  { SchemaName := ascii "d", TableName := ascii "t",
    IndexByName := fun name => if name = ascii "idx" then some ([ascii "id"], [0]) else none }


/-- The dispatch columns of a row: its columns, or its pre-columns when it has
no columns. -/
def dispatchColumns (row : RowChangedEvent) : List (Option Column) :=
  if row.Columns.length = 0 then row.PreColumns else row.Columns

/-- What is to be hashed when no index name is set, stated on its own: for
every handle-key column among the dispatch columns, in order and nil entries
aside, its name and the string of its value. -/
def handleKeyWrites (lib : PartitionLib) (dispatchCols : List (Option Column)) :
    List (List Bytes) :=
  dispatchCols.filterMap (fun c =>
    match c with
    | none => none
    | some col =>
      if lib.IsHandleKey col.Flag then some [col.Name, lib.ColumnValueString col.Value]
      else none)

/-- What is to be hashed for an index, stated on its own: for every column of
the index, in order, the name the index gives it and the string of the value
of the dispatch column at its offset, nil entries aside. -/
def indexWrites (lib : PartitionLib) (dispatchCols : List (Option Column))
    (names : List Bytes) (offsets : List Nat) : List (List Bytes) :=
  (names.zip offsets).filterMap (fun no =>
    match dispatchCols.get? no.2 with
    | some (some col) => some [no.1, lib.ColumnValueString col.Value]
    | _ => none)

/-- The 32-bit hash sum of the schema name, the table name and the given
writes, on a hasher that has been reset. -/
def hashSum (lib : PartitionLib) (tableInfo : PartitionTableInfo)
    (writes : List (List Bytes)) : Nat :=
  lib.Sum32 (writes.foldl lib.Write
    (lib.Write (lib.Reset 0) [tableInfo.SchemaName, tableInfo.TableName])) % 4294967296

/-- A sample row of two columns of which only the first is a handle key. -/
def samplePartitionRow : RowChangedEvent :=
  { PhysicalTableID := 1, StartTs := 100, CommitTs := 101,
    Columns := [some sampleColumn, none,
      some { sampleColumn with Name := ascii "v", Flag := 0, Value := Intf.str (ascii "x") }],
    PreColumns := [], ReplicatingTs := 0 }

end Tigate

/-! # Theorems -/

namespace Tigate

/-! ## Maintainer: the checkpoint computation -/

theorem UpdateMin_CheckpointTs (w o : Watermark) :
    (w.UpdateMin o).CheckpointTs = min w.CheckpointTs o.CheckpointTs := by
  unfold Watermark.UpdateMin
  by_cases h : w.CheckpointTs > o.CheckpointTs
  · simp [h]; omega
  · simp [h]; omega

theorem UpdateMin_ResolvedTs (w o : Watermark) :
    (w.UpdateMin o).ResolvedTs = min w.ResolvedTs o.ResolvedTs := by
  unfold Watermark.UpdateMin
  by_cases h : w.ResolvedTs > o.ResolvedTs
  · simp [h]; omega
  · simp [h]; omega

/-- The loop result is a lower bound of the accumulator and of every visited
node's recorded watermark. -/
theorem minWatermarkFrom_le (ts : NodeID → Nat) (bc : NodeID → Option Watermark) :
    ∀ (nodes : List NodeID) (acc w : Watermark),
      minWatermarkFrom ts bc nodes acc = some w →
      (w.CheckpointTs ≤ acc.CheckpointTs ∧ w.ResolvedTs ≤ acc.ResolvedTs) ∧
      ∀ n ∈ nodes, 0 < ts n →
        ∃ r, bc n = some r ∧ w.CheckpointTs ≤ r.CheckpointTs ∧ w.ResolvedTs ≤ r.ResolvedTs := by
  intro nodes
  induction nodes with
  | nil =>
    intro acc w h
    simp [minWatermarkFrom] at h
    subst h
    simp
  | cons id rest ih =>
    intro acc w h
    by_cases ht : 0 < ts id
    · cases hb : bc id with
      | none => simp [minWatermarkFrom, ht, hb] at h
      | some r =>
        simp [minWatermarkFrom, ht, hb] at h
        obtain ⟨⟨hc, hr⟩, hall⟩ := ih _ _ h
        rw [UpdateMin_CheckpointTs] at hc
        rw [UpdateMin_ResolvedTs] at hr
        refine ⟨⟨by omega, by omega⟩, ?_⟩
        intro n hn hpos
        rcases List.mem_cons.mp hn with rfl | hn
        · exact ⟨r, hb, by omega, by omega⟩
        · exact hall n hn hpos
    · simp [minWatermarkFrom, ht] at h
      obtain ⟨hacc, hall⟩ := ih _ _ h
      refine ⟨hacc, ?_⟩
      intro n hn hpos
      rcases List.mem_cons.mp hn with rfl | hn
      · exact absurd hpos ht
      · exact hall n hn hpos

/-- Each component of the loop result is the accumulator's or is the one
recorded for a visited node that has tasks. -/
theorem minWatermarkFrom_attained (ts : NodeID → Nat) (bc : NodeID → Option Watermark) :
    ∀ (nodes : List NodeID) (acc w : Watermark),
      minWatermarkFrom ts bc nodes acc = some w →
      (w.CheckpointTs = acc.CheckpointTs ∨
        ∃ n ∈ nodes, 0 < ts n ∧ ∃ r, bc n = some r ∧ r.CheckpointTs = w.CheckpointTs) ∧
      (w.ResolvedTs = acc.ResolvedTs ∨
        ∃ n ∈ nodes, 0 < ts n ∧ ∃ r, bc n = some r ∧ r.ResolvedTs = w.ResolvedTs) := by
  intro nodes
  induction nodes with
  | nil =>
    intro acc w h
    simp [minWatermarkFrom] at h
    subst h
    simp
  | cons id rest ih =>
    intro acc w h
    by_cases ht : 0 < ts id
    · cases hb : bc id with
      | none => simp [minWatermarkFrom, ht, hb] at h
      | some r =>
        simp [minWatermarkFrom, ht, hb] at h
        obtain ⟨hc, hr⟩ := ih _ _ h
        rw [UpdateMin_CheckpointTs] at hc
        rw [UpdateMin_ResolvedTs] at hr
        constructor
        · rcases hc with hc | ⟨n, hn, hpos, r2, hr2, he⟩
          · rcases Nat.le_total acc.CheckpointTs r.CheckpointTs with hle | hle
            · left; rw [hc]; exact Nat.min_eq_left hle
            · right
              exact ⟨id, List.mem_cons_self _ _, ht, r, hb, by rw [hc, Nat.min_eq_right hle]⟩
          · right; exact ⟨n, List.mem_cons_of_mem _ hn, hpos, r2, hr2, he⟩
        · rcases hr with hr | ⟨n, hn, hpos, r2, hr2, he⟩
          · rcases Nat.le_total acc.ResolvedTs r.ResolvedTs with hle | hle
            · left; rw [hr]; exact Nat.min_eq_left hle
            · right
              exact ⟨id, List.mem_cons_self _ _, ht, r, hb, by rw [hr, Nat.min_eq_right hle]⟩
          · right; exact ⟨n, List.mem_cons_of_mem _ hn, hpos, r2, hr2, he⟩
    · simp [minWatermarkFrom, ht] at h
      obtain ⟨hc, hr⟩ := ih _ _ h
      constructor
      · rcases hc with hc | ⟨n, hn, hpos, r2, hr2, he⟩
        · left; exact hc
        · right; exact ⟨n, List.mem_cons_of_mem _ hn, hpos, r2, hr2, he⟩
      · rcases hr with hr | ⟨n, hn, hpos, r2, hr2, he⟩
        · left; exact hr
        · right; exact ⟨n, List.mem_cons_of_mem _ hn, hpos, r2, hr2, he⟩

/-- The loop runs to its end when every visited node with tasks has a record. -/
theorem minWatermarkFrom_total (ts : NodeID → Nat) (bc : NodeID → Option Watermark) :
    ∀ (nodes : List NodeID) (acc : Watermark),
      (∀ n ∈ nodes, 0 < ts n → ∃ r, bc n = some r) →
      ∃ w, minWatermarkFrom ts bc nodes acc = some w := by
  intro nodes
  induction nodes with
  | nil => intro acc _; exact ⟨acc, rfl⟩
  | cons id rest ih =>
    intro acc h
    have hrest : ∀ n ∈ rest, 0 < ts n → ∃ r, bc n = some r :=
      fun n hn => h n (List.mem_cons_of_mem _ hn)
    by_cases ht : 0 < ts id
    · obtain ⟨r, hb⟩ := h id (List.mem_cons_self _ _) ht
      obtain ⟨w, hw⟩ := ih (acc.UpdateMin r) hrest
      exact ⟨w, by simp [minWatermarkFrom, ht, hb, hw]⟩
    · obtain ⟨w, hw⟩ := ih acc hrest
      exact ⟨w, by simp [minWatermarkFrom, ht, hw]⟩

/-- The loop returns early when a visited node with tasks has no record. -/
theorem minWatermarkFrom_missing (ts : NodeID → Nat) (bc : NodeID → Option Watermark) :
    ∀ (nodes : List NodeID) (acc : Watermark),
      (∃ n ∈ nodes, 0 < ts n ∧ bc n = none) →
      minWatermarkFrom ts bc nodes acc = none := by
  intro nodes
  induction nodes with
  | nil => intro acc h; obtain ⟨n, hn, _⟩ := h; cases hn
  | cons id rest ih =>
    intro acc h
    obtain ⟨n, hn, hpos, hnone⟩ := h
    by_cases ht : 0 < ts id
    · cases hb : bc id with
      | none => simp [minWatermarkFrom, ht, hb]
      | some r =>
        simp only [minWatermarkFrom, ht, hb, if_true]
        rcases List.mem_cons.mp hn with rfl | hn
        · rw [hb] at hnone; cases hnone
        · exact ih _ ⟨n, hn, hpos, hnone⟩
    · simp only [minWatermarkFrom, ht, if_false]
      rcases List.mem_cons.mp hn with rfl | hn
      · exact absurd hpos ht
      · exact ih _ ⟨n, hn, hpos, hnone⟩

/-- The loop leaves the accumulator alone when no visited node has tasks. -/
theorem minWatermarkFrom_idle (ts : NodeID → Nat) (bc : NodeID → Option Watermark) :
    ∀ (nodes : List NodeID) (acc : Watermark),
      (∀ n ∈ nodes, ts n = 0) → minWatermarkFrom ts bc nodes acc = some acc := by
  intro nodes
  induction nodes with
  | nil => intro acc _; rfl
  | cons id rest ih =>
    intro acc h
    have h0 : ¬ 0 < ts id := by
      have := h id (List.mem_cons_self _ _)
      omega
    simp only [minWatermarkFrom, h0, if_false]
    exact ih acc (fun n hn => h n (List.mem_cons_of_mem _ hn))

/-- The loop only reads the records of visited nodes that have tasks. -/
theorem minWatermarkFrom_congr (ts : NodeID → Nat) (bc bc2 : NodeID → Option Watermark) :
    ∀ (nodes : List NodeID) (acc : Watermark),
      (∀ n ∈ nodes, 0 < ts n → bc n = bc2 n) →
      minWatermarkFrom ts bc nodes acc = minWatermarkFrom ts bc2 nodes acc := by
  intro nodes
  induction nodes with
  | nil => intro acc _; rfl
  | cons id rest ih =>
    intro acc h
    have hrest : ∀ n ∈ rest, 0 < ts n → bc n = bc2 n :=
      fun n hn => h n (List.mem_cons_of_mem _ hn)
    by_cases ht : 0 < ts id
    · have hid := h id (List.mem_cons_self _ _) ht
      simp only [minWatermarkFrom, ht, if_true, ← hid]
      cases bc id with
      | none => rfl
      | some r => exact ih _ hrest
    · simp only [minWatermarkFrom, ht, if_false]
      exact ih _ hrest

end Tigate

namespace Tigate

/-! ## Maintainer: claims about the checkpoint -/

/-- The three ways `calCheckpointTs` can end. -/
theorem calCheckpointTs_cases (m : Maintainer) (env : Env) :
    ((env.now - m.lastCheckpointTsTime < twoSeconds ∨ env.scheduleFinished = false) ∧
        m.calCheckpointTs env = m) ∨
    (m.newWatermark env = none ∧
        m.calCheckpointTs env = { m with lastCheckpointTsTime := env.now }) ∨
    (∃ w, m.newWatermark env = some w ∧
        m.calCheckpointTs env =
          { m with lastCheckpointTsTime := env.now, watermark := m.watermark.publish w }) := by
  by_cases hg : env.now - m.lastCheckpointTsTime < twoSeconds
  · left
    exact ⟨Or.inl hg, by simp [Maintainer.calCheckpointTs, hg]⟩
  · cases hs : env.scheduleFinished with
    | false =>
      left
      exact ⟨Or.inr rfl, by simp [Maintainer.calCheckpointTs, hs]⟩
    | true =>
      right
      cases hw : m.newWatermark env with
      | none =>
        left
        refine ⟨rfl, ?_⟩
        have hw2 : Maintainer.newWatermark { m with lastCheckpointTsTime := env.now } env
            = none := hw
        simp [Maintainer.calCheckpointTs, hg, hs, hw2]
      | some w =>
        right
        refine ⟨w, rfl, ?_⟩
        have hw2 : Maintainer.newWatermark { m with lastCheckpointTsTime := env.now } env
            = some w := hw
        simp [Maintainer.calCheckpointTs, hg, hs, hw2]

theorem publish_max (old : Watermark) : old.publish NewMaxWatermark = old := by
  cases old
  simp [Watermark.publish, NewMaxWatermark]

theorem onHeartBeatRequest_watermark (m : Maintainer) (sender : NodeID) (req : HeartBeatRequest)
    (m2 : Maintainer) (h : m.onHeartBeatRequest sender req = Except.ok m2) :
    m2.watermark = m.watermark := by
  unfold Maintainer.onHeartBeatRequest at h
  rcases req with ⟨wm, st, warning, err⟩
  cases wm <;> cases warning <;> cases err <;> cases hl : m.errLock <;>
    simp [Maintainer.lockErr, Maintainer.unlockErr, hl] at h <;>
    (subst h; rfl)

theorem onRemoveMaintainer_watermark (m : Maintainer) (env : Env) (cascade : Bool) :
    (m.onRemoveMaintainer env cascade).watermark = m.watermark := by
  unfold Maintainer.onRemoveMaintainer Maintainer.tryCloseChangefeed
    Maintainer.sendMaintainerCloseRequestToAllNode Maintainer.sendMessages
  dsimp only
  repeat' split
  all_goals rfl

theorem onMessage_watermark (m : Maintainer) (env : Env) (msg : TargetMessage)
    (m2 : Maintainer) (h : m.onMessage env msg = Except.ok m2) :
    m2.watermark = m.watermark := by
  unfold Maintainer.onMessage at h
  split at h
  · exact onHeartBeatRequest_watermark m _ _ m2 h
  · cases h; rfl
  · cases h; rfl
  · cases h
    unfold Maintainer.onNodeClosed
    dsimp only
    rw [onRemoveMaintainer_watermark]
    split <;> rfl
  · cases h; exact onRemoveMaintainer_watermark m env _
  · cases h
    unfold Maintainer.onCheckpointTsPersisted
    split <;> rfl
  · cases h

theorem beforeCal_frame (m : Maintainer) (env : Env) :
    ((m.handleResendMessage env).collectMetrics env).watermark = m.watermark ∧
    ((m.handleResendMessage env).collectMetrics env).checkpointTsByCapture
      = m.checkpointTsByCapture := by
  unfold Maintainer.collectMetrics Maintainer.handleResendMessage
    Maintainer.sendMaintainerCloseRequestToAllNode Maintainer.sendMessages
  dsimp only
  constructor <;> (repeat' split) <;> rfl

theorem nodeChanged_frame (m : Maintainer) (env : Env) :
    (if m.nodeChanged then { m.onNodeChanged env with nodeChanged := false } else m).watermark
      = m.watermark ∧
    (if m.nodeChanged then { m.onNodeChanged env with nodeChanged := false }
      else m).checkpointTsByCapture = m.checkpointTsByCapture := by
  unfold Maintainer.onNodeChanged Maintainer.sendMessages
  constructor <;> split <;> rfl

/-- What one event can do to the maintainer's watermark: nothing, or, on a
period tick, publish the minimum computed from the recorded heartbeats. -/
theorem HandleEvent_watermark (m : Maintainer) (env : Env) (event : Event)
    (m2 : Maintainer) (r : Bool) (h : m.HandleEvent env event = Except.ok (m2, r)) :
    m2.watermark = m.watermark ∨
    (event = Event.EventPeriod ∧
      ∃ w, minWatermarkFrom env.taskSize m.checkpointTsByCapture env.allNodes NewMaxWatermark
          = some w ∧
        m2.watermark = m.watermark.publish w) := by
  unfold Maintainer.HandleEvent at h
  by_cases hs : m.state = ComponentState.Stopped
  · simp only [hs, if_true] at h
    cases h
    exact Or.inl rfl
  · simp only [hs, if_false] at h
    obtain ⟨hw, hc⟩ := nodeChanged_frame m env
    generalize (if m.nodeChanged then { m.onNodeChanged env with nodeChanged := false }
      else m) = m1 at h hw hc
    cases event with
    | EventInit =>
      simp only at h
      cases h
      exact Or.inl hw
    | EventMessage message =>
      simp only at h
      cases hm : m1.onMessage env message with
      | error e => rw [hm] at h; cases h
      | ok m3 =>
        rw [hm] at h
        cases h
        left
        rw [onMessage_watermark m1 env message m2 hm, hw]
    | EventPeriod =>
      simp only at h
      cases h
      unfold Maintainer.onPeriodTask
      obtain ⟨hw2, hc2⟩ := beforeCal_frame m1 env
      generalize (m1.handleResendMessage env).collectMetrics env = m3 at hw2 hc2
      rcases calCheckpointTs_cases m3 env with ⟨_, he⟩ | ⟨_, he⟩ | ⟨w, hnw, he⟩
      · left; rw [he, hw2, hw]
      · left; rw [he]; exact hw2.trans hw
      · right
        refine ⟨rfl, w, ?_, ?_⟩
        · unfold Maintainer.newWatermark at hnw
          rw [hc2, hc] at hnw
          exact hnw
        · rw [he]
          show m3.watermark.publish w = m.watermark.publish w
          rw [hw2, hw]

/-- C1, as stated, fails: from a new maintainer at checkpoint 10, a heartbeat of
node 1 reporting checkpoint 5 followed by a period tick lowers the exposed
checkpoint from 10 to 5 (and not to `max 10 5`). -/
theorem checkpoint_regresses :
    ∃ m1 m2 : Maintainer,
      (NewMaintainer 10).HandleEvent tickEnv
          (heartbeatFrom 1 { CheckpointTs := 5, ResolvedTs := 7 }) = Except.ok (m1, false) ∧
      m1.HandleEvent tickEnv Event.EventPeriod = Except.ok (m2, false) ∧
      m1.GetMaintainerStatus = 10 ∧ m2.GetMaintainerStatus = 5 ∧
      m2.GetMaintainerStatus < m1.GetMaintainerStatus :=
  ⟨_, _, rfl, rfl, rfl, rfl, by decide⟩

/-- C1, amended: an event that `HandleEvent` processes either leaves the exposed
checkpoint unchanged or, on a period tick, replaces it by the `CheckpointTs` of
the minimum computed over the recorded heartbeats of the known nodes holding a
replica; so the checkpoint does not decrease across the event whenever each of
those recorded checkpoints is at least the current one. -/
theorem HandleEvent_checkpoint (m : Maintainer) (env : Env) (event : Event)
    (m2 : Maintainer) (r : Bool) (h : m.HandleEvent env event = Except.ok (m2, r)) :
    (m2.GetMaintainerStatus = m.GetMaintainerStatus ∨
      (event = Event.EventPeriod ∧
        ∃ w, minWatermarkFrom env.taskSize m.checkpointTsByCapture env.allNodes
            NewMaxWatermark = some w ∧
          m2.GetMaintainerStatus = w.CheckpointTs)) ∧
    ((∀ n ∈ env.allNodes, 0 < env.taskSize n →
        ∀ w, m.checkpointTsByCapture n = some w → m.GetMaintainerStatus ≤ w.CheckpointTs) →
      m.GetMaintainerStatus ≤ m2.GetMaintainerStatus) := by
  unfold Maintainer.GetMaintainerStatus
  rcases HandleEvent_watermark m env event m2 r h with hw | ⟨hev, w, hmin, hw⟩
  · exact ⟨Or.inl (by rw [hw]), fun _ => by rw [hw]⟩
  · by_cases hmax : w.CheckpointTs ≠ MaxUint64
    · have hc : m2.watermark.CheckpointTs = w.CheckpointTs := by
        rw [hw]; simp [Watermark.publish, hmax]
      refine ⟨Or.inr ⟨hev, w, hmin, hc⟩, ?_⟩
      intro hall
      rw [hc]
      rcases (minWatermarkFrom_attained _ _ _ _ _ hmin).1 with hacc | ⟨n, hn, hpos, r2, hr2, he⟩
      · exact absurd hacc hmax
      · rw [← he]; exact hall n hn hpos r2 hr2
    · have hc : m2.watermark.CheckpointTs = m.watermark.CheckpointTs := by
        rw [hw]; simp [Watermark.publish, hmax]
      exact ⟨Or.inl hc, fun _ => by rw [hc]⟩

/-- C1, amended, at a concrete input: a tick over a recorded checkpoint 12 moves
the exposed checkpoint of a maintainer at 10 forward. -/
theorem HandleEvent_checkpoint_witness :
    (maintainerWithReport 10 { CheckpointTs := 12, ResolvedTs := 15 }).GetMaintainerStatus ≤
      ((maintainerWithReport 10 { CheckpointTs := 12, ResolvedTs := 15 }).onPeriodTask
        tickEnv).GetMaintainerStatus :=
  (HandleEvent_checkpoint (maintainerWithReport 10 { CheckpointTs := 12, ResolvedTs := 15 })
      tickEnv Event.EventPeriod _ false rfl).2
    (by
      intro n hn _ w hw
      simp [tickEnv] at hn
      subst hn
      simp [maintainerWithReport] at hw
      subst hw
      decide)

/-- C2, as stated, fails: the maintainer watermark (5, 5) and the recorded
watermark (10, MaxUint64) both have `CheckpointTs ≤ ResolvedTs`, yet
`calCheckpointTs` overwrites only the checkpoint and leaves (10, 5). -/
theorem calCheckpointTs_breaks_order :
    (maintainerWithReport 5 { CheckpointTs := 10, ResolvedTs := MaxUint64 }).watermark.CheckpointTs
      ≤ (maintainerWithReport 5
          { CheckpointTs := 10, ResolvedTs := MaxUint64 }).watermark.ResolvedTs ∧
    (∀ n w, (maintainerWithReport 5
          { CheckpointTs := 10, ResolvedTs := MaxUint64 }).checkpointTsByCapture n = some w →
        w.CheckpointTs ≤ w.ResolvedTs) ∧
    ((maintainerWithReport 5 { CheckpointTs := 10, ResolvedTs := MaxUint64 }).calCheckpointTs
        tickEnv).watermark = { CheckpointTs := 10, ResolvedTs := 5 } ∧
    ¬ ((maintainerWithReport 5 { CheckpointTs := 10, ResolvedTs := MaxUint64 }).calCheckpointTs
          tickEnv).watermark.CheckpointTs
        ≤ ((maintainerWithReport 5 { CheckpointTs := 10, ResolvedTs := MaxUint64 }).calCheckpointTs
          tickEnv).watermark.ResolvedTs := by
  refine ⟨by decide, ?_, rfl, by decide⟩
  intro n w hw
  by_cases hn : n = 1
  · simp [maintainerWithReport, hn] at hw
    subst hw
    decide
  · simp [maintainerWithReport, hn] at hw

/-- C2, amended: if the maintainer's watermark and every recorded watermark
satisfy `CheckpointTs ≤ ResolvedTs`, the recorded ones are `uint64` values, and
every recorded watermark whose `ResolvedTs` is `MaxUint64` has a `CheckpointTs`
that is `MaxUint64` too or at most the maintainer's current `ResolvedTs`, then
the maintainer's watermark satisfies `CheckpointTs ≤ ResolvedTs` after
`calCheckpointTs`. -/
theorem calCheckpointTs_keeps_order (m : Maintainer) (env : Env)
    (hm : m.watermark.CheckpointTs ≤ m.watermark.ResolvedTs)
    (hrec : ∀ n w, m.checkpointTsByCapture n = some w → w.CheckpointTs ≤ w.ResolvedTs)
    (hrange : ∀ n w, m.checkpointTsByCapture n = some w → w.ResolvedTs ≤ MaxUint64)
    (hmax : ∀ n w, m.checkpointTsByCapture n = some w → w.ResolvedTs = MaxUint64 →
      w.CheckpointTs = MaxUint64 ∨ w.CheckpointTs ≤ m.watermark.ResolvedTs) :
    (m.calCheckpointTs env).watermark.CheckpointTs
      ≤ (m.calCheckpointTs env).watermark.ResolvedTs := by
  rcases calCheckpointTs_cases m env with ⟨_, he⟩ | ⟨_, he⟩ | ⟨w, hnw, he⟩
  · rw [he]; exact hm
  · rw [he]; exact hm
  · rw [he]
    show (m.watermark.publish w).CheckpointTs ≤ (m.watermark.publish w).ResolvedTs
    unfold Maintainer.newWatermark at hnw
    obtain ⟨hattC, hattR⟩ := minWatermarkFrom_attained _ _ _ _ _ hnw
    obtain ⟨_, hle⟩ := minWatermarkFrom_le _ _ _ _ _ hnw
    by_cases hC : w.CheckpointTs = MaxUint64 <;> by_cases hR : w.ResolvedTs = MaxUint64
    · simp [Watermark.publish, hC, hR, hm]
    · exfalso
      rcases hattR with hacc | ⟨n, hn, hpos, r2, hr2, he2⟩
      · exact hR hacc
      · obtain ⟨r3, hr3, hc3, _⟩ := hle n hn hpos
        rw [hr2] at hr3
        cases hr3
        have h1 := hrec n r2 hr2
        have h2 := hrange n r2 hr2
        omega
    · simp only [Watermark.publish, hC, hR, ne_eq, not_false_eq_true, not_true_eq_false,
        if_true, if_false]
      rcases hattC with hacc | ⟨n, hn, hpos, r2, hr2, he2⟩
      · exact absurd hacc hC
      · obtain ⟨r3, hr3, _, hr4⟩ := hle n hn hpos
        rw [hr2] at hr3
        cases hr3
        have h2 := hrange n r2 hr2
        have h3 : r2.ResolvedTs = MaxUint64 := by omega
        rcases hmax n r2 hr2 h3 with h4 | h4
        · omega
        · omega
    · simp only [Watermark.publish, hC, hR, ne_eq, not_false_eq_true, if_true]
      rcases hattR with hacc | ⟨n, hn, hpos, r2, hr2, he2⟩
      · exact absurd hacc hR
      · obtain ⟨r3, hr3, hc3, _⟩ := hle n hn hpos
        rw [hr2] at hr3
        cases hr3
        have h1 := hrec n r2 hr2
        omega

/-- C2, amended, at a concrete input: the recorded watermark (12, 15) is
published whole. -/
theorem calCheckpointTs_keeps_order_witness :
    ((maintainerWithReport 10 { CheckpointTs := 12, ResolvedTs := 15 }).calCheckpointTs
        tickEnv).watermark.CheckpointTs
      ≤ ((maintainerWithReport 10 { CheckpointTs := 12, ResolvedTs := 15 }).calCheckpointTs
        tickEnv).watermark.ResolvedTs :=
  calCheckpointTs_keeps_order (maintainerWithReport 10 { CheckpointTs := 12, ResolvedTs := 15 })
    tickEnv (by decide)
    (by
      intro n w hw
      by_cases hn : n = 1
      · simp [maintainerWithReport, hn] at hw; subst hw; decide
      · simp [maintainerWithReport, hn] at hw)
    (by
      intro n w hw
      by_cases hn : n = 1
      · simp [maintainerWithReport, hn] at hw; subst hw; decide
      · simp [maintainerWithReport, hn] at hw)
    (by
      intro n w hw hR
      by_cases hn : n = 1
      · simp [maintainerWithReport, hn] at hw; subst hw; simp [MaxUint64] at hR
      · simp [maintainerWithReport, hn] at hw)

/-- C3: when `calCheckpointTs` passes its gates, every known node that has a
replica has a recorded (`uint64`) watermark and there is such a node, the
computed watermark exists, each of its components is the least of the
components recorded for exactly those nodes, it is what the two guarded
assignments publish, and it does not depend on what is recorded for any other
node. -/
theorem calCheckpointTs_min (m : Maintainer) (env : Env)
    (hgate : ¬ env.now - m.lastCheckpointTsTime < twoSeconds)
    (hfin : env.scheduleFinished = true)
    (hrec : ∀ n ∈ env.allNodes, 0 < env.taskSize n → ∃ r, m.checkpointTsByCapture n = some r)
    (hne : ∃ n ∈ env.allNodes, 0 < env.taskSize n)
    (hrange : ∀ n ∈ env.allNodes, 0 < env.taskSize n → ∀ r, m.checkpointTsByCapture n = some r →
      r.CheckpointTs ≤ MaxUint64 ∧ r.ResolvedTs ≤ MaxUint64) :
    ∃ w, m.newWatermark env = some w ∧
      (∃ n ∈ env.allNodes, 0 < env.taskSize n ∧
        ∃ r, m.checkpointTsByCapture n = some r ∧ r.CheckpointTs = w.CheckpointTs) ∧
      (∀ n ∈ env.allNodes, 0 < env.taskSize n →
        ∀ r, m.checkpointTsByCapture n = some r → w.CheckpointTs ≤ r.CheckpointTs) ∧
      (∃ n ∈ env.allNodes, 0 < env.taskSize n ∧
        ∃ r, m.checkpointTsByCapture n = some r ∧ r.ResolvedTs = w.ResolvedTs) ∧
      (∀ n ∈ env.allNodes, 0 < env.taskSize n →
        ∀ r, m.checkpointTsByCapture n = some r → w.ResolvedTs ≤ r.ResolvedTs) ∧
      (m.calCheckpointTs env).watermark = m.watermark.publish w ∧
      (∀ m2 : Maintainer,
        (∀ n ∈ env.allNodes, 0 < env.taskSize n →
          m2.checkpointTsByCapture n = m.checkpointTsByCapture n) →
        m2.newWatermark env = some w) := by
  obtain ⟨w, hw⟩ := minWatermarkFrom_total env.taskSize m.checkpointTsByCapture env.allNodes
    NewMaxWatermark hrec
  have hnw : m.newWatermark env = some w := hw
  obtain ⟨⟨haccC, haccR⟩, hle⟩ := minWatermarkFrom_le _ _ _ _ _ hw
  obtain ⟨hattC, hattR⟩ := minWatermarkFrom_attained _ _ _ _ _ hw
  obtain ⟨n0, hn0, hpos0⟩ := hne
  obtain ⟨r0, hr0, hc0, hR0⟩ := hle n0 hn0 hpos0
  obtain ⟨hrc0, hrr0⟩ := hrange n0 hn0 hpos0 r0 hr0
  refine ⟨w, hnw, ?_, ?_, ?_, ?_, ?_, ?_⟩
  · rcases hattC with hacc | hex
    · refine ⟨n0, hn0, hpos0, r0, hr0, ?_⟩
      have : w.CheckpointTs = MaxUint64 := hacc
      omega
    · exact hex
  · intro n hn hpos r hr
    obtain ⟨r2, hr2, hc, _⟩ := hle n hn hpos
    rw [hr] at hr2
    cases hr2
    exact hc
  · rcases hattR with hacc | hex
    · refine ⟨n0, hn0, hpos0, r0, hr0, ?_⟩
      have : w.ResolvedTs = MaxUint64 := hacc
      omega
    · exact hex
  · intro n hn hpos r hr
    obtain ⟨r2, hr2, _, hc⟩ := hle n hn hpos
    rw [hr] at hr2
    cases hr2
    exact hc
  · rcases calCheckpointTs_cases m env with ⟨hg, _⟩ | ⟨hnone, _⟩ | ⟨w2, hnw2, he⟩
    · rcases hg with hg | hg
      · exact absurd hg hgate
      · rw [hfin] at hg; cases hg
    · rw [hnw] at hnone; cases hnone
    · rw [hnw] at hnw2
      cases hnw2
      rw [he]
  · intro m2 hagree
    unfold Maintainer.newWatermark
    rw [minWatermarkFrom_congr env.taskSize m2.checkpointTsByCapture m.checkpointTsByCapture
      env.allNodes NewMaxWatermark hagree]
    exact hw

/-- C3 at a concrete input: with the watermark (12, 15) recorded for the only
known node, the computed watermark exists and the tick publishes it. -/
theorem calCheckpointTs_min_witness :
    ∃ w, (maintainerWithReport 10 { CheckpointTs := 12, ResolvedTs := 15 }).newWatermark tickEnv
        = some w ∧
      ((maintainerWithReport 10 { CheckpointTs := 12, ResolvedTs := 15 }).calCheckpointTs
          tickEnv).watermark
        = (maintainerWithReport 10 { CheckpointTs := 12, ResolvedTs := 15 }).watermark.publish w := by
  obtain ⟨w, h1, _, _, _, _, h2, _⟩ :=
    calCheckpointTs_min (maintainerWithReport 10 { CheckpointTs := 12, ResolvedTs := 15 }) tickEnv
      (by decide) rfl
      (by
        intro n hn _
        simp [tickEnv] at hn
        subst hn
        exact ⟨_, rfl⟩)
      ⟨1, by simp [tickEnv], by decide⟩
      (by
        intro n hn _ r hr
        simp [tickEnv] at hn
        subst hn
        simp [maintainerWithReport] at hr
        subst hr
        exact ⟨by decide, by decide⟩)
  exact ⟨w, h1, h2⟩

/-- C4: `calCheckpointTs` leaves the watermark as it is when less than two
seconds have passed since `lastCheckpointTsTime`, or `ScheduleFinished()` is
false, or a known node that has a replica has no recorded watermark, or no
known node has a replica. -/
theorem calCheckpointTs_frame (m : Maintainer) (env : Env)
    (h : env.now - m.lastCheckpointTsTime < twoSeconds ∨ env.scheduleFinished = false ∨
      (∃ n ∈ env.allNodes, 0 < env.taskSize n ∧ m.checkpointTsByCapture n = none) ∨
      (∀ n ∈ env.allNodes, env.taskSize n = 0)) :
    (m.calCheckpointTs env).watermark.CheckpointTs = m.watermark.CheckpointTs ∧
    (m.calCheckpointTs env).watermark.ResolvedTs = m.watermark.ResolvedTs := by
  have key : (m.calCheckpointTs env).watermark = m.watermark := by
    rcases calCheckpointTs_cases m env with ⟨_, he⟩ | ⟨_, he⟩ | ⟨w, hnw, he⟩
    · rw [he]
    · rw [he]
    · rcases h with hg | hs | hmiss | hidle
      · simp [Maintainer.calCheckpointTs, hg]
      · simp [Maintainer.calCheckpointTs, hs]
      · have := minWatermarkFrom_missing env.taskSize m.checkpointTsByCapture env.allNodes
          NewMaxWatermark hmiss
        unfold Maintainer.newWatermark at hnw
        rw [this] at hnw
        cases hnw
      · have := minWatermarkFrom_idle env.taskSize m.checkpointTsByCapture env.allNodes
          NewMaxWatermark hidle
        unfold Maintainer.newWatermark at hnw
        rw [this] at hnw
        cases hnw
        rw [he]
        exact publish_max m.watermark
  rw [key]
  exact ⟨rfl, rfl⟩

/-- C4 at a concrete input: the known node 1 holds a replica but a new
maintainer has no heartbeat of it, so the tick leaves the watermark alone. -/
theorem calCheckpointTs_frame_witness :
    ((NewMaintainer 10).calCheckpointTs tickEnv).watermark.CheckpointTs
        = (NewMaintainer 10).watermark.CheckpointTs ∧
    ((NewMaintainer 10).calCheckpointTs tickEnv).watermark.ResolvedTs
        = (NewMaintainer 10).watermark.ResolvedTs :=
  calCheckpointTs_frame (NewMaintainer 10) tickEnv
    (Or.inr (Or.inr (Or.inl ⟨1, by simp [tickEnv], by decide, rfl⟩)))

/-! ## Coordinator: the basic scheduler -/

theorem needsAdd_of_lookup_none (sm : StateMachines) (inf : ChangeFeedID)
    (h : sm.lookup inf = none) : needsAdd sm inf = true := by
  simp [needsAdd, h]

theorem needsAdd_of_lookup_some (sm : StateMachines) (inf : ChangeFeedID) (st : StateMachine)
    (h : sm.lookup inf = some st) :
    needsAdd sm inf = decide (st.State = SchedulerStatus.SchedulerStatusAbsent) := by
  simp [needsAdd, h]

/-- The first loop of `Schedule` extends `newInferiors` by the first candidates,
as many as still fit into the batch. -/
theorem collectNewInferiors_fst (b : Int) (sm : StateMachines) :
    ∀ (l acc : List ChangeFeedID) (af : Bool),
      (collectNewInferiors b sm l acc af).1
        = acc ++ (l.filter (needsAdd sm)).take (b.toNat - acc.length) := by
  intro l
  induction l with
  | nil => intro acc af; simp [collectNewInferiors]
  | cons inf rest ih =>
    intro acc af
    by_cases hfull : (acc.length : Int) ≥ b
    · have h0 : b.toNat - acc.length = 0 := by omega
      simp [collectNewInferiors, hfull, h0]
    · have hpos : b.toNat - acc.length = (b.toNat - (acc.length + 1)) + 1 := by omega
      cases hl : sm.lookup inf with
      | none =>
        have hn := needsAdd_of_lookup_none sm inf hl
        simp only [collectNewInferiors, hfull, if_false, hl]
        rw [ih, List.filter_cons_of_pos hn, hpos, List.take_succ_cons]
        simp
      | some st =>
        have hn := needsAdd_of_lookup_some sm inf st hl
        by_cases hab : st.State = SchedulerStatus.SchedulerStatusAbsent
        · simp only [collectNewInferiors, hfull, if_false, hl, hab, if_true]
          rw [ih, List.filter_cons_of_pos (by simp [hn, hab]), hpos, List.take_succ_cons]
          simp
        · simp only [collectNewInferiors, hfull, if_false, hl, hab]
          rw [ih, List.filter_cons_of_neg (by simp [hn, hab])]

/-- Once a changefeed without a state machine has been seen, `allFind` stays
false. -/
theorem collectNewInferiors_snd_false (b : Int) (sm : StateMachines) :
    ∀ (l acc : List ChangeFeedID), (collectNewInferiors b sm l acc false).2 = false := by
  intro l
  induction l with
  | nil => intro acc; rfl
  | cons inf rest ih =>
    intro acc
    unfold collectNewInferiors
    split
    · rfl
    · split
      · exact ih _
      · split
        · exact ih _
        · exact ih _

/-- The scan clears `allFind` when it reaches a changefeed without a state
machine before the batch is full. -/
theorem collectNewInferiors_snd_detects (b : Int) (sm : StateMachines) :
    ∀ (pre : List ChangeFeedID) (x : ChangeFeedID) (post acc : List ChangeFeedID) (af : Bool),
      sm.lookup x = none →
      ((acc.length + (pre.filter (needsAdd sm)).length : Nat) : Int) < b →
      (collectNewInferiors b sm (pre ++ x :: post) acc af).2 = false := by
  intro pre
  induction pre with
  | nil =>
    intro x post acc af hx hlt
    have hfull : ¬ (acc.length : Int) ≥ b := by
      simp at hlt; omega
    simp only [List.nil_append, collectNewInferiors, hfull, if_false, hx]
    exact collectNewInferiors_snd_false b sm post _
  | cons inf rest ih =>
    intro x post acc af hx hlt
    have hmono : (rest.filter (needsAdd sm)).length
        ≤ ((inf :: rest).filter (needsAdd sm)).length := by
      by_cases hn : needsAdd sm inf = true
      · rw [List.filter_cons_of_pos hn]; simp
      · rw [List.filter_cons_of_neg hn]
    have hfull : ¬ (acc.length : Int) ≥ b := by omega
    cases hl : sm.lookup inf with
    | none =>
      have hn := needsAdd_of_lookup_none sm inf hl
      simp only [List.cons_append, collectNewInferiors, hfull, if_false, hl]
      apply ih x post _ _ hx
      rw [List.filter_cons_of_pos hn] at hlt
      simp at hlt ⊢
      omega
    | some st =>
      have hn := needsAdd_of_lookup_some sm inf st hl
      by_cases hab : st.State = SchedulerStatus.SchedulerStatusAbsent
      · simp only [List.cons_append, collectNewInferiors, hfull, if_false, hl, hab, if_true]
        apply ih x post _ _ hx
        rw [List.filter_cons_of_pos (by simp [hn, hab])] at hlt
        simp at hlt ⊢
        omega
      · simp only [List.cons_append, collectNewInferiors, hfull, if_false, hl, hab]
        apply ih x post _ _ hx
        rw [List.filter_cons_of_neg (by simp [hn, hab])] at hlt
        exact hlt

theorem addedIDs_append (xs ys : List ScheduleTask) :
    addedIDs (xs ++ ys) = addedIDs xs ++ addedIDs ys := by
  simp [addedIDs, List.filterMap_append]

theorem nextIndex_add (n idx i : Nat) (h : idx < n) :
    ((if idx + 1 ≥ n then 0 else idx + 1) + i) % n = (idx + (i + 1)) % n := by
  by_cases hw : idx + 1 ≥ n
  · have hn : idx + 1 = n := by omega
    simp only [hw, if_true]
    have : idx + (i + 1) = n + i := by omega
    rw [this, Nat.add_mod_left, Nat.zero_add]
  · simp only [hw, if_false]
    have : idx + 1 + i = idx + (i + 1) := by omega
    rw [this]

/-- The loop of `newBurstAddInferiors` never leaves the range of the captures,
appends one task per inferior in order, and sends the `i`-th of them to the
capture at `(idx + i) mod n`. -/
theorem burstAddLoop_spec (caps : List CaptureID) :
    ∀ (infs : List ChangeFeedID) (idx : Nat) (acc : List ScheduleTask),
      idx < caps.length →
      ∃ out, burstAddLoop caps infs idx acc = some (acc ++ out) ∧
        out.length = infs.length ∧ addedIDs out = infs ∧
        (∀ t ∈ out, t.RemoveInferior = none) ∧
        ∀ i inf, infs[i]? = some inf →
          ∃ c, caps[(idx + i) % caps.length]? = some c ∧
            out[i]? = some { MoveInferior := none,
                             AddInferior := some { ID := inf, CaptureID := c },
                             RemoveInferior := none } := by
  intro infs
  induction infs with
  | nil =>
    intro idx acc _
    exact ⟨[], by simp [burstAddLoop], rfl, rfl, by simp, by simp⟩
  | cons inf rest ih =>
    intro idx acc hidx
    have hnext : (if idx + 1 ≥ caps.length then 0 else idx + 1) < caps.length := by
      split <;> omega
    obtain ⟨out, hout, hlen, hids, hrm, hget⟩ :=
      ih (if idx + 1 ≥ caps.length then 0 else idx + 1)
        (acc ++ [{ MoveInferior := none,
                   AddInferior := some { ID := inf, CaptureID := caps[idx] },
                   RemoveInferior := none }]) hnext
    refine ⟨{ MoveInferior := none,
              AddInferior := some { ID := inf, CaptureID := caps[idx] },
              RemoveInferior := none } :: out, ?_, ?_, ?_, ?_, ?_⟩
    · simp only [burstAddLoop, List.getElem?_eq_getElem hidx]
      rw [hout]
      simp
    · simp [hlen]
    · simp only [addedIDs, List.filterMap_cons, Option.map_some']
      exact congrArg (List.cons inf) hids
    · intro t ht
      rcases List.mem_cons.mp ht with rfl | ht
      · rfl
      · exact hrm t ht
    · intro i x hx
      cases i with
      | zero =>
        simp only [List.getElem?_cons_zero, Option.some.injEq] at hx
        subst hx
        refine ⟨caps[idx], ?_, by simp⟩
        rw [Nat.add_zero, Nat.mod_eq_of_lt hidx, List.getElem?_eq_getElem hidx]
      | succ i =>
        simp only [List.getElem?_cons_succ] at hx
        obtain ⟨c, hc, ho⟩ := hget i x hx
        refine ⟨c, ?_, by simpa using ho⟩
        rw [← nextIndex_add caps.length idx i hidx]
        exact hc

theorem addCount_append_add (acc : List ScheduleTask) (inf : ChangeFeedID) (tc c : CaptureID) :
    addCount (acc ++ [{ MoveInferior := none,
                        AddInferior := some { ID := inf, CaptureID := tc },
                        RemoveInferior := none }]) c
      = addCount acc c + (if tc = c then 1 else 0) := by
  unfold addCount
  rw [List.filter_append, List.length_append]
  by_cases h : tc = c
  · simp [h]
  · simp [h]

/-- With pairwise distinct captures the loop of `newBurstAddInferiors` keeps the
per-capture counts level: the captures before the running index are one task
ahead of the others. -/
theorem burstAddLoop_level (caps : List CaptureID) (hnd : caps.Nodup) :
    ∀ (infs : List ChangeFeedID) (idx : Nat) (acc out : List ScheduleTask) (q : Nat),
      idx < caps.length →
      (∀ j c, caps[j]? = some c → addCount acc c = q + (if j < idx then 1 else 0)) →
      burstAddLoop caps infs idx acc = some out →
      ∃ q2 idx2 : Nat,
        ∀ j c, caps[j]? = some c → addCount out c = q2 + (if j < idx2 then 1 else 0) := by
  intro infs
  induction infs with
  | nil =>
    intro idx acc out q _ hinv h
    simp only [burstAddLoop, Option.some.injEq] at h
    subst h
    exact ⟨q, idx, hinv⟩
  | cons inf rest ih =>
    intro idx acc out q hidx hinv h
    simp only [burstAddLoop, List.getElem?_eq_getElem hidx] at h
    have hsame : ∀ j c, caps[j]? = some c → (caps[idx] = c ↔ idx = j) := by
      intro j c hj
      constructor
      · intro he
        apply List.getElem?_inj hidx hnd
        rw [List.getElem?_eq_getElem hidx, hj, he]
      · intro he
        subst he
        rw [List.getElem?_eq_getElem hidx] at hj
        exact Option.some.inj hj
    have hjlt : ∀ j c, caps[j]? = some c → j < caps.length := by
      intro j c hj
      by_contra hge
      rw [List.getElem?_eq_none (by omega)] at hj
      cases hj
    by_cases hw : idx + 1 ≥ caps.length
    · simp only [hw, if_true] at h
      refine ih 0 _ out (q + 1) (by omega) ?_ h
      intro j c hj
      rw [addCount_append_add, hinv j c hj]
      have := hjlt j c hj
      by_cases hij : idx = j
      · have hc : caps[idx] = c := (hsame j c hj).2 hij
        simp [hc]; omega
      · have hc : ¬ caps[idx] = c := fun he => hij ((hsame j c hj).1 he)
        have hlt : j < idx := by omega
        simp [hc, hlt]
    · simp only [hw, if_false] at h
      refine ih (idx + 1) _ out q (by omega) ?_ h
      intro j c hj
      rw [addCount_append_add, hinv j c hj]
      by_cases hij : idx = j
      · have hc : caps[idx] = c := (hsame j c hj).2 hij
        have h1 : ¬ j < idx := by omega
        have h2 : j < idx + 1 := by omega
        simp [hc, h1, h2]
      · have hc : ¬ caps[idx] = c := fun he => hij ((hsame j c hj).1 he)
        by_cases hlt : j < idx
        · have h2 : j < idx + 1 := by omega
          simp [hc, hlt, h2]
        · have h2 : ¬ j < idx + 1 := by omega
          simp [hc, hlt, h2]

/-- Round-robin over `n` slots fills the slots before `m mod n` once more than
the others. -/
theorem slotCount_level (n : Nat) (hn : 0 < n) :
    ∀ m, ∃ q, ∀ j, j < n → slotCount n m j = q + (if j < m % n then 1 else 0) := by
  intro m
  induction m with
  | zero =>
    refine ⟨0, ?_⟩
    intro j _
    simp [slotCount]
  | succ m ih =>
    obtain ⟨q, hq⟩ := ih
    have hstep : ∀ j, slotCount n (m + 1) j = slotCount n m j + (if m % n = j then 1 else 0) := by
      intro j
      unfold slotCount
      rw [List.range_succ, List.filter_append, List.length_append]
      by_cases h : m % n = j <;> simp [h]
    have hlt : m % n < n := Nat.mod_lt _ hn
    by_cases hw : m % n + 1 = n
    · have hmod : (m + 1) % n = 0 := by
        have h1 : (m + 1) % n = (m % n + 1) % n := by
          rw [Nat.add_mod m 1 n]
          by_cases h1n : n = 1
          · subst h1n; simp
          · have : 1 % n = 1 := Nat.mod_eq_of_lt (by omega)
            rw [this]
        rw [h1, hw, Nat.mod_self]
      refine ⟨q + 1, ?_⟩
      intro j hj
      rw [hstep, hq j hj, hmod]
      by_cases hij : m % n = j
      · have : ¬ j < m % n := by omega
        simp [hij]
      · have : j < m % n := by omega
        simp [hij, this]
    · have hmod : (m + 1) % n = m % n + 1 := by
        have h1 : (m + 1) % n = (m % n + 1) % n := by
          rw [Nat.add_mod m 1 n]
          have : 1 % n = 1 := Nat.mod_eq_of_lt (by omega)
          rw [this]
        rw [h1]
        exact Nat.mod_eq_of_lt (by omega)
      refine ⟨q, ?_⟩
      intro j hj
      rw [hstep, hq j hj, hmod]
      by_cases hij : m % n = j
      · have h1 : ¬ j < m % n := by omega
        have h2 : j < m % n + 1 := by omega
        simp [hij, h2]
      · by_cases hlt2 : j < m % n
        · have h2 : j < m % n + 1 := by omega
          simp [hij, hlt2, h2]
        · have h2 : ¬ j < m % n + 1 := by omega
          simp [hij, hlt2, h2]

theorem lookup_of_mem_keys (sm : StateMachines) (key : ChangeFeedID)
    (h : key ∈ sm.map Prod.fst) : ∃ st, sm.lookup key = some st := by
  induction sm with
  | nil => cases h
  | cons e rest ih =>
    obtain ⟨k, v⟩ := e
    by_cases hk : key = k
    · subst hk
      exact ⟨v, by simp [List.lookup_cons]⟩
    · have hbeq : (key == k) = false := by simpa using hk
      have hmem : key ∈ rest.map Prod.fst := by
        simp only [List.map_cons, List.mem_cons] at h
        rcases h with h | h
        · exact absurd h hk
        · exact h
      obtain ⟨st, hst⟩ := ih hmem
      exact ⟨st, by simp [List.lookup_cons, hbeq, hst]⟩

theorem mem_keys_of_lookup (sm : StateMachines) (key : ChangeFeedID) (st : StateMachine)
    (h : sm.lookup key = some st) : key ∈ sm.map Prod.fst := by
  induction sm with
  | nil => simp at h
  | cons e rest ih =>
    obtain ⟨k, v⟩ := e
    by_cases hk : key = k
    · subst hk; simp
    · have hbeq : (key == k) = false := by simpa using hk
      simp only [List.lookup_cons, hbeq] at h
      simp only [List.map_cons, List.mem_cons]
      exact Or.inr (ih h)

/-- The loop of `newBurstRemoveInferiors`, on identifiers that all have a state
machine: it appends exactly the remove tasks of the identifiers whose primary
is not empty, each aimed at that primary. -/
theorem burstRemoveLoop_spec (sm : StateMachines) :
    ∀ (ids : List ChangeFeedID) (acc : List ScheduleTask),
      (∀ id ∈ ids, ∃ st, sm.lookup id = some st) →
      ∃ out, burstRemoveLoop sm ids acc = some (acc ++ out) ∧
        addedIDs out = [] ∧
        (∀ t ∈ out, ∃ id ∈ ids, ∃ st, sm.lookup id = some st ∧ st.Primary ≠ "" ∧
          t = { MoveInferior := none, AddInferior := none,
                RemoveInferior := some { ID := id, CaptureID := st.Primary } }) ∧
        (∀ id ∈ ids, ∀ st, sm.lookup id = some st → st.Primary ≠ "" →
          ({ MoveInferior := none, AddInferior := none,
             RemoveInferior := some { ID := id, CaptureID := st.Primary } } : ScheduleTask)
            ∈ out) := by
  intro ids
  induction ids with
  | nil =>
    intro acc _
    exact ⟨[], by simp [burstRemoveLoop], rfl, by simp, by simp⟩
  | cons id rest ih =>
    intro acc hall
    obtain ⟨st, hst⟩ := hall id (List.mem_cons_self _ _)
    have hrest : ∀ x ∈ rest, ∃ s, sm.lookup x = some s :=
      fun x hx => hall x (List.mem_cons_of_mem _ hx)
    by_cases hp : st.Primary = ""
    · obtain ⟨out, hout, hadd, hsound, hcomplete⟩ := ih acc hrest
      refine ⟨out, by simp [burstRemoveLoop, hst, hp, hout], hadd, ?_, ?_⟩
      · intro t ht
        obtain ⟨x, hx, s, hs, hne, he⟩ := hsound t ht
        exact ⟨x, List.mem_cons_of_mem _ hx, s, hs, hne, he⟩
      · intro x hx s hs hne
        rcases List.mem_cons.mp hx with rfl | hx
        · rw [hst] at hs
          cases hs
          exact absurd hp hne
        · exact hcomplete x hx s hs hne
    · obtain ⟨out, hout, hadd, hsound, hcomplete⟩ :=
        ih (acc ++ [{ MoveInferior := none, AddInferior := none,
                      RemoveInferior := some { ID := id, CaptureID := st.Primary } }]) hrest
      refine ⟨{ MoveInferior := none, AddInferior := none,
                RemoveInferior := some { ID := id, CaptureID := st.Primary } } :: out,
        by simp [burstRemoveLoop, hst, hp, hout], ?_, ?_, ?_⟩
      · simpa [addedIDs] using hadd
      · intro t ht
        rcases List.mem_cons.mp ht with rfl | ht
        · exact ⟨id, List.mem_cons_self _ _, st, hst, hp, rfl⟩
        · obtain ⟨x, hx, s, hs, hne, he⟩ := hsound t ht
          exact ⟨x, List.mem_cons_of_mem _ hx, s, hs, hne, he⟩
      · intro x hx s hs hne
        rcases List.mem_cons.mp hx with rfl | hx
        · rw [hst] at hs
          cases hs
          exact List.mem_cons_self _ _
        · exact List.mem_cons_of_mem _ (hcomplete x hx s hs hne)

/-- The remove part of `Schedule` yields exactly the remove tasks of the state
machines whose changefeed is not in the global list and whose primary is not
empty. -/
theorem removeInferiorTasks_spec (allCf : List ChangeFeedID) (sm : StateMachines) :
    ∃ rms, removeInferiorTasks allCf sm = some rms ∧
      addedIDs rms = [] ∧
      (∀ t ∈ rms, ∃ id st, sm.lookup id = some st ∧ id ∉ allCf ∧ st.Primary ≠ "" ∧
        t = { MoveInferior := none, AddInferior := none,
              RemoveInferior := some { ID := id, CaptureID := st.Primary } }) ∧
      (∀ id st, sm.lookup id = some st → id ∉ allCf → st.Primary ≠ "" →
        ({ MoveInferior := none, AddInferior := none,
           RemoveInferior := some { ID := id, CaptureID := st.Primary } } : ScheduleTask)
          ∈ rms) := by
  have hkeys : ∀ id ∈ (sm.map Prod.fst).filter
      (fun key => !(allCf.filter (fun inf => (sm.lookup inf).isSome)).contains key),
      ∃ st, sm.lookup id = some st := by
    intro id hid
    exact lookup_of_mem_keys sm id (List.mem_filter.mp hid).1
  obtain ⟨out, hout, hadd, hsound, hcomplete⟩ := burstRemoveLoop_spec sm _ [] hkeys
  refine ⟨out, by simpa [removeInferiorTasks, newBurstRemoveInferiors] using hout, hadd, ?_, ?_⟩
  · intro t ht
    obtain ⟨id, hid, st, hst, hne, he⟩ := hsound t ht
    refine ⟨id, st, hst, ?_, hne, he⟩
    intro hmem
    have h2 := (List.mem_filter.mp hid).2
    simp only [Bool.not_eq_true', List.contains_eq_any_beq, List.any_eq_false] at h2
    have := h2 id (List.mem_filter.mpr ⟨hmem, by simp [hst]⟩)
    simp at this
  · intro id st hst hnot hne
    apply hcomplete id _ st hst hne
    apply List.mem_filter.mpr
    refine ⟨mem_keys_of_lookup sm id st hst, ?_⟩
    simp only [Bool.not_eq_true', List.contains_eq_any_beq, List.any_eq_false]
    intro x hx
    have hx1 := (List.mem_filter.mp hx).1
    simp only [beq_iff_eq]
    intro he
    subst he
    exact hnot hx1

/-- The shape of every result of `Schedule`: add tasks followed by remove tasks;
the call never panics. -/
theorem Schedule_cases (b : BasicScheduler) (allCf : List ChangeFeedID)
    (alive : List CaptureID) (sm : StateMachines) :
    ∃ adds rms, b.Schedule allCf alive sm = some (adds ++ rms) ∧
      (∀ t ∈ adds, t.RemoveInferior = none) ∧
      (rms = [] ∨ removeInferiorTasks allCf sm = some rms) ∧
      (alive ≠ [] →
        addedIDs adds = (collectNewInferiors b.batchSize sm allCf [] true).1 ∧
        newBurstAddInferiors (collectNewInferiors b.batchSize sm allCf [] true).1 alive
          = some adds ∧
        ((allCf.length ≠ sm.length ∨
            (collectNewInferiors b.batchSize sm allCf [] true).2 = false) →
          removeInferiorTasks allCf sm = some rms)) := by
  obtain ⟨rms0, hrm0, _, _, _⟩ := removeInferiorTasks_spec allCf sm
  have hcondTrue : (allCf.length ≠ sm.length ∨
      (collectNewInferiors b.batchSize sm allCf [] true).2 = false) →
      (!(allCf.length == sm.length) ||
        !(collectNewInferiors b.batchSize sm allCf [] true).2) = true := by
    intro h
    rcases h with h | h
    · simp [h]
    · simp [h]
  by_cases hc : (collectNewInferiors b.batchSize sm allCf [] true).1.length > 0
  · by_cases ha : alive.length = 0
    · refine ⟨[], [], ?_, by simp, Or.inl rfl, ?_⟩
      · simp [BasicScheduler.Schedule, hc, ha]
      · intro hne
        exact absurd (List.length_eq_zero.mp ha) hne
    · obtain ⟨out, hout, _, hids, hnorm, _⟩ :=
        burstAddLoop_spec alive (collectNewInferiors b.batchSize sm allCf [] true).1 0 []
          (by omega)
      have hnb : newBurstAddInferiors (collectNewInferiors b.batchSize sm allCf [] true).1 alive
          = some out := by simpa [newBurstAddInferiors] using hout
      by_cases hcond : (!(allCf.length == sm.length) ||
          !(collectNewInferiors b.batchSize sm allCf [] true).2) = true
      · refine ⟨out, rms0, ?_, hnorm, Or.inr hrm0, fun _ => ⟨hids, hnb, fun _ => hrm0⟩⟩
        simp only [BasicScheduler.Schedule, hc, ha, if_true, if_false, hnb, Option.map_some',
          hcond, hrm0]
      · refine ⟨out, [], ?_, hnorm, Or.inl rfl,
          fun _ => ⟨hids, hnb, fun h => absurd (hcondTrue h) hcond⟩⟩
        simp only [BasicScheduler.Schedule, hc, ha, if_true, if_false, hnb, Option.map_some',
          hcond, List.append_nil]
        simp
  · have hnil : (collectNewInferiors b.batchSize sm allCf [] true).1 = [] := by
      apply List.length_eq_zero.mp
      omega
    have hnb : newBurstAddInferiors (collectNewInferiors b.batchSize sm allCf [] true).1 alive
        = some [] := by
      rw [hnil]; rfl
    by_cases hcond : (!(allCf.length == sm.length) ||
        !(collectNewInferiors b.batchSize sm allCf [] true).2) = true
    · refine ⟨[], rms0, ?_, by simp, Or.inr hrm0,
        fun _ => ⟨by rw [hnil]; rfl, hnb, fun _ => hrm0⟩⟩
      simp only [BasicScheduler.Schedule, hc, if_false, hcond, if_true, hrm0, Option.map_some']
    · refine ⟨[], [], ?_, by simp, Or.inl rfl,
        fun _ => ⟨by rw [hnil]; rfl, hnb, fun h => absurd (hcondTrue h) hcond⟩⟩
      simp only [BasicScheduler.Schedule, hc, if_false, hcond, List.append_nil]
      simp

/-- C7: with at least one alive server, `Schedule` returns, and its `AddInferior`
tasks are, in order, the first `min (max batchSize 0) k` entries of
`allChangefeeds` that have no state machine or an absent one (`k` the number of
such entries); so there are at most `max batchSize 0` of them, and none for a
changefeed whose state machine exists and is not absent. -/
theorem Schedule_adds (b : BasicScheduler) (allChangefeeds : List ChangeFeedID)
    (aliveServers : List CaptureID) (stateMachines : StateMachines)
    (halive : aliveServers ≠ []) :
    ∃ tasks, b.Schedule allChangefeeds aliveServers stateMachines = some tasks ∧
      addedIDs tasks
        = (allChangefeeds.filter (needsAdd stateMachines)).take
            (min (max b.batchSize 0).toNat
              (allChangefeeds.filter (needsAdd stateMachines)).length) ∧
      ((addedIDs tasks).length : Int) ≤ max b.batchSize 0 ∧
      (∀ id ∈ addedIDs tasks, id ∈ allChangefeeds ∧
        ∀ st, stateMachines.lookup id = some st →
          st.State = SchedulerStatus.SchedulerStatusAbsent) := by
  obtain ⟨adds, rms, hs, _, hrms, hal⟩ :=
    Schedule_cases b allChangefeeds aliveServers stateMachines
  obtain ⟨hids, _, _⟩ := hal halive
  have hrmsAdd : addedIDs rms = [] := by
    rcases hrms with h | h
    · rw [h]; rfl
    · obtain ⟨rms0, hrm0, hadd0, _, _⟩ := removeInferiorTasks_spec allChangefeeds stateMachines
      rw [hrm0] at h
      cases h
      exact hadd0
  have hall : addedIDs (adds ++ rms)
      = (allChangefeeds.filter (needsAdd stateMachines)).take b.batchSize.toNat := by
    rw [addedIDs_append, hrmsAdd, List.append_nil, hids, collectNewInferiors_fst]
    simp
  have htoNat : (max b.batchSize 0).toNat = b.batchSize.toNat := by omega
  refine ⟨adds ++ rms, hs, ?_, ?_, ?_⟩
  · rw [hall, htoNat]
    rcases Nat.le_total b.batchSize.toNat
        (allChangefeeds.filter (needsAdd stateMachines)).length with hle | hle
    · rw [Nat.min_eq_left hle]
    · rw [Nat.min_eq_right hle, List.take_of_length_le hle, List.take_of_length_le (Nat.le_refl _)]
  · rw [hall, List.length_take]
    omega
  · intro id hid
    rw [hall] at hid
    have hmem := List.mem_filter.mp (List.mem_of_mem_take hid)
    refine ⟨hmem.1, ?_⟩
    intro st hst
    have := hmem.2
    rw [needsAdd_of_lookup_some stateMachines id st hst] at this
    simpa using this

/-- C7 at a concrete input: batch size 2, changefeeds 1..4 of which 2 is working
and 3 is absent: the add tasks are those of 1 and 3. -/
theorem Schedule_adds_witness :
    ∃ tasks, BasicScheduler.Schedule { batchSize := 2 } [1, 2, 3, 4] ["a", "b"]
        [(2, { State := SchedulerStatus.SchedulerStatusWorking, Primary := "a" }),
         (3, { State := SchedulerStatus.SchedulerStatusAbsent, Primary := "" })] = some tasks ∧
      addedIDs tasks = [1, 3] := by
  obtain ⟨tasks, h1, h2, _⟩ :=
    Schedule_adds { batchSize := 2 } [1, 2, 3, 4] ["a", "b"]
      [(2, { State := SchedulerStatus.SchedulerStatusWorking, Primary := "a" }),
       (3, { State := SchedulerStatus.SchedulerStatusAbsent, Primary := "" })]
      (by simp)
  refine ⟨tasks, h1, ?_⟩
  rw [h2]
  decide

/-- C8: for every list of new inferiors and every non-empty list of captures,
`newBurstAddInferiors` returns without an index out of range, with one
`AddInferior` task per inferior in input order, the `i`-th aimed at the capture
at position `i mod n`; so the numbers of tasks of any two positions differ by
at most one, and so do the numbers of tasks of any two captures when the
captures are pairwise distinct. -/
theorem newBurstAddInferiors_round_robin (newInferiors : List ChangeFeedID)
    (captureIDs : List CaptureID) (hne : captureIDs ≠ []) :
    ∃ tasks, newBurstAddInferiors newInferiors captureIDs = some tasks ∧
      tasks.length = newInferiors.length ∧
      (∀ i inf, newInferiors[i]? = some inf →
        ∃ c, captureIDs[i % captureIDs.length]? = some c ∧
          tasks[i]? = some { MoveInferior := none,
                             AddInferior := some { ID := inf, CaptureID := c },
                             RemoveInferior := none }) ∧
      (∀ j k, j < captureIDs.length → k < captureIDs.length →
        slotCount captureIDs.length newInferiors.length j
          ≤ slotCount captureIDs.length newInferiors.length k + 1) ∧
      (captureIDs.Nodup → ∀ c1 ∈ captureIDs, ∀ c2 ∈ captureIDs,
        addCount tasks c1 ≤ addCount tasks c2 + 1) := by
  have hpos : 0 < captureIDs.length := List.length_pos.mpr hne
  obtain ⟨out, hout, hlen, _, _, hget⟩ := burstAddLoop_spec captureIDs newInferiors 0 [] hpos
  have hnb : newBurstAddInferiors newInferiors captureIDs = some out := by
    simpa [newBurstAddInferiors] using hout
  refine ⟨out, hnb, hlen, ?_, ?_, ?_⟩
  · intro i inf hi
    obtain ⟨c, hc, ho⟩ := hget i inf hi
    rw [Nat.zero_add] at hc
    exact ⟨c, hc, ho⟩
  · intro j k hj hk
    obtain ⟨q, hq⟩ := slotCount_level captureIDs.length hpos newInferiors.length
    rw [hq j hj, hq k hk]
    split <;> split <;> omega
  · intro hnd c1 hc1 c2 hc2
    obtain ⟨q, idx, hq⟩ := burstAddLoop_level captureIDs hnd newInferiors 0 [] out 0 hpos
      (by intro j c _; simp [addCount]) hnb
    obtain ⟨j1, hj1⟩ := List.getElem?_of_mem hc1
    obtain ⟨j2, hj2⟩ := List.getElem?_of_mem hc2
    rw [hq j1 c1 hj1, hq j2 c2 hj2]
    split <;> split <;> omega

/-- C8 at a concrete input: three inferiors over the captures `a`, `b`. -/
theorem newBurstAddInferiors_round_robin_witness :
    ∃ tasks, newBurstAddInferiors [7, 8, 9] ["a", "b"] = some tasks ∧
      tasks.length = 3 ∧ addCount tasks "a" ≤ addCount tasks "b" + 1 := by
  obtain ⟨tasks, h1, h2, _, _, h5⟩ :=
    newBurstAddInferiors_round_robin [7, 8, 9] ["a", "b"] (by simp)
  exact ⟨tasks, h1, h2, h5 (by decide) "a" (by simp) "b" (by simp)⟩

/-- C10: `Schedule` always returns, and every `RemoveInferior` task it returns
names a key of `stateMachines` that is not in `allChangefeeds`, aimed at that
state machine's primary, which is not empty. -/
theorem Schedule_removes_sound (b : BasicScheduler) (allChangefeeds : List ChangeFeedID)
    (aliveServers : List CaptureID) (stateMachines : StateMachines) :
    ∃ tasks, b.Schedule allChangefeeds aliveServers stateMachines = some tasks ∧
      ∀ t ∈ tasks, ∀ r, t.RemoveInferior = some r →
        ∃ st, stateMachines.lookup r.ID = some st ∧ r.ID ∉ allChangefeeds ∧
          r.CaptureID = st.Primary ∧ st.Primary ≠ "" := by
  obtain ⟨adds, rms, hs, hadds, hrms, _⟩ :=
    Schedule_cases b allChangefeeds aliveServers stateMachines
  refine ⟨adds ++ rms, hs, ?_⟩
  intro t ht r hr
  rcases List.mem_append.mp ht with ht | ht
  · rw [hadds t ht] at hr
    cases hr
  · rcases hrms with h | h
    · rw [h] at ht
      cases ht
    · obtain ⟨rms0, hrm0, _, hsound, _⟩ := removeInferiorTasks_spec allChangefeeds stateMachines
      rw [hrm0] at h
      cases h
      obtain ⟨id, st, hst, hnot, hne, he⟩ := hsound t ht
      subst he
      cases hr
      exact ⟨st, hst, hnot, rfl, hne⟩

/-- C9, as stated, fails twice.  With no alive server and a changefeed to add,
`Schedule` returns before the remove part: the stray state machine 2 (primary
`n1`) gets no task.  With an alive server and batch size 1, the scan stops
after the absent changefeed 1, never sees that 3 has no state machine, and the
equal sizes hide the stray state machine 2 as well. -/
theorem Schedule_misses_stray :
    (BasicScheduler.Schedule { batchSize := 1 } [1] []
        [(2, { State := SchedulerStatus.SchedulerStatusWorking, Primary := "n1" })] = some [] ∧
      (2 : ChangeFeedID) ∉ [1]) ∧
    (BasicScheduler.Schedule { batchSize := 1 } [1, 3] ["n1"]
        [(1, { State := SchedulerStatus.SchedulerStatusAbsent, Primary := "" }),
         (2, { State := SchedulerStatus.SchedulerStatusWorking, Primary := "n1" })]
        = some [{ MoveInferior := none,
                  AddInferior := some { ID := 1, CaptureID := "n1" },
                  RemoveInferior := none }] ∧
      (2 : ChangeFeedID) ∉ [1, 3]) := by
  refine ⟨⟨?_, by decide⟩, ⟨?_, by decide⟩⟩
  · decide
  · decide

/-- The scan collects nothing when the batch size is not positive or no
changefeed has to be added. -/
theorem collectNewInferiors_nothing (b : Int) (sm : StateMachines)
    (allCf : List ChangeFeedID)
    (h : b ≤ 0 ∨ ∀ x ∈ allCf, needsAdd sm x = false) :
    (collectNewInferiors b sm allCf [] true).1 = [] := by
  rw [collectNewInferiors_fst]
  rcases h with h | h
  · have h0 : b.toNat - ([] : List ChangeFeedID).length = 0 := by
      simp only [List.length_nil]
      omega
    rw [h0]
    rfl
  · have hf : allCf.filter (needsAdd sm) = [] := by
      apply List.filter_eq_nil_iff.mpr
      intro x hx
      rw [h x hx]
      simp
    rw [hf]
    simp

/-- With nothing to add, `Schedule` does not look at the alive servers: behind
a failed fast-path test it returns the remove tasks. -/
theorem Schedule_nothing_to_add (b : BasicScheduler) (allCf : List ChangeFeedID)
    (alive : List CaptureID) (sm : StateMachines)
    (hnil : (collectNewInferiors b.batchSize sm allCf [] true).1 = [])
    (hcond : allCf.length ≠ sm.length ∨
      (collectNewInferiors b.batchSize sm allCf [] true).2 = false) :
    b.Schedule allCf alive sm = removeInferiorTasks allCf sm := by
  have hc : (!(allCf.length == sm.length) ||
      !(collectNewInferiors b.batchSize sm allCf [] true).2) = true := by
    rcases hcond with h | h
    · simp [h]
    · simp [h]
  unfold BasicScheduler.Schedule
  simp only [hnil, List.length_nil, gt_iff_lt, Nat.lt_irrefl, if_false, hc, if_true]
  cases removeInferiorTasks allCf sm with
  | none => rfl
  | some rm => simp

/-- C9, amended: when there is an alive server, or nothing to add (the batch
size is not positive, or every changefeed of `allChangefeeds` has a state
machine that is not absent), and `allChangefeeds` and `stateMachines` differ in
size, or a changefeed without a state machine is preceded in `allChangefeeds`
by fewer than `batchSize` entries to add (the scan reaches it), then `Schedule`
returns a `RemoveInferior` task for every key of `stateMachines` that is not in
`allChangefeeds` and has a non-empty primary, aimed at that primary. -/
theorem Schedule_removes_complete (b : BasicScheduler) (allChangefeeds : List ChangeFeedID)
    (aliveServers : List CaptureID) (stateMachines : StateMachines)
    (halive : aliveServers ≠ [] ∨ b.batchSize ≤ 0 ∨
      ∀ x ∈ allChangefeeds, needsAdd stateMachines x = false)
    (hdiff : allChangefeeds.length ≠ stateMachines.length ∨
      ∃ pre x post, allChangefeeds = pre ++ x :: post ∧ stateMachines.lookup x = none ∧
        ((pre.filter (needsAdd stateMachines)).length : Int) < b.batchSize) :
    ∃ tasks, b.Schedule allChangefeeds aliveServers stateMachines = some tasks ∧
      ∀ key st, stateMachines.lookup key = some st → key ∉ allChangefeeds →
        st.Primary ≠ "" →
        ({ MoveInferior := none, AddInferior := none,
           RemoveInferior := some { ID := key, CaptureID := st.Primary } } : ScheduleTask)
          ∈ tasks := by
  have hcond : allChangefeeds.length ≠ stateMachines.length ∨
      (collectNewInferiors b.batchSize stateMachines allChangefeeds [] true).2 = false := by
    rcases hdiff with h | ⟨pre, x, post, hsplit, hx, hlt⟩
    · exact Or.inl h
    · right
      rw [hsplit]
      apply collectNewInferiors_snd_detects b.batchSize stateMachines pre x post [] true hx
      simpa using hlt
  obtain ⟨rms0, hrm0, _, _, hcomplete⟩ := removeInferiorTasks_spec allChangefeeds stateMachines
  rcases halive with halive | hnothing
  · obtain ⟨adds, rms, hs, _, _, hal⟩ :=
      Schedule_cases b allChangefeeds aliveServers stateMachines
    obtain ⟨_, _, hrm⟩ := hal halive
    have hrms := hrm hcond
    rw [hrm0] at hrms
    have hsame : rms0 = rms := Option.some.inj hrms
    refine ⟨adds ++ rms, hs, ?_⟩
    intro key st hst hnot hne
    rw [← hsame]
    exact List.mem_append.mpr (Or.inr (hcomplete key st hst hnot hne))
  · have hnil := collectNewInferiors_nothing b.batchSize stateMachines allChangefeeds hnothing
    refine ⟨rms0, ?_, hcomplete⟩
    rw [Schedule_nothing_to_add b allChangefeeds aliveServers stateMachines hnil hcond, hrm0]

/-- C9, amended, at two concrete inputs.  With the alive server `n1`:
changefeed 1 has no state machine, the stray state machine 2 is removed from
its primary `n1`.  Without an alive server and with nothing to add: the stray
state machine 2 is removed as well. -/
theorem Schedule_removes_complete_witness :
    (∃ tasks, BasicScheduler.Schedule { batchSize := 2 } [1] ["n1"]
        [(2, { State := SchedulerStatus.SchedulerStatusWorking, Primary := "n1" })]
        = some tasks ∧
      ({ MoveInferior := none, AddInferior := none,
         RemoveInferior := some { ID := 2, CaptureID := "n1" } } : ScheduleTask) ∈ tasks) ∧
    (∃ tasks, BasicScheduler.Schedule { batchSize := 1 } [] []
        [(2, { State := SchedulerStatus.SchedulerStatusWorking, Primary := "n1" })]
        = some tasks ∧
      ({ MoveInferior := none, AddInferior := none,
         RemoveInferior := some { ID := 2, CaptureID := "n1" } } : ScheduleTask) ∈ tasks) := by
  constructor
  · obtain ⟨tasks, h1, h2⟩ :=
      Schedule_removes_complete { batchSize := 2 } [1] ["n1"]
        [(2, { State := SchedulerStatus.SchedulerStatusWorking, Primary := "n1" })]
        (Or.inl (by simp))
        (Or.inr ⟨[], 1, [], rfl, by decide, by decide⟩)
    exact ⟨tasks, h1,
      h2 2 { State := SchedulerStatus.SchedulerStatusWorking, Primary := "n1" }
        (by decide) (by decide) (by decide)⟩
  · obtain ⟨tasks, h1, h2⟩ :=
      Schedule_removes_complete { batchSize := 1 } [] []
        [(2, { State := SchedulerStatus.SchedulerStatusWorking, Primary := "n1" })]
        (Or.inr (Or.inr (by simp)))
        (Or.inl (by decide))
    exact ⟨tasks, h1,
      h2 2 { State := SchedulerStatus.SchedulerStatusWorking, Primary := "n1" }
        (by decide) (by decide) (by decide)⟩

/-! ## Operator controller -/

theorem foldl_pick_mem (items : Nat → OperatorWithTime) :
    ∀ (rest : List Nat) (a : Nat),
      rest.foldl (fun best x => if (items x).Time < (items best).Time then x else best) a
        ∈ a :: rest := by
  intro rest
  induction rest with
  | nil => intro a; simp
  | cons x rest ih =>
    intro a
    simp only [List.foldl_cons]
    have h := ih (if (items x).Time < (items a).Time then x else a)
    rcases List.mem_cons.mp h with h | h
    · rw [h]
      split
      · simp
      · simp
    · exact List.mem_cons_of_mem _ (List.mem_cons_of_mem _ h)

/-- The entry `heap.Pop` takes is in the queue, and what is left is the queue
without it. -/
theorem heapPop_spec (items : Nat → OperatorWithTime) (queue : List Nat) (a : Nat)
    (rest : List Nat) (h : heapPop items queue = some (a, rest)) :
    a ∈ queue ∧ rest = queue.erase a := by
  unfold heapPop at h
  cases hq : queue with
  | nil => rw [hq] at h; simp [popIndex] at h
  | cons x xs =>
    rw [hq] at h
    simp only [popIndex, Option.some.injEq, Prod.mk.injEq] at h
    obtain ⟨h1, h2⟩ := h
    refine ⟨?_, h2.symm ▸ by rw [h1]⟩
    rw [← h1]
    exact foldl_pick_mem items xs x

theorem heapPop_none (items : Nat → OperatorWithTime) (queue : List Nat)
    (h : heapPop items queue = none) : queue = [] := by
  cases queue with
  | nil => rfl
  | cons x xs => simp [heapPop, popIndex] at h

/-- `pushOperator` keeps the controller consistent when the operator's
dispatcher has no operator yet. -/
theorem pushOperator_consistent (oc : Controller) (env : OpEnv) (op : Operator)
    (h : oc.Consistent) (hfree : oc.operators op.ID = none) :
    (oc.pushOperator env op).Consistent := by
  have hnot : oc.nextItem ∉ oc.runningQueue := fun hm => Nat.lt_irrefl _ (h.allocated _ hm)
  constructor
  · show (oc.runningQueue ++ [oc.nextItem]).Nodup
    rw [List.nodup_append]
    refine ⟨h.nodup, by simp, ?_⟩
    intro a ha hb
    simp only [List.mem_singleton] at hb
    subst hb
    exact hnot ha
  · intro a ha
    show a < oc.nextItem + 1
    have ha2 : a ∈ oc.runningQueue ++ [oc.nextItem] := ha
    rcases List.mem_append.mp ha2 with ha3 | ha3
    · exact Nat.lt_succ_of_lt (h.allocated a ha3)
    · simp only [List.mem_singleton] at ha3
      omega
  · intro a ha hlive
    have ha2 : a ∈ oc.runningQueue ++ [oc.nextItem] := ha
    rcases List.mem_append.mp ha2 with ha3 | ha3
    · have hne : a ≠ oc.nextItem := fun he => hnot (he ▸ ha3)
      simp only [Controller.pushOperator, hne, if_false] at hlive ⊢
      have hold := h.queueLive a ha3 hlive
      have hid : (oc.items a).OP.ID ≠ op.ID := by
        intro he
        rw [he, hfree] at hold
        cases hold
      simp [hid, hold]
    · simp only [List.mem_singleton] at ha3
      subst ha3
      simp [Controller.pushOperator, NewOperatorWithTime]
  · intro id a hmap
    simp only [Controller.pushOperator] at hmap ⊢
    by_cases hid : id = op.ID
    · simp only [hid, if_true, Option.some.injEq] at hmap
      subst hmap
      simp [NewOperatorWithTime, hid]
    · simp only [hid, if_false] at hmap
      obtain ⟨h1, h2, h3⟩ := h.mapLive id a hmap
      have hne : a ≠ oc.nextItem := fun he => hnot (he ▸ h1)
      simp [hne, h1, h2, h3]

theorem pushOperator_operators (oc : Controller) (env : OpEnv) (op : Operator)
    (id : DispatcherID) (hid : id ≠ op.ID) :
    (oc.pushOperator env op).operators id = oc.operators id := by
  simp [Controller.pushOperator, hid]

/-- `removeReplicaSet` keeps the controller consistent. -/
theorem removeReplicaSet_consistent (oc : Controller) (env : OpEnv) (op : Operator)
    (h : oc.Consistent) : (oc.removeReplicaSet env op).Consistent := by
  unfold Controller.removeReplicaSet
  cases hold : oc.operators op.ID with
  | none => exact pushOperator_consistent oc env op h hold
  | some old =>
    simp only
    obtain ⟨hq, hr, hi⟩ := h.mapLive op.ID old hold
    apply pushOperator_consistent
    · constructor
      · exact h.nodup
      · exact h.allocated
      · intro a ha hlive
        simp only at hlive ⊢
        by_cases hao : a = old
        · simp [hao] at hlive
        · simp only [hao, if_false] at hlive ⊢
          have hm := h.queueLive a ha hlive
          have hid : (oc.items a).OP.ID ≠ op.ID := by
            intro he
            rw [he, hold] at hm
            exact hao (Option.some.inj hm).symm
          simp [hid, hm]
      · intro id a hmap
        simp only at hmap ⊢
        by_cases hid : id = op.ID
        · simp [hid] at hmap
        · simp only [hid, if_false] at hmap
          obtain ⟨h1, h2, h3⟩ := h.mapLive id a hmap
          have hao : a ≠ old := by
            intro he
            rw [he, hi] at h3
            exact hid h3.symm
          simp [hao, h1, h2, h3]
    · simp

theorem removeTasks_consistent (env : OpEnv) :
    ∀ (replicaSets : List SpanReplication) (oc : Controller),
      oc.Consistent → (oc.removeTasks env replicaSets).Consistent := by
  intro replicaSets
  induction replicaSets with
  | nil => intro oc h; exact h
  | cons r rest ih =>
    intro oc h
    exact ih _ (removeReplicaSet_consistent oc env _ h)

/-- `pollQueueingOperator` keeps the controller consistent. -/
theorem pollQueueingOperator_consistent (oc : Controller) (env : OpEnv)
    (h : oc.Consistent) : (oc.pollQueueingOperator env).1.Consistent := by
  unfold Controller.pollQueueingOperator
  cases hp : heapPop oc.items oc.runningQueue with
  | none => exact h
  | some pr =>
    obtain ⟨a, rest⟩ := pr
    obtain ⟨hmem, hrest⟩ := heapPop_spec _ _ _ _ hp
    have hrestMem : ∀ x, x ∈ rest ↔ x ≠ a ∧ x ∈ oc.runningQueue := by
      intro x; rw [hrest]; exact h.nodup.mem_erase_iff
    have hrestNodup : rest.Nodup := by rw [hrest]; exact h.nodup.erase a
    have hbackMem : ∀ x, x ∈ rest ++ [a] ↔ x ∈ oc.runningQueue := by
      intro x
      rw [List.mem_append, hrestMem, List.mem_singleton]
      constructor
      · rintro (⟨_, hx⟩ | hx)
        · exact hx
        · rw [hx]; exact hmem
      · intro hx
        by_cases hxa : x = a
        · exact Or.inr hxa
        · exact Or.inl ⟨hxa, hx⟩
    have hbackNodup : (rest ++ [a]).Nodup := by
      rw [List.nodup_append]
      refine ⟨hrestNodup, by simp, ?_⟩
      intro x hx hb
      simp only [List.mem_singleton] at hb
      subst hb
      exact ((hrestMem x).1 hx).1 rfl
    simp only
    by_cases hrem : (oc.items a).Removed = true
    · simp only [hrem, if_true]
      constructor
      · exact hrestNodup
      · intro x hx; exact h.allocated x ((hrestMem x).1 hx).2
      · intro x hx hlive; exact h.queueLive x ((hrestMem x).1 hx).2 hlive
      · intro id x hmap
        obtain ⟨h1, h2, h3⟩ := h.mapLive id x hmap
        refine ⟨(hrestMem x).2 ⟨?_, h1⟩, h2, h3⟩
        intro he
        rw [he, hrem] at h2
        cases h2
    · have hlive : (oc.items a).Removed = false := by
        cases hb : (oc.items a).Removed with
        | true => exact absurd hb hrem
        | false => rfl
      have hmapA := h.queueLive a hmem hlive
      simp only [hrem, if_false, Bool.false_eq_true]
      by_cases hfin : env.isFinished (oc.items a).OP = true
      · simp only [hfin, if_true]
        constructor
        · exact hrestNodup
        · intro x hx; exact h.allocated x ((hrestMem x).1 hx).2
        · intro x hx hl
          obtain ⟨hxa, hxq⟩ := (hrestMem x).1 hx
          simp only [hxa, if_false] at hl ⊢
          have hm := h.queueLive x hxq hl
          have hid : (oc.items x).OP.ID ≠ (oc.items a).OP.ID := by
            intro he
            rw [he, hmapA] at hm
            exact hxa (Option.some.inj hm).symm
          simp [hid, hm]
        · intro id x hmap
          simp only at hmap ⊢
          by_cases hid : id = (oc.items a).OP.ID
          · simp [hid] at hmap
          · simp only [hid, if_false] at hmap
            obtain ⟨h1, h2, h3⟩ := h.mapLive id x hmap
            have hxa : x ≠ a := by
              intro he
              rw [he] at h3
              exact hid h3.symm
            exact ⟨(hrestMem x).2 ⟨hxa, h1⟩, by simp [hxa, h2], by simp [hxa, h3]⟩
      · simp only [hfin, if_false, Bool.false_eq_true]
        by_cases hready : env.now < (oc.items a).Time
        · simp only [hready, if_true]
          constructor
          · exact hbackNodup
          · intro x hx; exact h.allocated x ((hbackMem x).1 hx)
          · intro x hx hl; exact h.queueLive x ((hbackMem x).1 hx) hl
          · intro id x hmap
            obtain ⟨h1, h2, h3⟩ := h.mapLive id x hmap
            exact ⟨(hbackMem x).2 h1, h2, h3⟩
        · simp only [hready, if_false]
          constructor
          · exact hbackNodup
          · intro x hx; exact h.allocated x ((hbackMem x).1 hx)
          · intro x hx hl
            have hxq := (hbackMem x).1 hx
            by_cases hxa : x = a
            · subst hxa
              simpa using hmapA
            · simp only [hxa, if_false] at hl ⊢
              exact h.queueLive x hxq hl
          · intro id x hmap
            obtain ⟨h1, h2, h3⟩ := h.mapLive id x hmap
            refine ⟨(hbackMem x).2 h1, ?_, ?_⟩
            · by_cases hxa : x = a
              · subst hxa; simp [h2]
              · simpa [hxa] using h2
            · by_cases hxa : x = a
              · subst hxa; simpa using h3
              · simpa [hxa] using h3

/-- The loop of `Execute` keeps the controller consistent. -/
theorem executeLoop_consistent (env : OpEnv) :
    ∀ (fuel : Nat) (oc : Controller) (executedItem : Int) (oc2 : Controller) (wake : Int),
      oc.Consistent → Controller.executeLoop env fuel oc executedItem = some (oc2, wake) →
      oc2.Consistent := by
  intro fuel
  induction fuel with
  | zero => intro oc e oc2 wake _ h; simp [Controller.executeLoop] at h
  | succ fuel ih =>
    intro oc e oc2 wake hc h
    have hpoll := pollQueueingOperator_consistent oc env hc
    unfold Controller.executeLoop at h
    rcases hres : oc.pollQueueingOperator env with ⟨oc1, r, next⟩
    rw [hres] at h hpoll
    cases next with
    | false =>
      simp only [Option.some.injEq, Prod.mk.injEq] at h
      rw [← h.1]
      exact hpoll
    | true =>
      cases r with
      | none => exact ih oc1 e oc2 wake hpoll h
      | some op =>
        simp only at h
        have hc2 : Controller.Consistent
            { oc1 with calls := oc1.calls ++ [Call.Schedule op] ++
                (match env.schedule op with
                 | some msg => [Call.SendCommand msg]
                 | none => []) } :=
          ⟨hpoll.nodup, hpoll.allocated, hpoll.queueLive, hpoll.mapLive⟩
        split at h
        · simp only [Option.some.injEq, Prod.mk.injEq] at h
          rw [← h.1]
          exact hc2
        · exact ih _ _ oc2 wake hc2 h

theorem groupIsFree_spec (oc : Controller) (db : ReplicationDB) :
    ∀ (group : List SpanReplication), oc.groupIsFree db group = true →
      ∀ r ∈ group, oc.operators r.ID = none ∧ ∃ span, db.GetTaskByID r.ID = some span := by
  intro group
  induction group with
  | nil => intro _ r hr; cases hr
  | cons x rest ih =>
    intro hfree r hr
    unfold Controller.groupIsFree at hfree
    cases ho : oc.operators x.ID with
    | some a => rw [ho] at hfree; cases hfree
    | none =>
      rw [ho] at hfree
      cases hd : db.GetTaskByID x.ID with
      | none => rw [hd] at hfree; cases hfree
      | some span =>
        rw [hd] at hfree
        rcases List.mem_cons.mp hr with rfl | hr
        · exact ⟨ho, span, hd⟩
        · exact ih hfree r hr

/-- Pushing one operator per member of a group of pairwise distinct replicas,
each under its member's identifier, keeps the controller consistent. -/
theorem pushGroup_consistent (env : OpEnv) (mk : SpanReplication → Operator)
    (hmk : ∀ r, (mk r).ID = r.ID) :
    ∀ (group : List SpanReplication) (oc : Controller),
      oc.Consistent → (group.map (fun r => r.ID)).Nodup →
      (∀ r ∈ group, oc.operators r.ID = none) →
      (group.foldl (fun c r => c.pushOperator env (mk r)) oc).Consistent := by
  intro group
  induction group with
  | nil => intro oc h _ _; exact h
  | cons x rest ih =>
    intro oc h hnd hfree
    simp only [List.map_cons, List.nodup_cons] at hnd
    simp only [List.foldl_cons]
    apply ih
    · apply pushOperator_consistent oc env (mk x) h
      rw [hmk]
      exact hfree x (List.mem_cons_self _ _)
    · exact hnd.2
    · intro r hr
      have hne : r.ID ≠ (mk x).ID := by
        rw [hmk]
        intro he
        apply hnd.1
        rw [← he]
        exact List.mem_map.mpr ⟨r, hr, rfl⟩
      rw [pushOperator_operators oc env (mk x) r.ID hne]
      exact hfree r (List.mem_cons_of_mem _ hr)

/-- `AddMergeSplitOperator` on pairwise distinct replicas keeps the controller
consistent. -/
theorem AddMergeSplitOperator_consistent (oc : Controller) (env : OpEnv) (db : ReplicationDB)
    (group : List SpanReplication) (splitSpans : List Nat) (oc2 : Controller) (ok : Bool)
    (h : oc.Consistent) (hnd : (group.map (fun r => r.ID)).Nodup)
    (hres : oc.AddMergeSplitOperator env db group splitSpans = some (oc2, ok)) :
    oc2.Consistent := by
  unfold Controller.AddMergeSplitOperator at hres
  by_cases hfree : oc.groupIsFree db group = true
  · simp only [hfree, Bool.not_true, Bool.false_eq_true, if_false] at hres
    cases hprim : group[env.random % group.length]? with
    | none => rw [hprim] at hres; cases hres
    | some primary =>
      rw [hprim] at hres
      simp only at hres
      cases splitSpans with
      | nil => cases hres
      | cons s ss =>
        simp only [Option.some.injEq, Prod.mk.injEq] at hres
        rw [← hres.1]
        apply pushGroup_consistent env
          (fun replicaSet =>
            if replicaSet.ID = primary.ID then
              NewMergeSplitDispatcherOperator primary.ID primary group (s :: ss) false
            else NewMergeSplitDispatcherOperator primary.ID replicaSet [] [] true)
          ?_ group oc h hnd (fun r hr => (groupIsFree_spec oc db group hfree r hr).1)
        intro r
        by_cases he : r.ID = primary.ID
        · simp [he, NewMergeSplitDispatcherOperator]
        · simp [he, NewMergeSplitDispatcherOperator]
  · simp only [hfree, Bool.not_false, if_true, Option.some.injEq, Prod.mk.injEq] at hres
    rw [← hres.1]
    exact h

/-- Every reachable controller is consistent. -/
theorem Reachable_consistent (oc : Controller) (h : oc.Reachable) : oc.Consistent := by
  induction h with
  | init batchSize =>
    constructor
    · exact List.nodup_nil
    · intro a ha; cases ha
    · intro a ha; cases ha
    · intro id a hm; simp [NewOperatorController] at hm
  | addOperator env db op _ ih =>
    rename_i oc0 _
    unfold Controller.AddOperator
    cases ho : oc0.operators op.ID with
    | some a => exact ih
    | none =>
      cases hd : db.GetTaskByID op.ID with
      | none => exact ih
      | some span => exact pushOperator_consistent oc0 env op ih ho
  | removeAllTasks env db _ ih => exact removeTasks_consistent env _ _ ih
  | removeTasksBySchemaID env db schemaID _ ih => exact removeTasks_consistent env _ _ ih
  | removeTasksByTableIDs env db tables _ ih => exact removeTasks_consistent env _ _ ih
  | addMergeSplitOperator env db group splitSpans ok _ hnd hres ih =>
    exact AddMergeSplitOperator_consistent _ env db group splitSpans _ ok ih hnd hres
  | execute env wake _ hres ih =>
    exact executeLoop_consistent env _ _ _ _ wake ih hres

theorem length_le_one_of_all_eq (l : List Nat) (x : Nat) (hnd : l.Nodup)
    (hall : ∀ a ∈ l, a = x) : l.length ≤ 1 := by
  match l, hnd, hall with
  | [], _, _ => simp
  | [_], _, _ => simp
  | a :: b :: rest, hnd, hall =>
    exfalso
    have ha := hall a (by simp)
    have hb := hall b (by simp)
    rw [List.nodup_cons] at hnd
    apply hnd.1
    rw [ha, ← hb]
    simp

/-- C5: in every controller state reachable from the new controller through
`AddOperator`, the three `RemoveTasks` methods, `AddMergeSplitOperator` on
pairwise distinct replicas and `Execute`, the running queue holds at most one
entry per dispatcher that is not marked `Removed`, such an entry is the value
of the operators map for that dispatcher, and every value of the operators map
is in the queue, not marked `Removed`, and belongs to its key. -/
theorem at_most_one_live_operator (oc : Controller) (h : oc.Reachable) :
    (∀ id, (oc.liveEntries id).length ≤ 1) ∧
    (∀ id a, a ∈ oc.liveEntries id → oc.operators id = some a) ∧
    (∀ id a, oc.operators id = some a →
      a ∈ oc.runningQueue ∧ (oc.items a).Removed = false ∧ (oc.items a).OP.ID = id) := by
  have hc := Reachable_consistent oc h
  have hlive : ∀ id a, a ∈ oc.liveEntries id → oc.operators id = some a := by
    intro id a ha
    unfold Controller.liveEntries at ha
    obtain ⟨hq, hp⟩ := List.mem_filter.mp ha
    simp only [Bool.and_eq_true, decide_eq_true_eq, Bool.not_eq_true'] at hp
    rw [← hp.1]
    exact hc.queueLive a hq hp.2
  refine ⟨?_, hlive, hc.mapLive⟩
  intro id
  cases ho : oc.operators id with
  | none =>
    have : oc.liveEntries id = [] := by
      apply List.eq_nil_iff_forall_not_mem.mpr
      intro a ha
      have := hlive id a ha
      rw [ho] at this
      cases this
    rw [this]
    simp
  | some x =>
    apply length_le_one_of_all_eq _ x (hc.nodup.filter _)
    intro a ha
    have := hlive id a ha
    rw [ho] at this
    exact (Option.some.inj this).symm

/-- C5 at a concrete input: after `AddOperator` on a new controller and a
removal of all tasks, dispatcher 7 has one live queue entry. -/
theorem at_most_one_live_operator_witness :
    ((((NewOperatorController 1).AddOperator idleOpEnv twoReplicaDB addSeven).1.RemoveAllTasks
        idleOpEnv twoReplicaDB).liveEntries 7).length ≤ 1 :=
  (at_most_one_live_operator _
    (Controller.Reachable.removeAllTasks idleOpEnv twoReplicaDB
      (Controller.Reachable.addOperator idleOpEnv twoReplicaDB addSeven
        (Controller.Reachable.init 1)))).1 7

/-- C6: `AddOperator` returns false exactly when an operator is registered under
`op.ID()` or the `ReplicationDB` has no replica with that identifier; then the
controller (operators map, running queue, calls made) is unchanged; when it
returns true the operators map holds, under `op.ID()`, a fresh record of `op`
that is pushed onto the running queue, and the call has made exactly one
`Start` call on `op`. -/
theorem AddOperator_spec (oc : Controller) (env : OpEnv) (db : ReplicationDB) (op : Operator) :
    ((oc.AddOperator env db op).2 = false ↔
      ((∃ a, oc.operators op.ID = some a) ∨ db.GetTaskByID op.ID = none)) ∧
    ((oc.AddOperator env db op).2 = false → (oc.AddOperator env db op).1 = oc) ∧
    ((oc.AddOperator env db op).2 = true →
      ∃ a, (oc.AddOperator env db op).1.operators op.ID = some a ∧
        (oc.AddOperator env db op).1.items a = NewOperatorWithTime op env.now ∧
        (oc.AddOperator env db op).1.runningQueue = oc.runningQueue ++ [a] ∧
        (∀ id, id ≠ op.ID → (oc.AddOperator env db op).1.operators id = oc.operators id) ∧
        ∃ made, (oc.AddOperator env db op).1.calls = oc.calls ++ made ∧
          made.count (Call.Start op) = 1) := by
  unfold Controller.AddOperator
  cases ho : oc.operators op.ID with
  | some a => simp
  | none =>
    cases hd : db.GetTaskByID op.ID with
    | none => simp
    | some span =>
      refine ⟨by simp, by simp, ?_⟩
      intro _
      refine ⟨oc.nextItem, by simp [Controller.pushOperator],
        by simp [Controller.pushOperator], rfl, ?_, ?_⟩
      · intro id hid
        simp [Controller.pushOperator, hid]
      · refine ⟨checkAffectedNodes env op ++ [Call.Start op],
          by simp [Controller.pushOperator], ?_⟩
        rw [List.count_append]
        have h0 : (checkAffectedNodes env op).count (Call.Start op) = 0 := by
          apply List.count_eq_zero.mpr
          intro hm
          unfold checkAffectedNodes at hm
          obtain ⟨n, _, hn⟩ := List.mem_map.mp hm
          cases hn
        rw [h0]
        simp

/-! ## Schema store: the binary search on a sorted history -/

/-- On a predicate that, once true, stays true up to `n`, the loop of
`sort.Search` ends on the boundary: false before the result, true from it on. -/
theorem searchLoop_spec (f : Nat → Bool) (n : Nat)
    (hmono : ∀ a b, a ≤ b → b < n → f a = true → f b = true) :
    ∀ (fuel i j : Nat), j - i ≤ fuel → i ≤ j → j ≤ n →
      (∀ k, k < i → f k = false) → (∀ k, j ≤ k → k < n → f k = true) →
      i ≤ searchLoop f fuel i j ∧ searchLoop f fuel i j ≤ j ∧
      (∀ k, k < searchLoop f fuel i j → f k = false) ∧
      (∀ k, searchLoop f fuel i j ≤ k → k < n → f k = true) := by
  intro fuel
  induction fuel with
  | zero =>
    intro i j hf hij _ hlo hhi
    have : i = j := by omega
    subst this
    exact ⟨Nat.le_refl _, Nat.le_refl _, hlo, hhi⟩
  | succ fuel ih =>
    intro i j hf hij hjn hlo hhi
    unfold searchLoop
    by_cases hlt : i < j
    · simp only [hlt, if_true]
      have hmid1 : i ≤ (i + j) / 2 := by omega
      have hmid2 : (i + j) / 2 < j := by omega
      cases hfm : f ((i + j) / 2) with
      | false =>
        simp only [Bool.not_false, if_true]
        have hlo2 : ∀ k, k < (i + j) / 2 + 1 → f k = false := by
          intro k hk
          cases hfk : f k with
          | false => rfl
          | true =>
            have := hmono k ((i + j) / 2) (by omega) (by omega) hfk
            rw [hfm] at this
            cases this
        obtain ⟨h1, h2, h3, h4⟩ :=
          ih ((i + j) / 2 + 1) j (by omega) (by omega) hjn hlo2 hhi
        exact ⟨by omega, h2, h3, h4⟩
      | true =>
        simp only [Bool.not_true, Bool.false_eq_true, if_false]
        have hhi2 : ∀ k, (i + j) / 2 ≤ k → k < n → f k = true := by
          intro k hk hkn
          exact hmono ((i + j) / 2) k hk hkn hfm
        obtain ⟨h1, h2, h3, h4⟩ :=
          ih i ((i + j) / 2) (by omega) hmid1 (by omega) hlo hhi2
        exact ⟨h1, by omega, h3, h4⟩
    · simp only [hlt, if_false]
      have : i = j := by omega
      subst this
      exact ⟨Nat.le_refl _, Nat.le_refl _, hlo, hhi⟩

/-- On a strictly increasing history the search finds the boundary between the
entries that are at most `ts` and the entries above `ts`. -/
theorem searchAbove_spec (history : List Nat) (ts : Nat)
    (hs : history.Pairwise (fun a b => a < b)) :
    searchAbove history ts ≤ history.length ∧
    (∀ k (hk : k < history.length), k < searchAbove history ts → history[k] ≤ ts) ∧
    (∀ k (hk : k < history.length), searchAbove history ts ≤ k → ts < history[k]) := by
  have hidx := List.pairwise_iff_getElem.mp hs
  have hmono : ∀ a b, a ≤ b → b < history.length →
      decide (history.getD a 0 > ts) = true → decide (history.getD b 0 > ts) = true := by
    intro a b hab hb ha
    have halt : a < history.length := by omega
    rw [List.getD_eq_getElem _ _ halt] at ha
    rw [List.getD_eq_getElem _ _ hb]
    simp only [gt_iff_lt, decide_eq_true_eq] at ha ⊢
    rcases Nat.lt_or_ge a b with h | h
    · have := hidx a b halt hb h
      omega
    · have : a = b := by omega
      subst this
      exact ha
  obtain ⟨_, h2, h3, h4⟩ :=
    searchLoop_spec (fun i => decide (history.getD i 0 > ts)) history.length hmono
      history.length 0 history.length (by omega) (Nat.zero_le _) (Nat.le_refl _)
      (by intro k hk; omega) (by intro k hk hkn; omega)
  refine ⟨h2, ?_, ?_⟩
  · intro k hk hlt
    have := h3 k hlt
    simp only [List.getD_eq_getElem _ _ hk, gt_iff_lt, decide_eq_false_iff_not] at this
    omega
  · intro k hk hle
    have := h4 k hle hk
    simp only [List.getD_eq_getElem _ _ hk, gt_iff_lt, decide_eq_true_eq] at this
    exact this

/-- On a strictly increasing history, what lies from the searched index on is
exactly the entries above `ts`. -/
theorem drop_searchAbove (history : List Nat) (ts : Nat)
    (hs : history.Pairwise (fun a b => a < b)) :
    history.drop (searchAbove history ts) = history.filter (fun x => decide (ts < x)) := by
  obtain ⟨_, hlow, hhigh⟩ := searchAbove_spec history ts hs
  have hsplit := List.take_append_drop (searchAbove history ts) history
  have h1 : (history.take (searchAbove history ts)).filter (fun x => decide (ts < x)) = [] := by
    rw [List.filter_eq_nil_iff]
    intro a ha
    obtain ⟨i, hi, rfl⟩ := List.mem_take_iff_getElem.mp ha
    have := hlow i (by omega) (by omega)
    simp only [decide_eq_true_eq]
    omega
  have h2 : (history.drop (searchAbove history ts)).filter (fun x => decide (ts < x))
      = history.drop (searchAbove history ts) := by
    rw [List.filter_eq_self]
    intro a ha
    obtain ⟨i, hi, rfl⟩ := List.mem_drop_iff_getElem.mp ha
    have := hhigh (searchAbove history ts + i) (by omega) (by omega)
    simpa using this
  calc history.drop (searchAbove history ts)
      = (history.take (searchAbove history ts)).filter (fun x => decide (ts < x)) ++
          (history.drop (searchAbove history ts)).filter (fun x => decide (ts < x)) := by
        rw [h1, h2, List.nil_append]
    _ = (history.take (searchAbove history ts) ++ history.drop (searchAbove history ts)).filter
          (fun x => decide (ts < x)) := by rw [List.filter_append]
    _ = history.filter (fun x => decide (ts < x)) := by rw [hsplit]

/-- The search returns the length exactly when no entry is above `ts`. -/
theorem searchAbove_eq_length (history : List Nat) (ts : Nat)
    (hs : history.Pairwise (fun a b => a < b)) :
    searchAbove history ts = history.length ↔
      history.filter (fun x => decide (ts < x)) = [] := by
  rw [← drop_searchAbove history ts hs]
  obtain ⟨hle, _, _⟩ := searchAbove_spec history ts hs
  constructor
  · intro h; rw [h]; simp
  · intro h
    have := congrArg List.length h
    simp only [List.length_drop, List.length_nil] at this
    omega

/-! ## Schema store: reading the history of a table -/

theorem RLock_ok (p : persistentStorage) (h : p.mu.writer = false) :
    p.RLock = Except.ok { p with mu := { p.mu with readers := p.mu.readers + 1 } } := by
  simp [persistentStorage.RLock, h]

theorem RUnlock_after_RLock (p : persistentStorage) :
    persistentStorage.RUnlock { p with mu := { p.mu with readers := p.mu.readers + 1 } }
      = Except.ok p := by
  simp [persistentStorage.RUnlock]

theorem Lock_ok (p : persistentStorage) (hw : p.mu.writer = false) (hr : p.mu.readers = 0) :
    p.Lock = Except.ok { p with mu := { p.mu with writer := true } } := by
  simp [persistentStorage.Lock, hw, hr]

theorem Unlock_after_Lock (p : persistentStorage) (hw : p.mu.writer = false) :
    persistentStorage.Unlock { p with mu := { p.mu with writer := true } } = Except.ok p := by
  cases p with
  | mk mu gcTs ub ubc tm dm th tt sm rc disk =>
    cases mu with
    | mk w r =>
      simp only at hw
      subst hw
      simp [persistentStorage.Unlock]

theorem readDDLEvent_FinishedTs (disk : List PersistedDDLEvent) (ts : Nat)
    (e : PersistedDDLEvent) (h : readDDLEvent disk ts = some e) : e.FinishedTs = ts := by
  unfold readDDLEvent at h
  have := List.find?_some h
  simpa using this

/-- The events read for a list of timestamps carry exactly these timestamps. -/
theorem readEvents_FinishedTs (disk : List PersistedDDLEvent) :
    ∀ (tss : List Nat) (events : List DDLEvent), readEvents disk tss = some events →
      events.map (fun e => e.FinishedTs) = tss := by
  intro tss
  induction tss with
  | nil => intro events h; simp [readEvents] at h; subst h; rfl
  | cons ts rest ih =>
    intro events h
    unfold readEvents at h
    cases hr : readDDLEvent disk ts with
    | none => rw [hr] at h; cases h
    | some raw =>
      rw [hr] at h
      cases hrest : readEvents disk rest with
      | none => rw [hrest] at h; cases h
      | some evs =>
        rw [hrest] at h
        simp only [Option.some.injEq] at h
        subst h
        simp [buildDDLEvent, readDDLEvent_FinishedTs disk ts raw hr, ih evs hrest]

/-- Every timestamp that is on disk can be read. -/
theorem readEvents_total (disk : List PersistedDDLEvent) :
    ∀ (tss : List Nat), (∀ ts ∈ tss, ∃ e, readDDLEvent disk ts = some e) →
      ∃ events, readEvents disk tss = some events := by
  intro tss
  induction tss with
  | nil => intro _; exact ⟨[], rfl⟩
  | cons ts rest ih =>
    intro h
    obtain ⟨e, he⟩ := h ts (List.mem_cons_self _ _)
    obtain ⟨evs, hevs⟩ := ih (fun x hx => h x (List.mem_cons_of_mem _ hx))
    exact ⟨buildDDLEvent e :: evs, by simp [readEvents, he, hevs]⟩

/-- On a strictly increasing history the target timestamps of
`fetchTableDDLEvents` are the entries in `(start, endTs]`. -/
theorem targetTsOf_eq (history : List Nat) (start endTs : Nat)
    (hs : history.Pairwise (fun a b => a < b)) :
    targetTsOf history start endTs
      = history.filter (fun ts => decide (start < ts ∧ ts ≤ endTs)) := by
  unfold targetTsOf
  rw [drop_searchAbove history start hs, List.filter_filter]
  congr 1
  funext ts
  by_cases h1 : start < ts <;> by_cases h2 : ts ≤ endTs <;> simp [h1, h2]

/-- C11: for a table whose history is strictly increasing (and on disk), every
`start ≥ gcTs` and every `endTs`, `fetchTableDDLEvents` returns the events read
for exactly the history entries `ts` with `start < ts ≤ endTs`, in the order of
the history, so each once and in ascending order; a table without history
yields no events; and the store is left as it was, so that a repeated call
returns the same. -/
theorem fetchTableDDLEvents_spec (p : persistentStorage) (tableID : Int) (start endTs : Nat)
    (hfree : p.mu.writer = false) (hstart : p.gcTs ≤ start)
    (hsorted : ∀ history, p.tablesDDLHistory tableID = some history →
      history.Pairwise (fun a b => a < b))
    (hdisk : ∀ history, p.tablesDDLHistory tableID = some history →
      ∀ ts ∈ history, ∃ e, readDDLEvent p.disk ts = some e) :
    ∃ events, p.fetchTableDDLEvents tableID start endTs = Except.ok (p, Except.ok events) ∧
      events.map (fun e => e.FinishedTs)
        = ((p.tablesDDLHistory tableID).getD []).filter
            (fun ts => decide (start < ts ∧ ts ≤ endTs)) ∧
      readEvents p.disk (events.map (fun e => e.FinishedTs)) = some events ∧
      (events.map (fun e => e.FinishedTs)).Pairwise (fun a b => a < b) ∧
      (p.tablesDDLHistory tableID = none → events = []) := by
  have hgc : ¬ start < p.gcTs := by omega
  unfold persistentStorage.fetchTableDDLEvents
  rw [RLock_ok p hfree]
  simp only [hgc, if_false]
  cases hh : p.tablesDDLHistory tableID with
  | none =>
    simp only [RUnlock_after_RLock]
    exact ⟨[], rfl, by simp, rfl, List.Pairwise.nil, fun _ => rfl⟩
  | some history =>
    have hs := hsorted history hh
    simp only [RUnlock_after_RLock, Option.getD_some]
    by_cases hidx : searchAbove history start = history.length
    · simp only [hidx, if_true]
      refine ⟨[], rfl, ?_, rfl, List.Pairwise.nil, fun h => by cases h⟩
      have hnil := (searchAbove_eq_length history start hs).mp hidx
      rw [← targetTsOf_eq history start endTs hs]
      unfold targetTsOf
      rw [hidx]
      simp
    · simp only [hidx, if_false]
      have hsub : ∀ ts ∈ targetTsOf history start endTs,
          ∃ e, readDDLEvent p.disk ts = some e := by
        intro ts hts
        rw [targetTsOf_eq history start endTs hs] at hts
        exact hdisk history hh ts (List.mem_filter.mp hts).1
      obtain ⟨events, hev⟩ := readEvents_total p.disk _ hsub
      have hts := readEvents_FinishedTs p.disk _ events hev
      refine ⟨events, by rw [hev], ?_, ?_, ?_, fun h => by cases h⟩
      · rw [hts, targetTsOf_eq history start endTs hs]
      · rw [hts]; exact hev
      · rw [hts, targetTsOf_eq history start endTs hs]
        exact hs.filter _

/-- C11 at a concrete input: table 7 of the sample store has the history
`[20, 30]`; the events for `(20, 30]` are the one of timestamp 30. -/
theorem fetchTableDDLEvents_spec_witness :
    ∃ events, sampleStorage.fetchTableDDLEvents 7 20 30
        = Except.ok (sampleStorage, Except.ok events) ∧
      events.map (fun e => e.FinishedTs) = [30] := by
  obtain ⟨events, h1, h2, _⟩ :=
    fetchTableDDLEvents_spec sampleStorage 7 20 30 rfl (by decide)
      (by
        intro history hh
        simp [sampleStorage] at hh
        subst hh
        decide)
      (by
        intro history hh ts hts
        simp [sampleStorage] at hh
        subst hh
        simp at hts
        rcases hts with rfl | rfl
        · exact ⟨_, rfl⟩
        · exact ⟨_, rfl⟩)
  refine ⟨events, h1, ?_⟩
  rw [h2]
  decide

/-- What a returned list of events of `fetchTableDDLEvents` was read for. -/
theorem fetchTableDDLEvents_ok (p : persistentStorage) (tableID : Int) (start endTs : Nat)
    (p2 : persistentStorage) (events : List DDLEvent)
    (h : p.fetchTableDDLEvents tableID start endTs = Except.ok (p2, Except.ok events)) :
    events = [] ∨
    ∃ history, p.tablesDDLHistory tableID = some history ∧
      readEvents p.disk (targetTsOf history start endTs) = some events := by
  unfold persistentStorage.fetchTableDDLEvents at h
  by_cases hw : p.mu.writer = true
  · simp [persistentStorage.RLock, hw] at h
  · have hw2 : p.mu.writer = false := by simpa using hw
    rw [RLock_ok p hw2] at h
    simp only [RUnlock_after_RLock] at h
    by_cases hgc : start < p.gcTs
    · simp only [hgc, if_true] at h
      split at h
      · cases h
      · simp at h
    · simp only [hgc, if_false] at h
      cases hh : p.tablesDDLHistory tableID with
      | none =>
        rw [hh] at h
        simp only [Except.ok.injEq, Prod.mk.injEq] at h
        left
        exact h.2.symm
      | some history =>
        rw [hh] at h
        simp only at h
        by_cases hidx : searchAbove history start = history.length
        · simp only [hidx, if_true, Except.ok.injEq, Prod.mk.injEq] at h
          left
          exact h.2.symm
        · simp only [hidx, if_false] at h
          right
          refine ⟨history, rfl, ?_⟩
          cases hr : readEvents p.disk (targetTsOf history start endTs) with
          | none => rw [hr] at h; cases h
          | some evs =>
            rw [hr] at h
            simp only [Except.ok.injEq, Prod.mk.injEq] at h
            rw [h.2]

/-! ## Schema store: the histories stay strictly increasing -/

/-- `fillSchemaName` only writes the schema name. -/
theorem fillSchemaName_fields (event filled : PersistedDDLEvent)
    (databaseMap : Int → Option BasicDatabaseInfo)
    (h : fillSchemaName event databaseMap = Except.ok filled) :
    filled.Typ = event.Typ ∧ filled.SchemaID = event.SchemaID ∧
    filled.TableID = event.TableID ∧ filled.TableInfo = event.TableInfo ∧
    filled.FinishedTs = event.FinishedTs ∧ filled.BlockedTables = event.BlockedTables ∧
    filled.NeedDroppedTables = event.NeedDroppedTables ∧
    filled.NeedAddedTables = event.NeedAddedTables := by
  unfold fillSchemaName at h
  split at h <;> split at h <;> first
    | (cases h; exact ⟨rfl, rfl, rfl, rfl, rfl, rfl, rfl, rfl⟩)
    | cases h

/-- `fillInfluencedTableInfo` only writes the three influence fields. -/
theorem fillInfluencedTableInfo_fields (event filled : PersistedDDLEvent)
    (h : fillInfluencedTableInfo event = Except.ok filled) :
    filled.Typ = event.Typ ∧ filled.SchemaID = event.SchemaID ∧
    filled.TableID = event.TableID ∧ filled.TableInfo = event.TableInfo ∧
    filled.FinishedTs = event.FinishedTs ∧ filled.SchemaName = event.SchemaName := by
  unfold fillInfluencedTableInfo at h
  split at h <;> first
    | (cases h; exact ⟨rfl, rfl, rfl, rfl, rfl, rfl⟩)
    | cases h
    | (split at h <;> first
        | (cases h; exact ⟨rfl, rfl, rfl, rfl, rfl, rfl⟩)
        | cases h)

/-- Histories that are extended by a timestamp above all their entries, each at
most once, stay strictly increasing, with all entries below the next
timestamp. -/
theorem histories_extend (p p1 : persistentStorage) (ts bound : Nat)
    (hs : p.HistoriesSorted) (hb : p.EntriesBelow bound) (hle : bound ≤ ts)
    (htab : ∀ t, p1.tablesDDLHistory t = p.tablesDDLHistory t ∨
      p1.tablesDDLHistory t = some ((p.tablesDDLHistory t).getD [] ++ [ts]))
    (htrig : p1.tableTriggerDDLHistory = p.tableTriggerDDLHistory ∨
      p1.tableTriggerDDLHistory = p.tableTriggerDDLHistory ++ [ts]) :
    p1.HistoriesSorted ∧ p1.EntriesBelow (ts + 1) := by
  have happ : ∀ l : List Nat, l.Pairwise (fun a b => a < b) → (∀ x ∈ l, x < bound) →
      (l ++ [ts]).Pairwise (fun a b => a < b) ∧ ∀ x ∈ l ++ [ts], x < ts + 1 := by
    intro l hl hlb
    constructor
    · rw [List.pairwise_append]
      refine ⟨hl, List.pairwise_singleton _ _, ?_⟩
      intro a ha b hb2
      simp only [List.mem_singleton] at hb2
      subst hb2
      have := hlb a ha
      omega
    · intro x hx
      rcases List.mem_append.mp hx with hx | hx
      · have := hlb x hx; omega
      · simp only [List.mem_singleton] at hx; omega
  have hold : ∀ t history, p.tablesDDLHistory t = some history →
      history.Pairwise (fun a b => a < b) ∧ ∀ x ∈ history, x < bound :=
    fun t history hh => ⟨hs.1 t history hh, hb.1 t history hh⟩
  have hnew : ∀ t history, p1.tablesDDLHistory t = some history →
      history.Pairwise (fun a b => a < b) ∧ ∀ x ∈ history, x < ts + 1 := by
    intro t history hh
    rcases htab t with he | he
    · rw [he] at hh
      obtain ⟨h1, h2⟩ := hold t history hh
      exact ⟨h1, fun x hx => by have := h2 x hx; omega⟩
    · rw [he] at hh
      simp only [Option.some.injEq] at hh
      subst hh
      cases hp : p.tablesDDLHistory t with
      | none =>
        simp only [Option.getD_none, List.nil_append]
        exact ⟨List.pairwise_singleton _ _, by intro x hx; simp at hx; omega⟩
      | some old =>
        obtain ⟨h1, h2⟩ := hold t old hp
        simpa using happ old h1 h2
  have htr : p1.tableTriggerDDLHistory.Pairwise (fun a b => a < b) ∧
      ∀ x ∈ p1.tableTriggerDDLHistory, x < ts + 1 := by
    rcases htrig with he | he
    · rw [he]
      exact ⟨hs.2, fun x hx => by have := hb.2 x hx; omega⟩
    · rw [he]
      exact happ _ hs.2 hb.2
  exact ⟨⟨fun t history hh => (hnew t history hh).1, htr.1⟩,
    ⟨fun t history hh => (hnew t history hh).2, htr.2⟩⟩

/-- `updateDDLHistory` appends the event's timestamp to histories, to each at
most once when a truncate's new table differs from the old one. -/
theorem updateDDLHistory_extend (p p1 : persistentStorage) (ddlEvent : PersistedDDLEvent)
    (htrunc : ddlEvent.Typ = ActionType.ActionTruncateTable →
      ∀ info, ddlEvent.TableInfo = some info → info.ID ≠ ddlEvent.TableID)
    (h : p.updateDDLHistory ddlEvent = Except.ok p1) :
    (∀ t, p1.tablesDDLHistory t = p.tablesDDLHistory t ∨
      p1.tablesDDLHistory t
        = some ((p.tablesDDLHistory t).getD [] ++ [ddlEvent.FinishedTs])) ∧
    (p1.tableTriggerDDLHistory = p.tableTriggerDDLHistory ∨
      p1.tableTriggerDDLHistory = p.tableTriggerDDLHistory ++ [ddlEvent.FinishedTs]) := by
  have hone : ∀ (tableID t : Int),
      addTableHistory p.tablesDDLHistory tableID ddlEvent.FinishedTs t = p.tablesDDLHistory t ∨
      addTableHistory p.tablesDDLHistory tableID ddlEvent.FinishedTs t
        = some ((p.tablesDDLHistory t).getD [] ++ [ddlEvent.FinishedTs]) := by
    intro tableID t
    unfold addTableHistory
    by_cases ht : t = tableID
    · right; simp [ht]
    · left; simp [ht]
  have hall : ∀ (keys : Int → Bool) (t : Int),
      addTableHistoryForAll p.tablesDDLHistory keys ddlEvent.FinishedTs t
        = p.tablesDDLHistory t ∨
      addTableHistoryForAll p.tablesDDLHistory keys ddlEvent.FinishedTs t
        = some ((p.tablesDDLHistory t).getD [] ++ [ddlEvent.FinishedTs]) := by
    intro keys t
    unfold addTableHistoryForAll
    cases hk : keys t
    · left; simp
    · right; simp
  unfold persistentStorage.updateDDLHistory at h
  split at h
  · cases h; exact ⟨hall _, Or.inr rfl⟩
  · cases h; exact ⟨hall _, Or.inr rfl⟩
  · split at h
    · cases h
    · cases h; exact ⟨hall _, Or.inr rfl⟩
  · cases h; exact ⟨hone _, Or.inr rfl⟩
  · cases h; exact ⟨hone _, Or.inr rfl⟩
  · cases h; exact ⟨hone _, Or.inr rfl⟩
  all_goals first
    | (cases h; exact ⟨hone _, Or.inl rfl⟩)
    | cases h
    | skip
  · rename_i htyp
    split at h
    · cases h
    · rename_i info hinfo
      cases h
      refine ⟨?_, Or.inl rfl⟩
      intro t
      have hne := htrunc htyp info hinfo
      simp only [addTableHistory]
      by_cases h1 : t = info.ID
      · have h2 : ¬ t = ddlEvent.TableID := by rw [h1]; exact hne
        right; simp [h1, hne]
      · by_cases h2 : t = ddlEvent.TableID
        · right
          have h3 : ¬ ddlEvent.TableID = info.ID := fun he => hne he.symm
          simp [h2, h3]
        · left; simp [h1, h2]

theorem addTableToDB_histories (p p1 : persistentStorage) (schemaID tableID : Int)
    (h : p.addTableToDB schemaID tableID = Except.ok p1) :
    p1.tablesDDLHistory = p.tablesDDLHistory ∧
    p1.tableTriggerDDLHistory = p.tableTriggerDDLHistory := by
  unfold persistentStorage.addTableToDB at h
  split at h
  · cases h
  · cases h; exact ⟨rfl, rfl⟩

theorem removeTableFromDB_histories (p p1 : persistentStorage) (schemaID tableID : Int)
    (h : p.removeTableFromDB schemaID tableID = Except.ok p1) :
    p1.tablesDDLHistory = p.tablesDDLHistory ∧
    p1.tableTriggerDDLHistory = p.tableTriggerDDLHistory := by
  unfold persistentStorage.removeTableFromDB at h
  split at h
  · cases h
  · cases h; exact ⟨rfl, rfl⟩

theorem createTable_histories (p p1 : persistentStorage) (event : PersistedDDLEvent)
    (schemaID tableID : Int) (h : p.createTable event schemaID tableID = Except.ok p1) :
    p1.tablesDDLHistory = p.tablesDDLHistory ∧
    p1.tableTriggerDDLHistory = p.tableTriggerDDLHistory := by
  unfold persistentStorage.createTable at h
  cases ha : p.addTableToDB schemaID tableID with
  | error e => rw [ha] at h; cases h
  | ok q =>
    rw [ha] at h
    obtain ⟨h1, h2⟩ := addTableToDB_histories p q schemaID tableID ha
    simp only at h
    split at h
    · cases h
    · cases h; exact ⟨h1, h2⟩

theorem dropTable_histories (p p1 : persistentStorage) (schemaID tableID : Int)
    (h : p.dropTable schemaID tableID = Except.ok p1) :
    p1.tablesDDLHistory = p.tablesDDLHistory ∧
    p1.tableTriggerDDLHistory = p.tableTriggerDDLHistory := by
  unfold persistentStorage.dropTable at h
  cases ha : p.removeTableFromDB schemaID tableID with
  | error e => rw [ha] at h; cases h
  | ok q =>
    rw [ha] at h
    obtain ⟨h1, h2⟩ := removeTableFromDB_histories p q schemaID tableID ha
    cases h
    exact ⟨h1, h2⟩

theorem renameTable_histories (p p1 : persistentStorage) (event : PersistedDDLEvent)
    (h : p.renameTable event = Except.ok p1) :
    p1.tablesDDLHistory = p.tablesDDLHistory ∧
    p1.tableTriggerDDLHistory = p.tableTriggerDDLHistory := by
  unfold persistentStorage.renameTable at h
  cases ht : p.tableMap event.TableID with
  | none => rw [ht] at h; cases h
  | some tableInfo =>
    rw [ht] at h
    simp only at h
    have hmoved : ∀ q, (if tableInfo.SchemaID ≠ event.SchemaID then
          match persistentStorage.removeTableFromDB
              { p with
                tableMap := fun t =>
                  if t = event.TableID then some { tableInfo with SchemaID := event.SchemaID }
                  else p.tableMap t }
              tableInfo.SchemaID event.TableID with
          | Except.error e => Except.error e
          | Except.ok p1 => p1.addTableToDB event.SchemaID event.TableID
        else Except.ok p) = Except.ok q →
        q.tablesDDLHistory = p.tablesDDLHistory ∧
        q.tableTriggerDDLHistory = p.tableTriggerDDLHistory := by
      intro q hq
      split at hq
      · split at hq
        · cases hq
        · rename_i q1 hr
          obtain ⟨h1, h2⟩ := removeTableFromDB_histories _ q1 _ _ hr
          obtain ⟨h3, h4⟩ := addTableToDB_histories q1 q _ _ hq
          exact ⟨h3.trans h1, h4.trans h2⟩
      · cases hq; exact ⟨rfl, rfl⟩
    split at h
    · cases h
    · rename_i q hq
      obtain ⟨h1, h2⟩ := hmoved q hq
      split at h
      · cases h
      · cases h; exact ⟨h1, h2⟩

/-- `updateDatabaseInfoAndTableInfo` does not touch the histories. -/
theorem updateDatabaseInfoAndTableInfo_histories (p p1 : persistentStorage)
    (event : PersistedDDLEvent)
    (h : p.updateDatabaseInfoAndTableInfo event = Except.ok p1) :
    p1.tablesDDLHistory = p.tablesDDLHistory ∧
    p1.tableTriggerDDLHistory = p.tableTriggerDDLHistory := by
  unfold persistentStorage.updateDatabaseInfoAndTableInfo at h
  split at h
  all_goals first
    | (cases h; exact ⟨rfl, rfl⟩)
    | exact createTable_histories p p1 event _ _ h
    | exact dropTable_histories p p1 _ _ h
    | exact renameTable_histories p p1 event h
    | cases h
    | skip
  · cases hd : p.dropTable event.SchemaID event.TableID with
    | error e => rw [hd] at h; cases h
    | ok q =>
      rw [hd] at h
      obtain ⟨h1, h2⟩ := dropTable_histories p q _ _ hd
      simp only at h
      split at h
      · cases h
      · obtain ⟨h3, h4⟩ := createTable_histories q p1 event _ _ h
        exact ⟨h3.trans h1, h4.trans h2⟩

/-- `updateRegisteredTableInfoStore` does not touch the histories. -/
theorem updateRegisteredTableInfoStore_histories (p p1 : persistentStorage)
    (event : PersistedDDLEvent)
    (h : p.updateRegisteredTableInfoStore event = Except.ok p1) :
    p1.tablesDDLHistory = p.tablesDDLHistory ∧
    p1.tableTriggerDDLHistory = p.tableTriggerDDLHistory := by
  unfold persistentStorage.updateRegisteredTableInfoStore at h
  split at h <;> first
    | (cases h; exact ⟨rfl, rfl⟩)
    | cases h

/-- One turn of the loop of `handleSortedDDLEvents` keeps the histories strictly
increasing and below the next timestamp. -/
theorem handleDDLEvent_histories (p p1 : persistentStorage) (event filled : PersistedDDLEvent)
    (bound : Nat) (hs : p.HistoriesSorted) (hb : p.EntriesBelow bound)
    (hle : bound ≤ event.FinishedTs)
    (htrunc : event.Typ = ActionType.ActionTruncateTable →
      ∀ info, event.TableInfo = some info → info.ID ≠ event.TableID)
    (h : p.handleDDLEvent event = Except.ok (p1, filled)) :
    p1.HistoriesSorted ∧ p1.EntriesBelow (event.FinishedTs + 1) := by
  have hkeep : p.HistoriesSorted ∧ p.EntriesBelow (event.FinishedTs + 1) :=
    ⟨hs, ⟨fun t history hh x hx => by have := hb.1 t history hh x hx; omega,
      fun x hx => by have := hb.2 x hx; omega⟩⟩
  unfold persistentStorage.handleDDLEvent at h
  cases hn : fillSchemaName event p.databaseMap with
  | error f => rw [hn] at h; cases h
  | ok named =>
    rw [hn] at h
    simp only at h
    obtain ⟨n1, _, n3, n4, n5, _⟩ := fillSchemaName_fields event named p.databaseMap hn
    cases hf : fillInfluencedTableInfo named with
    | error f => rw [hf] at h; cases h
    | ok ev =>
      rw [hf] at h
      simp only at h
      obtain ⟨f1, _, f3, f4, f5, _⟩ := fillInfluencedTableInfo_fields named ev hf
      by_cases hskip : shouldSkipDDL ev p.databaseMap p.tableMap = true
      · simp only [hskip, if_true, Except.ok.injEq, Prod.mk.injEq] at h
        rw [← h.1]
        exact hkeep
      · simp only [hskip, if_false, Bool.false_eq_true] at h
        cases hu : p.updateDDLHistory ev with
        | error e => rw [hu] at h; cases h
        | ok q1 =>
          rw [hu] at h
          simp only at h
          cases hd : q1.updateDatabaseInfoAndTableInfo ev with
          | error e => rw [hd] at h; cases h
          | ok q2 =>
            rw [hd] at h
            simp only at h
            cases hr : q2.updateRegisteredTableInfoStore ev with
            | error e => rw [hr] at h; cases h
            | ok q3 =>
              rw [hr] at h
              simp only [Except.ok.injEq, Prod.mk.injEq] at h
              rw [← h.1]
              have hts : ev.FinishedTs = event.FinishedTs := f5.trans n5
              have htr : ev.Typ = ActionType.ActionTruncateTable →
                  ∀ info, ev.TableInfo = some info → info.ID ≠ ev.TableID := by
                intro ht info hi
                rw [f3, n3]
                apply htrunc (by rw [← n1, ← f1]; exact ht) info
                rw [← n4, ← f4]
                exact hi
              obtain ⟨e1, e2⟩ := updateDDLHistory_extend p q1 ev htr hu
              rw [hts] at e1 e2
              obtain ⟨d1, d2⟩ := updateDatabaseInfoAndTableInfo_histories q1 q2 ev hd
              obtain ⟨r1, r2⟩ := updateRegisteredTableInfoStore_histories q2 q3 ev hr
              apply histories_extend p q3 event.FinishedTs bound hs hb hle
              · intro t
                rw [r1, d1]
                exact e1 t
              · rw [r2, d2]
                exact e2

theorem Lock_eq (p p1 : persistentStorage) (h : p.Lock = Except.ok p1) :
    p.mu.writer = false ∧ p.mu.readers = 0 ∧
    p1 = { p with mu := { p.mu with writer := true } } := by
  unfold persistentStorage.Lock at h
  split at h
  · cases h
  · rename_i hfree
    cases h
    simp only [not_or, Bool.not_eq_true, gt_iff_lt, Nat.not_lt, Nat.le_zero_eq] at hfree
    exact ⟨hfree.1, hfree.2, rfl⟩

theorem Unlock_eq (p p1 : persistentStorage) (h : p.Unlock = Except.ok p1) :
    p.mu.writer = true ∧ p1 = { p with mu := { p.mu with writer := false } } := by
  unfold persistentStorage.Unlock at h
  split at h
  · rename_i hw
    cases h
    exact ⟨hw, rfl⟩
  · cases h

/-- The loop of `handleSortedDDLEvents` keeps the histories strictly increasing
when the events come with strictly increasing timestamps above all entries. -/
theorem handleDDLEvents_histories :
    ∀ (events : List PersistedDDLEvent) (p p1 : persistentStorage)
      (filled : List PersistedDDLEvent) (bound : Nat),
      p.HistoriesSorted → p.EntriesBelow bound →
      (∀ e ∈ events, bound ≤ e.FinishedTs) →
      (events.map (fun e => e.FinishedTs)).Pairwise (fun a b => a < b) →
      (∀ e ∈ events, e.Typ = ActionType.ActionTruncateTable →
        ∀ info, e.TableInfo = some info → info.ID ≠ e.TableID) →
      p.handleDDLEvents events = Except.ok (p1, filled) →
      p1.HistoriesSorted := by
  intro events
  induction events with
  | nil =>
    intro p p1 filled bound hs _ _ _ _ h
    simp only [persistentStorage.handleDDLEvents, Except.ok.injEq, Prod.mk.injEq] at h
    rw [← h.1]
    exact hs
  | cons event rest ih =>
    intro p p1 filled bound hs hb hle hinc htrunc h
    unfold persistentStorage.handleDDLEvents at h
    cases h1 : p.handleDDLEvent event with
    | error e => rw [h1] at h; cases h
    | ok r =>
      obtain ⟨q, ev⟩ := r
      rw [h1] at h
      simp only at h
      obtain ⟨hs2, hb2⟩ := handleDDLEvent_histories p q event ev bound hs hb
        (hle event (List.mem_cons_self _ _)) (htrunc event (List.mem_cons_self _ _)) h1
      cases h2 : q.handleDDLEvents rest with
      | error e => rw [h2] at h; cases h
      | ok r2 =>
        obtain ⟨q2, evs⟩ := r2
        rw [h2] at h
        simp only [Except.ok.injEq, Prod.mk.injEq] at h
        rw [← h.1]
        simp only [List.map_cons, List.pairwise_cons] at hinc
        apply ih q q2 evs (event.FinishedTs + 1) hs2 hb2 ?_ hinc.2
          (fun e he => htrunc e (List.mem_cons_of_mem _ he)) h2
        intro e he
        have := hinc.1 e.FinishedTs (List.mem_map.mpr ⟨e, he, rfl⟩)
        omega

/-- What a completed `cleanObseleteDataInMemory` leaves: the new `gcTs`, every
history cut by `cleanHistory`, the trigger history cut at the searched index;
the upper bound, the registrations and the mutex are as before. -/
theorem cleanObseleteDataInMemory_ok (p p2 : persistentStorage) (gcTs : Nat)
    (tablesInKVSnap : List Int)
    (h : p.cleanObseleteDataInMemory gcTs tablesInKVSnap = Except.ok (p2, ())) :
    p2.gcTs = gcTs ∧
    (∀ t, p2.tablesDDLHistory t =
      match p.tablesDDLHistory t with
      | none => none
      | some history => cleanHistory gcTs tablesInKVSnap t history) ∧
    p2.tableTriggerDDLHistory
      = p.tableTriggerDDLHistory.drop (searchAbove p.tableTriggerDDLHistory gcTs) ∧
    p2.upperBound = p.upperBound ∧ p2.mu = p.mu ∧
    p2.tableRegisteredCount = p.tableRegisteredCount ∧
    (∀ t, (p2.tableInfoStoreMap t).isSome = (p.tableInfoStoreMap t).isSome) ∧
    p2.disk = p.disk := by
  unfold persistentStorage.cleanObseleteDataInMemory at h
  cases hl : p.Lock with
  | error e => rw [hl] at h; cases h
  | ok p1 =>
    rw [hl] at h
    obtain ⟨hw, hr, hp1⟩ := Lock_eq p p1 hl
    subst hp1
    simp only at h
    split at h
    · split at h
      · cases h
      · cases h
    · split at h
      · cases h
      · rename_i q hq
        obtain ⟨_, hq2⟩ := Unlock_eq _ q hq
        simp only [Except.ok.injEq, Prod.mk.injEq, and_true] at h
        subst h
        subst hq2
        refine ⟨rfl, fun t => rfl, rfl, rfl, ?_, rfl, ?_, rfl⟩
        · show ({ writer := false, readers := p.mu.readers } : RWMutex) = p.mu
          cases hm : p.mu with
          | mk w r =>
            rw [hm] at hw
            simp only at hw
            subst hw
            rfl
        · intro t
          show ((p.tableInfoStoreMap t).map (fun store => store.gc gcTs)).isSome
            = (p.tableInfoStoreMap t).isSome
          cases p.tableInfoStoreMap t <;> rfl

/-- `cleanObseleteDataInMemory` keeps the histories strictly increasing. -/
theorem cleanObseleteDataInMemory_sorted (p p2 : persistentStorage) (gcTs : Nat)
    (tablesInKVSnap : List Int) (hs : p.HistoriesSorted)
    (h : p.cleanObseleteDataInMemory gcTs tablesInKVSnap = Except.ok (p2, ())) :
    p2.HistoriesSorted := by
  obtain ⟨_, htab, htrig, _⟩ := cleanObseleteDataInMemory_ok p p2 gcTs tablesInKVSnap h
  constructor
  · intro t history hh
    rw [htab t] at hh
    cases hp : p.tablesDDLHistory t with
    | none => rw [hp] at hh; cases hh
    | some old =>
      rw [hp] at hh
      simp only [cleanHistory] at hh
      split at hh
      · cases hh
      · split at hh
        · cases hh
        · simp only [Option.some.injEq] at hh
          rw [← hh]
          exact (hs.1 t old hp).drop
  · rw [htrig]
    exact hs.2.drop

/-- `handleSortedDDLEvents` changes the histories exactly as its loop does. -/
theorem handleSortedDDLEvents_loop (p p2 : persistentStorage)
    (ddlEvents filled : List PersistedDDLEvent)
    (h : p.handleSortedDDLEvents ddlEvents = Except.ok (p2, filled)) :
    ∃ q, persistentStorage.handleDDLEvents { p with mu := { p.mu with writer := true } }
        ddlEvents = Except.ok (q, filled) ∧
      p2.tablesDDLHistory = q.tablesDDLHistory ∧
      p2.tableTriggerDDLHistory = q.tableTriggerDDLHistory ∧
      p2.tableMap = q.tableMap ∧ p2.databaseMap = q.databaseMap ∧
      p2.disk = writeDDLEvents q.disk filled := by
  unfold persistentStorage.handleSortedDDLEvents at h
  cases hl : p.Lock with
  | error e => rw [hl] at h; cases h
  | ok p1 =>
    rw [hl] at h
    obtain ⟨_, _, hp1⟩ := Lock_eq p p1 hl
    subst hp1
    simp only at h
    cases hr : persistentStorage.handleDDLEvents { p with mu := { p.mu with writer := true } }
        ddlEvents with
    | error e => rw [hr] at h; cases h
    | ok r =>
      obtain ⟨q, evs⟩ := r
      rw [hr] at h
      simp only at h
      cases hu : q.Unlock with
      | error e => rw [hu] at h; cases h
      | ok q2 =>
        rw [hu] at h
        obtain ⟨_, hq2⟩ := Unlock_eq q q2 hu
        subst hq2
        simp only [Except.ok.injEq, Prod.mk.injEq] at h
        obtain ⟨h1, h2⟩ := h
        subst h1
        subst h2
        exact ⟨q, rfl, rfl, rfl, rfl, rfl, rfl⟩

/-- The events that `fetchTableDDLEvents` returns from strictly increasing
histories have strictly increasing finished timestamps. -/
theorem fetchTableDDLEvents_sorted (p p2 : persistentStorage) (tableID : Int)
    (start endTs : Nat) (events : List DDLEvent) (hs : p.HistoriesSorted)
    (h : p.fetchTableDDLEvents tableID start endTs = Except.ok (p2, Except.ok events)) :
    (events.map (fun e => e.FinishedTs)).Pairwise (fun a b => a < b) := by
  rcases fetchTableDDLEvents_ok p tableID start endTs p2 events h with hnil | ⟨history, hh, hr⟩
  · rw [hnil]
    exact List.Pairwise.nil
  · rw [readEvents_FinishedTs p.disk _ events hr]
    unfold targetTsOf
    exact ((hs.1 tableID history hh).drop).filter _

/-- C12: if every per-table history and the table-trigger history are strictly
increasing with all entries below the first incoming finished timestamp, the
events given to `handleSortedDDLEvents` have strictly increasing finished
timestamps, and the new table of a truncate differs from the old one, then
after the call every history is still strictly increasing;
`cleanObseleteDataInMemory` keeps histories strictly increasing; and the events
`fetchTableDDLEvents` returns from such histories are strictly increasing in
their finished timestamps. -/
theorem histories_stay_sorted (p : persistentStorage) (ddlEvents : List PersistedDDLEvent)
    (hs : p.HistoriesSorted)
    (hfirst : ∀ e, ddlEvents.head? = some e → p.EntriesBelow e.FinishedTs)
    (hinc : (ddlEvents.map (fun e => e.FinishedTs)).Pairwise (fun a b => a < b))
    (htrunc : ∀ e ∈ ddlEvents, e.Typ = ActionType.ActionTruncateTable →
      ∀ info, e.TableInfo = some info → info.ID ≠ e.TableID) :
    (∀ p2 filled, p.handleSortedDDLEvents ddlEvents = Except.ok (p2, filled) →
      p2.HistoriesSorted) ∧
    (∀ (q q2 : persistentStorage) gcTs tablesInKVSnap, q.HistoriesSorted →
      q.cleanObseleteDataInMemory gcTs tablesInKVSnap = Except.ok (q2, ()) →
      q2.HistoriesSorted) ∧
    (∀ (q q2 : persistentStorage) tableID start endTs events, q.HistoriesSorted →
      q.fetchTableDDLEvents tableID start endTs = Except.ok (q2, Except.ok events) →
      (events.map (fun e => e.FinishedTs)).Pairwise (fun a b => a < b)) := by
  refine ⟨?_, ?_, ?_⟩
  · intro p2 filled h
    obtain ⟨q, hq, h1, h2, _⟩ := handleSortedDDLEvents_loop p p2 ddlEvents filled h
    have hsq : q.HistoriesSorted := by
      cases ddlEvents with
      | nil =>
        simp only [persistentStorage.handleDDLEvents, Except.ok.injEq, Prod.mk.injEq] at hq
        rw [← hq.1]
        exact hs
      | cons e rest =>
        have hb := hfirst e rfl
        apply handleDDLEvents_histories (e :: rest)
          { p with mu := { p.mu with writer := true } } q filled e.FinishedTs hs hb ?_ hinc
          htrunc hq
        intro x hx
        rcases List.mem_cons.mp hx with rfl | hx
        · exact Nat.le_refl _
        · simp only [List.map_cons, List.pairwise_cons] at hinc
          have := hinc.1 x.FinishedTs (List.mem_map.mpr ⟨x, hx, rfl⟩)
          omega
    exact ⟨fun t history hh => hsq.1 t history (h1 ▸ hh), h2 ▸ hsq.2⟩
  · intro q q2 gcTs kv hsq h
    exact cleanObseleteDataInMemory_sorted q q2 gcTs kv hsq h
  · intro q q2 tableID start endTs events hsq h
    exact fetchTableDDLEvents_sorted q q2 tableID start endTs events hsq h

/-- C12 at a concrete input: a new store ingests a create-schema, a
create-table and an add-column event with the timestamps 10, 20, 30. -/
theorem histories_stay_sorted_witness :
    ∃ p2 filled,
      (newPersistentStorage 5 (fun _ => none) (fun _ => none)).handleSortedDDLEvents
          [ddlEventOf ActionType.ActionCreateSchema 1 0 10,
           ddlEventOf ActionType.ActionCreateTable 1 7 20,
           ddlEventOf ActionType.ActionAddColumn 1 7 30] = Except.ok (p2, filled) ∧
      p2.HistoriesSorted ∧ p2.tablesDDLHistory 7 = some [20, 30] :=
  ⟨_, _, rfl,
    (histories_stay_sorted (newPersistentStorage 5 (fun _ => none) (fun _ => none))
      [ddlEventOf ActionType.ActionCreateSchema 1 0 10,
       ddlEventOf ActionType.ActionCreateTable 1 7 20,
       ddlEventOf ActionType.ActionAddColumn 1 7 30]
      ⟨fun t history hh => by simp [newPersistentStorage] at hh, List.Pairwise.nil⟩
      (fun e _ => ⟨fun t history hh => by simp [newPersistentStorage] at hh,
        fun x hx => by simp [newPersistentStorage] at hx⟩)
      (by decide)
      (by
        intro e he ht
        simp only [List.mem_cons, List.mem_singleton, List.not_mem_nil, or_false] at he
        rcases he with rfl | rfl | rfl <;> simp [ddlEventOf] at ht)).1 _ _ rfl,
    rfl⟩

/-! ## Schema store: reading the table-trigger history -/

/-- The inner loop of `fetchTableTriggerDDLEvents` takes the next
`max 1 (need - len(allTargetTs))` entries. -/
theorem collectBatch_eq (need : Int) :
    ∀ (l acc : List Nat),
      collectBatch need l acc = acc ++ l.take (max 1 (need - acc.length).toNat) := by
  intro l
  induction l with
  | nil => intro acc; simp [collectBatch]
  | cons ts rest ih =>
    intro acc
    unfold collectBatch
    by_cases hfull : ((acc ++ [ts]).length : Int) ≥ need
    · simp only [hfull, if_true]
      have hk : max 1 (need - (acc.length : Int)).toNat = 1 := by
        simp only [List.length_append, List.length_singleton, Nat.cast_add, Nat.cast_one] at hfull
        omega
      rw [hk]
      simp
    · simp only [hfull, if_false]
      rw [ih]
      simp only [List.length_append, List.length_singleton, Nat.cast_add, Nat.cast_one] at hfull ⊢
      have hk : max 1 (need - (acc.length : Int)).toNat
          = max 1 (need - ((acc.length : Int) + 1)).toNat + 1 := by omega
      rw [hk, List.take_succ_cons]
      simp

theorem readEvents_append (disk : List PersistedDDLEvent) :
    ∀ (a b : List Nat) (ea eb : List DDLEvent),
      readEvents disk a = some ea → readEvents disk b = some eb →
      readEvents disk (a ++ b) = some (ea ++ eb) := by
  intro a
  induction a with
  | nil =>
    intro b ea eb ha hb
    simp only [readEvents, Option.some.injEq] at ha
    subst ha
    simpa using hb
  | cons ts rest ih =>
    intro b ea eb ha hb
    unfold readEvents at ha
    cases hr : readDDLEvent disk ts with
    | none => rw [hr] at ha; cases ha
    | some raw =>
      rw [hr] at ha
      cases hrest : readEvents disk rest with
      | none => rw [hrest] at ha; cases ha
      | some evs =>
        rw [hrest] at ha
        simp only [Option.some.injEq] at ha
        subst ha
        simp [readEvents, hr, ih b evs eb hrest hb]

theorem readEvents_length (disk : List PersistedDDLEvent) (tss : List Nat)
    (events : List DDLEvent) (h : readEvents disk tss = some events) :
    events.length = tss.length := by
  have := congrArg List.length (readEvents_FinishedTs disk tss events h)
  simpa using this

/-- The loop over a batch appends the events read for the timestamps the filter
keeps. -/
theorem appendKept_spec (tableFilter : ActionType → String → String → Bool)
    (disk : List PersistedDDLEvent) :
    ∀ (tss : List Nat) (events : List DDLEvent),
      (∀ ts ∈ tss, ∃ e, readDDLEvent disk ts = some e) →
      ∃ evs, readEvents disk (tss.filter (keepsTs tableFilter disk)) = some evs ∧
        appendKept tableFilter disk tss events = some (events ++ evs) := by
  intro tss
  induction tss with
  | nil => intro events _; exact ⟨[], rfl, by simp [appendKept]⟩
  | cons ts rest ih =>
    intro events hdisk
    obtain ⟨raw, hraw⟩ := hdisk ts (List.mem_cons_self _ _)
    have hrest : ∀ x ∈ rest, ∃ e, readDDLEvent disk x = some e :=
      fun x hx => hdisk x (List.mem_cons_of_mem _ hx)
    by_cases hd : tableFilter raw.Typ raw.SchemaName
        (match raw.TableInfo with
         | some info => info.Name
         | none => "") = true
    · have hk : keepsTs tableFilter disk ts = false := by
        simp [keepsTs, hraw, hd]
      obtain ⟨evs, h1, h2⟩ := ih events hrest
      refine ⟨evs, ?_, ?_⟩
      · rw [List.filter_cons_of_neg (by simp [hk])]
        exact h1
      · simp only [appendKept, hraw, hd, if_true]
        exact h2
    · have hk : keepsTs tableFilter disk ts = true := by
        simp [keepsTs, hraw, hd]
      obtain ⟨evs, h1, h2⟩ := ih (events ++ [buildDDLEvent raw]) hrest
      refine ⟨buildDDLEvent raw :: evs, ?_, ?_⟩
      · rw [List.filter_cons_of_pos hk]
        simp [readEvents, hraw, h1]
      · simp only [appendKept, hraw, hd, if_false, Bool.false_eq_true]
        rw [h2]
        simp

/-- In a strictly increasing list, the entries above the last entry of a
non-empty front part are exactly the rest. -/
theorem filter_above_last (a b : List Nat) (ha : a ≠ [])
    (hs : (a ++ b).Pairwise (fun x y => x < y)) :
    (a ++ b).filter (fun x => decide (a.getLast ha < x)) = b := by
  obtain ⟨hsa, _, hab⟩ := List.pairwise_append.mp hs
  have hfront : ∀ x ∈ a, x ≤ a.getLast ha := by
    intro x hx
    have hsplit := List.dropLast_append_getLast ha
    rw [← hsplit] at hx hsa
    obtain ⟨_, _, hlt⟩ := List.pairwise_append.mp hsa
    rcases List.mem_append.mp hx with hx | hx
    · exact Nat.le_of_lt (hlt x hx _ (List.mem_singleton.mpr rfl))
    · simp only [List.mem_singleton] at hx
      omega
  rw [List.filter_append]
  have h1 : a.filter (fun x => decide (a.getLast ha < x)) = [] := by
    rw [List.filter_eq_nil_iff]
    intro x hx
    have := hfront x hx
    simp only [decide_eq_true_eq]
    omega
  have h2 : b.filter (fun x => decide (a.getLast ha < x)) = b := by
    rw [List.filter_eq_self]
    intro y hy
    simpa using hab _ (List.getLast_mem ha) y hy
  rw [h1, h2, List.nil_append]

/-- On a strictly increasing history, searching above the last entry of a batch
that was taken from some index on lands right behind the batch. -/
theorem drop_searchAbove_last (history : List Nat) (idx : Nat) (batch rest : List Nat)
    (hb : batch ≠ []) (hs : history.Pairwise (fun a b => a < b))
    (hsplit : history.drop idx = batch ++ rest) :
    history.drop (searchAbove history (batch.getLast hb)) = rest := by
  have hH : history = (history.take idx ++ batch) ++ rest := by
    rw [List.append_assoc, ← hsplit, List.take_append_drop]
  have hne : history.take idx ++ batch ≠ [] := by simp [hb]
  have hlast : (history.take idx ++ batch).getLast hne = batch.getLast hb :=
    List.getLast_append_of_ne_nil hb
  have hs2 : ((history.take idx ++ batch) ++ rest).Pairwise (fun a b => a < b) := by
    rw [← hH]; exact hs
  have hf := filter_above_last (history.take idx ++ batch) rest hne hs2
  rw [hlast, ← hH] at hf
  rw [drop_searchAbove history _ hs]
  exact hf

/-- The outer loop of `fetchTableTriggerDDLEvents` on a strictly increasing
history that is on disk, for a limit of at least one: with fuel for one turn
per remaining entry it returns, leaves the store as it is, and appends the
events of the first `limit - len(events)` kept timestamps above
`nextStartTs`. -/
theorem triggerLoop_spec (tableFilter : ActionType → String → String → Bool) (limit : Int)
    (p : persistentStorage) (hw : p.mu.writer = false)
    (hs : p.tableTriggerDDLHistory.Pairwise (fun a b => a < b))
    (hdisk : ∀ ts ∈ p.tableTriggerDDLHistory, ∃ e, readDDLEvent p.disk ts = some e) :
    ∀ (fuel : Nat) (events : List DDLEvent) (nextStartTs : Nat),
      (events.length : Int) < limit →
      (p.tableTriggerDDLHistory.drop
        (searchAbove p.tableTriggerDDLHistory nextStartTs)).length < fuel →
      ∃ evs,
        readEvents p.disk
          (((p.tableTriggerDDLHistory.drop
              (searchAbove p.tableTriggerDDLHistory nextStartTs)).filter
              (keepsTs tableFilter p.disk)).take (limit - events.length).toNat) = some evs ∧
        persistentStorage.triggerLoop tableFilter limit fuel p events nextStartTs
          = some (Except.ok (p, Except.ok (events ++ evs))) := by
  intro fuel
  induction fuel with
  | zero => intro events ns _ hf; omega
  | succ fuel ih =>
    intro events ns hlen hfuel
    have hlim : ¬ limit < 0 := by omega
    unfold persistentStorage.triggerLoop
    simp only [hlim, if_false]
    rw [RLock_ok p hw]
    simp only [RUnlock_after_RLock]
    by_cases hidx : searchAbove p.tableTriggerDDLHistory ns = p.tableTriggerDDLHistory.length
    · simp only [hidx, if_true]
      refine ⟨[], ?_, by simp⟩
      simp [readEvents]
    · simp only [hidx, if_false]
      rw [collectBatch_eq]
      simp only [List.length_nil, Nat.cast_zero, Int.sub_zero, List.nil_append]
      have hk : max 1 (limit - (events.length : Int)).toNat
          = (limit - (events.length : Int)).toNat := by omega
      rw [hk]
      obtain ⟨hle, _, _⟩ := searchAbove_spec p.tableTriggerDDLHistory ns hs
      generalize hrem : p.tableTriggerDDLHistory.drop
        (searchAbove p.tableTriggerDDLHistory ns) = rem at hfuel ⊢
      have hremne : rem ≠ [] := by
        intro he
        have := congrArg List.length hrem
        rw [he] at this
        simp only [List.length_drop, List.length_nil] at this
        omega
      generalize hn : (limit - (events.length : Int)).toNat = n
      have hnpos : 1 ≤ n := by omega
      have hsplit : rem = rem.take n ++ rem.drop n := (List.take_append_drop n rem).symm
      cases hbatch : rem.take n with
      | nil =>
        exfalso
        have := congrArg List.length hbatch
        simp only [List.length_take, List.length_nil] at this
        have : rem.length = 0 := by omega
        exact hremne (List.length_eq_zero.mp this)
      | cons first more =>
        simp only
        have hbdisk : ∀ ts ∈ first :: more, ∃ e, readDDLEvent p.disk ts = some e := by
          intro ts hts
          apply hdisk
          have h1 : ts ∈ rem := by
            rw [hsplit, hbatch]
            exact List.mem_append_left _ hts
          rw [← hrem] at h1
          exact List.mem_of_mem_drop h1
        obtain ⟨eb, hread, happ⟩ := appendKept_spec tableFilter p.disk (first :: more) events hbdisk
        rw [happ]
        simp only
        have heb : eb.length = ((first :: more).filter (keepsTs tableFilter p.disk)).length :=
          readEvents_length _ _ _ hread
        have hkb : ((first :: more).filter (keepsTs tableFilter p.disk)).length ≤ n := by
          have h1 := List.length_filter_le (keepsTs tableFilter p.disk) (first :: more)
          have h2 : (first :: more).length ≤ n := by
            rw [← hbatch, List.length_take]
            omega
          omega
        have hfilter : rem.filter (keepsTs tableFilter p.disk)
            = (first :: more).filter (keepsTs tableFilter p.disk) ++
              (rem.drop n).filter (keepsTs tableFilter p.disk) := by
          rw [← List.filter_append, ← hbatch, List.take_append_drop]
        by_cases hdone : ((events ++ eb).length : Int) ≥ limit
        · simp only [hdone, if_true]
          refine ⟨eb, ?_, rfl⟩
          have hfull : ((first :: more).filter (keepsTs tableFilter p.disk)).length = n := by
            simp only [List.length_append, Nat.cast_add] at hdone
            omega
          rw [hfilter, List.take_append_of_le_length (by omega), ← hfull, List.take_length]
          exact hread
        · simp only [hdone, if_false]
          have hlen2 : ((events ++ eb).length : Int) < limit := by omega
          have hnext : p.tableTriggerDDLHistory.drop
              (searchAbove p.tableTriggerDDLHistory
                ((first :: more).getLast (List.cons_ne_nil first more))) = rem.drop n := by
            apply drop_searchAbove_last p.tableTriggerDDLHistory
              (searchAbove p.tableTriggerDDLHistory ns) (first :: more) (rem.drop n)
              (List.cons_ne_nil first more) hs
            rw [hrem, ← hbatch, List.take_append_drop]
          have hfuel2 : (p.tableTriggerDDLHistory.drop
              (searchAbove p.tableTriggerDDLHistory
                ((first :: more).getLast (List.cons_ne_nil first more)))).length < fuel := by
            rw [hnext, List.length_drop]
            have : 0 < rem.length := List.length_pos.mpr hremne
            omega
          obtain ⟨evs2, hread2, hloop2⟩ := ih (events ++ eb)
            ((first :: more).getLast (List.cons_ne_nil first more)) hlen2 hfuel2
          rw [hnext] at hread2
          refine ⟨eb ++ evs2, ?_, ?_⟩
          · rw [hfilter, List.take_append_eq_append_take,
              List.take_of_length_le hkb]
            apply readEvents_append _ _ _ _ _ hread
            have he : (limit - ((events ++ eb).length : Int)).toNat
                = n - ((first :: more).filter (keepsTs tableFilter p.disk)).length := by
              simp only [List.length_append, Nat.cast_add]
              omega
            rw [← he]
            exact hread2
          · rw [hloop2, List.append_assoc]

/-- C13: for every limit of at least one, every `start ≥ gcTs` and every
strictly increasing table-trigger history (on disk), `fetchTableTriggerDDLEvents`
returns within one turn of its loop per history entry, leaves the store as it
is, and returns the events read for the first `min limit n` of the `n` history
entries above `start` that the filter keeps, in ascending order. -/
theorem fetchTableTriggerDDLEvents_spec (p : persistentStorage) (fuel : Nat)
    (tableFilter : ActionType → String → String → Bool) (start : Nat) (limit : Int)
    (hw : p.mu.writer = false) (hr : p.mu.readers = 0) (hlimit : 1 ≤ limit)
    (hstart : p.gcTs ≤ start)
    (hs : p.tableTriggerDDLHistory.Pairwise (fun a b => a < b))
    (hdisk : ∀ ts ∈ p.tableTriggerDDLHistory, ∃ e, readDDLEvent p.disk ts = some e)
    (hfuel : p.tableTriggerDDLHistory.length < fuel) :
    ∃ events,
      p.fetchTableTriggerDDLEvents fuel tableFilter start limit
        = some (Except.ok (p, Except.ok events)) ∧
      events.map (fun e => e.FinishedTs)
        = ((p.tableTriggerDDLHistory.filter (fun ts => decide (start < ts))).filter
            (keepsTs tableFilter p.disk)).take limit.toNat ∧
      readEvents p.disk (events.map (fun e => e.FinishedTs)) = some events ∧
      events.length
        = min limit.toNat
            ((p.tableTriggerDDLHistory.filter (fun ts => decide (start < ts))).filter
              (keepsTs tableFilter p.disk)).length ∧
      (events.map (fun e => e.FinishedTs)).Pairwise (fun a b => a < b) ∧
      ∀ ts ∈ events.map (fun e => e.FinishedTs), start < ts := by
  have hgc : ¬ start < p.gcTs := by omega
  have hfuel2 : (p.tableTriggerDDLHistory.drop
      (searchAbove p.tableTriggerDDLHistory start)).length < fuel := by
    rw [List.length_drop]; omega
  obtain ⟨evs, hread, hloop⟩ :=
    triggerLoop_spec tableFilter limit p hw hs hdisk fuel [] start (by simpa using hlimit) hfuel2
  rw [drop_searchAbove p.tableTriggerDDLHistory start hs] at hread
  simp only [List.length_nil, Nat.cast_zero, Int.sub_zero] at hread
  have hts := readEvents_FinishedTs p.disk _ evs hread
  refine ⟨evs, ?_, hts, ?_, ?_, ?_, ?_⟩
  · unfold persistentStorage.fetchTableTriggerDDLEvents
    rw [Lock_ok p hw hr]
    simp only [hgc, if_false, Unlock_after_Lock p hw]
    rw [hloop]
    simp
  · rw [hts]; exact hread
  · have := congrArg List.length hts
    simp only [List.length_map, List.length_take] at this
    exact this
  · rw [hts]
    exact List.Pairwise.sublist (List.take_sublist _ _) ((hs.filter _).filter _)
  · intro ts hmem
    rw [hts] at hmem
    have h1 := List.mem_of_mem_take hmem
    have h2 := (List.mem_filter.mp (List.mem_filter.mp h1).1).2
    simpa using h2

/-- C13 at a concrete input: with limit 1 and start 5 the sample store returns
the event of timestamp 10, the first of its trigger history `[10, 20]`. -/
theorem fetchTableTriggerDDLEvents_spec_witness :
    ∃ events, sampleStorage.fetchTableTriggerDDLEvents 3 keepAll 5 1
        = some (Except.ok (sampleStorage, Except.ok events)) ∧
      events.map (fun e => e.FinishedTs) = [10] := by
  obtain ⟨events, h1, h2, _⟩ :=
    fetchTableTriggerDDLEvents_spec sampleStorage 3 keepAll 5 1 rfl rfl (by decide) (by decide)
      (by decide)
      (by
        intro ts hts
        simp [sampleStorage] at hts
        rcases hts with rfl | rfl
        · exact ⟨_, rfl⟩
        · exact ⟨_, rfl⟩)
      (by decide)
  refine ⟨events, h1, ?_⟩
  rw [h2]
  decide

/-- C14, at the failing input: with limit 0 the sample store, whose trigger
history is `[10, 20]`, returns one event, because the inner loop appends an
entry before it compares the batch with `limit - len(events)`. -/
theorem fetchTableTriggerDDLEvents_limit_zero :
    ∃ events, sampleStorage.fetchTableTriggerDDLEvents 3 keepAll 5 0
        = some (Except.ok (sampleStorage, Except.ok events)) ∧
      events.map (fun e => e.FinishedTs) = [10] ∧ ¬ ((events.length : Int) ≤ 0) :=
  ⟨_, rfl, rfl, by decide⟩

/-! ## Schema store: the influence table and duplicate creates -/

/-- C15: the influence fields that `fillInfluencedTableInfo` sets, action by
action, on any event of that action: DropSchema gives need-dropped = the whole
database (type DB, the event's schema id); CreateTable gives need-added = the
single table (schema id and table id of the event, name from its `TableInfo`);
DropTable gives need-dropped = Normal on the event's table id; TruncateTable
gives need-dropped = Normal on the old table id and need-added = the new id
`TableInfo.ID` in the same schema; RenameTable gives blocked = Normal on the
event's table id; CreateView gives blocked = All; CreateSchema and the column,
index, foreign-key and table-option actions leave the event as it is. -/
theorem fillInfluencedTableInfo_table (event : PersistedDDLEvent) (info : TableInfo) :
    (fillInfluencedTableInfo { event with Typ := ActionType.ActionDropSchema }
      = Except.ok { event with
          Typ := ActionType.ActionDropSchema,
          NeedDroppedTables := some
            { InfluenceType := InfluenceType.DB, TableIDs := [],
              SchemaID := event.SchemaID, SchemaName := event.SchemaName } }) ∧
    (fillInfluencedTableInfo
        { event with Typ := ActionType.ActionCreateTable, TableInfo := some info }
      = Except.ok { event with
          Typ := ActionType.ActionCreateTable, TableInfo := some info,
          NeedAddedTables :=
            [{ SchemaID := event.SchemaID, SchemaName := event.SchemaName,
               TableID := event.TableID, TableName := info.Name }] }) ∧
    (fillInfluencedTableInfo { event with Typ := ActionType.ActionDropTable }
      = Except.ok { event with
          Typ := ActionType.ActionDropTable,
          NeedDroppedTables := some
            { InfluenceType := InfluenceType.Normal, TableIDs := [event.TableID],
              SchemaID := 0, SchemaName := "" } }) ∧
    (fillInfluencedTableInfo
        { event with Typ := ActionType.ActionTruncateTable, TableInfo := some info }
      = Except.ok { event with
          Typ := ActionType.ActionTruncateTable, TableInfo := some info,
          NeedDroppedTables := some
            { InfluenceType := InfluenceType.Normal, TableIDs := [event.TableID],
              SchemaID := 0, SchemaName := "" },
          NeedAddedTables :=
            [{ SchemaID := event.SchemaID, SchemaName := "", TableID := info.ID,
               TableName := "" }] }) ∧
    (fillInfluencedTableInfo { event with Typ := ActionType.ActionRenameTable }
      = Except.ok { event with
          Typ := ActionType.ActionRenameTable,
          BlockedTables := some
            { InfluenceType := InfluenceType.Normal, TableIDs := [event.TableID],
              SchemaID := 0, SchemaName := "" } }) ∧
    (fillInfluencedTableInfo { event with Typ := ActionType.ActionCreateView }
      = Except.ok { event with
          Typ := ActionType.ActionCreateView,
          BlockedTables := some
            { InfluenceType := InfluenceType.All, TableIDs := [],
              SchemaID := 0, SchemaName := "" } }) ∧
    (fillInfluencedTableInfo { event with Typ := ActionType.ActionCreateSchema }
      = Except.ok { event with Typ := ActionType.ActionCreateSchema }) ∧
    (fillInfluencedTableInfo { event with Typ := ActionType.ActionAddColumn }
      = Except.ok { event with Typ := ActionType.ActionAddColumn }) ∧
    (fillInfluencedTableInfo { event with Typ := ActionType.ActionDropColumn }
      = Except.ok { event with Typ := ActionType.ActionDropColumn }) ∧
    (fillInfluencedTableInfo { event with Typ := ActionType.ActionAddIndex }
      = Except.ok { event with Typ := ActionType.ActionAddIndex }) ∧
    (fillInfluencedTableInfo { event with Typ := ActionType.ActionDropIndex }
      = Except.ok { event with Typ := ActionType.ActionDropIndex }) ∧
    (fillInfluencedTableInfo { event with Typ := ActionType.ActionAddForeignKey }
      = Except.ok { event with Typ := ActionType.ActionAddForeignKey }) ∧
    (fillInfluencedTableInfo { event with Typ := ActionType.ActionDropForeignKey }
      = Except.ok { event with Typ := ActionType.ActionDropForeignKey }) ∧
    (fillInfluencedTableInfo { event with Typ := ActionType.ActionModifyColumn }
      = Except.ok { event with Typ := ActionType.ActionModifyColumn }) ∧
    (fillInfluencedTableInfo { event with Typ := ActionType.ActionRebaseAutoID }
      = Except.ok { event with Typ := ActionType.ActionRebaseAutoID }) ∧
    (fillInfluencedTableInfo { event with Typ := ActionType.ActionSetDefaultValue }
      = Except.ok { event with Typ := ActionType.ActionSetDefaultValue }) ∧
    (fillInfluencedTableInfo { event with Typ := ActionType.ActionShardRowID }
      = Except.ok { event with Typ := ActionType.ActionShardRowID }) ∧
    (fillInfluencedTableInfo { event with Typ := ActionType.ActionModifyTableComment }
      = Except.ok { event with Typ := ActionType.ActionModifyTableComment }) ∧
    (fillInfluencedTableInfo { event with Typ := ActionType.ActionRenameIndex }
      = Except.ok { event with Typ := ActionType.ActionRenameIndex }) ∧
    (fillInfluencedTableInfo
        { event with Typ := ActionType.ActionCreateTable, TableInfo := none }
      = Except.error StoreFault.nilDereference) ∧
    (fillInfluencedTableInfo
        { event with Typ := ActionType.ActionTruncateTable, TableInfo := none }
      = Except.error StoreFault.nilDereference) := by
  refine ⟨rfl, rfl, rfl, rfl, rfl, rfl, rfl, rfl, rfl, rfl, rfl, ?_⟩
  exact ⟨rfl, rfl, rfl, rfl, rfl, rfl, rfl, rfl, rfl, rfl⟩

/-- One turn of the loop of `handleSortedDDLEvents` on a duplicate create leaves
the store as it is and only fills the event; the filled event depends on the
two maps only. -/
theorem handleDDLEvent_duplicate (p : persistentStorage) (event : PersistedDDLEvent)
    (hdup : p.isDuplicateCreate event) :
    ∃ filled,
      (∀ q : persistentStorage, q.databaseMap = p.databaseMap → q.tableMap = p.tableMap →
        q.handleDDLEvent event = Except.ok (q, filled)) ∧
      filled.FinishedTs = event.FinishedTs ∧ filled.Typ = event.Typ ∧
      filled.SchemaID = event.SchemaID ∧ filled.TableID = event.TableID := by
  rcases hdup with ⟨htyp, hdb, hpresent⟩ | ⟨htyp, hti, hdb, hpresent⟩
  · obtain ⟨info, hinfo⟩ := Option.isSome_iff_exists.mp hdb
    have hn : fillSchemaName event p.databaseMap
        = Except.ok { event with SchemaName := info.Name } := by
      simp [fillSchemaName, htyp, hinfo]
    have hf : fillInfluencedTableInfo { event with SchemaName := info.Name }
        = Except.ok { event with SchemaName := info.Name } := by
      simp [fillInfluencedTableInfo, htyp]
    have hskip : shouldSkipDDL { event with SchemaName := info.Name } p.databaseMap p.tableMap
        = true := by
      simp [shouldSkipDDL, htyp, hpresent]
    refine ⟨{ event with SchemaName := info.Name }, ?_, rfl, rfl, rfl, rfl⟩
    intro q hq1 hq2
    unfold persistentStorage.handleDDLEvent
    rw [hq1, hq2, hn]
    simp only [hf, hskip, if_true]
  · obtain ⟨info, hinfo⟩ := Option.isSome_iff_exists.mp hti
    obtain ⟨db, hdbv⟩ := Option.isSome_iff_exists.mp hdb
    have hn : fillSchemaName event p.databaseMap
        = Except.ok { event with SchemaName := db.Name } := by
      simp [fillSchemaName, htyp, hdbv]
    have hf : fillInfluencedTableInfo { event with SchemaName := db.Name }
        = Except.ok { event with
            SchemaName := db.Name,
            NeedAddedTables :=
              [{ SchemaID := event.SchemaID, SchemaName := db.Name,
                 TableID := event.TableID, TableName := info.Name }] } := by
      simp [fillInfluencedTableInfo, htyp, hinfo]
    have hskip : shouldSkipDDL
        { event with
          SchemaName := db.Name,
          NeedAddedTables :=
            [{ SchemaID := event.SchemaID, SchemaName := db.Name,
               TableID := event.TableID, TableName := info.Name }] }
        p.databaseMap p.tableMap = true := by
      simp [shouldSkipDDL, htyp, hpresent]
    refine ⟨{ event with
        SchemaName := db.Name,
        NeedAddedTables :=
          [{ SchemaID := event.SchemaID, SchemaName := db.Name,
             TableID := event.TableID, TableName := info.Name }] }, ?_, rfl, rfl, rfl, rfl⟩
    intro q hq1 hq2
    unfold persistentStorage.handleDDLEvent
    rw [hq1, hq2, hn]
    simp only [hf, hskip, if_true]

/-- A mutex that no writer holds equals itself with the writer flag cleared. -/
theorem RWMutex_clear (m : RWMutex) (hw : m.writer = false) :
    ({ m with writer := false } : RWMutex) = m := by
  cases m with
  | mk w r =>
    simp only at hw
    subst hw
    rfl

/-- On a free store, `handleSortedDDLEvents` of a single duplicate create
changes nothing but the disk, to which it hands the filled event. -/
theorem handleSortedDDLEvents_duplicate (p : persistentStorage) (event : PersistedDDLEvent)
    (hw : p.mu.writer = false) (hr : p.mu.readers = 0) (hdup : p.isDuplicateCreate event) :
    ∃ filled,
      p.handleDDLEvent event = Except.ok (p, filled) ∧
      p.handleSortedDDLEvents [event]
        = Except.ok ({ p with disk := writeDDLEvents p.disk [filled] }, [filled]) ∧
      filled.FinishedTs = event.FinishedTs ∧ filled.Typ = event.Typ ∧
      filled.SchemaID = event.SchemaID ∧ filled.TableID = event.TableID := by
  obtain ⟨filled, hstep, h1, h2, h3, h4⟩ := handleDDLEvent_duplicate p event hdup
  refine ⟨filled, hstep p rfl rfl, ?_, h1, h2, h3, h4⟩
  have hl : p.Lock = Except.ok { p with mu := { p.mu with writer := true } } := by
    simp [persistentStorage.Lock, hw, hr]
  have hloop : persistentStorage.handleDDLEvents { p with mu := { p.mu with writer := true } }
      [event] = Except.ok ({ p with mu := { p.mu with writer := true } }, [filled]) := by
    rw [persistentStorage.handleDDLEvents,
      hstep { p with mu := { p.mu with writer := true } } rfl rfl]
    simp only [persistentStorage.handleDDLEvents]
  unfold persistentStorage.handleSortedDDLEvents
  rw [hl]
  simp only [hloop, persistentStorage.Unlock, if_true]
  have hm : ({ writer := false, readers := p.mu.readers } : RWMutex) = p.mu :=
    RWMutex_clear p.mu hw
  rw [hm]

/-- A completed turn of the loop of `handleSortedDDLEvents` on a create-schema
or create-table event leaves a store in which the event is a duplicate create;
the mutex is as before. -/
theorem handleDDLEvent_create (p q : persistentStorage) (event filled : PersistedDDLEvent)
    (htyp : event.Typ = ActionType.ActionCreateSchema ∨
      event.Typ = ActionType.ActionCreateTable)
    (h : p.handleDDLEvent event = Except.ok (q, filled)) :
    q.isDuplicateCreate event ∧ q.mu = p.mu := by
  unfold persistentStorage.handleDDLEvent at h
  rcases htyp with htyp | htyp
  · cases hdbi : event.DBInfo with
    | none => simp [fillSchemaName, htyp, hdbi] at h
    | some info =>
      simp only [fillSchemaName, htyp, hdbi, fillInfluencedTableInfo, shouldSkipDDL] at h
      split at h
      · rename_i hskip
        simp only [Except.ok.injEq, Prod.mk.injEq] at h
        rw [← h.1]
        exact ⟨Or.inl ⟨htyp, by simp [hdbi], hskip⟩, rfl⟩
      · simp only [persistentStorage.updateDDLHistory,
          persistentStorage.updateDatabaseInfoAndTableInfo,
          persistentStorage.updateRegisteredTableInfoStore, Except.ok.injEq,
          Prod.mk.injEq] at h
        rw [← h.1]
        exact ⟨Or.inl ⟨htyp, by simp [hdbi], by simp⟩, rfl⟩
  · cases hdb : p.databaseMap event.SchemaID with
    | none => simp [fillSchemaName, htyp, hdb] at h
    | some db =>
      cases hti : event.TableInfo with
      | none => simp [fillSchemaName, htyp, hdb, fillInfluencedTableInfo, hti] at h
      | some info =>
        simp only [fillSchemaName, htyp, hdb, fillInfluencedTableInfo, hti, shouldSkipDDL] at h
        split at h
        · rename_i hskip
          simp only [Except.ok.injEq, Prod.mk.injEq] at h
          rw [← h.1]
          exact ⟨Or.inr ⟨htyp, by simp [hti], by simp [hdb], hskip⟩, rfl⟩
        · simp only [persistentStorage.updateDDLHistory,
            persistentStorage.updateDatabaseInfoAndTableInfo,
            persistentStorage.createTable, persistentStorage.addTableToDB, hdb, hti,
            persistentStorage.updateRegisteredTableInfoStore, Except.ok.injEq,
            Prod.mk.injEq] at h
          rw [← h.1]
          exact ⟨Or.inr ⟨htyp, by simp [hti], by simp, by simp⟩, rfl⟩

/-- After a completed `handleSortedDDLEvents` of one create-schema or
create-table event the event is a duplicate create and the mutex is free. -/
theorem handleSortedDDLEvents_create (p p1 : persistentStorage)
    (event : PersistedDDLEvent) (out : List PersistedDDLEvent)
    (htyp : event.Typ = ActionType.ActionCreateSchema ∨
      event.Typ = ActionType.ActionCreateTable)
    (h : p.handleSortedDDLEvents [event] = Except.ok (p1, out)) :
    p1.isDuplicateCreate event ∧ p1.mu.writer = false ∧ p1.mu.readers = 0 := by
  unfold persistentStorage.handleSortedDDLEvents at h
  cases hl : p.Lock with
  | error e => rw [hl] at h; cases h
  | ok pl =>
    rw [hl] at h
    obtain ⟨_, hr, hpl⟩ := Lock_eq p pl hl
    subst hpl
    simp only [persistentStorage.handleDDLEvents] at h
    cases hde : persistentStorage.handleDDLEvent
        { p with mu := { p.mu with writer := true } } event with
    | error e => rw [hde] at h; cases h
    | ok r =>
      obtain ⟨q, filled⟩ := r
      rw [hde] at h
      simp only at h
      obtain ⟨hdup, hmu⟩ := handleDDLEvent_create _ q event filled htyp hde
      cases hu : q.Unlock with
      | error e => rw [hu] at h; cases h
      | ok q2 =>
        rw [hu] at h
        obtain ⟨_, hq2⟩ := Unlock_eq q q2 hu
        subst hq2
        simp only [Except.ok.injEq, Prod.mk.injEq] at h
        rw [← h.1]
        refine ⟨hdup, rfl, ?_⟩
        show q.mu.readers = 0
        rw [hmu]
        exact hr

/-- C16 as claimed fails for a create-table whose database the store no longer
holds.  After the sample store has ingested the drop of database 1, table 7 is
still in `tableMap` and database 1 is gone; the create-table event for table 7
then panics in `fillSchemaName` (`database not found`) before `shouldSkipDDL`
is reached: the call does not return, with the mutex held, and the event is
not written to the disk. -/
theorem duplicate_create_without_schema :
    ∃ p1 out, sampleStorage.handleSortedDDLEvents [dropSchemaOne] = Except.ok (p1, out) ∧
      (p1.tableMap 7).isSome = true ∧ p1.databaseMap 1 = none ∧
      shouldSkipDDL (ddlEventOf ActionType.ActionCreateTable 1 7 60) p1.databaseMap p1.tableMap
        = true ∧
      ∃ p2, p1.handleSortedDDLEvents [ddlEventOf ActionType.ActionCreateTable 1 7 60]
          = Except.error (StoreFault.panic, p2) ∧
        p2.disk = p1.disk ∧ p2.mu.writer = true :=
  ⟨_, _, rfl, rfl, rfl, rfl, _, rfl, rfl, rfl⟩

/-- C16, amended: `handleSortedDDLEvents` skips a duplicate create without a
change in memory and still persists it. On a store whose mutex is free, for a
create-schema whose schema id is in `databaseMap` or a create-table whose table
id is in `tableMap` and whose schema id is in `databaseMap` (the event carrying
the info record its name is read from): the turn of the loop returns the store
as it is; a batch that
starts with the event leaves the loop in the state the rest of the batch alone
gives, with the filled event at the head of what is handed to `writeDDLEvents`;
ingesting the event alone changes only the disk, which receives it. Hence
replay is idempotent: after any completed ingestion of a create-schema or
create-table event, ingesting it again completes and changes only the disk. -/
theorem duplicate_create_skipped (p : persistentStorage) (event : PersistedDDLEvent)
    (hw : p.mu.writer = false) (hr : p.mu.readers = 0) :
    (p.isDuplicateCreate event →
      ∃ filled,
        p.handleDDLEvent event = Except.ok (p, filled) ∧
        (∀ rest, p.handleDDLEvents (event :: rest)
          = (p.handleDDLEvents rest).map (fun r => (r.1, filled :: r.2))) ∧
        (∃ p2, p.handleSortedDDLEvents [event] = Except.ok (p2, [filled]) ∧
          p2.databaseMap = p.databaseMap ∧ p2.tableMap = p.tableMap ∧
          p2.tablesDDLHistory = p.tablesDDLHistory ∧
          p2.tableTriggerDDLHistory = p.tableTriggerDDLHistory ∧
          p2 = { p with disk := writeDDLEvents p.disk [filled] } ∧ filled ∈ p2.disk) ∧
        filled.FinishedTs = event.FinishedTs ∧ filled.Typ = event.Typ ∧
        filled.SchemaID = event.SchemaID ∧ filled.TableID = event.TableID) ∧
    ((event.Typ = ActionType.ActionCreateSchema ∨ event.Typ = ActionType.ActionCreateTable) →
      ∀ p1 out1, p.handleSortedDDLEvents [event] = Except.ok (p1, out1) →
        ∃ p2 out2, p1.handleSortedDDLEvents [event] = Except.ok (p2, out2) ∧
          p2.databaseMap = p1.databaseMap ∧ p2.tableMap = p1.tableMap ∧
          p2.tablesDDLHistory = p1.tablesDDLHistory ∧
          p2.tableTriggerDDLHistory = p1.tableTriggerDDLHistory ∧
          p2 = { p1 with disk := writeDDLEvents p1.disk out2 }) := by
  constructor
  · intro hdup
    obtain ⟨filled, hstep, hsorted, h1, h2, h3, h4⟩ :=
      handleSortedDDLEvents_duplicate p event hw hr hdup
    refine ⟨filled, hstep, ?_, ?_, h1, h2, h3, h4⟩
    · intro rest
      rw [persistentStorage.handleDDLEvents, hstep]
      simp only
      cases p.handleDDLEvents rest with
      | error e => rfl
      | ok r => rfl
    · refine ⟨_, hsorted, rfl, rfl, rfl, rfl, rfl, ?_⟩
      show filled ∈ writeDDLEvents p.disk [filled]
      simp [writeDDLEvents]
  · intro htyp p1 out1 h
    obtain ⟨hdup, hw1, hr1⟩ := handleSortedDDLEvents_create p p1 event out1 htyp h
    obtain ⟨filled, _, hsorted, _⟩ := handleSortedDDLEvents_duplicate p1 event hw1 hr1 hdup
    exact ⟨_, [filled], hsorted, rfl, rfl, rfl, rfl, rfl⟩

/-- C16, amended, at the sample store: the create-table event for table 7 of
database 1, both of which the store holds, is skipped and handed on. -/
theorem duplicate_create_skipped_witness :
    sampleStorage.isDuplicateCreate (ddlEventOf ActionType.ActionCreateTable 1 7 35) ∧
    ∃ filled,
      sampleStorage.handleDDLEvent (ddlEventOf ActionType.ActionCreateTable 1 7 35)
        = Except.ok (sampleStorage, filled) ∧ filled.FinishedTs = 35 :=
  have hdup : sampleStorage.isDuplicateCreate (ddlEventOf ActionType.ActionCreateTable 1 7 35) :=
    Or.inr ⟨rfl, rfl, rfl, rfl⟩
  ⟨hdup,
    ((duplicate_create_skipped sampleStorage (ddlEventOf ActionType.ActionCreateTable 1 7 35)
      rfl rfl).1 hdup).imp (fun _ hf => ⟨hf.1, hf.2.2.2.1⟩)⟩

/-! ## Schema store: garbage collection -/

/-- The marking loop of `cleanObseleteDataInMemory` completes when every table
of the snapshot is in the table map. -/
theorem markInKVSnap_complete :
    ∀ (tablesInKVSnap : List Int) (tableMap : Int → Option BasicTableInfo),
      (∀ t ∈ tablesInKVSnap, (tableMap t).isSome = true) →
      (markInKVSnap tableMap tablesInKVSnap).2 = true := by
  intro tablesInKVSnap
  induction tablesInKVSnap with
  | nil => intro tableMap _; rfl
  | cons tableID rest ih =>
    intro tableMap hall
    unfold markInKVSnap
    cases hm : tableMap tableID with
    | none =>
      have := hall tableID (List.mem_cons_self _ _)
      rw [hm] at this
      cases this
    | some info =>
      simp only
      apply ih
      intro t ht
      by_cases hta : t = tableID
      · simp [hta]
      · simp only [hta, if_false]
        exact hall t (List.mem_cons_of_mem _ ht)

/-- On a free store whose table map holds every table of the snapshot,
`cleanObseleteDataInMemory` completes. -/
theorem cleanObseleteDataInMemory_total (p : persistentStorage) (gcTs : Nat)
    (tablesInKVSnap : List Int) (hw : p.mu.writer = false) (hr : p.mu.readers = 0)
    (hsnap : ∀ t ∈ tablesInKVSnap, (p.tableMap t).isSome = true) :
    ∃ p2, p.cleanObseleteDataInMemory gcTs tablesInKVSnap = Except.ok (p2, ()) := by
  have hl : p.Lock = Except.ok { p with mu := { p.mu with writer := true } } := by
    simp [persistentStorage.Lock, hw, hr]
  have hm := markInKVSnap_complete tablesInKVSnap p.tableMap hsnap
  unfold persistentStorage.cleanObseleteDataInMemory
  rw [hl]
  simp only
  rcases hmk : markInKVSnap p.tableMap tablesInKVSnap with ⟨marked, flag⟩
  rw [hmk] at hm
  simp only at hm
  subst hm
  simp only [persistentStorage.Unlock, if_true]
  exact ⟨_, rfl⟩

/-- C17 (as stated, refuted): on the sample store, whose table 7 has the
history `[20, 30]`, `cleanObseleteDataInMemory 15` with a snapshot that does not
hold table 7 completes and removes the whole history of table 7, although the
histories are sorted and both entries are above 15. -/
theorem cleanObseleteDataInMemory_drops_entries_above_gcTs :
    sampleStorage.HistoriesSorted ∧
    sampleStorage.tablesDDLHistory 7 = some [20, 30] ∧ 15 < 20 ∧ 15 < 30 ∧
    ∃ p2, sampleStorage.cleanObseleteDataInMemory 15 [] = Except.ok (p2, ()) ∧
      p2.tablesDDLHistory 7 = none ∧
      ¬ (∀ t history, sampleStorage.tablesDDLHistory t = some history →
          ∀ x ∈ history, 15 < x → x ∈ (p2.tablesDDLHistory t).getD []) := by
  refine ⟨⟨?_, by decide⟩, rfl, by decide, by decide, _, rfl, rfl, ?_⟩
  · intro t history hh
    by_cases ht : t = 7
    · subst ht
      cases hh
      decide
    · simp [sampleStorage, ht] at hh
  · intro hall
    have := hall 7 [20, 30] rfl 30 (by decide) (by decide)
    cases this

/-- C17 (amended): on a free store with sorted histories whose table map holds
every table of the snapshot, `cleanObseleteDataInMemory gcTs tablesInKVSnap`
completes; afterwards every entry of every per-table history and of the
table-trigger history is above `gcTs`; for every table of the snapshot the
history is exactly the entries above `gcTs` that it held before, in the same
order, and so is the table-trigger history; a table that is not in the snapshot
has no history left. -/
theorem cleanObseleteDataInMemory_truncates (p : persistentStorage) (gcTs : Nat)
    (tablesInKVSnap : List Int) (hw : p.mu.writer = false) (hr : p.mu.readers = 0)
    (hs : p.HistoriesSorted)
    (hsnap : ∀ t ∈ tablesInKVSnap, (p.tableMap t).isSome = true) :
    ∃ p2, p.cleanObseleteDataInMemory gcTs tablesInKVSnap = Except.ok (p2, ()) ∧
      (∀ t history, p2.tablesDDLHistory t = some history → ∀ x ∈ history, gcTs < x) ∧
      (∀ x ∈ p2.tableTriggerDDLHistory, gcTs < x) ∧
      (∀ t ∈ tablesInKVSnap, ∀ history, p.tablesDDLHistory t = some history →
        (p2.tablesDDLHistory t).getD [] = history.filter (fun x => decide (gcTs < x))) ∧
      p2.tableTriggerDDLHistory
        = p.tableTriggerDDLHistory.filter (fun x => decide (gcTs < x)) ∧
      (∀ t, t ∉ tablesInKVSnap → p2.tablesDDLHistory t = none) := by
  obtain ⟨p2, hcall⟩ := cleanObseleteDataInMemory_total p gcTs tablesInKVSnap hw hr hsnap
  obtain ⟨_, htab, htrig, _⟩ := cleanObseleteDataInMemory_ok p p2 gcTs tablesInKVSnap hcall
  have htrig2 : p2.tableTriggerDDLHistory
      = p.tableTriggerDDLHistory.filter (fun x => decide (gcTs < x)) := by
    rw [htrig, drop_searchAbove _ _ hs.2]
  refine ⟨p2, hcall, ?_, ?_, ?_, htrig2, ?_⟩
  · intro t history hh x hx
    rw [htab t] at hh
    cases hp : p.tablesDDLHistory t with
    | none => rw [hp] at hh; cases hh
    | some old =>
      rw [hp] at hh
      simp only [cleanHistory] at hh
      split at hh
      · cases hh
      · split at hh
        · cases hh
        · simp only [Option.some.injEq] at hh
          rw [← hh, drop_searchAbove _ _ (hs.1 t old hp)] at hx
          simpa using (List.mem_filter.mp hx).2
  · intro x hx
    rw [htrig2] at hx
    simpa using (List.mem_filter.mp hx).2
  · intro t ht history hp
    rw [htab t, hp]
    have hc : tablesInKVSnap.contains t = true := by simpa using ht
    simp only [cleanHistory, hc, Bool.not_true, Bool.false_eq_true, if_false]
    split
    · rename_i hlen
      rw [(searchAbove_eq_length history gcTs (hs.1 t history hp)).mp hlen]
      rfl
    · rw [← drop_searchAbove _ _ (hs.1 t history hp)]
      rfl
  · intro t ht
    rw [htab t]
    cases hp : p.tablesDDLHistory t with
    | none => rfl
    | some old =>
      have hc : tablesInKVSnap.contains t = false := by simpa using ht
      simp only [cleanHistory, hc, Bool.not_false, if_true]

theorem cleanObseleteDataInMemory_truncates_witness :
    ∃ p2, sampleStorage.cleanObseleteDataInMemory 20 [7] = Except.ok (p2, ()) ∧
      (p2.tablesDDLHistory 7).getD [] = [30] ∧ p2.tableTriggerDDLHistory = [] := by
  have hsorted : sampleStorage.HistoriesSorted := by
    refine ⟨?_, by decide⟩
    intro t history hh
    by_cases ht : t = 7
    · subst ht
      cases hh
      decide
    · simp [sampleStorage, ht] at hh
  have hsnap : ∀ t ∈ [(7 : Int)], (sampleStorage.tableMap t).isSome = true := by
    intro t ht
    rw [List.mem_singleton.mp ht]
    rfl
  obtain ⟨p2, hcall, _, _, htab, htrig, _⟩ :=
    cleanObseleteDataInMemory_truncates sampleStorage 20 [7] rfl rfl hsorted hsnap
  exact ⟨p2, hcall, htab 7 (List.mem_singleton.mpr rfl) [20, 30] rfl, htrig⟩

/-! ## Schema store: registering tables -/

/-- Whatever way `buildVersionedTableInfoStore` ends, the registration counts
are as before, the store of its table is present when it was, and the other
tables keep their stores. -/
theorem buildVersionedTableInfoStore_frame (p : persistentStorage)
    (store : versionedTableInfoStore) (kvSnapSchemaID : Int)
    (hpresent : (p.tableInfoStoreMap store.tableID).isSome = true) :
    (finalState (p.buildVersionedTableInfoStore store kvSnapSchemaID)).tableRegisteredCount
      = p.tableRegisteredCount ∧
    ((finalState (p.buildVersionedTableInfoStore store kvSnapSchemaID)).tableInfoStoreMap
      store.tableID).isSome = true ∧
    (∀ t, t ≠ store.tableID →
      (finalState (p.buildVersionedTableInfoStore store kvSnapSchemaID)).tableInfoStoreMap t
        = p.tableInfoStoreMap t) ∧
    (finalState (p.buildVersionedTableInfoStore store kvSnapSchemaID)).gcTs = p.gcTs := by
  generalize hres : p.buildVersionedTableInfoStore store kvSnapSchemaID = r
  unfold persistentStorage.buildVersionedTableInfoStore at hres
  cases hwr : p.mu.writer with
  | true =>
    simp only [persistentStorage.RLock, hwr, if_true] at hres
    subst hres
    exact ⟨rfl, hpresent, fun _ _ => rfl, rfl⟩
  | false =>
    simp only [persistentStorage.RLock, hwr, Bool.false_eq_true, if_false] at hres
    cases htm : p.tableMap store.tableID with
    | none =>
      simp only [htm] at hres
      subst hres
      exact ⟨rfl, hpresent, fun _ _ => rfl, rfl⟩
    | some info =>
      have hpos : p.mu.readers + 1 > 0 := Nat.succ_pos _
      simp only [htm, persistentStorage.RUnlock, hpos, if_true] at hres
      cases hkv : info.InKVSnap with
      | true =>
        simp only [hkv, if_true] at hres
        cases hdb : p.databaseMap kvSnapSchemaID with
        | none =>
          simp only [hdb] at hres
          subst hres
          exact ⟨rfl, hpresent, fun _ _ => rfl, rfl⟩
        | some db =>
          simp only [hdb] at hres
          cases happ : applyHistory p.disk p.databaseMap
              ((p.tablesDDLHistory store.tableID).getD []) (store.addVersion p.gcTs) with
          | none =>
            simp only [happ] at hres
            subst hres
            exact ⟨rfl, by simp [finalState], fun t ht => by simp [finalState, ht], rfl⟩
          | some store2 =>
            simp only [happ] at hres
            subst hres
            exact ⟨rfl, by simp [finalState], fun t ht => by simp [finalState, ht], rfl⟩
      | false =>
        simp only [hkv, Bool.false_eq_true, if_false] at hres
        cases happ : applyHistory p.disk p.databaseMap
            ((p.tablesDDLHistory store.tableID).getD []) store with
        | none =>
          simp only [happ] at hres
          subst hres
          exact ⟨rfl, by simp [finalState], fun t ht => by simp [finalState, ht], rfl⟩
        | some store2 =>
          simp only [happ] at hres
          subst hres
          exact ⟨rfl, by simp [finalState], fun t ht => by simp [finalState, ht], rfl⟩

/-- An accepted `registerTable` on a free store: with the count raised, it
returns at once when the store of the table is there and initialized, waits
when the store is not initialized, and otherwise puts a new store into the map
and builds it. -/
theorem registerTable_accepted (p : persistentStorage) (tableID : Int) (startTs : Nat)
    (kvSnapSchemaID : Int) (hw : p.mu.writer = false) (hr : p.mu.readers = 0)
    (hts : p.gcTs ≤ startTs) :
    p.registerTable tableID startTs kvSnapSchemaID =
      match p.tableInfoStoreMap tableID with
      | some store =>
        if store.initialized then
          Except.ok
            ({ p with tableRegisteredCount := countRaised p.tableRegisteredCount tableID }, none)
        else
          Except.error (StoreFault.blocked,
            { p with tableRegisteredCount := countRaised p.tableRegisteredCount tableID })
      | none =>
        persistentStorage.buildVersionedTableInfoStore
          { p with
            tableRegisteredCount := countRaised p.tableRegisteredCount tableID,
            tableInfoStoreMap := fun t =>
              if t = tableID then some (newEmptyVersionedTableInfoStore tableID)
              else p.tableInfoStoreMap t }
          (newEmptyVersionedTableInfoStore tableID) kvSnapSchemaID := by
  have hm : ({ writer := false, readers := p.mu.readers } : RWMutex) = p.mu :=
    RWMutex_clear p.mu hw
  have hnlt : ¬ startTs < p.gcTs := Nat.not_lt.mpr hts
  unfold persistentStorage.registerTable
  rw [Lock_ok p hw hr]
  simp only [hnlt, if_false]
  cases hst : p.tableInfoStoreMap tableID with
  | some store =>
    simp only [persistentStorage.Unlock, if_true, hm]
    rfl
  | none =>
    simp only [persistentStorage.Unlock, if_true, hm]
    rfl

/-- C18: on a free store, `registerTable tableID startTs` with `startTs < gcTs`
returns the error and leaves the store, hence `tableRegisteredCount` and
`tableInfoStoreMap`, as it was. With `startTs ≥ gcTs`, whatever way the call
ends, it has raised the count of `tableID` by one (no other count changes), a
store for `tableID` is in `tableInfoStoreMap`, and the stores of the other
tables are as before; the call returns without error when the store was there
and initialized, and when it builds a new store for a table of `tableMap` that
is not in the kv-snapshot and whose history can be read. -/
theorem registerTable_spec (p : persistentStorage) (tableID : Int) (startTs : Nat)
    (kvSnapSchemaID : Int) (hw : p.mu.writer = false) (hr : p.mu.readers = 0) :
    (startTs < p.gcTs →
      p.registerTable tableID startTs kvSnapSchemaID
        = Except.ok (p, some StoreError.startTsSmallerThanGcTs)) ∧
    (p.gcTs ≤ startTs →
      (finalState (p.registerTable tableID startTs kvSnapSchemaID)).tableRegisteredCount tableID
        = p.tableRegisteredCount tableID + 1 ∧
      (∀ t, t ≠ tableID →
        (finalState (p.registerTable tableID startTs kvSnapSchemaID)).tableRegisteredCount t
          = p.tableRegisteredCount t) ∧
      ((finalState (p.registerTable tableID startTs kvSnapSchemaID)).tableInfoStoreMap
        tableID).isSome = true ∧
      (∀ t, t ≠ tableID →
        (finalState (p.registerTable tableID startTs kvSnapSchemaID)).tableInfoStoreMap t
          = p.tableInfoStoreMap t) ∧
      (∀ store, p.tableInfoStoreMap tableID = some store → store.initialized = true →
        p.registerTable tableID startTs kvSnapSchemaID
          = Except.ok
              ({ p with tableRegisteredCount := countRaised p.tableRegisteredCount tableID },
               none)) ∧
      (∀ info store2, p.tableInfoStoreMap tableID = none → p.tableMap tableID = some info →
        info.InKVSnap = false →
        applyHistory p.disk p.databaseMap ((p.tablesDDLHistory tableID).getD [])
          (newEmptyVersionedTableInfoStore tableID) = some store2 →
        p.registerTable tableID startTs kvSnapSchemaID
          = Except.ok
              ({ p with
                 tableRegisteredCount := countRaised p.tableRegisteredCount tableID,
                 tableInfoStoreMap := fun t =>
                   if t = tableID then some { store2 with initialized := true }
                   else p.tableInfoStoreMap t },
               none))) := by
  have hm : ({ writer := false, readers := p.mu.readers } : RWMutex) = p.mu :=
    RWMutex_clear p.mu hw
  constructor
  · intro hlt
    unfold persistentStorage.registerTable
    rw [Lock_ok p hw hr]
    simp only [hlt, if_true, persistentStorage.Unlock, hm]
  · intro hts
    have hacc := registerTable_accepted p tableID startTs kvSnapSchemaID hw hr hts
    refine ⟨?_, ?_, ?_, ?_, ?_, ?_⟩
    · rw [hacc]
      cases hst : p.tableInfoStoreMap tableID with
      | some store =>
        cases hi : store.initialized <;> simp [finalState, countRaised, hi]
      | none =>
        simp only
        have hf := buildVersionedTableInfoStore_frame
          { p with
            tableRegisteredCount := countRaised p.tableRegisteredCount tableID,
            tableInfoStoreMap := fun t =>
              if t = tableID then some (newEmptyVersionedTableInfoStore tableID)
              else p.tableInfoStoreMap t }
          (newEmptyVersionedTableInfoStore tableID) kvSnapSchemaID
          (by simp [newEmptyVersionedTableInfoStore])
        rw [hf.1]
        simp [countRaised]
    · intro t ht
      rw [hacc]
      cases hst : p.tableInfoStoreMap tableID with
      | some store =>
        cases hi : store.initialized <;> simp [finalState, countRaised, ht, hi]
      | none =>
        simp only
        have hf := buildVersionedTableInfoStore_frame
          { p with
            tableRegisteredCount := countRaised p.tableRegisteredCount tableID,
            tableInfoStoreMap := fun t =>
              if t = tableID then some (newEmptyVersionedTableInfoStore tableID)
              else p.tableInfoStoreMap t }
          (newEmptyVersionedTableInfoStore tableID) kvSnapSchemaID
          (by simp [newEmptyVersionedTableInfoStore])
        rw [hf.1]
        simp [countRaised, ht]
    · rw [hacc]
      cases hst : p.tableInfoStoreMap tableID with
      | some store =>
        cases hi : store.initialized <;> simp [finalState, hst, hi]
      | none =>
        simp only
        exact (buildVersionedTableInfoStore_frame
          { p with
            tableRegisteredCount := countRaised p.tableRegisteredCount tableID,
            tableInfoStoreMap := fun t =>
              if t = tableID then some (newEmptyVersionedTableInfoStore tableID)
              else p.tableInfoStoreMap t }
          (newEmptyVersionedTableInfoStore tableID) kvSnapSchemaID
          (by simp [newEmptyVersionedTableInfoStore])).2.1
    · intro t ht
      rw [hacc]
      cases hst : p.tableInfoStoreMap tableID with
      | some store =>
        cases hi : store.initialized <;> simp [finalState, hi]
      | none =>
        simp only
        have hf := (buildVersionedTableInfoStore_frame
          { p with
            tableRegisteredCount := countRaised p.tableRegisteredCount tableID,
            tableInfoStoreMap := fun t =>
              if t = tableID then some (newEmptyVersionedTableInfoStore tableID)
              else p.tableInfoStoreMap t }
          (newEmptyVersionedTableInfoStore tableID) kvSnapSchemaID
          (by simp [newEmptyVersionedTableInfoStore])).2.2.1 t ht
        rw [hf]
        simp [ht]
    · intro store hst hi
      rw [hacc, hst]
      simp only [hi, if_true]
    · intro info store2 hst htm hkv happ
      rw [hacc, hst]
      simp only
      unfold persistentStorage.buildVersionedTableInfoStore
      have hpos : p.mu.readers + 1 > 0 := Nat.succ_pos _
      simp only [persistentStorage.RLock, hw, Bool.false_eq_true, if_false,
        newEmptyVersionedTableInfoStore, htm, persistentStorage.RUnlock, hpos, if_true, hkv]
      simp only [newEmptyVersionedTableInfoStore] at happ
      simp only [happ, Nat.add_sub_cancel]
      have hm2 : ({ writer := p.mu.writer, readers := p.mu.readers } : RWMutex) = p.mu := rfl
      simp only [hw] at hm2
      simp only [hm2, hm]
      congr 2
      congr 1
      funext t
      by_cases ht : t = tableID
      · simp [ht]
      · simp [ht]

theorem registerTable_spec_witness :
    sampleStorage.registerTable 7 3 1
        = Except.ok (sampleStorage, some StoreError.startTsSmallerThanGcTs) ∧
    (finalState (sampleStorage.registerTable 7 10 1)).tableRegisteredCount 7 = 1 ∧
    ((finalState (sampleStorage.registerTable 7 10 1)).tableInfoStoreMap 7).isSome = true :=
  ⟨(registerTable_spec sampleStorage 7 3 1 rfl rfl).1 (by decide),
   ((registerTable_spec sampleStorage 7 10 1 rfl rfl).2 (by decide)).1,
   ((registerTable_spec sampleStorage 7 10 1 rfl rfl).2 (by decide)).2.2.1⟩

/-- When `buildVersionedTableInfoStore` returns, the mutex is as before. -/
theorem buildVersionedTableInfoStore_mu (p p2 : persistentStorage)
    (store : versionedTableInfoStore) (kvSnapSchemaID : Int) (r : Option StoreError)
    (hres : p.buildVersionedTableInfoStore store kvSnapSchemaID = Except.ok (p2, r)) :
    p2.mu = p.mu := by
  unfold persistentStorage.buildVersionedTableInfoStore at hres
  have hmu : ({ writer := false, readers := p.mu.readers + 1 - 1 } : RWMutex)
      = { writer := false, readers := p.mu.readers } := by
    rw [Nat.add_sub_cancel]
  cases hwr : p.mu.writer with
  | true =>
    simp only [persistentStorage.RLock, hwr, if_true] at hres
    cases hres
  | false =>
    have hm := RWMutex_clear p.mu hwr
    simp only [persistentStorage.RLock, hwr, Bool.false_eq_true, if_false] at hres
    cases htm : p.tableMap store.tableID with
    | none =>
      simp only [htm] at hres
      cases hres
    | some info =>
      have hpos : p.mu.readers + 1 > 0 := Nat.succ_pos _
      simp only [htm, persistentStorage.RUnlock, hpos, if_true] at hres
      cases hkv : info.InKVSnap with
      | true =>
        simp only [hkv, if_true] at hres
        cases hdb : p.databaseMap kvSnapSchemaID with
        | none =>
          simp only [hdb, Except.ok.injEq, Prod.mk.injEq] at hres
          rw [← hres.1]
          exact hmu.trans hm
        | some db =>
          simp only [hdb] at hres
          cases happ : applyHistory p.disk p.databaseMap
              ((p.tablesDDLHistory store.tableID).getD []) (store.addVersion p.gcTs) with
          | none =>
            simp only [happ] at hres
            cases hres
          | some store2 =>
            simp only [happ, Except.ok.injEq, Prod.mk.injEq] at hres
            rw [← hres.1]
            exact hmu.trans hm
      | false =>
        simp only [hkv, Bool.false_eq_true, if_false] at hres
        cases happ : applyHistory p.disk p.databaseMap
            ((p.tablesDDLHistory store.tableID).getD []) store with
        | none =>
          simp only [happ] at hres
          cases hres
        | some store2 =>
          simp only [happ, Except.ok.injEq, Prod.mk.injEq] at hres
          rw [← hres.1]
          exact hmu.trans hm

/-- A `registerTable` that returns without an error on a free store was
accepted; it raises the count of its table by one, leaves the mutex free and
keeps the store present exactly for the tables of positive count. -/
theorem registerTable_step (p p2 : persistentStorage) (tableID : Int) (startTs : Nat)
    (kvSnapSchemaID : Int) (hw : p.mu.writer = false) (hr : p.mu.readers = 0)
    (hinv : p.StoreIffRegistered)
    (h : p.registerTable tableID startTs kvSnapSchemaID = Except.ok (p2, none)) :
    p2.mu.writer = false ∧ p2.mu.readers = 0 ∧ p2.StoreIffRegistered ∧
    p2.tableRegisteredCount = countRaised p.tableRegisteredCount tableID := by
  have hm : ({ writer := false, readers := p.mu.readers } : RWMutex) = p.mu :=
    RWMutex_clear p.mu hw
  by_cases hlt : startTs < p.gcTs
  · unfold persistentStorage.registerTable at h
    rw [Lock_ok p hw hr] at h
    simp [hlt, persistentStorage.Unlock] at h
  · have hacc := registerTable_accepted p tableID startTs kvSnapSchemaID hw hr
      (Nat.le_of_not_lt hlt)
    rw [hacc] at h
    have h0 : 0 ≤ p.tableRegisteredCount tableID := (hinv tableID).1
    have hcount : 0 < countRaised p.tableRegisteredCount tableID tableID := by
      simp only [countRaised, if_true]
      omega
    have hnonneg : ∀ t, 0 ≤ countRaised p.tableRegisteredCount tableID t := by
      intro t
      have := (hinv t).1
      simp only [countRaised]
      split <;> omega
    cases hst : p.tableInfoStoreMap tableID with
    | some store =>
      rw [hst] at h
      simp only at h
      split at h
      · simp only [Except.ok.injEq, Prod.mk.injEq, and_true] at h
        rw [← h]
        refine ⟨hw, hr, ?_, rfl⟩
        intro t
        refine ⟨hnonneg t, ?_⟩
        by_cases ht : t = tableID
        · subst ht
          show (p.tableInfoStoreMap t).isSome = true ↔ 0 < countRaised p.tableRegisteredCount t t
          rw [hst]
          exact ⟨fun _ => hcount, fun _ => rfl⟩
        · show (p.tableInfoStoreMap t).isSome = true ↔ 0 < countRaised p.tableRegisteredCount tableID t
          simp only [countRaised, ht, if_false]
          exact (hinv t).2
      · cases h
    | none =>
      rw [hst] at h
      simp only at h
      have hf := buildVersionedTableInfoStore_frame
        { p with
          tableRegisteredCount := countRaised p.tableRegisteredCount tableID,
          tableInfoStoreMap := fun t =>
            if t = tableID then some (newEmptyVersionedTableInfoStore tableID)
            else p.tableInfoStoreMap t }
        (newEmptyVersionedTableInfoStore tableID) kvSnapSchemaID
        (by simp [newEmptyVersionedTableInfoStore])
      have hmu := buildVersionedTableInfoStore_mu _ p2 _ _ _ h
      rw [h] at hf
      obtain ⟨hc, hstore, hother, _⟩ := hf
      simp only [finalState] at hc hstore hother
      refine ⟨by rw [hmu]; exact hw, by rw [hmu]; exact hr, ?_, hc⟩
      intro t
      rw [hc]
      refine ⟨hnonneg t, ?_⟩
      by_cases ht : t = tableID
      · subst ht
        exact ⟨fun _ => hcount, fun _ => hstore⟩
      · rw [hother t ht]
        simp only [countRaised, ht, if_false]
        have := (hinv t).2
        simpa [ht] using this

/-- On a free store, `unregisterTable` of a table registered at least twice
lowers the count and keeps everything else. -/
theorem unregisterTable_keep (p : persistentStorage) (tableID : Int)
    (hw : p.mu.writer = false) (hr : p.mu.readers = 0)
    (hcount : 2 ≤ p.tableRegisteredCount tableID) :
    p.unregisterTable tableID
      = Except.ok
          ({ p with tableRegisteredCount := countLowered p.tableRegisteredCount tableID },
           none) := by
  have hm : ({ writer := false, readers := p.mu.readers } : RWMutex) = p.mu :=
    RWMutex_clear p.mu hw
  have hnle : ¬ p.tableRegisteredCount tableID - 1 ≤ 0 := by omega
  unfold persistentStorage.unregisterTable
  rw [Lock_ok p hw hr]
  simp only [if_true, hnle, if_false, persistentStorage.Unlock, hm]
  rfl

/-- On a free store, `unregisterTable` of a table registered once, whose store
is in the map, lowers the count to zero and removes the store. -/
theorem unregisterTable_last (p : persistentStorage) (tableID : Int)
    (hw : p.mu.writer = false) (hr : p.mu.readers = 0)
    (hcount : p.tableRegisteredCount tableID = 1)
    (hstore : (p.tableInfoStoreMap tableID).isSome = true) :
    p.unregisterTable tableID
      = Except.ok
          ({ p with
             tableRegisteredCount := countLowered p.tableRegisteredCount tableID,
             tableInfoStoreMap := fun t => if t = tableID then none else p.tableInfoStoreMap t },
           none) := by
  have hm : ({ writer := false, readers := p.mu.readers } : RWMutex) = p.mu :=
    RWMutex_clear p.mu hw
  have hle : p.tableRegisteredCount tableID - 1 ≤ 0 := by omega
  obtain ⟨store, hst⟩ := Option.isSome_iff_exists.mp hstore
  unfold persistentStorage.unregisterTable
  rw [Lock_ok p hw hr]
  simp only [if_true, hle, hst, persistentStorage.Unlock, hm]
  rfl

/-- An `unregisterTable` that returns without an error on a free store lowers
the count of its table by one, leaves the mutex free and keeps the store
present exactly for the tables of positive count. -/
theorem unregisterTable_step (p p2 : persistentStorage) (tableID : Int)
    (hw : p.mu.writer = false) (hr : p.mu.readers = 0) (hinv : p.StoreIffRegistered)
    (h : p.unregisterTable tableID = Except.ok (p2, none)) :
    p2.mu.writer = false ∧ p2.mu.readers = 0 ∧ p2.StoreIffRegistered ∧
    p2.tableRegisteredCount = countLowered p.tableRegisteredCount tableID := by
  have hm : ({ writer := false, readers := p.mu.readers } : RWMutex) = p.mu :=
    RWMutex_clear p.mu hw
  obtain ⟨h0, hiff⟩ := hinv tableID
  by_cases h2 : 2 ≤ p.tableRegisteredCount tableID
  · rw [unregisterTable_keep p tableID hw hr h2] at h
    simp only [Except.ok.injEq, Prod.mk.injEq, and_true] at h
    rw [← h]
    refine ⟨hw, hr, ?_, rfl⟩
    intro t
    show 0 ≤ countLowered p.tableRegisteredCount tableID t ∧
      ((p.tableInfoStoreMap t).isSome = true ↔ 0 < countLowered p.tableRegisteredCount tableID t)
    by_cases ht : t = tableID
    · subst ht
      simp only [countLowered, if_true]
      refine ⟨by omega, fun _ => by omega, fun _ => hiff.mpr (by omega)⟩
    · simp only [countLowered, ht, if_false]
      exact hinv t
  · by_cases h1 : p.tableRegisteredCount tableID = 1
    · rw [unregisterTable_last p tableID hw hr h1 (hiff.mpr (by omega))] at h
      simp only [Except.ok.injEq, Prod.mk.injEq, and_true] at h
      rw [← h]
      refine ⟨hw, hr, ?_, rfl⟩
      intro t
      show 0 ≤ countLowered p.tableRegisteredCount tableID t ∧
        ((if t = tableID then none else p.tableInfoStoreMap t).isSome = true ↔
          0 < countLowered p.tableRegisteredCount tableID t)
      by_cases ht : t = tableID
      · subst ht
        simp only [countLowered, if_true, h1]
        simp
      · simp only [countLowered, ht, if_false]
        exact hinv t
    · have hzero : p.tableRegisteredCount tableID = 0 := by omega
      have hnone : p.tableInfoStoreMap tableID = none := by
        cases hst : p.tableInfoStoreMap tableID with
        | none => rfl
        | some s =>
          have := hiff.mp (by rw [hst]; rfl)
          omega
      have hle : p.tableRegisteredCount tableID - 1 ≤ 0 := by omega
      unfold persistentStorage.unregisterTable at h
      rw [Lock_ok p hw hr] at h
      simp [hle, hnone, persistentStorage.Unlock] at h

/-- Along a run of calls that all return without an error, the store of a table
is present exactly when its count is positive, and the count is the initial
count plus the registers minus the unregisters. -/
theorem runCalls_invariant :
    ∀ (calls : List RegistryCall) (p q : persistentStorage),
      p.mu.writer = false → p.mu.readers = 0 → p.StoreIffRegistered →
      p.runCalls calls = some q →
      q.mu.writer = false ∧ q.mu.readers = 0 ∧ q.StoreIffRegistered ∧
      ∀ t, q.tableRegisteredCount t = p.tableRegisteredCount t + balance calls t := by
  intro calls
  induction calls with
  | nil =>
    intro p q hw hr hinv h
    simp only [persistentStorage.runCalls, Option.some.injEq] at h
    subst h
    exact ⟨hw, hr, hinv, fun t => by simp [balance]⟩
  | cons call rest ih =>
    intro p q hw hr hinv h
    cases call with
    | register tableID startTs kvSnapSchemaID =>
      unfold persistentStorage.runCalls at h
      cases hcall : p.registerTable tableID startTs kvSnapSchemaID with
      | error e => rw [hcall] at h; cases h
      | ok r =>
        obtain ⟨p2, res⟩ := r
        cases res with
        | some err => rw [hcall] at h; cases h
        | none =>
          rw [hcall] at h
          simp only at h
          obtain ⟨hw2, hr2, hinv2, hc2⟩ :=
            registerTable_step p p2 tableID startTs kvSnapSchemaID hw hr hinv hcall
          obtain ⟨hw3, hr3, hinv3, hc3⟩ := ih p2 q hw2 hr2 hinv2 h
          refine ⟨hw3, hr3, hinv3, ?_⟩
          intro t
          rw [hc3 t, hc2]
          simp only [countRaised, balance, List.map_cons, List.sum_cons, RegistryCall.delta]
          split <;> omega
    | unregister tableID =>
      unfold persistentStorage.runCalls at h
      cases hcall : p.unregisterTable tableID with
      | error e => rw [hcall] at h; cases h
      | ok r =>
        obtain ⟨p2, res⟩ := r
        cases res with
        | some err => rw [hcall] at h; cases h
        | none =>
          rw [hcall] at h
          simp only at h
          obtain ⟨hw2, hr2, hinv2, hc2⟩ := unregisterTable_step p p2 tableID hw hr hinv hcall
          obtain ⟨hw3, hr3, hinv3, hc3⟩ := ih p2 q hw2 hr2 hinv2 h
          refine ⟨hw3, hr3, hinv3, ?_⟩
          intro t
          rw [hc3 t, hc2]
          simp only [countLowered, balance, List.map_cons, List.sum_cons, RegistryCall.delta]
          split <;> omega

/-- C19: on a free store in which no count is negative and a table's store is
present exactly when its count is positive (as in the store that
`newPersistentStorage` builds), after every sequence of `registerTable` and
`unregisterTable` calls that all return without an error the store of every
table is present in `tableInfoStoreMap` iff `tableRegisteredCount` of the table
is positive, the count being the initial count plus the registers minus the
unregisters of the table; re-registering a table whose store is initialized
returns with the same store map and the count raised by one; an unregister of a
table registered at least twice keeps the store; the unregister that brings the
count from one to zero removes the store. -/
theorem store_present_iff_registered (p : persistentStorage)
    (hw : p.mu.writer = false) (hr : p.mu.readers = 0) (hinv : p.StoreIffRegistered) :
    (∀ calls q, p.runCalls calls = some q →
      (∀ t, (q.tableInfoStoreMap t).isSome = true ↔ 0 < q.tableRegisteredCount t) ∧
      (∀ t, q.tableRegisteredCount t = p.tableRegisteredCount t + balance calls t) ∧
      (∀ t, 0 ≤ p.tableRegisteredCount t + balance calls t)) ∧
    (∀ tableID startTs kvSnapSchemaID store, p.gcTs ≤ startTs →
      p.tableInfoStoreMap tableID = some store → store.initialized = true →
      p.registerTable tableID startTs kvSnapSchemaID
        = Except.ok
            ({ p with tableRegisteredCount := countRaised p.tableRegisteredCount tableID },
             none)) ∧
    (∀ tableID, 2 ≤ p.tableRegisteredCount tableID →
      p.unregisterTable tableID
        = Except.ok
            ({ p with tableRegisteredCount := countLowered p.tableRegisteredCount tableID },
             none)) ∧
    (∀ tableID, p.tableRegisteredCount tableID = 1 →
      p.unregisterTable tableID
        = Except.ok
            ({ p with
               tableRegisteredCount := countLowered p.tableRegisteredCount tableID,
               tableInfoStoreMap := fun t =>
                 if t = tableID then none else p.tableInfoStoreMap t },
             none)) := by
  refine ⟨?_, ?_, ?_, ?_⟩
  · intro calls q h
    obtain ⟨_, _, hinv2, hc⟩ := runCalls_invariant calls p q hw hr hinv h
    refine ⟨fun t => (hinv2 t).2, hc, ?_⟩
    intro t
    rw [← hc t]
    exact (hinv2 t).1
  · intro tableID startTs kvSnapSchemaID store hts hst hi
    rw [registerTable_accepted p tableID startTs kvSnapSchemaID hw hr hts, hst]
    simp only [hi, if_true]
  · intro tableID h2
    exact unregisterTable_keep p tableID hw hr h2
  · intro tableID h1
    exact unregisterTable_last p tableID hw hr h1 ((hinv tableID).2.mpr (by omega))

theorem store_present_iff_registered_witness :
    ∃ q,
      sampleStorage.runCalls
        [RegistryCall.register 7 10 1, RegistryCall.register 7 12 1,
         RegistryCall.unregister 7, RegistryCall.unregister 7] = some q ∧
      ((q.tableInfoStoreMap 7).isSome = true ↔ 0 < q.tableRegisteredCount 7) ∧
      q.tableRegisteredCount 7 = 0 :=
  ⟨_, rfl,
    ((store_present_iff_registered sampleStorage rfl rfl
      (fun _ => ⟨Int.le_refl 0,
        ⟨fun h => (Bool.false_ne_true h).elim, fun h => absurd h (Int.lt_irrefl 0)⟩⟩)).1
      [RegistryCall.register 7 10 1, RegistryCall.register 7 12 1,
       RegistryCall.unregister 7, RegistryCall.unregister 7] _ rfl).1 7,
    rfl⟩

/-- On a free store, `doGc` past its two checks is `cleanObseleteDataInMemory`
followed by the cleaning of the disk. -/
theorem doGc_clean (p : persistentStorage) (gcTs : Nat) (tablesInKVSnap : List Int)
    (hw : p.mu.writer = false) (hr : p.mu.readers = 0)
    (hres : gcTs ≤ p.upperBound.ResolvedTs) (hgc : p.gcTs < gcTs) :
    p.doGc gcTs tablesInKVSnap =
      match p.cleanObseleteDataInMemory gcTs tablesInKVSnap with
      | Except.error e => Except.error e
      | Except.ok (p3, _) => Except.ok ({ p3 with disk := cleanObseleteData p3.disk gcTs }, ()) := by
  have hm : ({ writer := false, readers := p.mu.readers } : RWMutex) = p.mu :=
    RWMutex_clear p.mu hw
  have h1 : ¬ gcTs > p.upperBound.ResolvedTs := Nat.not_lt.mpr hres
  have h2 : ¬ gcTs ≤ p.gcTs := Nat.not_le.mpr hgc
  unfold persistentStorage.doGc
  rw [Lock_ok p hw hr]
  simp only [h1, h2, if_false, persistentStorage.Unlock, if_true, hm]

/-- What a completed `doGc` leaves: its `gcTs` was not above the resolved
timestamp, the upper bound and the mutex are as before, the store is unchanged
when `gcTs` is not above the current one, and otherwise the new `gcTs` is
set. -/
theorem doGc_ok (p p2 : persistentStorage) (gcTs : Nat) (tablesInKVSnap : List Int)
    (h : p.doGc gcTs tablesInKVSnap = Except.ok (p2, ())) :
    gcTs ≤ p.upperBound.ResolvedTs ∧ p2.upperBound = p.upperBound ∧ p2.mu = p.mu ∧
    (gcTs ≤ p.gcTs → p2 = p) ∧ (p.gcTs < gcTs → p2.gcTs = gcTs) := by
  have hfree : p.mu.writer = false ∧ p.mu.readers = 0 := by
    unfold persistentStorage.doGc at h
    cases hl : p.Lock with
    | error e => rw [hl] at h; cases h
    | ok p1 =>
      obtain ⟨hw, hr, _⟩ := Lock_eq p p1 hl
      exact ⟨hw, hr⟩
  obtain ⟨hw, hr⟩ := hfree
  have hm : ({ writer := false, readers := p.mu.readers } : RWMutex) = p.mu :=
    RWMutex_clear p.mu hw
  by_cases h1 : gcTs > p.upperBound.ResolvedTs
  · unfold persistentStorage.doGc at h
    rw [Lock_ok p hw hr] at h
    simp only [h1, if_true] at h
    cases h
  · by_cases h2 : gcTs ≤ p.gcTs
    · unfold persistentStorage.doGc at h
      rw [Lock_ok p hw hr] at h
      simp only [h1, h2, if_false, if_true, persistentStorage.Unlock, hm, Except.ok.injEq,
        Prod.mk.injEq, and_true] at h
      rw [← h]
      exact ⟨Nat.le_of_not_lt h1, rfl, rfl, fun _ => rfl, fun hlt => absurd h2 (Nat.not_le.mpr hlt)⟩
    · rw [doGc_clean p gcTs tablesInKVSnap hw hr (Nat.le_of_not_lt h1) (Nat.lt_of_not_le h2)] at h
      cases hc : p.cleanObseleteDataInMemory gcTs tablesInKVSnap with
      | error e => rw [hc] at h; cases h
      | ok r =>
        obtain ⟨p3, u⟩ := r
        rw [hc] at h
        simp only [Except.ok.injEq, Prod.mk.injEq, and_true] at h
        obtain ⟨hg, _, _, hub, hmu, _⟩ :=
          cleanObseleteDataInMemory_ok p p3 gcTs tablesInKVSnap hc
        rw [← h]
        exact ⟨Nat.le_of_not_lt h1, hub, hmu, fun hle => absurd hle h2, fun _ => hg⟩

/-- Along a run of completed `doGc` calls `gcTs` does not decrease, the upper
bound stays, and `gcTs` stays at or below the resolved timestamp. -/
theorem runGc_invariant :
    ∀ (calls : List (Nat × List Int)) (p q : persistentStorage),
      p.runGc calls = some q →
      p.gcTs ≤ q.gcTs ∧ q.upperBound = p.upperBound ∧
      (p.gcTs ≤ p.upperBound.ResolvedTs → q.gcTs ≤ q.upperBound.ResolvedTs) := by
  intro calls
  induction calls with
  | nil =>
    intro p q h
    simp only [persistentStorage.runGc, Option.some.injEq] at h
    subst h
    exact ⟨Nat.le_refl _, rfl, fun h => h⟩
  | cons call rest ih =>
    intro p q h
    obtain ⟨gcTs, tablesInKVSnap⟩ := call
    unfold persistentStorage.runGc at h
    cases hc : p.doGc gcTs tablesInKVSnap with
    | error e => rw [hc] at h; cases h
    | ok r =>
      obtain ⟨p2, u⟩ := r
      rw [hc] at h
      simp only at h
      obtain ⟨hres, hub, _, hsame, hset⟩ := doGc_ok p p2 gcTs tablesInKVSnap hc
      obtain ⟨hmono, hub2, hinv⟩ := ih p2 q h
      have hstep : p.gcTs ≤ p2.gcTs := by
        by_cases hle : gcTs ≤ p.gcTs
        · rw [hsame hle]
        · rw [hset (Nat.lt_of_not_le hle)]
          omega
      refine ⟨Nat.le_trans hstep hmono, hub2.trans hub, ?_⟩
      intro hp
      apply hinv
      rw [hub]
      by_cases hle : gcTs ≤ p.gcTs
      · rw [hsame hle]
        exact hp
      · rw [hset (Nat.lt_of_not_le hle)]
        exact hres

/-- C20: on a free store, `doGc g` with `g` above `upperBound.ResolvedTs` is
ended by the panic with the mutex held and `gcTs` and every history as they
were; with `g` at or below the current `gcTs` it returns and leaves the store as
it was; otherwise it sets `gcTs` to `g` whichever way it ends, and it completes
when the table map holds every table of the kv-snapshot. Hence along every
sequence of completed `doGc` calls `gcTs` does not decrease, and it stays at or
below `upperBound.ResolvedTs` when it was so at the start (as in the store that
`newPersistentStorage` builds). -/
theorem doGc_spec (p : persistentStorage) (g : Nat) (tablesInKVSnap : List Int)
    (hw : p.mu.writer = false) (hr : p.mu.readers = 0) :
    (p.upperBound.ResolvedTs < g →
      p.doGc g tablesInKVSnap
        = Except.error (StoreFault.panic, { p with mu := { p.mu with writer := true } })) ∧
    (g ≤ p.upperBound.ResolvedTs → g ≤ p.gcTs →
      p.doGc g tablesInKVSnap = Except.ok (p, ())) ∧
    (g ≤ p.upperBound.ResolvedTs → p.gcTs < g →
      (finalState (p.doGc g tablesInKVSnap)).gcTs = g ∧
      ((∀ t ∈ tablesInKVSnap, (p.tableMap t).isSome = true) →
        ∃ p2, p.doGc g tablesInKVSnap = Except.ok (p2, ()) ∧ p2.gcTs = g ∧
          p2.upperBound = p.upperBound)) ∧
    (∀ calls q, p.runGc calls = some q →
      p.gcTs ≤ q.gcTs ∧
      (p.gcTs ≤ p.upperBound.ResolvedTs → q.gcTs ≤ q.upperBound.ResolvedTs)) := by
  have hm : ({ writer := false, readers := p.mu.readers } : RWMutex) = p.mu :=
    RWMutex_clear p.mu hw
  refine ⟨?_, ?_, ?_, ?_⟩
  · intro hgt
    unfold persistentStorage.doGc
    rw [Lock_ok p hw hr]
    have h1 : g > p.upperBound.ResolvedTs := hgt
    simp only [h1, if_true]
  · intro hres hle
    have h1 : ¬ g > p.upperBound.ResolvedTs := Nat.not_lt.mpr hres
    unfold persistentStorage.doGc
    rw [Lock_ok p hw hr]
    simp only [h1, hle, if_false, if_true, persistentStorage.Unlock, hm]
  · intro hres hlt
    rw [doGc_clean p g tablesInKVSnap hw hr hres hlt]
    constructor
    · unfold persistentStorage.cleanObseleteDataInMemory
      rw [Lock_ok p hw hr]
      simp only
      rcases hmk : markInKVSnap p.tableMap tablesInKVSnap with ⟨marked, flag⟩
      cases flag with
      | false => simp only [persistentStorage.Unlock, if_true, finalState]
      | true => simp only [persistentStorage.Unlock, if_true, finalState]
    · intro hsnap
      obtain ⟨p3, hc⟩ := cleanObseleteDataInMemory_total p g tablesInKVSnap hw hr hsnap
      obtain ⟨hg, _, _, hub, _⟩ := cleanObseleteDataInMemory_ok p p3 g tablesInKVSnap hc
      rw [hc]
      exact ⟨_, rfl, hg, hub⟩
  · intro calls q h
    obtain ⟨hmono, _, hinv⟩ := runGc_invariant calls p q h
    exact ⟨hmono, hinv⟩

theorem doGc_spec_witness :
    sampleStorage.doGc 41 [7]
      = Except.error (StoreFault.panic,
          { sampleStorage with mu := { sampleStorage.mu with writer := true } }) ∧
    sampleStorage.doGc 5 [7] = Except.ok (sampleStorage, ()) ∧
    (finalState (sampleStorage.doGc 20 [7])).gcTs = 20 :=
  ⟨(doGc_spec sampleStorage 41 [7] rfl rfl).1 (by decide),
   (doGc_spec sampleStorage 5 [7] rfl rfl).2.1 (by decide) (by decide),
   ((doGc_spec sampleStorage 20 [7] rfl rfl).2.2.1 (by decide) (by decide)).1⟩

/-! ## Operator controller: polling and executing -/

/-- C21: what `pollQueueingOperator` does with the entry `a` that `heap.Pop`
takes. If the entry is not marked `Removed` and its operator reports
`IsFinished()`, the poll makes the one call `PostFinish` on the operator, marks
the entry `Removed`, deletes the operator's ID from the operators map, leaves
the entry out of the queue and returns no operator, so that this turn of
`Execute` calls nothing else. If the entry is not marked `Removed`, the operator
is not finished and the fire time has come, the poll pushes the entry back with
the fire time `now + 500 ms` and returns the operator, making no call. If the
entry is marked `Removed`, it is dropped: nothing but the queue changes. -/
theorem pollQueueingOperator_spec (oc : Controller) (env : OpEnv) (a : Nat) (rest : List Nat)
    (hpop : heapPop oc.items oc.runningQueue = some (a, rest)) :
    ((oc.items a).Removed = false → env.isFinished (oc.items a).OP = true →
      (oc.pollQueueingOperator env).2 = (none, true) ∧
      (oc.pollQueueingOperator env).1.calls = oc.calls ++ [Call.PostFinish (oc.items a).OP] ∧
      ((oc.pollQueueingOperator env).1.items a).Removed = true ∧
      ((oc.pollQueueingOperator env).1.items a).OP = (oc.items a).OP ∧
      (oc.pollQueueingOperator env).1.operators (oc.items a).OP.ID = none ∧
      (∀ id, id ≠ (oc.items a).OP.ID →
        (oc.pollQueueingOperator env).1.operators id = oc.operators id) ∧
      (oc.pollQueueingOperator env).1.runningQueue = oc.runningQueue.erase a ∧
      (oc.runningQueue.Nodup → a ∉ (oc.pollQueueingOperator env).1.runningQueue) ∧
      (∀ fuel executedItem,
        Controller.executeLoop env (fuel + 1) oc executedItem
          = Controller.executeLoop env fuel (oc.pollQueueingOperator env).1 executedItem)) ∧
    ((oc.items a).Removed = false → env.isFinished (oc.items a).OP = false →
      ¬ env.now < (oc.items a).Time →
      (oc.pollQueueingOperator env).2 = (some (oc.items a).OP, true) ∧
      (oc.pollQueueingOperator env).1.calls = oc.calls ∧
      (oc.pollQueueingOperator env).1.runningQueue = oc.runningQueue.erase a ++ [a] ∧
      (oc.pollQueueingOperator env).1.items a
        = { oc.items a with Time := env.now + halfSecond } ∧
      (∀ x, x ≠ a → (oc.pollQueueingOperator env).1.items x = oc.items x) ∧
      (oc.pollQueueingOperator env).1.operators = oc.operators) ∧
    ((oc.items a).Removed = true →
      oc.pollQueueingOperator env
        = ({ oc with runningQueue := oc.runningQueue.erase a }, none, true)) := by
  obtain ⟨_, hrest⟩ := heapPop_spec _ _ _ _ hpop
  subst hrest
  refine ⟨?_, ?_, ?_⟩
  · intro hlive hfin
    have hpoll : oc.pollQueueingOperator env
        = ({ oc with
             runningQueue := oc.runningQueue.erase a,
             calls := oc.calls ++ [Call.PostFinish (oc.items a).OP],
             items := fun x => if x = a then { oc.items a with Removed := true } else oc.items x,
             operators := fun id => if id = (oc.items a).OP.ID then none else oc.operators id },
           none, true) := by
      unfold Controller.pollQueueingOperator
      rw [hpop]
      simp only [hlive, hfin, Bool.false_eq_true, if_false, if_true]
    rw [hpoll]
    refine ⟨rfl, rfl, by simp, by simp, by simp, ?_, rfl, ?_, ?_⟩
    · intro id hid
      simp [hid]
    · intro hnd
      exact fun hm => (hnd.mem_erase_iff.mp hm).1 rfl
    · intro fuel executedItem
      rw [Controller.executeLoop, hpoll]
  · intro hlive hfin hready
    have hpoll : oc.pollQueueingOperator env
        = ({ oc with
             items := fun x =>
               if x = a then { oc.items a with Time := env.now + halfSecond } else oc.items x,
             runningQueue := oc.runningQueue.erase a ++ [a] },
           some (oc.items a).OP, true) := by
      unfold Controller.pollQueueingOperator
      rw [hpop]
      simp only [hlive, hfin, hready, Bool.false_eq_true, if_false]
    rw [hpoll]
    refine ⟨rfl, rfl, rfl, by simp, ?_, rfl⟩
    intro x hx
    simp [hx]
  · intro hrem
    unfold Controller.pollQueueingOperator
    rw [hpop]
    simp only [hrem, if_true]

/-- C21 at a concrete input: the controller that holds the one operator
`addSeven`, polled at its fire time, returns the operator and pushes the entry
back with the fire time half a second later. -/
theorem pollQueueingOperator_spec_witness :
    (((NewOperatorController 1).AddOperator idleOpEnv twoReplicaDB addSeven).1.pollQueueingOperator
        idleOpEnv).2 = (some addSeven, true) ∧
    ((((NewOperatorController 1).AddOperator idleOpEnv twoReplicaDB
        addSeven).1.pollQueueingOperator idleOpEnv).1.items 0).Time = halfSecond :=
  have h := (pollQueueingOperator_spec
    ((NewOperatorController 1).AddOperator idleOpEnv twoReplicaDB addSeven).1 idleOpEnv 0 []
    rfl).2.1 rfl rfl (by decide)
  ⟨h.1, by rw [h.2.2.2.1]; rfl⟩

/-- The loop of `Execute` is the loop with one answer at every turn. -/
theorem executeLoop_eq_executeLoopAt (env : OpEnv) :
    ∀ (fuel turn : Nat) (oc : Controller) (executedItem : Int),
      Controller.executeLoop env fuel oc executedItem
        = Controller.executeLoopAt (fun _ => env) fuel turn oc executedItem := by
  intro fuel
  induction fuel with
  | zero => intro turn oc e; rfl
  | succ fuel ih =>
    intro turn oc e
    unfold Controller.executeLoop Controller.executeLoopAt
    rcases hres : oc.pollQueueingOperator env with ⟨oc1, r, next⟩
    cases r with
    | none =>
      cases next with
      | false => rfl
      | true => exact ih (turn + 1) oc1 e
    | some op =>
      cases next with
      | false => rfl
      | true =>
        simp only
        split
        · rfl
        · exact ih (turn + 1) _ (e + 1)

/-- One poll: the batch size stays, the poll itself makes no `Schedule` or
`SendCommand` call, a turn that goes on without an operator has dropped an entry
from the queue for good, and a turn that returns an operator leaves the queue
at its length. -/
theorem pollQueueingOperator_shape (oc : Controller) (env : OpEnv) :
    (oc.pollQueueingOperator env).1.batchSize = oc.batchSize ∧
    (∃ made, (oc.pollQueueingOperator env).1.calls = oc.calls ++ made ∧
      made.countP Call.isSchedule = 0 ∧ made.countP Call.isSendCommand = 0) ∧
    ((oc.pollQueueingOperator env).2.2 = true → (oc.pollQueueingOperator env).2.1 = none →
      (oc.pollQueueingOperator env).1.runningQueue.length + 1 = oc.runningQueue.length) ∧
    ((oc.pollQueueingOperator env).2.2 = true → (oc.pollQueueingOperator env).2.1 ≠ none →
      (oc.pollQueueingOperator env).1.runningQueue.length = oc.runningQueue.length) := by
  cases hp : heapPop oc.items oc.runningQueue with
  | none =>
    have hpoll : oc.pollQueueingOperator env = (oc, none, false) := by
      unfold Controller.pollQueueingOperator
      rw [hp]
    rw [hpoll]
    refine ⟨rfl, ⟨[], by simp, rfl, rfl⟩, ?_, ?_⟩
    · intro h; cases h
    · intro h; cases h
  | some pr =>
    obtain ⟨a, rest⟩ := pr
    obtain ⟨hmem, hrest⟩ := heapPop_spec _ _ _ _ hp
    have hlen : rest.length + 1 = oc.runningQueue.length := by
      rw [hrest, List.length_erase_of_mem hmem]
      have := List.length_pos_of_mem hmem
      omega
    by_cases hrem : (oc.items a).Removed = true
    · have hpoll : oc.pollQueueingOperator env = ({ oc with runningQueue := rest }, none, true) := by
        unfold Controller.pollQueueingOperator
        rw [hp]
        simp only [hrem, if_true]
      rw [hpoll]
      exact ⟨rfl, ⟨[], by simp, rfl, rfl⟩, fun _ _ => hlen, fun _ h => absurd rfl h⟩
    · by_cases hfin : env.isFinished (oc.items a).OP = true
      · have hpoll : oc.pollQueueingOperator env
            = ({ oc with
                 runningQueue := rest,
                 calls := oc.calls ++ [Call.PostFinish (oc.items a).OP],
                 items := fun x =>
                   if x = a then { oc.items a with Removed := true } else oc.items x,
                 operators := fun id =>
                   if id = (oc.items a).OP.ID then none else oc.operators id },
               none, true) := by
          unfold Controller.pollQueueingOperator
          rw [hp]
          simp only [hrem, hfin, if_false, if_true, Bool.false_eq_true]
        rw [hpoll]
        exact ⟨rfl, ⟨[Call.PostFinish (oc.items a).OP], rfl, rfl, rfl⟩, fun _ _ => hlen,
          fun _ h => absurd rfl h⟩
      · by_cases hready : env.now < (oc.items a).Time
        · have hpoll : oc.pollQueueingOperator env
              = ({ oc with runningQueue := rest ++ [a] }, none, false) := by
            unfold Controller.pollQueueingOperator
            rw [hp]
            simp only [hrem, hfin, hready, if_false, if_true, Bool.false_eq_true]
          rw [hpoll]
          refine ⟨rfl, ⟨[], by simp, rfl, rfl⟩, ?_, ?_⟩
          · intro h; cases h
          · intro h; cases h
        · have hpoll : oc.pollQueueingOperator env
              = ({ oc with
                   items := fun x =>
                     if x = a then { oc.items a with Time := env.now + halfSecond }
                     else oc.items x,
                   runningQueue := rest ++ [a] },
                 some (oc.items a).OP, true) := by
            unfold Controller.pollQueueingOperator
            rw [hp]
            simp only [hrem, hfin, hready, if_false, Bool.false_eq_true]
          rw [hpoll]
          refine ⟨rfl, ⟨[], by simp, rfl, rfl⟩, ?_, ?_⟩
          · intro _ h; cases h
          · intro _ _
            show (rest ++ [a]).length = oc.runningQueue.length
            simp only [List.length_append, List.length_singleton]
            exact hlen

/-- The loop of `Execute` ends within one turn per queue entry and per operator
still to be executed, and calls `Schedule` and `SendCommand` at most as often as
the batch allows (once when the batch is already full). -/
theorem executeLoopAt_total (envs : Nat → OpEnv) :
    ∀ (fuel turn : Nat) (oc : Controller) (executedItem : Int),
      oc.runningQueue.length + (oc.batchSize - executedItem).toNat + 1 ≤ fuel →
      ∃ oc2 wake made,
        Controller.executeLoopAt envs fuel turn oc executedItem = some (oc2, wake) ∧
        oc2.calls = oc.calls ++ made ∧ oc2.batchSize = oc.batchSize ∧
        made.countP Call.isSchedule ≤ max 1 (oc.batchSize - executedItem).toNat ∧
        made.countP Call.isSendCommand ≤ made.countP Call.isSchedule := by
  intro fuel
  induction fuel with
  | zero => intro turn oc e h; omega
  | succ fuel ih =>
    intro turn oc e hfuel
    obtain ⟨hb, ⟨pm, hpm, hps, hpc⟩, hdrop, hkeep⟩ := pollQueueingOperator_shape oc (envs turn)
    unfold Controller.executeLoopAt
    rcases hres : oc.pollQueueingOperator (envs turn) with ⟨oc1, r, next⟩
    rw [hres] at hb hpm hdrop hkeep
    simp only at hb hpm hdrop hkeep
    cases r with
    | none =>
      cases next with
      | false =>
        refine ⟨oc1, _, pm, rfl, hpm, hb, ?_, ?_⟩
        · rw [hps]; exact Nat.zero_le _
        · rw [hps, hpc]
      | true =>
        have hl := hdrop rfl rfl
        obtain ⟨oc2, wake, made, hrun, hcalls, hbs, hs, hc⟩ :=
          ih (turn + 1) oc1 e (by rw [hb]; omega)
        refine ⟨oc2, wake, pm ++ made, hrun, ?_, hbs.trans hb, ?_, ?_⟩
        · rw [hcalls, hpm, List.append_assoc]
        · rw [List.countP_append, hps, Nat.zero_add, ← hb]
          exact hs
        · rw [List.countP_append, List.countP_append, hps, hpc]
          simpa using hc
    | some op =>
      cases next with
      | false =>
        refine ⟨oc1, _, pm, rfl, hpm, hb, ?_, ?_⟩
        · rw [hps]; exact Nat.zero_le _
        · rw [hps, hpc]
      | true =>
        have hl := hkeep rfl (by simp)
        simp only
        have hsend : ∀ sends : List Call,
            sends = (match (envs turn).schedule op with
              | some msg => [Call.SendCommand msg]
              | none => []) →
            sends.countP Call.isSchedule = 0 ∧ sends.countP Call.isSendCommand ≤ 1 := by
          intro sends hs
          cases hsch : (envs turn).schedule op with
          | none => rw [hsch] at hs; subst hs; exact ⟨rfl, Nat.zero_le _⟩
          | some msg => rw [hsch] at hs; subst hs; exact ⟨rfl, Nat.le_refl _⟩
        obtain ⟨hs0, hs1⟩ := hsend _ rfl
        have h1 : [Call.Schedule op].countP Call.isSchedule = 1 := rfl
        have h0 : [Call.Schedule op].countP Call.isSendCommand = 0 := rfl
        by_cases hfull : e + 1 ≥ oc1.batchSize
        · simp only [hfull, if_true]
          refine ⟨_, _, pm ++ ([Call.Schedule op] ++
            (match (envs turn).schedule op with
              | some msg => [Call.SendCommand msg]
              | none => [])), rfl, ?_, hb, ?_, ?_⟩
          · show oc1.calls ++ [Call.Schedule op] ++ _ = _
            rw [hpm, List.append_assoc, List.append_assoc]
          · rw [List.countP_append, List.countP_append, hps, hs0, h1]
            omega
          · rw [List.countP_append, List.countP_append, List.countP_append,
              List.countP_append, hps, hpc, hs0, h1, h0]
            omega
        · simp only [hfull, if_false]
          obtain ⟨oc2, wake, made, hrun, hcalls, hbs, hs, hc⟩ :=
            ih (turn + 1)
              { oc1 with calls := oc1.calls ++ [Call.Schedule op] ++
                  (match (envs turn).schedule op with
                    | some msg => [Call.SendCommand msg]
                    | none => []) }
              (e + 1)
              (by
                show oc1.runningQueue.length + (oc1.batchSize - (e + 1)).toNat + 1 ≤ fuel
                rw [hb] at hfull ⊢
                omega)
          refine ⟨oc2, wake, pm ++ ([Call.Schedule op] ++
            (match (envs turn).schedule op with
              | some msg => [Call.SendCommand msg]
              | none => [])) ++ made, hrun, ?_, hbs.trans hb, ?_, ?_⟩
          · rw [hcalls]
            show oc1.calls ++ [Call.Schedule op] ++ _ ++ made = _
            rw [hpm]
            simp only [List.append_assoc]
          · have hs2 : made.countP Call.isSchedule ≤ max 1 (oc1.batchSize - (e + 1)).toNat := hs
            rw [List.countP_append, List.countP_append, List.countP_append, hps, hs0, h1]
            rw [hb] at hfull hs2
            omega
          · rw [List.countP_append, List.countP_append, List.countP_append,
              List.countP_append, List.countP_append, List.countP_append, hps, hpc, hs0, h1, h0]
            omega

/-- C22: for every batch size of at least one and every running queue, one call
of `Execute` returns, having called `Schedule` on at most `batchSize` operators
and `SendCommand` at most once per `Schedule`; the same holds when the clock and
the operators answer anew at every turn of the loop. Every turn of the loop
ends the poll, or drops an entry from the running queue (the queue gets shorter
by one), or returns an operator that counts towards the batch. -/
theorem Execute_terminates (oc : Controller) (env : OpEnv) (hb : 1 ≤ oc.batchSize) :
    (∃ oc2 wake made, oc.Execute env = some (oc2, wake) ∧ oc2.calls = oc.calls ++ made ∧
      (made.countP Call.isSchedule : Int) ≤ oc.batchSize ∧
      made.countP Call.isSendCommand ≤ made.countP Call.isSchedule) ∧
    (∀ envs : Nat → OpEnv, ∃ oc2 wake made,
      Controller.executeLoopAt envs (oc.runningQueue.length + oc.batchSize.toNat + 1) 0 oc 0
        = some (oc2, wake) ∧
      oc2.calls = oc.calls ++ made ∧
      (made.countP Call.isSchedule : Int) ≤ oc.batchSize ∧
      made.countP Call.isSendCommand ≤ made.countP Call.isSchedule) ∧
    (∀ (oc1 : Controller) (env1 : OpEnv),
      (oc1.pollQueueingOperator env1).2.2 = false ∨
      ((oc1.pollQueueingOperator env1).2.1 = none ∧
        (oc1.pollQueueingOperator env1).1.runningQueue.length + 1 = oc1.runningQueue.length) ∨
      ((oc1.pollQueueingOperator env1).2.1 ≠ none ∧
        (oc1.pollQueueingOperator env1).1.runningQueue.length = oc1.runningQueue.length)) := by
  have hgen : ∀ envs : Nat → OpEnv, ∃ oc2 wake made,
      Controller.executeLoopAt envs (oc.runningQueue.length + oc.batchSize.toNat + 1) 0 oc 0
        = some (oc2, wake) ∧
      oc2.calls = oc.calls ++ made ∧
      (made.countP Call.isSchedule : Int) ≤ oc.batchSize ∧
      made.countP Call.isSendCommand ≤ made.countP Call.isSchedule := by
    intro envs
    obtain ⟨oc2, wake, made, hrun, hcalls, _, hs, hc⟩ :=
      executeLoopAt_total envs (oc.runningQueue.length + oc.batchSize.toNat + 1) 0 oc 0
        (by simp)
    refine ⟨oc2, wake, made, hrun, hcalls, ?_, hc⟩
    simp only [sub_zero] at hs
    omega
  refine ⟨?_, hgen, ?_⟩
  · obtain ⟨oc2, wake, made, hrun, hrest⟩ := hgen (fun _ => env)
    refine ⟨oc2, wake, made, ?_, hrest⟩
    unfold Controller.Execute
    rw [executeLoop_eq_executeLoopAt env _ 0]
    exact hrun
  · intro oc1 env1
    obtain ⟨_, _, hdrop, hkeep⟩ := pollQueueingOperator_shape oc1 env1
    cases hnext : (oc1.pollQueueingOperator env1).2.2 with
    | false => exact Or.inl rfl
    | true =>
      right
      cases hr : (oc1.pollQueueingOperator env1).2.1 with
      | none => exact Or.inl ⟨rfl, hdrop hnext hr⟩
      | some op => exact Or.inr ⟨by simp, hkeep hnext (by rw [hr]; simp)⟩

/-- C22 at a concrete input: with batch size one and the one operator
`addSeven` in the queue, `Execute` returns after it has scheduled it. -/
theorem Execute_terminates_witness :
    ∃ oc2 wake made,
      ((NewOperatorController 1).AddOperator idleOpEnv twoReplicaDB addSeven).1.Execute idleOpEnv
        = some (oc2, wake) ∧
      oc2.calls
        = ((NewOperatorController 1).AddOperator idleOpEnv twoReplicaDB addSeven).1.calls
          ++ made ∧
      (made.countP Call.isSchedule : Int) ≤ 1 :=
  (Execute_terminates ((NewOperatorController 1).AddOperator idleOpEnv twoReplicaDB addSeven).1
    idleOpEnv (by decide)).1.imp
    (fun _ h => h.imp (fun _ h2 => h2.imp (fun _ h3 => ⟨h3.1, h3.2.1, h3.2.2.1⟩)))

/-! ## Operator controller: merge-split groups -/

/-- `groupIsFree` fails exactly when some replica of the group has an operator
or is unknown to the `ReplicationDB`. -/
theorem groupIsFree_false (oc : Controller) (db : ReplicationDB) :
    ∀ (group : List SpanReplication),
      oc.groupIsFree db group = false ↔
        ∃ r ∈ group, (∃ a, oc.operators r.ID = some a) ∨ db.GetTaskByID r.ID = none := by
  intro group
  induction group with
  | nil => simp [Controller.groupIsFree]
  | cons x rest ih =>
    unfold Controller.groupIsFree
    cases ho : oc.operators x.ID with
    | some a =>
      simp only [true_iff]
      exact ⟨x, List.mem_cons_self _ _, Or.inl ⟨a, ho⟩⟩
    | none =>
      cases hd : db.GetTaskByID x.ID with
      | none =>
        simp only [true_iff]
        exact ⟨x, List.mem_cons_self _ _, Or.inr hd⟩
      | some span =>
        simp only
        rw [ih]
        constructor
        · rintro ⟨r, hr, h⟩
          exact ⟨r, List.mem_cons_of_mem _ hr, h⟩
        · rintro ⟨r, hr, h⟩
          rcases List.mem_cons.mp hr with rfl | hr
          · rcases h with ⟨a, ha⟩ | h
            · rw [ho] at ha; cases ha
            · rw [hd] at h; cases h
          · exact ⟨r, hr, h⟩

/-- What pushing one operator per member of a group leaves: the records are
allocated in order from `nextItem` on and queued in that order, the older
records are untouched, and the map changes only under the operators'
identifiers. -/
theorem pushGroup_spec (env : OpEnv) (mk : SpanReplication → Operator) :
    ∀ (group : List SpanReplication) (oc : Controller),
      (group.foldl (fun c r => c.pushOperator env (mk r)) oc).nextItem
        = oc.nextItem + group.length ∧
      (group.foldl (fun c r => c.pushOperator env (mk r)) oc).runningQueue
        = oc.runningQueue ++ List.range' oc.nextItem group.length ∧
      (∀ i (hi : i < group.length),
        (group.foldl (fun c r => c.pushOperator env (mk r)) oc).items (oc.nextItem + i)
          = NewOperatorWithTime (mk group[i]) env.now) ∧
      (∀ a, a < oc.nextItem →
        (group.foldl (fun c r => c.pushOperator env (mk r)) oc).items a = oc.items a) ∧
      (∀ id, (∀ r ∈ group, (mk r).ID ≠ id) →
        (group.foldl (fun c r => c.pushOperator env (mk r)) oc).operators id
          = oc.operators id) ∧
      ((group.map (fun r => (mk r).ID)).Nodup → ∀ i (hi : i < group.length),
        (group.foldl (fun c r => c.pushOperator env (mk r)) oc).operators (mk group[i]).ID
          = some (oc.nextItem + i)) := by
  intro group
  induction group with
  | nil =>
    intro oc
    refine ⟨rfl, by simp, ?_, fun _ _ => rfl, fun _ _ => rfl, ?_⟩
    · intro i hi; cases hi
    · intro _ i hi; cases hi
  | cons x rest ih =>
    intro oc
    obtain ⟨h1, h2, h3, h4, h5, h6⟩ := ih (oc.pushOperator env (mk x))
    simp only [List.foldl_cons]
    have hnext : (oc.pushOperator env (mk x)).nextItem = oc.nextItem + 1 := rfl
    refine ⟨?_, ?_, ?_, ?_, ?_, ?_⟩
    · rw [h1, hnext, List.length_cons]
      omega
    · rw [h2, hnext]
      show oc.runningQueue ++ [oc.nextItem] ++ List.range' (oc.nextItem + 1) rest.length = _
      rw [List.length_cons, List.range'_succ, List.append_assoc]
      rfl
    · intro i hi
      cases i with
      | zero =>
        rw [Nat.add_zero, h4 oc.nextItem (by rw [hnext]; omega)]
        simp [Controller.pushOperator]
      | succ j =>
        have hj : j < rest.length := by simpa using hi
        have := h3 j hj
        rw [hnext] at this
        rw [show oc.nextItem + (j + 1) = oc.nextItem + 1 + j by omega, this]
        rfl
    · intro a ha
      rw [h4 a (by rw [hnext]; omega)]
      have hne : a ≠ oc.nextItem := by omega
      simp [Controller.pushOperator, hne]
    · intro id hid
      rw [h5 id (fun r hr => hid r (List.mem_cons_of_mem _ hr))]
      have hne : id ≠ (mk x).ID := fun he => hid x (List.mem_cons_self _ _) he.symm
      simp [Controller.pushOperator, hne]
    · intro hnd i hi
      simp only [List.map_cons, List.nodup_cons] at hnd
      cases i with
      | zero =>
        rw [Nat.add_zero]
        show (rest.foldl (fun c r => c.pushOperator env (mk r))
          (oc.pushOperator env (mk x))).operators (mk x).ID = some oc.nextItem
        rw [h5 (mk x).ID]
        · simp [Controller.pushOperator]
        · intro r hr he
          exact hnd.1 (List.mem_map.mpr ⟨r, hr, he⟩)
      | succ j =>
        have hj : j < rest.length := by simpa using hi
        have := h6 hnd.2 j hj
        rw [hnext] at this
        rw [show oc.nextItem + (j + 1) = oc.nextItem + 1 + j by omega]
        exact this

/-- C24: `AddMergeSplitOperator` is all-or-nothing. If some replica of the group
has an operator or is missing from the `ReplicationDB`, it returns false and the
controller is as before. Otherwise, for a non-empty group with pairwise
distinct IDs and non-empty new spans, it returns true; it has allocated and
queued one record per group member, in order, the operators map holds the
record of each member under the member's ID and is unchanged elsewhere; the
operator of each member is a merge-split operator that refers to the ID of one
chosen member, the primary, and it is the primary operator exactly for that
member, which occurs once in the group. -/
theorem AddMergeSplitOperator_spec (oc : Controller) (env : OpEnv) (db : ReplicationDB)
    (group : List SpanReplication) (splitSpans : List Nat) :
    ((∃ r ∈ group, (∃ a, oc.operators r.ID = some a) ∨ db.GetTaskByID r.ID = none) →
      oc.AddMergeSplitOperator env db group splitSpans = some (oc, false)) ∧
    ((∀ r ∈ group, oc.operators r.ID = none ∧ ∃ span, db.GetTaskByID r.ID = some span) →
      group ≠ [] → (group.map (fun r => r.ID)).Nodup → splitSpans ≠ [] →
      ∃ oc2 primary, primary ∈ group ∧
        oc.AddMergeSplitOperator env db group splitSpans = some (oc2, true) ∧
        oc2.runningQueue = oc.runningQueue ++ List.range' oc.nextItem group.length ∧
        (∀ i (hi : i < group.length),
          oc2.operators group[i].ID = some (oc.nextItem + i) ∧
          oc2.items (oc.nextItem + i)
            = NewOperatorWithTime
                (if group[i].ID = primary.ID then
                  NewMergeSplitDispatcherOperator primary.ID primary group splitSpans false
                 else NewMergeSplitDispatcherOperator primary.ID group[i] [] [] true)
                env.now) ∧
        (∀ id, id ∉ group.map (fun r => r.ID) → oc2.operators id = oc.operators id) ∧
        (∀ a, a < oc.nextItem → oc2.items a = oc.items a) ∧
        (group.map (fun r => r.ID)).count primary.ID = 1) := by
  constructor
  · intro hbusy
    have hfree := (groupIsFree_false oc db group).mpr hbusy
    unfold Controller.AddMergeSplitOperator
    simp only [hfree, Bool.not_false, if_true]
  · intro hall hne hnd hspans
    have hfree : oc.groupIsFree db group = true := by
      cases hf : oc.groupIsFree db group with
      | true => rfl
      | false =>
        obtain ⟨r, hr, h⟩ := (groupIsFree_false oc db group).mp hf
        obtain ⟨hnone, span, hspan⟩ := hall r hr
        rcases h with ⟨a, ha⟩ | h
        · rw [hnone] at ha; cases ha
        · rw [hspan] at h; cases h
    have hlen : 0 < group.length := List.length_pos.mpr hne
    have hidx : env.random % group.length < group.length := Nat.mod_lt _ hlen
    have hprim : group[env.random % group.length]? = some group[env.random % group.length] :=
      List.getElem?_eq_getElem hidx
    obtain ⟨s, ss, hsplit⟩ := List.exists_cons_of_ne_nil hspans
    have hmk : ∀ r : SpanReplication,
        (if r.ID = group[env.random % group.length].ID then
          NewMergeSplitDispatcherOperator group[env.random % group.length].ID
            group[env.random % group.length] group splitSpans false
         else NewMergeSplitDispatcherOperator group[env.random % group.length].ID r [] [] true).ID
          = r.ID := by
      intro r
      by_cases he : r.ID = group[env.random % group.length].ID
      · simp [he, NewMergeSplitDispatcherOperator]
      · simp [he, NewMergeSplitDispatcherOperator]
    obtain ⟨_, h2, h3, h4, h5, h6⟩ := pushGroup_spec env
      (fun r =>
        if r.ID = group[env.random % group.length].ID then
          NewMergeSplitDispatcherOperator group[env.random % group.length].ID
            group[env.random % group.length] group splitSpans false
        else NewMergeSplitDispatcherOperator group[env.random % group.length].ID r [] [] true)
      group oc
    have hids : (group.map (fun r =>
        (if r.ID = group[env.random % group.length].ID then
          NewMergeSplitDispatcherOperator group[env.random % group.length].ID
            group[env.random % group.length] group splitSpans false
         else NewMergeSplitDispatcherOperator group[env.random % group.length].ID r [] []
           true).ID))
        = group.map (fun r => r.ID) :=
      List.map_congr_left (fun r _ => hmk r)
    refine ⟨_, group[env.random % group.length], List.getElem_mem _, ?_, h2, ?_, ?_, h4,
      List.count_eq_one_of_mem hnd (List.mem_map.mpr ⟨_, List.getElem_mem _, rfl⟩)⟩
    · unfold Controller.AddMergeSplitOperator
      simp only [hfree, Bool.not_true, Bool.false_eq_true, if_false, hprim, hsplit]
    · intro i hi
      refine ⟨?_, h3 i hi⟩
      have := h6 (by rw [hids]; exact hnd) i hi
      rw [hmk] at this
      exact this
    · intro id hid
      apply h5
      intro r hr he
      rw [hmk] at he
      exact hid (List.mem_map.mpr ⟨r, hr, he⟩)

/-- C24 at a concrete input: on a new controller the group of the replicas 7
and 8, both known to the `ReplicationDB`, gets its two operators. -/
theorem AddMergeSplitOperator_spec_witness :
    ∃ oc2,
      (NewOperatorController 1).AddMergeSplitOperator idleOpEnv twoReplicaDB
        [{ ID := 7, nodeID := 1 }, { ID := 8, nodeID := 1 }] [1] = some (oc2, true) ∧
      oc2.runningQueue = [0, 1] := by
  obtain ⟨oc2, _, _, hrun, hq, _⟩ :=
    (AddMergeSplitOperator_spec (NewOperatorController 1) idleOpEnv twoReplicaDB
      [{ ID := 7, nodeID := 1 }, { ID := 8, nodeID := 1 }] [1]).2
      (by
        intro r hr
        simp only [List.mem_cons, List.mem_singleton, List.not_mem_nil, or_false] at hr
        rcases hr with rfl | rfl
        · exact ⟨rfl, _, rfl⟩
        · exact ⟨rfl, _, rfl⟩)
      (by simp) (by decide) (by simp)
  exact ⟨oc2, hrun, hq⟩

/-! ## Operator controller: removing tasks -/

/-- An allocated record that is marked `Removed` stays so, with its operator,
through `pushOperator`. -/
theorem pushOperator_keeps (oc : Controller) (env : OpEnv) (op : Operator) (a : Nat)
    (ha : a < oc.nextItem) :
    (oc.pushOperator env op).items a = oc.items a ∧ a < (oc.pushOperator env op).nextItem := by
  have hne : a ≠ oc.nextItem := by omega
  refine ⟨by simp [Controller.pushOperator, hne], ?_⟩
  show a < oc.nextItem + 1
  omega

/-- What `removeReplicaSet` does: the operator is filed under its ID in a new
record at the end of the queue; an operator found under that ID has received
`OnTaskRemoved` and `PostFinish` and its record is marked `Removed`; no other
record loses its operator or its `Removed` mark, and every call is made on an
operator of that ID. -/
theorem removeReplicaSet_spec (oc : Controller) (env : OpEnv) (op : Operator)
    (hc : oc.Consistent) :
    (oc.removeReplicaSet env op).nextItem = oc.nextItem + 1 ∧
    (oc.removeReplicaSet env op).operators op.ID = some oc.nextItem ∧
    (∀ id, id ≠ op.ID → (oc.removeReplicaSet env op).operators id = oc.operators id) ∧
    (oc.removeReplicaSet env op).items oc.nextItem = NewOperatorWithTime op env.now ∧
    (∀ a, a < oc.nextItem →
      ((oc.removeReplicaSet env op).items a).OP = (oc.items a).OP ∧
      ((oc.items a).Removed = true → ((oc.removeReplicaSet env op).items a).Removed = true) ∧
      ((oc.items a).OP.ID ≠ op.ID → (oc.removeReplicaSet env op).items a = oc.items a)) ∧
    (∀ old, oc.operators op.ID = some old →
      ((oc.removeReplicaSet env op).items old).Removed = true) ∧
    (oc.removeReplicaSet env op).runningQueue = oc.runningQueue ++ [oc.nextItem] ∧
    (∃ made, (oc.removeReplicaSet env op).calls = oc.calls ++ made ∧
      (∀ c ∈ made, c.opID = some op.ID) ∧
      (∀ old, oc.operators op.ID = some old →
        ∃ post, made = [Call.OnTaskRemoved (oc.items old).OP, Call.PostFinish (oc.items old).OP]
            ++ post ∧
          post.count (Call.OnTaskRemoved (oc.items old).OP) = 0 ∧
          post.count (Call.PostFinish (oc.items old).OP) = 0)) := by
  have hcheck : ∀ c ∈ checkAffectedNodes env op ++ [Call.Start op],
      c.opID = some op.ID ∧ ∀ o, c ≠ Call.OnTaskRemoved o ∧ c ≠ Call.PostFinish o := by
    intro c hcm
    rcases List.mem_append.mp hcm with h | h
    · unfold checkAffectedNodes at h
      obtain ⟨n, _, hn⟩ := List.mem_map.mp h
      subst hn
      exact ⟨rfl, fun o => ⟨fun he => (by cases he), fun he => (by cases he)⟩⟩
    · rw [List.mem_singleton] at h
      subst h
      exact ⟨rfl, fun o => ⟨fun he => (by cases he), fun he => (by cases he)⟩⟩
  cases hold : oc.operators op.ID with
  | none =>
    have hrs : oc.removeReplicaSet env op = oc.pushOperator env op := by
      unfold Controller.removeReplicaSet
      rw [hold]
    rw [hrs]
    refine ⟨rfl, by simp [Controller.pushOperator], ?_, by simp [Controller.pushOperator], ?_,
      ?_, rfl, ⟨checkAffectedNodes env op ++ [Call.Start op], ?_, ?_, ?_⟩⟩
    · intro id hid
      simp [Controller.pushOperator, hid]
    · intro a ha
      have := (pushOperator_keeps oc env op a ha).1
      rw [this]
      exact ⟨rfl, fun h => h, fun _ => rfl⟩
    · intro old h; cases h
    · simp [Controller.pushOperator]
    · intro c hcm; exact (hcheck c hcm).1
    · intro old h; cases h
  | some old =>
    obtain ⟨hq, _, hid⟩ := hc.mapLive op.ID old hold
    have hlt : old < oc.nextItem := hc.allocated old hq
    have hne : old ≠ oc.nextItem := by omega
    have hrs : oc.removeReplicaSet env op
        = Controller.pushOperator
            { oc with
              calls := oc.calls ++ [Call.OnTaskRemoved (oc.items old).OP,
                                    Call.PostFinish (oc.items old).OP],
              items := fun a =>
                if a = old then { oc.items old with Removed := true } else oc.items a,
              operators := fun id => if id = op.ID then none else oc.operators id }
            env op := by
      unfold Controller.removeReplicaSet
      rw [hold]
    rw [hrs]
    refine ⟨rfl, by simp [Controller.pushOperator], ?_, by simp [Controller.pushOperator], ?_,
      ?_, rfl, ⟨[Call.OnTaskRemoved (oc.items old).OP, Call.PostFinish (oc.items old).OP]
        ++ (checkAffectedNodes env op ++ [Call.Start op]), ?_, ?_, ?_⟩⟩
    · intro id hidne
      simp [Controller.pushOperator, hidne]
    · intro a ha
      have hane : a ≠ oc.nextItem := by omega
      by_cases hao : a = old
      · subst hao
        refine ⟨?_, fun _ => ?_, fun h => absurd hid h⟩
        · simp [Controller.pushOperator, hane]
        · simp [Controller.pushOperator, hane]
      · refine ⟨?_, fun h => ?_, fun _ => ?_⟩
        · simp [Controller.pushOperator, hane, hao]
        · simpa [Controller.pushOperator, hane, hao] using h
        · simp [Controller.pushOperator, hane, hao]
    · intro old2 h
      cases h
      simp [Controller.pushOperator, hne]
    · simp [Controller.pushOperator]
    · intro c hcm
      rcases List.mem_append.mp hcm with h | h
      · simp only [List.mem_cons, List.mem_singleton, List.not_mem_nil, or_false] at h
        rcases h with rfl | rfl
        · exact congrArg some hid
        · exact congrArg some hid
      · exact (hcheck c h).1
    · intro old2 h
      cases h
      refine ⟨checkAffectedNodes env op ++ [Call.Start op], rfl, ?_, ?_⟩
      · apply List.count_eq_zero.mpr
        intro hm
        exact ((hcheck _ hm).2 _).1 rfl
      · apply List.count_eq_zero.mpr
        intro hm
        exact ((hcheck _ hm).2 _).2 rfl

/-- A call does not occur among calls that are all made on other dispatchers. -/
theorem count_eq_zero_of_opID (made : List Call) (c : Call)
    (h : ∀ x ∈ made, x.opID ≠ c.opID) : made.count c = 0 := by
  apply List.count_eq_zero.mpr
  intro hm
  exact h c hm rfl

/-- What the loop of the `RemoveTasks` methods leaves alone: the map outside
the replicas' IDs, the operators of the records allocated before, their
`Removed` marks, and every record of another dispatcher; all calls are made on
operators of the replicas' IDs. -/
theorem removeTasks_frame (env : OpEnv) :
    ∀ (replicaSets : List SpanReplication) (oc : Controller), oc.Consistent →
      oc.nextItem ≤ (oc.removeTasks env replicaSets).nextItem ∧
      (∀ id, id ∉ replicaSets.map (fun r => r.ID) →
        (oc.removeTasks env replicaSets).operators id = oc.operators id) ∧
      (∀ a, a < oc.nextItem →
        ((oc.removeTasks env replicaSets).items a).OP = (oc.items a).OP ∧
        ((oc.items a).Removed = true →
          ((oc.removeTasks env replicaSets).items a).Removed = true) ∧
        ((oc.items a).OP.ID ∉ replicaSets.map (fun r => r.ID) →
          (oc.removeTasks env replicaSets).items a = oc.items a)) ∧
      (∃ made, (oc.removeTasks env replicaSets).calls = oc.calls ++ made ∧
        ∀ c ∈ made, ∃ id ∈ replicaSets.map (fun r => r.ID), c.opID = some id) := by
  intro replicaSets
  induction replicaSets with
  | nil =>
    intro oc _
    exact ⟨Nat.le_refl _, fun _ _ => rfl, fun _ _ => ⟨rfl, fun h => h, fun _ => rfl⟩,
      [], by simp [Controller.removeTasks], fun c hcm => by cases hcm⟩
  | cons x rest ih =>
    intro oc hc
    obtain ⟨s1, _, s3, _, s5, _, _, smade, scalls, sids, _⟩ :=
      removeReplicaSet_spec oc env (NewRemoveDispatcherOperator x) hc
    obtain ⟨i1, i2, i3, imade, icalls, iids⟩ :=
      ih (oc.removeReplicaSet env (NewRemoveDispatcherOperator x))
        (removeReplicaSet_consistent oc env _ hc)
    have hstep : oc.removeTasks env (x :: rest)
        = (oc.removeReplicaSet env (NewRemoveDispatcherOperator x)).removeTasks env rest := rfl
    have hxid : (NewRemoveDispatcherOperator x).ID = x.ID := rfl
    rw [hstep]
    refine ⟨by omega, ?_, ?_, smade ++ imade, ?_, ?_⟩
    · intro id hid
      simp only [List.map_cons, List.mem_cons, not_or] at hid
      rw [i2 id hid.2, s3 id (by rw [hxid]; exact hid.1)]
    · intro a ha
      obtain ⟨j1, j2, j3⟩ := i3 a (by omega)
      obtain ⟨k1, k2, k3⟩ := s5 a ha
      refine ⟨j1.trans k1, fun h => j2 (k2 h), ?_⟩
      intro hid
      simp only [List.map_cons, List.mem_cons, not_or] at hid
      have hk := k3 (by rw [hxid]; exact hid.1)
      rw [j3 (by rw [hk]; exact hid.2), hk]
    · rw [icalls, scalls, List.append_assoc]
    · intro c hcm
      rcases List.mem_append.mp hcm with h | h
      · exact ⟨x.ID, by simp, sids c h⟩
      · obtain ⟨id, hid, hcid⟩ := iids c h
        exact ⟨id, by simp only [List.map_cons]; exact List.mem_cons_of_mem _ hid, hcid⟩

/-- What the loop of the `RemoveTasks` methods does for each replica of a list
of pairwise distinct replicas. -/
theorem removeTasks_spec (env : OpEnv) :
    ∀ (replicaSets : List SpanReplication) (oc : Controller), oc.Consistent →
      (replicaSets.map (fun r => r.ID)).Nodup → ∀ r ∈ replicaSets,
      (∃ a, oc.nextItem ≤ a ∧ (oc.removeTasks env replicaSets).operators r.ID = some a ∧
        (oc.removeTasks env replicaSets).items a
          = NewOperatorWithTime (NewRemoveDispatcherOperator r) env.now) ∧
      (∀ old, oc.operators r.ID = some old →
        ((oc.removeTasks env replicaSets).items old).Removed = true ∧
        ((oc.removeTasks env replicaSets).items old).OP = (oc.items old).OP ∧
        old < (oc.removeTasks env replicaSets).nextItem ∧
        ∃ pre post,
          (oc.removeTasks env replicaSets).calls
            = oc.calls ++ (pre ++ [Call.OnTaskRemoved (oc.items old).OP,
                Call.PostFinish (oc.items old).OP] ++ post) ∧
          pre.count (Call.OnTaskRemoved (oc.items old).OP) = 0 ∧
          pre.count (Call.PostFinish (oc.items old).OP) = 0 ∧
          post.count (Call.OnTaskRemoved (oc.items old).OP) = 0 ∧
          post.count (Call.PostFinish (oc.items old).OP) = 0) := by
  intro replicaSets
  induction replicaSets with
  | nil => intro oc _ _ r hr; cases hr
  | cons x rest ih =>
    intro oc hc hnd r hr
    simp only [List.map_cons, List.nodup_cons] at hnd
    obtain ⟨s1, s2, s3, s4, s5, s6, _, smade, scalls, sids, sold⟩ :=
      removeReplicaSet_spec oc env (NewRemoveDispatcherOperator x) hc
    have hc1 := removeReplicaSet_consistent oc env (NewRemoveDispatcherOperator x) hc
    obtain ⟨f1, f2, f3, fmade, fcalls, fids⟩ :=
      removeTasks_frame env rest (oc.removeReplicaSet env (NewRemoveDispatcherOperator x)) hc1
    have hstep : oc.removeTasks env (x :: rest)
        = (oc.removeReplicaSet env (NewRemoveDispatcherOperator x)).removeTasks env rest := rfl
    have hxid : (NewRemoveDispatcherOperator x).ID = x.ID := rfl
    rw [hstep]
    rcases List.mem_cons.mp hr with hrx | hrest
    · subst hrx
      constructor
      · refine ⟨oc.nextItem, Nat.le_refl _, ?_, ?_⟩
        · rw [f2 r.ID hnd.1]
          exact s2
        · rw [(f3 oc.nextItem (by omega)).2.2 (by rw [s4]; exact hnd.1)]
          exact s4
      · intro old hold
        obtain ⟨hq, _, hid⟩ := hc.mapLive r.ID old hold
        have hlt : old < oc.nextItem := hc.allocated old hq
        obtain ⟨g1, g2, _⟩ := f3 old (by omega)
        obtain ⟨post, hpost, hp1, hp2⟩ := sold old hold
        refine ⟨g2 (s6 old hold), g1.trans (s5 old hlt).1, by omega, [], post ++ fmade, ?_,
          rfl, rfl, ?_, ?_⟩
        · rw [fcalls, scalls, hpost]
          simp only [List.append_assoc, List.nil_append]
        · rw [List.count_append, hp1, Nat.zero_add]
          apply count_eq_zero_of_opID
          intro c hcm he
          obtain ⟨id, hidm, hcid⟩ := fids c hcm
          rw [hcid] at he
          simp only [Call.opID, Option.some.injEq] at he
          rw [hid] at he
          exact hnd.1 (he ▸ hidm)
        · rw [List.count_append, hp2, Nat.zero_add]
          apply count_eq_zero_of_opID
          intro c hcm he
          obtain ⟨id, hidm, hcid⟩ := fids c hcm
          rw [hcid] at he
          simp only [Call.opID, Option.some.injEq] at he
          rw [hid] at he
          exact hnd.1 (he ▸ hidm)
    · have hne : r.ID ≠ x.ID := by
        intro he
        exact hnd.1 (he ▸ List.mem_map.mpr ⟨r, hrest, rfl⟩)
      obtain ⟨⟨a, ha1, ha2, ha3⟩, hold2⟩ :=
        ih (oc.removeReplicaSet env (NewRemoveDispatcherOperator x)) hc1 hnd.2 r hrest
      constructor
      · exact ⟨a, by omega, ha2, ha3⟩
      · intro old hold
        obtain ⟨hq, _, hid⟩ := hc.mapLive r.ID old hold
        have hlt : old < oc.nextItem := hc.allocated old hq
        have hop := (s5 old hlt).1
        obtain ⟨h1, h2, h3, pre, post, hcalls, c1, c2, c3, c4⟩ :=
          hold2 old (by rw [s3 r.ID (by rw [hxid]; exact hne)]; exact hold)
        rw [hop] at h2 hcalls c1 c2 c3 c4
        refine ⟨h1, h2, h3, smade ++ pre, post, ?_, ?_, ?_, c3, c4⟩
        · rw [hcalls, scalls]
          simp only [List.append_assoc]
        · rw [List.count_append, c1, Nat.add_zero]
          apply count_eq_zero_of_opID
          intro c hcm he
          rw [sids c hcm] at he
          simp only [Call.opID, Option.some.injEq] at he
          rw [hid, hxid] at he
          exact hne he.symm
        · rw [List.count_append, c2, Nat.add_zero]
          apply count_eq_zero_of_opID
          intro c hcm he
          rw [sids c hcm] at he
          simp only [Call.opID, Option.some.injEq] at he
          rw [hid, hxid] at he
          exact hne he.symm

/-! ## Operator controller: a record marked `Removed` stays out of play -/

theorem pushOperator_dropped (oc : Controller) (env : OpEnv) (op : Operator) (a : Nat)
    (x : Operator) (h : oc.Dropped a x) : (oc.pushOperator env op).Dropped a x := by
  obtain ⟨h1, h2, h3⟩ := h
  obtain ⟨k1, k2⟩ := pushOperator_keeps oc env op a h1
  exact ⟨k2, by rw [k1]; exact h2, by rw [k1]; exact h3⟩

theorem removeReplicaSet_dropped (oc : Controller) (env : OpEnv) (op : Operator) (a : Nat)
    (x : Operator) (h : oc.Dropped a x) : (oc.removeReplicaSet env op).Dropped a x := by
  unfold Controller.removeReplicaSet
  cases hold : oc.operators op.ID with
  | none => exact pushOperator_dropped oc env op a x h
  | some old =>
    apply pushOperator_dropped
    obtain ⟨h1, h2, h3⟩ := h
    refine ⟨h1, ?_, ?_⟩
    · by_cases hao : a = old
      · simp [hao]
      · simpa [hao] using h2
    · by_cases hao : a = old
      · subst hao
        simpa using h3
      · simpa [hao] using h3

theorem removeTasks_dropped (env : OpEnv) (a : Nat) (x : Operator) :
    ∀ (replicaSets : List SpanReplication) (oc : Controller),
      oc.Dropped a x → (oc.removeTasks env replicaSets).Dropped a x := by
  intro replicaSets
  induction replicaSets with
  | nil => intro oc h; exact h
  | cons r rest ih =>
    intro oc h
    exact ih _ (removeReplicaSet_dropped oc env _ a x h)

theorem pushGroup_dropped (env : OpEnv) (mk : SpanReplication → Operator) (a : Nat)
    (x : Operator) :
    ∀ (group : List SpanReplication) (oc : Controller),
      oc.Dropped a x → (group.foldl (fun c r => c.pushOperator env (mk r)) oc).Dropped a x := by
  intro group
  induction group with
  | nil => intro oc h; exact h
  | cons r rest ih =>
    intro oc h
    exact ih _ (pushOperator_dropped oc env _ a x h)

theorem AddMergeSplitOperator_dropped (oc oc2 : Controller) (env : OpEnv) (db : ReplicationDB)
    (group : List SpanReplication) (splitSpans : List Nat) (ok : Bool) (a : Nat) (x : Operator)
    (h : oc.Dropped a x)
    (hres : oc.AddMergeSplitOperator env db group splitSpans = some (oc2, ok)) :
    oc2.Dropped a x := by
  unfold Controller.AddMergeSplitOperator at hres
  by_cases hfree : oc.groupIsFree db group = true
  · simp only [hfree, Bool.not_true, Bool.false_eq_true, if_false] at hres
    cases hprim : group[env.random % group.length]? with
    | none => rw [hprim] at hres; cases hres
    | some primary =>
      rw [hprim] at hres
      simp only at hres
      cases splitSpans with
      | nil => cases hres
      | cons s ss =>
        simp only [Option.some.injEq, Prod.mk.injEq] at hres
        rw [← hres.1]
        exact pushGroup_dropped env _ a x group oc h
  · simp only [hfree, Bool.not_false, if_true, Option.some.injEq, Prod.mk.injEq] at hres
    rw [← hres.1]
    exact h

/-- One poll: a record marked `Removed` stays so; every call the poll makes and
the operator it returns belong to a queued record that is not marked
`Removed`; and the queued records that are not marked `Removed` afterwards were
so before, with the same operator. -/
theorem pollQueueingOperator_live (oc : Controller) (env : OpEnv) :
    (∀ a x, oc.Dropped a x → (oc.pollQueueingOperator env).1.Dropped a x) ∧
    (∃ made, (oc.pollQueueingOperator env).1.calls = oc.calls ++ made ∧
      ∀ c ∈ made, ∃ b ∈ oc.runningQueue, (oc.items b).Removed = false ∧
        c = Call.PostFinish (oc.items b).OP) ∧
    (∀ op, (oc.pollQueueingOperator env).2.1 = some op →
      ∃ b ∈ oc.runningQueue, (oc.items b).Removed = false ∧ op = (oc.items b).OP) ∧
    (∀ b ∈ (oc.pollQueueingOperator env).1.runningQueue,
      ((oc.pollQueueingOperator env).1.items b).Removed = false →
      b ∈ oc.runningQueue ∧ (oc.items b).Removed = false ∧
      ((oc.pollQueueingOperator env).1.items b).OP = (oc.items b).OP) := by
  cases hp : heapPop oc.items oc.runningQueue with
  | none =>
    have hpoll : oc.pollQueueingOperator env = (oc, none, false) := by
      unfold Controller.pollQueueingOperator
      rw [hp]
    rw [hpoll]
    exact ⟨fun _ _ h => h, ⟨[], by simp, fun c hc => (by cases hc)⟩, fun op h => (by cases h),
      fun b hb hl => ⟨hb, hl, rfl⟩⟩
  | some pr =>
    obtain ⟨a, rest⟩ := pr
    obtain ⟨hmem, hrest⟩ := heapPop_spec _ _ _ _ hp
    have hsub : ∀ b, b ∈ rest → b ∈ oc.runningQueue := by
      intro b hb
      rw [hrest] at hb
      exact List.mem_of_mem_erase hb
    have hback : ∀ b, b ∈ rest ++ [a] → b ∈ oc.runningQueue := by
      intro b hb
      rcases List.mem_append.mp hb with h | h
      · exact hsub b h
      · rw [List.mem_singleton] at h
        rw [h]
        exact hmem
    by_cases hrem : (oc.items a).Removed = true
    · have hpoll : oc.pollQueueingOperator env = ({ oc with runningQueue := rest }, none, true) := by
        unfold Controller.pollQueueingOperator
        rw [hp]
        simp only [hrem, if_true]
      rw [hpoll]
      exact ⟨fun _ _ h => h, ⟨[], by simp, fun c hc => (by cases hc)⟩, fun op h => (by cases h),
        fun b hb hl => ⟨hsub b hb, hl, rfl⟩⟩
    · have hlive : (oc.items a).Removed = false := by
        cases hb : (oc.items a).Removed with
        | true => exact absurd hb hrem
        | false => rfl
      by_cases hfin : env.isFinished (oc.items a).OP = true
      · have hpoll : oc.pollQueueingOperator env
            = ({ oc with
                 runningQueue := rest,
                 calls := oc.calls ++ [Call.PostFinish (oc.items a).OP],
                 items := fun x =>
                   if x = a then { oc.items a with Removed := true } else oc.items x,
                 operators := fun id =>
                   if id = (oc.items a).OP.ID then none else oc.operators id },
               none, true) := by
          unfold Controller.pollQueueingOperator
          rw [hp]
          simp only [hrem, hfin, if_false, if_true, Bool.false_eq_true]
        rw [hpoll]
        refine ⟨?_, ⟨[Call.PostFinish (oc.items a).OP], rfl, ?_⟩, fun op h => (by cases h), ?_⟩
        · intro b x hd
          obtain ⟨h1, h2, h3⟩ := hd
          have hba : b ≠ a := by
            intro he
            rw [he, hlive] at h2
            cases h2
          exact ⟨h1, by simpa [hba] using h2, by simpa [hba] using h3⟩
        · intro c hc
          rw [List.mem_singleton] at hc
          exact ⟨a, hmem, hlive, hc⟩
        · intro b hb hl
          have hba : b ≠ a := by
            intro he
            subst he
            simp at hl
          simp only [hba, if_false] at hl
          exact ⟨hsub b hb, hl, by simp [hba]⟩
      · by_cases hready : env.now < (oc.items a).Time
        · have hpoll : oc.pollQueueingOperator env
              = ({ oc with runningQueue := rest ++ [a] }, none, false) := by
            unfold Controller.pollQueueingOperator
            rw [hp]
            simp only [hrem, hfin, hready, if_false, if_true, Bool.false_eq_true]
          rw [hpoll]
          exact ⟨fun _ _ h => h, ⟨[], by simp, fun c hc => (by cases hc)⟩,
            fun op h => (by cases h), fun b hb hl => ⟨hback b hb, hl, rfl⟩⟩
        · have hpoll : oc.pollQueueingOperator env
              = ({ oc with
                   items := fun x =>
                     if x = a then { oc.items a with Time := env.now + halfSecond }
                     else oc.items x,
                   runningQueue := rest ++ [a] },
                 some (oc.items a).OP, true) := by
            unfold Controller.pollQueueingOperator
            rw [hp]
            simp only [hrem, hfin, hready, if_false, Bool.false_eq_true]
          rw [hpoll]
          refine ⟨?_, ⟨[], by simp, fun c hc => (by cases hc)⟩, ?_, ?_⟩
          · intro b x hd
            obtain ⟨h1, h2, h3⟩ := hd
            have hba : b ≠ a := by
              intro he
              rw [he, hlive] at h2
              cases h2
            exact ⟨h1, by simpa [hba] using h2, by simpa [hba] using h3⟩
          · intro op h
            simp only [Option.some.injEq] at h
            exact ⟨a, hmem, hlive, h.symm⟩
          · intro b hb hl
            by_cases hba : b = a
            · subst hba
              exact ⟨hmem, hlive, by simp⟩
            · simp only [hba, if_false] at hl
              exact ⟨hback b hb, hl, by simp [hba]⟩

/-- The loop of `Execute`: a record marked `Removed` stays so, and every call
made is a `SendCommand` or a `Schedule` or `PostFinish` on the operator of a
record that was queued and not marked `Removed` when the loop started. -/
theorem executeLoop_live (env : OpEnv) :
    ∀ (fuel : Nat) (oc : Controller) (executedItem : Int) (oc2 : Controller) (wake : Int),
      Controller.executeLoop env fuel oc executedItem = some (oc2, wake) →
      (∀ a x, oc.Dropped a x → oc2.Dropped a x) ∧
      ∃ made, oc2.calls = oc.calls ++ made ∧
        ∀ c ∈ made, (∃ msg, c = Call.SendCommand msg) ∨
          ∃ b ∈ oc.runningQueue, (oc.items b).Removed = false ∧
            (c = Call.Schedule (oc.items b).OP ∨ c = Call.PostFinish (oc.items b).OP) := by
  intro fuel
  induction fuel with
  | zero => intro oc e oc2 wake h; simp [Controller.executeLoop] at h
  | succ fuel ih =>
    intro oc e oc2 wake h
    obtain ⟨hd, ⟨pm, hpm, hpc⟩, hop, hmono⟩ := pollQueueingOperator_live oc env
    have hpmc : ∀ c ∈ pm, (∃ msg, c = Call.SendCommand msg) ∨
        ∃ b ∈ oc.runningQueue, (oc.items b).Removed = false ∧
          (c = Call.Schedule (oc.items b).OP ∨ c = Call.PostFinish (oc.items b).OP) := by
      intro c hc
      obtain ⟨b, hb, hl, he⟩ := hpc c hc
      exact Or.inr ⟨b, hb, hl, Or.inr he⟩
    unfold Controller.executeLoop at h
    rcases hres : oc.pollQueueingOperator env with ⟨oc1, r, next⟩
    rw [hres] at h hd hpm hop hmono
    simp only at hd hpm hop hmono
    have hlift : ∀ c : Call,
        ((∃ msg, c = Call.SendCommand msg) ∨
          ∃ b ∈ oc1.runningQueue, (oc1.items b).Removed = false ∧
            (c = Call.Schedule (oc1.items b).OP ∨ c = Call.PostFinish (oc1.items b).OP)) →
        ((∃ msg, c = Call.SendCommand msg) ∨
          ∃ b ∈ oc.runningQueue, (oc.items b).Removed = false ∧
            (c = Call.Schedule (oc.items b).OP ∨ c = Call.PostFinish (oc.items b).OP)) := by
      intro c hc
      rcases hc with hc | ⟨b, hb, hl, he⟩
      · exact Or.inl hc
      · obtain ⟨m1, m2, m3⟩ := hmono b hb hl
        rw [m3] at he
        exact Or.inr ⟨b, m1, m2, he⟩
    cases r with
    | none =>
      cases next with
      | false =>
        simp only [Option.some.injEq, Prod.mk.injEq] at h
        rw [← h.1]
        exact ⟨hd, pm, hpm, hpmc⟩
      | true =>
        obtain ⟨id1, made, hcalls, hmade⟩ := ih oc1 e oc2 wake h
        refine ⟨fun a x hx => id1 a x (hd a x hx), pm ++ made, ?_, ?_⟩
        · rw [hcalls, hpm, List.append_assoc]
        · intro c hc
          rcases List.mem_append.mp hc with hc | hc
          · exact hpmc c hc
          · exact hlift c (hmade c hc)
    | some op =>
      cases next with
      | false =>
        simp only [Option.some.injEq, Prod.mk.injEq] at h
        rw [← h.1]
        exact ⟨hd, pm, hpm, hpmc⟩
      | true =>
        simp only at h
        obtain ⟨b0, hb0, hl0, he0⟩ := hop op rfl
        have hstep : ∀ c ∈ [Call.Schedule op] ++
            (match env.schedule op with
              | some msg => [Call.SendCommand msg]
              | none => []),
            (∃ msg, c = Call.SendCommand msg) ∨
              ∃ b ∈ oc.runningQueue, (oc.items b).Removed = false ∧
                (c = Call.Schedule (oc.items b).OP ∨ c = Call.PostFinish (oc.items b).OP) := by
          intro c hc
          rcases List.mem_append.mp hc with hc | hc
          · rw [List.mem_singleton] at hc
            exact Or.inr ⟨b0, hb0, hl0, Or.inl (by rw [hc, he0])⟩
          · cases hsch : env.schedule op with
            | none => rw [hsch] at hc; cases hc
            | some msg =>
              rw [hsch] at hc
              rw [List.mem_singleton] at hc
              exact Or.inl ⟨msg, hc⟩
        split at h
        · simp only [Option.some.injEq, Prod.mk.injEq] at h
          rw [← h.1]
          refine ⟨fun a x hx => hd a x hx, pm ++ ([Call.Schedule op] ++
            (match env.schedule op with
              | some msg => [Call.SendCommand msg]
              | none => [])), ?_, ?_⟩
          · show oc1.calls ++ [Call.Schedule op] ++ _ = _
            rw [hpm]
            simp only [List.append_assoc]
          · intro c hc
            rcases List.mem_append.mp hc with hc | hc
            · exact hpmc c hc
            · exact hstep c hc
        · obtain ⟨id1, made, hcalls, hmade⟩ := ih _ _ oc2 wake h
          refine ⟨fun a x hx => id1 a x (hd a x hx), pm ++ ([Call.Schedule op] ++
            (match env.schedule op with
              | some msg => [Call.SendCommand msg]
              | none => [])) ++ made, ?_, ?_⟩
          · rw [hcalls]
            show oc1.calls ++ [Call.Schedule op] ++ _ ++ made = _
            rw [hpm]
            simp only [List.append_assoc]
          · intro c hc
            rcases List.mem_append.mp hc with hc | hc
            · rcases List.mem_append.mp hc with hc | hc
              · exact hpmc c hc
              · exact hstep c hc
            · exact hlift c (hmade c hc)

/-- A record marked `Removed` stays so in every later state of the controller. -/
theorem ReachableFrom_dropped (start oc : Controller) (a : Nat) (x : Operator)
    (h : Controller.ReachableFrom start oc) (hd : start.Dropped a x) : oc.Dropped a x := by
  induction h with
  | refl => exact hd
  | addOperator env db op _ ih =>
    rename_i oc0 _
    unfold Controller.AddOperator
    cases ho : oc0.operators op.ID with
    | some b => exact ih
    | none =>
      cases hdb : db.GetTaskByID op.ID with
      | none => exact ih
      | some span => exact pushOperator_dropped oc0 env op a x ih
  | removeAllTasks env db _ ih => exact removeTasks_dropped env a x _ _ ih
  | removeTasksBySchemaID env db schemaID _ ih => exact removeTasks_dropped env a x _ _ ih
  | removeTasksByTableIDs env db tables _ ih => exact removeTasks_dropped env a x _ _ ih
  | addMergeSplitOperator env db group splitSpans ok _ hres ih =>
    exact AddMergeSplitOperator_dropped _ _ env db group splitSpans ok a x ih hres
  | execute env wake _ hres ih =>
    exact (executeLoop_live env _ _ _ _ wake hres).1 a x ih

/-- C23: `RemoveAllTasks`, `RemoveTasksBySchemaID` and `RemoveTasksByTableIDs`
run the same loop over the replicas the `ReplicationDB` returns. On a
consistent controller and pairwise distinct replicas, for every returned
replica `r`: afterwards the operators map holds, under `r.ID`, a record
allocated by this call with a new Remove operator for `r`; an operator that was
registered under `r.ID` has received `OnTaskRemoved` and then `PostFinish`, each
exactly once, and its queue record is marked `Removed`; in every later state of
the controller the record is still marked `Removed`, and every `Schedule` or
`PostFinish` call that `Execute` makes there is made on the operator of a queue
record that is not marked `Removed`, hence of another record. -/
theorem removeTasks_replaces (oc : Controller) (env : OpEnv) (db : ReplicationDB)
    (replicaSets : List SpanReplication) (r : SpanReplication)
    (hc : oc.Consistent) (hnd : (replicaSets.map (fun x => x.ID)).Nodup)
    (hr : r ∈ replicaSets) :
    (oc.RemoveAllTasks env db = oc.removeTasks env db.TryRemoveAll ∧
      (∀ schemaID, oc.RemoveTasksBySchemaID env db schemaID
        = oc.removeTasks env (db.TryRemoveBySchemaID schemaID)) ∧
      (∀ tables, oc.RemoveTasksByTableIDs env db tables
        = oc.removeTasks env (db.TryRemoveByTableIDs tables))) ∧
    (∃ a, oc.nextItem ≤ a ∧ (oc.removeTasks env replicaSets).operators r.ID = some a ∧
      (oc.removeTasks env replicaSets).items a
        = NewOperatorWithTime (NewRemoveDispatcherOperator r) env.now) ∧
    (∀ old, oc.operators r.ID = some old →
      ((oc.removeTasks env replicaSets).items old).Removed = true ∧
      (∃ pre post,
        (oc.removeTasks env replicaSets).calls
          = oc.calls ++ (pre ++ [Call.OnTaskRemoved (oc.items old).OP,
              Call.PostFinish (oc.items old).OP] ++ post) ∧
        (pre ++ [Call.OnTaskRemoved (oc.items old).OP, Call.PostFinish (oc.items old).OP]
          ++ post).count (Call.OnTaskRemoved (oc.items old).OP) = 1 ∧
        (pre ++ [Call.OnTaskRemoved (oc.items old).OP, Call.PostFinish (oc.items old).OP]
          ++ post).count (Call.PostFinish (oc.items old).OP) = 1) ∧
      (∀ oc3, Controller.ReachableFrom (oc.removeTasks env replicaSets) oc3 →
        (oc3.items old).Removed = true ∧ (oc3.items old).OP = (oc.items old).OP ∧
        ∀ env3 oc4 wake, oc3.Execute env3 = some (oc4, wake) →
          (oc4.items old).Removed = true ∧
          ∃ made, oc4.calls = oc3.calls ++ made ∧
            ∀ c ∈ made, (∃ msg, c = Call.SendCommand msg) ∨
              ∃ b ∈ oc3.runningQueue, b ≠ old ∧ (oc3.items b).Removed = false ∧
                (c = Call.Schedule (oc3.items b).OP ∨
                  c = Call.PostFinish (oc3.items b).OP))) := by
  obtain ⟨hnew, hold⟩ := removeTasks_spec env replicaSets oc hc hnd r hr
  refine ⟨⟨rfl, fun _ => rfl, fun _ => rfl⟩, hnew, ?_⟩
  intro old ho
  obtain ⟨h1, h2, h3, pre, post, hcalls, c1, c2, c3, c4⟩ := hold old ho
  have hdrop : (oc.removeTasks env replicaSets).Dropped old (oc.items old).OP := ⟨h3, h1, h2⟩
  refine ⟨h1, ⟨pre, post, hcalls, ?_, ?_⟩, ?_⟩
  · rw [List.count_append, List.count_append, c1, c3]
    simp
  · rw [List.count_append, List.count_append, c2, c4]
    simp
  · intro oc3 hreach
    obtain ⟨d1, d2, d3⟩ := ReachableFrom_dropped _ oc3 old _ hreach hdrop
    refine ⟨d2, d3, ?_⟩
    intro env3 oc4 wake hexec
    obtain ⟨hkeep, made, hmade, hlive⟩ := executeLoop_live env3 _ _ _ _ wake hexec
    refine ⟨(hkeep old _ ⟨d1, d2, d3⟩).2.1, made, hmade, ?_⟩
    intro c hcm
    rcases hlive c hcm with hsend | ⟨b, hb, hl, he⟩
    · exact Or.inl hsend
    · refine Or.inr ⟨b, hb, ?_, hl, he⟩
      intro hbo
      rw [hbo, d2] at hl
      cases hl

/-- C23 at a concrete input: the controller holds the operator `addSeven` for
replica 7; after the removal of the replicas 7 and 8 its record is marked
`Removed` and replica 7 has a Remove operator. -/
theorem removeTasks_replaces_witness :
    (((((NewOperatorController 1).AddOperator idleOpEnv twoReplicaDB addSeven).1.removeTasks
        idleOpEnv twoReplicaDB.TryRemoveAll).items 0).Removed = true) ∧
    ∃ a, (((NewOperatorController 1).AddOperator idleOpEnv twoReplicaDB addSeven).1.removeTasks
        idleOpEnv twoReplicaDB.TryRemoveAll).operators 7 = some a ∧
      ((((NewOperatorController 1).AddOperator idleOpEnv twoReplicaDB addSeven).1.removeTasks
        idleOpEnv twoReplicaDB.TryRemoveAll).items a).OP.body = OperatorBody.Remove := by
  have h := removeTasks_replaces
    ((NewOperatorController 1).AddOperator idleOpEnv twoReplicaDB addSeven).1 idleOpEnv
    twoReplicaDB twoReplicaDB.TryRemoveAll { ID := 7, nodeID := 1 }
    (Reachable_consistent _
      (Controller.Reachable.addOperator idleOpEnv twoReplicaDB addSeven
        (Controller.Reachable.init 1)))
    (by decide) (by simp [twoReplicaDB])
  obtain ⟨_, ⟨a, _, ha2, ha3⟩, hold⟩ := h
  exact ⟨(hold 0 rfl).1, a, ha2, by rw [ha3]; rfl⟩

/-! ## Dispatcher: block events -/

/-- C25, at the failing input: the dispatcher waits with a DDL event of commit
timestamp 10, which is not a sync point; an action `Write` for the key
`(10, is_syncpoint = true)` makes it write the pending DDL event to the sink,
because only the commit timestamps and the stage are compared. -/
theorem HandleDispatcherStatus_ignores_syncpoint_flag :
    ∃ pendingEvent,
      waitingDispatcher.blockPendingEvent = some pendingEvent ∧
      waitingDispatcher.blockStage = BlockStage.WAITING ∧
      pendingEvent.typ = BlockEventType.TypeDDLEvent ∧
      pendingEvent.CommitTs = 10 ∧
      (waitingDispatcher.HandleDispatcherStatus none
        { Ack := none,
          Action := some { Action := Action.Write, CommitTs := 10, IsSyncPoint := true } }).sinkCalls
        = [SinkCall.WriteBlockEvent pendingEvent] ∧
      (waitingDispatcher.HandleDispatcherStatus none
        { Ack := none,
          Action := some { Action := Action.Pass, CommitTs := 10, IsSyncPoint := true } }).sinkCalls
        = [SinkCall.PassBlockEvent pendingEvent] :=
  ⟨_, rfl, rfl, rfl, rfl, rfl, rfl⟩

/-- C26: `shouldBlock` is true exactly for a sync point and for a DDL whose
`BlockedTables` is not nil and has the influence type DB or All, or the type
Normal with more than one table ID or on a span that is not the complete range
of the table. A DDL with nil `BlockedTables`, and a Normal DDL that names at
most one table on a complete span, do not block; and for an event that does not
block `dealWithBlockEvent` calls `WriteBlockEvent` on the sink at once and
leaves the pending block event and its stage as they are. -/
theorem shouldBlock_iff (d : Dispatcher) (spanz : Spanz) (event : BlockEvent) :
    (d.shouldBlock spanz event = true ↔
      (event.typ = BlockEventType.TypeSyncPointEvent ∨
        (event.typ = BlockEventType.TypeDDLEvent ∧
          ∃ blockedTables, event.BlockedTables = some blockedTables ∧
            (blockedTables.InfluenceType = InfluenceType.DB ∨
             blockedTables.InfluenceType = InfluenceType.All ∨
             (blockedTables.InfluenceType = InfluenceType.Normal ∧
               (1 < blockedTables.TableIDs.length ∨
                 isCompleteSpan spanz d.tableSpan = false)))))) ∧
    (event.typ = BlockEventType.TypeDDLEvent → event.BlockedTables = none →
      d.shouldBlock spanz event = false) ∧
    (event.typ = BlockEventType.TypeDDLEvent →
      ∀ blockedTables, event.BlockedTables = some blockedTables →
        blockedTables.InfluenceType = InfluenceType.Normal →
        blockedTables.TableIDs.length ≤ 1 → isCompleteSpan spanz d.tableSpan = true →
        d.shouldBlock spanz event = false) ∧
    (d.shouldBlock spanz event = false → ∀ writeErr,
      (d.dealWithBlockEvent spanz writeErr event).sinkCalls
        = d.sinkCalls ++ [SinkCall.WriteBlockEvent event] ∧
      (d.dealWithBlockEvent spanz writeErr event).blockPendingEvent = d.blockPendingEvent ∧
      (d.dealWithBlockEvent spanz writeErr event).blockStage = d.blockStage) := by
  have hfinish : ∀ (changes : List SchemaIDChange) (x : Dispatcher),
      (x.updateSchemaID changes).sinkCalls = x.sinkCalls ∧
      (x.updateSchemaID changes).blockPendingEvent = x.blockPendingEvent ∧
      (x.updateSchemaID changes).blockStage = x.blockStage := by
    intro changes
    induction changes with
    | nil => intro x; exact ⟨rfl, rfl, rfl⟩
    | cons c rest ih =>
      intro x
      unfold Dispatcher.updateSchemaID
      split
      · split
        · exact ⟨rfl, rfl, rfl⟩
        · exact ⟨rfl, rfl, rfl⟩
      · exact ih x
  refine ⟨?_, ?_, ?_, ?_⟩
  · unfold Dispatcher.shouldBlock
    cases htyp : event.typ with
    | TypeSyncPointEvent => simp
    | Other => simp
    | TypeDDLEvent =>
      cases hbt : event.BlockedTables with
      | none => simp
      | some blockedTables =>
        cases hinf : blockedTables.InfluenceType with
        | DB => simp [hinf]
        | All => simp [hinf]
        | Normal =>
          by_cases hlen : blockedTables.TableIDs.length > 1
          · simp [hinf, hlen]
          · cases hspan : isCompleteSpan spanz d.tableSpan with
            | true => simp [hinf, hlen]
            | false => simp [hinf, hlen]
  · intro htyp hbt
    simp [Dispatcher.shouldBlock, htyp, hbt]
  · intro htyp blockedTables hbt hinf hlen hspan
    have hlen2 : ¬ blockedTables.TableIDs.length > 1 := by omega
    simp [Dispatcher.shouldBlock, htyp, hbt, hinf, hlen2, hspan]
  · intro hno writeErr
    unfold Dispatcher.dealWithBlockEvent
    simp only [hno, Bool.not_false, if_true]
    cases writeErr with
    | some err => exact ⟨rfl, rfl, rfl⟩
    | none =>
      simp only
      cases hup : event.UpdatedSchemas with
      | none =>
        simp only
        split
        · exact ⟨rfl, rfl, rfl⟩
        · exact ⟨rfl, rfl, rfl⟩
      | some changes =>
        simp only
        split
        · split
          · exact hfinish changes _
          · exact ⟨rfl, rfl, rfl⟩
        · split
          · exact hfinish changes _
          · exact ⟨rfl, rfl, rfl⟩

/-! ## Maintainer: removal -/

/-- C27: `onRemoveMaintainer cascade` sets `removing` and stores `cascade` in
`cascadeRemoving`. Without cascade it sends nothing and the maintainer is
`Stopped` and `removed`. With cascade it sends one `MaintainerCloseRequest` to
each alive node that is not in `nodesClosed` and to no other; the maintainer is
`Stopped` and `removed` when there is no such node, and keeps its state and
`removed` flag when there is one, so that a maintainer that was not `Stopped`
becomes `Stopped` and `removed` iff there is no such node. `onNodeClosed` puts
the sender of a successful close response into `nodesClosed`. -/
theorem onRemoveMaintainer_spec (m : Maintainer) (env : Env) (cascade : Bool) :
    (m.onRemoveMaintainer env cascade).removing = true ∧
    (m.onRemoveMaintainer env cascade).cascadeRemoving = cascade ∧
    (cascade = false →
      (m.onRemoveMaintainer env cascade).state = ComponentState.Stopped ∧
      (m.onRemoveMaintainer env cascade).removed = true ∧
      (m.onRemoveMaintainer env cascade).sent = m.sent) ∧
    (cascade = true →
      (m.onRemoveMaintainer env cascade).sent
        = m.sent ++ (env.aliveNodes.filter (fun n => !m.nodesClosed n)).map
            OutMsg.MaintainerCloseRequest ∧
      ((∀ n ∈ env.aliveNodes, m.nodesClosed n = true) →
        (m.onRemoveMaintainer env cascade).state = ComponentState.Stopped ∧
        (m.onRemoveMaintainer env cascade).removed = true) ∧
      ((∃ n ∈ env.aliveNodes, m.nodesClosed n = false) →
        (m.onRemoveMaintainer env cascade).state = m.state ∧
        (m.onRemoveMaintainer env cascade).removed = m.removed) ∧
      (m.state ≠ ComponentState.Stopped →
        (((m.onRemoveMaintainer env cascade).state = ComponentState.Stopped ∧
          (m.onRemoveMaintainer env cascade).removed = true) ↔
          ∀ n ∈ env.aliveNodes, m.nodesClosed n = true))) ∧
    (∀ sender success n,
      (m.onNodeClosed env sender success).nodesClosed n
        = ((success && decide (n = sender)) || m.nodesClosed n)) := by
  have hmsgs : ((env.aliveNodes.filter (fun n => !m.nodesClosed n)).map
      OutMsg.MaintainerCloseRequest).length = 0 ↔ ∀ n ∈ env.aliveNodes, m.nodesClosed n = true := by
    rw [List.length_map, List.length_eq_zero, List.filter_eq_nil_iff]
    simp
  have hdesc : m.onRemoveMaintainer env cascade
      = (if cascade = false ∨
            ((env.aliveNodes.filter (fun n => !m.nodesClosed n)).map
              OutMsg.MaintainerCloseRequest).length = 0 then
          { m with
            removing := true, cascadeRemoving := cascade,
            statusChanged := if m.state ≠ ComponentState.Stopped then true else m.statusChanged,
            sent := if cascade then
                m.sent ++ (env.aliveNodes.filter (fun n => !m.nodesClosed n)).map
                  OutMsg.MaintainerCloseRequest
              else m.sent,
            removed := true, state := ComponentState.Stopped,
            gaugeDecrements := m.gaugeDecrements + 1 }
        else
          { m with
            removing := true, cascadeRemoving := cascade,
            statusChanged := if m.state ≠ ComponentState.Stopped then true else m.statusChanged,
            sent := m.sent ++ (env.aliveNodes.filter (fun n => !m.nodesClosed n)).map
                  OutMsg.MaintainerCloseRequest }) := by
    unfold Maintainer.onRemoveMaintainer Maintainer.tryCloseChangefeed
      Maintainer.sendMaintainerCloseRequestToAllNode Maintainer.sendMessages
    by_cases hs : m.state = ComponentState.Stopped
    · cases cascade with
      | false => simp [hs]
      | true =>
        by_cases h0 : ((env.aliveNodes.filter (fun n => !m.nodesClosed n)).map
            OutMsg.MaintainerCloseRequest).length = 0
        · simp only [List.length_map] at h0
          simp [hs, h0]
        · simp only [List.length_map] at h0
          simp [hs, h0]
    · cases cascade with
      | false => simp [hs]
      | true =>
        by_cases h0 : ((env.aliveNodes.filter (fun n => !m.nodesClosed n)).map
            OutMsg.MaintainerCloseRequest).length = 0
        · simp only [List.length_map] at h0
          simp [hs, h0]
        · simp only [List.length_map] at h0
          simp [hs, h0]
  refine ⟨?_, ?_, ?_, ?_, ?_⟩
  · rw [hdesc]; split <;> rfl
  · rw [hdesc]; split <;> rfl
  · intro hcas
    rw [hdesc]
    simp [hcas]
  · intro hcas
    subst hcas
    have hclosedAll : (∀ n ∈ env.aliveNodes, m.nodesClosed n = true) →
        (m.onRemoveMaintainer env true).state = ComponentState.Stopped ∧
        (m.onRemoveMaintainer env true).removed = true := by
      intro hall
      rw [hdesc, if_pos (Or.inr (hmsgs.mpr hall))]
      exact ⟨rfl, rfl⟩
    have hopen : (∃ n ∈ env.aliveNodes, m.nodesClosed n = false) →
        (m.onRemoveMaintainer env true).state = m.state ∧
        (m.onRemoveMaintainer env true).removed = m.removed := by
      rintro ⟨n, hn, hc⟩
      have h0 : ¬ (true = false ∨
          ((env.aliveNodes.filter (fun n => !m.nodesClosed n)).map
            OutMsg.MaintainerCloseRequest).length = 0) := by
        rintro (h | h)
        · cases h
        · have := hmsgs.mp h n hn
          rw [hc] at this
          cases this
      rw [hdesc, if_neg h0]
      exact ⟨rfl, rfl⟩
    refine ⟨?_, hclosedAll, hopen, ?_⟩
    · rw [hdesc]
      split <;> rfl
    · intro hstate
      constructor
      · intro hstop
        by_contra hnot
        have hex : ∃ n ∈ env.aliveNodes, m.nodesClosed n = false := by
          by_contra hno
          apply hnot
          intro n hn
          cases hc : m.nodesClosed n with
          | true => rfl
          | false => exact absurd ⟨n, hn, hc⟩ hno
        rw [(hopen hex).1] at hstop
        exact hstate hstop.1
      · exact hclosedAll
  · intro sender success n
    unfold Maintainer.onNodeClosed
    dsimp only
    have hnc : ∀ x : Maintainer, (x.onRemoveMaintainer env x.cascadeRemoving).nodesClosed
        = x.nodesClosed := by
      intro x
      unfold Maintainer.onRemoveMaintainer Maintainer.tryCloseChangefeed
        Maintainer.sendMaintainerCloseRequestToAllNode Maintainer.sendMessages
      dsimp only
      repeat' split
      all_goals rfl
    rw [hnc]
    cases success with
    | true =>
      by_cases hn : n = sender
      · simp [hn]
      · simp [hn]
    | false => simp

/-! ## Maintainer: a stopped maintainer ignores its events -/

/-- `onRemoveMaintainer` either leaves the state and the gauge alone or stops the
maintainer with one decrement of the gauge. -/
theorem onRemoveMaintainer_gauge (m : Maintainer) (env : Env) (cascade : Bool) :
    ((m.onRemoveMaintainer env cascade).gaugeDecrements = m.gaugeDecrements ∧
      (m.onRemoveMaintainer env cascade).state = m.state) ∨
    ((m.onRemoveMaintainer env cascade).gaugeDecrements = m.gaugeDecrements + 1 ∧
      (m.onRemoveMaintainer env cascade).state = ComponentState.Stopped) := by
  unfold Maintainer.onRemoveMaintainer Maintainer.tryCloseChangefeed
    Maintainer.sendMaintainerCloseRequestToAllNode Maintainer.sendMessages
  dsimp only
  repeat' split
  all_goals first | exact Or.inl ⟨rfl, rfl⟩ | exact Or.inr ⟨rfl, rfl⟩

theorem onHeartBeatRequest_gauge (m : Maintainer) (sender : NodeID) (req : HeartBeatRequest)
    (m2 : Maintainer) (h : m.onHeartBeatRequest sender req = Except.ok m2) :
    m2.gaugeDecrements = m.gaugeDecrements ∧ m2.state = m.state := by
  unfold Maintainer.onHeartBeatRequest at h
  rcases req with ⟨wm, st, warning, err⟩
  cases wm <;> cases warning <;> cases err <;> cases hl : m.errLock <;>
    simp [Maintainer.lockErr, Maintainer.unlockErr, hl] at h <;>
    (subst h; exact ⟨rfl, rfl⟩)

theorem onMessage_gauge (m : Maintainer) (env : Env) (msg : TargetMessage)
    (m2 : Maintainer) (h : m.onMessage env msg = Except.ok m2) :
    (m2.gaugeDecrements = m.gaugeDecrements ∧ m2.state = m.state) ∨
    (m2.gaugeDecrements = m.gaugeDecrements + 1 ∧ m2.state = ComponentState.Stopped) := by
  unfold Maintainer.onMessage at h
  split at h
  · exact Or.inl (onHeartBeatRequest_gauge m _ _ m2 h)
  · cases h; exact Or.inl ⟨rfl, rfl⟩
  · cases h; exact Or.inl ⟨rfl, rfl⟩
  · cases h
    unfold Maintainer.onNodeClosed
    dsimp only
    split
    · exact onRemoveMaintainer_gauge _ env _
    · exact onRemoveMaintainer_gauge _ env _
  · cases h; exact onRemoveMaintainer_gauge m env _
  · cases h
    unfold Maintainer.onCheckpointTsPersisted
    split <;> exact Or.inl ⟨rfl, rfl⟩
  · cases h

theorem onPeriodTask_gauge (m : Maintainer) (env : Env) :
    (m.onPeriodTask env).gaugeDecrements = m.gaugeDecrements ∧
    (m.onPeriodTask env).state = m.state := by
  unfold Maintainer.onPeriodTask Maintainer.calCheckpointTs Maintainer.collectMetrics
    Maintainer.handleResendMessage Maintainer.sendMaintainerCloseRequestToAllNode
    Maintainer.sendMessages
  dsimp only
  repeat' split
  all_goals exact ⟨rfl, rfl⟩

/-- One event: the gauge and the state stay, or the maintainer stops with one
decrement of the gauge. -/
theorem HandleEvent_gauge (m : Maintainer) (env : Env) (event : Event)
    (m2 : Maintainer) (r : Bool) (h : m.HandleEvent env event = Except.ok (m2, r)) :
    (m2.gaugeDecrements = m.gaugeDecrements ∧ m2.state = m.state) ∨
    (m2.gaugeDecrements = m.gaugeDecrements + 1 ∧ m2.state = ComponentState.Stopped) := by
  unfold Maintainer.HandleEvent at h
  by_cases hs : m.state = ComponentState.Stopped
  · simp only [hs, if_true] at h
    cases h
    exact Or.inl ⟨rfl, rfl⟩
  · simp only [hs, if_false] at h
    have hn : (if m.nodeChanged then { m.onNodeChanged env with nodeChanged := false }
        else m).gaugeDecrements = m.gaugeDecrements ∧
        (if m.nodeChanged then { m.onNodeChanged env with nodeChanged := false }
        else m).state = m.state := by
      split <;> exact ⟨rfl, rfl⟩
    generalize (if m.nodeChanged then { m.onNodeChanged env with nodeChanged := false }
      else m) = m1 at h hn
    cases event with
    | EventInit =>
      simp only at h
      cases h
      exact Or.inl hn
    | EventMessage message =>
      simp only at h
      cases hm : m1.onMessage env message with
      | error e => rw [hm] at h; cases h
      | ok m3 =>
        rw [hm] at h
        cases h
        rcases onMessage_gauge m1 env message m2 hm with ⟨g, s⟩ | ⟨g, s⟩
        · exact Or.inl ⟨g.trans hn.1, s.trans hn.2⟩
        · exact Or.inr ⟨by rw [g, hn.1], s⟩
    | EventPeriod =>
      simp only at h
      cases h
      obtain ⟨g, s⟩ := onPeriodTask_gauge m1 env
      exact Or.inl ⟨g.trans hn.1, s.trans hn.2⟩

/-- A stopped maintainer is left as it is by every sequence of events. -/
theorem handleEvents_stopped :
    ∀ (events : List (Env × Event)) (m : Maintainer), m.state = ComponentState.Stopped →
      m.handleEvents events = Except.ok m := by
  intro events
  induction events with
  | nil => intro m _; rfl
  | cons x rest ih =>
    intro m hs
    obtain ⟨env, event⟩ := x
    have h1 : m.HandleEvent env event = Except.ok (m, false) := by
      unfold Maintainer.HandleEvent
      simp only [hs, if_true]
    unfold Maintainer.handleEvents
    rw [h1]
    exact ih m hs

/-- Over a sequence of events the gauge is decremented at most once, and only
by the event that stops the maintainer. -/
theorem handleEvents_gauge :
    ∀ (events : List (Env × Event)) (m q : Maintainer),
      m.handleEvents events = Except.ok q →
      (q.gaugeDecrements = m.gaugeDecrements ∧ q.state = m.state) ∨
      (q.gaugeDecrements = m.gaugeDecrements + 1 ∧ q.state = ComponentState.Stopped) := by
  intro events
  induction events with
  | nil =>
    intro m q h
    simp only [Maintainer.handleEvents, Except.ok.injEq] at h
    subst h
    exact Or.inl ⟨rfl, rfl⟩
  | cons x rest ih =>
    intro m q h
    obtain ⟨env, event⟩ := x
    unfold Maintainer.handleEvents at h
    cases h1 : m.HandleEvent env event with
    | error e => rw [h1] at h; cases h
    | ok r =>
      obtain ⟨m1, b⟩ := r
      rw [h1] at h
      simp only at h
      rcases HandleEvent_gauge m env event m1 b h1 with ⟨g, s⟩ | ⟨g, s⟩
      · rcases ih m1 q h with ⟨g2, s2⟩ | ⟨g2, s2⟩
        · exact Or.inl ⟨g2.trans g, s2.trans s⟩
        · exact Or.inr ⟨by rw [g2, g], s2⟩
      · rw [handleEvents_stopped rest m1 s] at h
        simp only [Except.ok.injEq] at h
        subst h
        exact Or.inr ⟨g, s⟩

/-- C28: once the state is `Stopped`, `HandleEvent` returns false and leaves
every field of the maintainer as it is (a pending node change is not processed,
no message is sent), for every event, and so does every sequence of events.
Over any sequence of events handed to `HandleEvent`, the maintainer gauge is
decremented at most once, and a decrement comes with the state `Stopped`. -/
theorem stopped_is_final (m : Maintainer) (events : List (Env × Event)) :
    (m.state = ComponentState.Stopped →
      (∀ env event, m.HandleEvent env event = Except.ok (m, false)) ∧
      m.handleEvents events = Except.ok m) ∧
    (∀ q, m.handleEvents events = Except.ok q →
      q.gaugeDecrements ≤ m.gaugeDecrements + 1 ∧
      m.gaugeDecrements ≤ q.gaugeDecrements ∧
      (m.gaugeDecrements < q.gaugeDecrements → q.state = ComponentState.Stopped) ∧
      (q.state ≠ ComponentState.Stopped → m.state ≠ ComponentState.Stopped)) := by
  constructor
  · intro hs
    refine ⟨?_, handleEvents_stopped events m hs⟩
    intro env event
    unfold Maintainer.HandleEvent
    simp only [hs, if_true]
  · intro q h
    rcases handleEvents_gauge events m q h with ⟨g, s⟩ | ⟨g, s⟩
    · refine ⟨by omega, by omega, fun hlt => by omega, fun hq hm => hq (s.trans hm)⟩
    · exact ⟨by omega, by omega, fun _ => s, fun hq _ => hq s⟩


/-! ## The generated codec: round trip -/

/-- A lawful library reads the map header `0x86` as six entries. -/
theorem Lawful_readMapHeader6 (lib : Msgp) (hlib : lib.Lawful) (rest : Bytes) :
    lib.ReadMapHeaderBytes (0x86 :: rest) = Except.ok (6, rest) :=
  hlib.readMapHeader 6 rest (by decide)

/-- A lawful library reads a short ASCII map key back. -/
theorem Lawful_readMapKey (lib : Msgp) (hlib : lib.Lawful) (s : String)
    (hs : (ascii s).length < 32) (hb : ∀ x ∈ ascii s, x < 256) (rest : Bytes) :
    lib.ReadMapKeyZC (mapKey s ++ rest) = Except.ok (ascii s, rest) := by
  have h := hlib.readMapKey (ascii s) rest hs hb
  have hl : (ascii s).length = s.length := by simp [ascii]
  rw [hl] at h
  exact h

/-- The bytes `(*Column).MarshalMsg` appends, and `(*Column).UnmarshalMsg`
reading them back into any receiver. -/
theorem Column_roundtrip (lib : Msgp) (hlib : lib.Lawful) (z : Column) (hz : z.Fits lib) :
    ∃ tl : Bytes,
      (∀ b, z.MarshalMsg lib b = Except.ok (b ++ 0x86 :: tl)) ∧
      (∀ prior rest, Column.UnmarshalMsg lib prior (0x86 :: tl ++ rest) = Except.ok (z, rest)) := by
  obtain ⟨hName, hTyp, hCharset, hCollation, hFlag, vb, hv, hvr⟩ := hz
  obtain ⟨fb, hf, hfr⟩ := hlib.flag z.Flag hFlag
  refine ⟨mapKey "name" ++ (lib.encString z.Name ++ (mapKey "type" ++ (lib.encByte z.Typ ++
    (mapKey "charset" ++ (lib.encString z.Charset ++ (mapKey "collation" ++
    (lib.encString z.Collation ++ (mapKey "flag" ++ (fb ++ (mapKey "column" ++ vb)))))))))),
    ?_, ?_⟩
  · intro b
    unfold Column.MarshalMsg
    simp only [hlib.require, hlib.appendString, hlib.appendByte]
    rw [hlib.flagMarshal _ _ _ hf]
    simp only []
    rw [hlib.appendIntf _ _ _ hv]
    have k1 : mapKey "name" = [0xa4, 0x6e, 0x61, 0x6d, 0x65] := rfl
    have k2 : mapKey "type" = [0xa4, 0x74, 0x79, 0x70, 0x65] := rfl
    have k3 : mapKey "charset" = [0xa7, 0x63, 0x68, 0x61, 0x72, 0x73, 0x65, 0x74] := rfl
    have k4 : mapKey "collation" = [0xa9, 0x63, 0x6f, 0x6c, 0x6c, 0x61, 0x74, 0x69, 0x6f, 0x6e] :=
      rfl
    have k5 : mapKey "flag" = [0xa4, 0x66, 0x6c, 0x61, 0x67] := rfl
    have k6 : mapKey "column" = [0xa6, 0x63, 0x6f, 0x6c, 0x75, 0x6d, 0x6e] := rfl
    rw [k1, k2, k3, k4, k5, k6]
    simp only [List.append_assoc, List.cons_append, List.nil_append]
  · intro prior rest
    unfold Column.UnmarshalMsg
    simp only [List.cons_append, List.append_assoc]
    rw [Lawful_readMapHeader6 lib hlib]
    simp only [Column.unmarshalFields]
    rw [Lawful_readMapKey lib hlib "name" (by decide) (by decide)]
    simp only [Column.unmarshalField, if_pos, hlib.readString _ _ hName]
    rw [Lawful_readMapKey lib hlib "type" (by decide) (by decide)]
    simp only [if_neg (show ¬ ascii "type" = ascii "name" by decide), if_pos,
      hlib.readByte _ _ hTyp]
    rw [Lawful_readMapKey lib hlib "charset" (by decide) (by decide)]
    simp only [if_neg (show ¬ ascii "charset" = ascii "name" by decide),
      if_neg (show ¬ ascii "charset" = ascii "type" by decide), if_pos,
      hlib.readString _ _ hCharset]
    rw [Lawful_readMapKey lib hlib "collation" (by decide) (by decide)]
    simp only [if_neg (show ¬ ascii "collation" = ascii "name" by decide),
      if_neg (show ¬ ascii "collation" = ascii "type" by decide),
      if_neg (show ¬ ascii "collation" = ascii "charset" by decide), if_pos,
      hlib.readString _ _ hCollation]
    rw [Lawful_readMapKey lib hlib "flag" (by decide) (by decide)]
    simp only [if_neg (show ¬ ascii "flag" = ascii "name" by decide),
      if_neg (show ¬ ascii "flag" = ascii "type" by decide),
      if_neg (show ¬ ascii "flag" = ascii "charset" by decide),
      if_neg (show ¬ ascii "flag" = ascii "collation" by decide), if_pos, hfr]
    rw [Lawful_readMapKey lib hlib "column" (by decide) (by decide)]
    simp only [if_neg (show ¬ ascii "column" = ascii "name" by decide),
      if_neg (show ¬ ascii "column" = ascii "type" by decide),
      if_neg (show ¬ ascii "column" = ascii "charset" by decide),
      if_neg (show ¬ ascii "column" = ascii "collation" by decide),
      if_neg (show ¬ ascii "column" = ascii "flag" by decide), if_pos, hvr]

/-- The slice `resliceOrMake` returns has the length asked for. -/
theorem resliceOrMake_length {α : Type} (xs : List (Option α)) (n : Nat) :
    (resliceOrMake xs n).length = n := by
  unfold resliceOrMake
  split
  · rename_i h
    simp only [List.length_take]
    omega
  · simp

/-- The bytes the column loop of `MarshalMsg` appends, and the column loop of
`UnmarshalMsg` reading them back over a slice of the same length. -/
theorem columns_roundtrip (lib : Msgp) (hlib : lib.Lawful) (fieldM fieldU : String) :
    ∀ cs : List (Option Column), (∀ c, some c ∈ cs → c.Fits lib) →
      ∃ bytes : Bytes,
        (∀ za o, marshalColumns lib fieldM za cs o = Except.ok (o ++ bytes)) ∧
        (∀ za (prior : List (Option Column)) rest, prior.length = cs.length →
          unmarshalColumns lib fieldU za prior (bytes ++ rest) = Except.ok (cs, rest)) := by
  intro cs
  induction cs with
  | nil =>
    intro _
    refine ⟨[], ?_, ?_⟩
    · intro za o
      simp [marshalColumns]
    · intro za prior rest hp
      have hnil : prior = [] := List.length_eq_zero.mp hp
      subst hnil
      simp [unmarshalColumns]
  | cons c cs ih =>
    intro hfit
    obtain ⟨bytes, hm, hu⟩ := ih (fun c hc => hfit c (List.mem_cons_of_mem _ hc))
    cases c with
    | none =>
      refine ⟨lib.encNil ++ bytes, ?_, ?_⟩
      · intro za o
        simp only [marshalColumns, hlib.appendNil, hm, List.append_assoc]
      · intro za prior rest hp
        cases prior with
        | nil => simp at hp
        | cons p ps =>
          have hps : ps.length = cs.length := by simpa using hp
          simp only [unmarshalColumns, List.append_assoc, hlib.isNil, hlib.readNil, if_true,
            hu _ ps rest hps]
    | some c =>
      obtain ⟨tl, hcm, hcu⟩ := Column_roundtrip lib hlib c (hfit c (List.mem_cons_self _ _))
      refine ⟨(0x86 :: tl) ++ bytes, ?_, ?_⟩
      · intro za o
        simp only [marshalColumns, hcm, hm, List.append_assoc]
      · intro za prior rest hp
        cases prior with
        | nil => simp at hp
        | cons p ps =>
          have hps : ps.length = cs.length := by simpa using hp
          have hnn : lib.IsNil (0x86 :: (tl ++ (bytes ++ rest))) = false :=
            hlib.isNil_map 6 _ (by decide)
          have hcu2 : ∀ target, Column.UnmarshalMsg lib target
              (0x86 :: (tl ++ (bytes ++ rest))) = Except.ok (c, bytes ++ rest) := by
            intro target
            have h := hcu target (bytes ++ rest)
            simpa only [List.cons_append, List.append_assoc] using h
          simp only [unmarshalColumns, List.append_assoc, List.cons_append, hnn,
            Bool.false_eq_true, if_false, hcu2, hu _ ps rest hps]

/-- The bytes `(*RowChangedEvent).MarshalMsg` appends, and
`(*RowChangedEvent).UnmarshalMsg` reading them back into any receiver. -/
theorem RowChangedEvent_roundtrip (lib : Msgp) (hlib : lib.Lawful) (z : RowChangedEvent)
    (hz : z.Fits lib) :
    ∃ tl : Bytes,
      (∀ b, z.MarshalMsg lib b = Except.ok (b ++ 0x86 :: tl)) ∧
      (∀ prior rest,
        RowChangedEvent.UnmarshalMsg lib prior (0x86 :: tl ++ rest) = Except.ok (z, rest)) := by
  obtain ⟨hLo, hHi, hStart, hCommit, hRepl, hColsLen, hPreLen, hCols, hPre⟩ := hz
  obtain ⟨cb, hcm, hcu⟩ := columns_roundtrip lib hlib "Columns" "Columns" z.Columns hCols
  obtain ⟨pb, hpm, hpu⟩ :=
    columns_roundtrip lib hlib "PreColumns" "PreColumns" z.PreColumns hPre
  refine ⟨mapKey "PhysicalTableID" ++ (lib.encInt64 z.PhysicalTableID ++
    (mapKey "StartTs" ++ (lib.encUint64 z.StartTs ++
    (mapKey "CommitTs" ++ (lib.encUint64 z.CommitTs ++
    (mapKey "columns" ++ (lib.encArrayHeader z.Columns.length ++ (cb ++
    (mapKey "pre-columns" ++ (lib.encArrayHeader z.PreColumns.length ++ (pb ++
    (mapKey "replicating-ts" ++ lib.encUint64 z.ReplicatingTs)))))))))))), ?_, ?_⟩
  · intro b
    unfold RowChangedEvent.MarshalMsg
    simp only [hlib.require, hlib.appendInt64, hlib.appendUint64, hlib.appendArrayHeader,
      hcm, hpm, Nat.mod_eq_of_lt hColsLen, Nat.mod_eq_of_lt hPreLen]
    have k1 : mapKey "PhysicalTableID" = [0xaf, 0x50, 0x68, 0x79, 0x73, 0x69, 0x63, 0x61, 0x6c,
      0x54, 0x61, 0x62, 0x6c, 0x65, 0x49, 0x44] := rfl
    have k2 : mapKey "StartTs" = [0xa7, 0x53, 0x74, 0x61, 0x72, 0x74, 0x54, 0x73] := rfl
    have k3 : mapKey "CommitTs" = [0xa8, 0x43, 0x6f, 0x6d, 0x6d, 0x69, 0x74, 0x54, 0x73] := rfl
    have k4 : mapKey "columns" = [0xa7, 0x63, 0x6f, 0x6c, 0x75, 0x6d, 0x6e, 0x73] := rfl
    have k5 : mapKey "pre-columns" = [0xab, 0x70, 0x72, 0x65, 0x2d, 0x63, 0x6f, 0x6c, 0x75,
      0x6d, 0x6e, 0x73] := rfl
    have k6 : mapKey "replicating-ts" = [0xae, 0x72, 0x65, 0x70, 0x6c, 0x69, 0x63, 0x61, 0x74,
      0x69, 0x6e, 0x67, 0x2d, 0x74, 0x73] := rfl
    rw [k1, k2, k3, k4, k5, k6]
    simp only [List.append_assoc, List.cons_append, List.nil_append]
  · intro prior rest
    unfold RowChangedEvent.UnmarshalMsg
    simp only [List.cons_append, List.append_assoc]
    rw [Lawful_readMapHeader6 lib hlib]
    simp only [RowChangedEvent.unmarshalFields]
    rw [Lawful_readMapKey lib hlib "PhysicalTableID" (by decide) (by decide)]
    simp only [RowChangedEvent.unmarshalField, if_pos, hlib.readInt64 _ _ hLo hHi]
    rw [Lawful_readMapKey lib hlib "StartTs" (by decide) (by decide)]
    simp only [if_neg (show ¬ ascii "StartTs" = ascii "PhysicalTableID" by decide), if_pos,
      hlib.readUint64 _ _ hStart]
    rw [Lawful_readMapKey lib hlib "CommitTs" (by decide) (by decide)]
    simp only [if_neg (show ¬ ascii "CommitTs" = ascii "PhysicalTableID" by decide),
      if_neg (show ¬ ascii "CommitTs" = ascii "StartTs" by decide), if_pos,
      hlib.readUint64 _ _ hCommit]
    rw [Lawful_readMapKey lib hlib "columns" (by decide) (by decide)]
    simp only [if_neg (show ¬ ascii "columns" = ascii "PhysicalTableID" by decide),
      if_neg (show ¬ ascii "columns" = ascii "StartTs" by decide),
      if_neg (show ¬ ascii "columns" = ascii "CommitTs" by decide), if_pos,
      hlib.readArrayHeader _ _ hColsLen,
      hcu 0 _ _ (resliceOrMake_length prior.Columns z.Columns.length)]
    rw [Lawful_readMapKey lib hlib "pre-columns" (by decide) (by decide)]
    simp only [if_neg (show ¬ ascii "pre-columns" = ascii "PhysicalTableID" by decide),
      if_neg (show ¬ ascii "pre-columns" = ascii "StartTs" by decide),
      if_neg (show ¬ ascii "pre-columns" = ascii "CommitTs" by decide),
      if_neg (show ¬ ascii "pre-columns" = ascii "columns" by decide), if_pos,
      hlib.readArrayHeader _ _ hPreLen,
      hpu 0 _ _ (resliceOrMake_length prior.PreColumns z.PreColumns.length)]
    rw [Lawful_readMapKey lib hlib "replicating-ts" (by decide) (by decide)]
    simp only [if_neg (show ¬ ascii "replicating-ts" = ascii "PhysicalTableID" by decide),
      if_neg (show ¬ ascii "replicating-ts" = ascii "StartTs" by decide),
      if_neg (show ¬ ascii "replicating-ts" = ascii "CommitTs" by decide),
      if_neg (show ¬ ascii "replicating-ts" = ascii "columns" by decide),
      if_neg (show ¬ ascii "replicating-ts" = ascii "pre-columns" by decide), if_pos,
      hlib.readUint64 _ _ hRepl]

/-- The bytes the row loop of `MarshalMsg` appends, and the row loop of
`UnmarshalMsg` reading them back over a slice of the same length. -/
theorem rows_roundtrip (lib : Msgp) (hlib : lib.Lawful) :
    ∀ rs : List (Option RowChangedEvent), (∀ r, some r ∈ rs → r.Fits lib) →
      ∃ bytes : Bytes,
        (∀ za o, marshalRows lib za rs o = Except.ok (o ++ bytes)) ∧
        (∀ za (prior : List (Option RowChangedEvent)) rest, prior.length = rs.length →
          unmarshalRows lib za prior (bytes ++ rest) = Except.ok (rs, rest)) := by
  intro rs
  induction rs with
  | nil =>
    intro _
    refine ⟨[], ?_, ?_⟩
    · intro za o
      simp [marshalRows]
    · intro za prior rest hp
      have hnil : prior = [] := List.length_eq_zero.mp hp
      subst hnil
      simp [unmarshalRows]
  | cons r rs ih =>
    intro hfit
    obtain ⟨bytes, hm, hu⟩ := ih (fun r hr => hfit r (List.mem_cons_of_mem _ hr))
    cases r with
    | none =>
      refine ⟨lib.encNil ++ bytes, ?_, ?_⟩
      · intro za o
        simp only [marshalRows, hlib.appendNil, hm, List.append_assoc]
      · intro za prior rest hp
        cases prior with
        | nil => simp at hp
        | cons p ps =>
          have hps : ps.length = rs.length := by simpa using hp
          simp only [unmarshalRows, List.append_assoc, hlib.isNil, hlib.readNil, if_true,
            hu _ ps rest hps]
    | some r =>
      obtain ⟨tl, hrm, hru⟩ :=
        RowChangedEvent_roundtrip lib hlib r (hfit r (List.mem_cons_self _ _))
      refine ⟨(0x86 :: tl) ++ bytes, ?_, ?_⟩
      · intro za o
        simp only [marshalRows, hrm, hm, List.append_assoc]
      · intro za prior rest hp
        cases prior with
        | nil => simp at hp
        | cons p ps =>
          have hps : ps.length = rs.length := by simpa using hp
          have hnn : lib.IsNil (0x86 :: (tl ++ (bytes ++ rest))) = false :=
            hlib.isNil_map 6 _ (by decide)
          have hru2 : ∀ target, RowChangedEvent.UnmarshalMsg lib target
              (0x86 :: (tl ++ (bytes ++ rest))) = Except.ok (r, bytes ++ rest) := by
            intro target
            have h := hru target (bytes ++ rest)
            simpa only [List.cons_append, List.append_assoc] using h
          simp only [unmarshalRows, List.append_assoc, List.cons_append, hnn,
            Bool.false_eq_true, if_false, hru2, hu _ ps rest hps]

/-- The bytes `(*TxnEvent).MarshalMsg` appends, and `(*TxnEvent).UnmarshalMsg`
reading them back into any receiver. -/
theorem TxnEvent_roundtrip (lib : Msgp) (hlib : lib.Lawful) (z : TxnEvent) (hz : z.Fits lib) :
    ∃ tl : Bytes,
      (∀ b, z.MarshalMsg lib b = Except.ok (b ++ 0x86 :: tl)) ∧
      (∀ prior rest,
        TxnEvent.UnmarshalMsg lib prior (0x86 :: tl ++ rest) = Except.ok (z, rest)) := by
  obtain ⟨hCluster, hDisp, hResolved, hStart, hCommit, hRowsLen, hRows⟩ := hz
  obtain ⟨rb, hrm, hru⟩ := rows_roundtrip lib hlib z.Rows hRows
  refine ⟨mapKey "cluster-id" ++ (lib.encUint64 z.ClusterID ++
    (mapKey "dispatcher-id" ++ (lib.encString z.DispatcherID ++
    (mapKey "rows" ++ (lib.encArrayHeader z.Rows.length ++ (rb ++
    (mapKey "resolved-ts" ++ (lib.encUint64 z.ResolvedTs ++
    (mapKey "start-ts" ++ (lib.encUint64 z.StartTs ++
    (mapKey "commit-ts" ++ lib.encUint64 z.CommitTs))))))))))), ?_, ?_⟩
  · intro b
    unfold TxnEvent.MarshalMsg
    simp only [hlib.require, hlib.appendString, hlib.appendUint64, hlib.appendArrayHeader,
      hrm, Nat.mod_eq_of_lt hRowsLen]
    have k1 : mapKey "cluster-id" = [0xaa, 0x63, 0x6c, 0x75, 0x73, 0x74, 0x65, 0x72, 0x2d, 0x69,
      0x64] := rfl
    have k2 : mapKey "dispatcher-id" = [0xad, 0x64, 0x69, 0x73, 0x70, 0x61, 0x74, 0x63, 0x68,
      0x65, 0x72, 0x2d, 0x69, 0x64] := rfl
    have k3 : mapKey "rows" = [0xa4, 0x72, 0x6f, 0x77, 0x73] := rfl
    have k4 : mapKey "resolved-ts" = [0xab, 0x72, 0x65, 0x73, 0x6f, 0x6c, 0x76, 0x65, 0x64,
      0x2d, 0x74, 0x73] := rfl
    have k5 : mapKey "start-ts" = [0xa8, 0x73, 0x74, 0x61, 0x72, 0x74, 0x2d, 0x74, 0x73] := rfl
    have k6 : mapKey "commit-ts" = [0xa9, 0x63, 0x6f, 0x6d, 0x6d, 0x69, 0x74, 0x2d, 0x74,
      0x73] := rfl
    rw [k1, k2, k3, k4, k5, k6]
    simp only [List.append_assoc, List.cons_append, List.nil_append]
  · intro prior rest
    unfold TxnEvent.UnmarshalMsg
    simp only [List.cons_append, List.append_assoc]
    rw [Lawful_readMapHeader6 lib hlib]
    simp only [TxnEvent.unmarshalFields]
    rw [Lawful_readMapKey lib hlib "cluster-id" (by decide) (by decide)]
    simp only [TxnEvent.unmarshalField, if_pos, hlib.readUint64 _ _ hCluster]
    rw [Lawful_readMapKey lib hlib "dispatcher-id" (by decide) (by decide)]
    simp only [if_neg (show ¬ ascii "dispatcher-id" = ascii "cluster-id" by decide), if_pos,
      hlib.readString _ _ hDisp]
    rw [Lawful_readMapKey lib hlib "rows" (by decide) (by decide)]
    simp only [if_neg (show ¬ ascii "rows" = ascii "cluster-id" by decide),
      if_neg (show ¬ ascii "rows" = ascii "dispatcher-id" by decide), if_pos,
      hlib.readArrayHeader _ _ hRowsLen,
      hru 0 _ _ (resliceOrMake_length prior.Rows z.Rows.length)]
    rw [Lawful_readMapKey lib hlib "resolved-ts" (by decide) (by decide)]
    simp only [if_neg (show ¬ ascii "resolved-ts" = ascii "cluster-id" by decide),
      if_neg (show ¬ ascii "resolved-ts" = ascii "dispatcher-id" by decide),
      if_neg (show ¬ ascii "resolved-ts" = ascii "rows" by decide), if_pos,
      hlib.readUint64 _ _ hResolved]
    rw [Lawful_readMapKey lib hlib "start-ts" (by decide) (by decide)]
    simp only [if_neg (show ¬ ascii "start-ts" = ascii "cluster-id" by decide),
      if_neg (show ¬ ascii "start-ts" = ascii "dispatcher-id" by decide),
      if_neg (show ¬ ascii "start-ts" = ascii "rows" by decide),
      if_neg (show ¬ ascii "start-ts" = ascii "resolved-ts" by decide), if_pos,
      hlib.readUint64 _ _ hStart]
    rw [Lawful_readMapKey lib hlib "commit-ts" (by decide) (by decide)]
    simp only [if_neg (show ¬ ascii "commit-ts" = ascii "cluster-id" by decide),
      if_neg (show ¬ ascii "commit-ts" = ascii "dispatcher-id" by decide),
      if_neg (show ¬ ascii "commit-ts" = ascii "rows" by decide),
      if_neg (show ¬ ascii "commit-ts" = ascii "resolved-ts" by decide),
      if_neg (show ¬ ascii "commit-ts" = ascii "start-ts" by decide), if_pos,
      hlib.readUint64 _ _ hCommit]

/-- Two big-endian bytes read back. -/
theorem readBE_be16 (v : Nat) (hv : v < 65536) (rest : Bytes) :
    readBE 2 0 (be16 v ++ rest) = some (v, rest) := by
  simp only [be16, readBE, List.cons_append, List.nil_append]
  have h : (0 * 256 + v / 256 % 256) * 256 + v % 256 = v := by omega
  rw [h]
  rfl

/-- Four big-endian bytes read back. -/
theorem readBE_be32 (v : Nat) (hv : v < 4294967296) (rest : Bytes) :
    readBE 4 0 (be32 v ++ rest) = some (v, rest) := by
  simp only [be32, readBE, List.cons_append, List.nil_append]
  have h : (((0 * 256 + v / 16777216 % 256) * 256 + v / 65536 % 256) * 256 + v / 256 % 256) * 256
      + v % 256 = v := by omega
  rw [h]
  rfl

/-- Eight big-endian bytes read back. -/
theorem readBE_be64 (v : Nat) (hv : v < 18446744073709551616) (rest : Bytes) :
    readBE 8 0 (be64 v ++ rest) = some (v, rest) := by
  simp only [be64, readBE, List.cons_append, List.nil_append]
  have h : (((((((0 * 256 + v / 72057594037927936 % 256) * 256 + v / 281474976710656 % 256) * 256
      + v / 1099511627776 % 256) * 256 + v / 4294967296 % 256) * 256 + v / 16777216 % 256) * 256
      + v / 65536 % 256) * 256 + v / 256 % 256) * 256 + v % 256 = v := by omega
  rw [h]
  rfl

/-- One byte read back as a number. -/
theorem readUintN_1 (v : Nat) (rest : Bytes) :
    readUintN 1 (v :: rest) = Except.ok (v, rest) := by
  simp [readUintN, readBE]

/-- Two big-endian bytes read back as a number. -/
theorem readUintN_2 (v : Nat) (hv : v < 65536) (rest : Bytes) :
    readUintN 2 (be16 v ++ rest) = Except.ok (v, rest) := by
  simp only [readUintN, readBE_be16 v hv rest]

/-- Four big-endian bytes read back as a number. -/
theorem readUintN_4 (v : Nat) (hv : v < 4294967296) (rest : Bytes) :
    readUintN 4 (be32 v ++ rest) = Except.ok (v, rest) := by
  simp only [readUintN, readBE_be32 v hv rest]

/-- Eight big-endian bytes read back as a number. -/
theorem readUintN_8 (v : Nat) (hv : v < 18446744073709551616) (rest : Bytes) :
    readUintN 8 (be64 v ++ rest) = Except.ok (v, rest) := by
  simp only [readUintN, readBE_be64 v hv rest]

/-- The bytes of a string are taken back from in front of what follows. -/
theorem readBytesN_append (s rest : Bytes) :
    readBytesN s.length (s ++ rest) = Except.ok (s, rest) := by
  simp [readBytesN]

/-- `ReadUint64Bytes` reads back what `AppendUint64` wrote. -/
theorem readUint64Bytes_encUint (v : Nat) (hv : v < 18446744073709551616) (rest : Bytes) :
    readUint64Bytes (encUint v ++ rest) = Except.ok (v, rest) := by
  unfold encUint
  by_cases h1 : v ≤ 127
  · rw [if_pos h1]
    simp only [List.cons_append, List.nil_append, readUint64Bytes]
    rw [if_pos (by omega)]
  · rw [if_neg h1]
    by_cases h2 : v ≤ 255
    · rw [if_pos h2]
      simp [readUint64Bytes, readUintN_1]
    · rw [if_neg h2]
      by_cases h3 : v ≤ 65535
      · rw [if_pos h3]
        simp [readUint64Bytes, readUintN_2 v (by omega) rest]
      · rw [if_neg h3]
        by_cases h4 : v ≤ 4294967295
        · rw [if_pos h4]
          simp [readUint64Bytes, readUintN_4 v (by omega) rest]
        · rw [if_neg h4]
          simp [readUint64Bytes, readUintN_8 v hv rest]

/-- `ReadInt64Bytes` reads back what `AppendInt64` wrote. -/
theorem readInt64Bytes_encInt (v : Int) (hlo : -9223372036854775808 ≤ v)
    (hhi : v < 9223372036854775808) (rest : Bytes) :
    readInt64Bytes (encInt v ++ rest) = Except.ok (v, rest) := by
  unfold encInt
  by_cases h0 : 0 ≤ v
  · rw [if_pos h0]
    by_cases h1 : v ≤ 127
    · rw [if_pos h1]
      simp only [List.cons_append, List.nil_append, readInt64Bytes]
      rw [if_pos (by omega)]
      congr 2
      omega
    · rw [if_neg h1]
      by_cases h2 : v ≤ 32767
      · rw [if_pos h2]
        simp only [List.cons_append, readInt64Bytes, readUintN_2 v.toNat (by omega) rest]
        simp only [Except.map]
        simp [asSigned]
        omega
      · rw [if_neg h2]
        by_cases h3 : v ≤ 2147483647
        · rw [if_pos h3]
          simp only [List.cons_append, readInt64Bytes, readUintN_4 v.toNat (by omega) rest]
          simp [Except.map, asSigned]
          omega
        · rw [if_neg h3]
          simp only [List.cons_append, readInt64Bytes, readUintN_8 v.toNat (by omega) rest]
          simp [Except.map, asSigned]
          omega
  · rw [if_neg h0]
    by_cases h1 : -32 ≤ v
    · rw [if_pos h1]
      simp only [List.cons_append, List.nil_append, readInt64Bytes]
      rw [if_neg (by omega), if_pos (by omega)]
      congr 2
      omega
    · rw [if_neg h1]
      by_cases h2 : -128 ≤ v
      · rw [if_pos h2]
        simp only [List.cons_append, List.nil_append, readInt64Bytes, readUintN_1]
        simp [Except.map, asSigned]
        omega
      · rw [if_neg h2]
        by_cases h3 : -32768 ≤ v
        · rw [if_pos h3]
          simp only [List.cons_append, readInt64Bytes,
            readUintN_2 (v + 65536).toNat (by omega) rest]
          simp [Except.map, asSigned]
          omega
        · rw [if_neg h3]
          by_cases h4 : -2147483648 ≤ v
          · rw [if_pos h4]
            simp only [List.cons_append, readInt64Bytes,
              readUintN_4 (v + 4294967296).toNat (by omega) rest]
            simp [Except.map, asSigned]
            omega
          · rw [if_neg h4]
            simp only [List.cons_append, readInt64Bytes,
              readUintN_8 (v + 18446744073709551616).toNat (by omega) rest]
            simp [Except.map, asSigned]
            omega

/-- `ReadStringBytes` reads back what `AppendString` wrote. -/
theorem readStringZC_enc (s : Bytes) (hs : s.length < 4294967296) (rest : Bytes) :
    readStringZC (encStrPrefix s.length ++ (s ++ rest)) = Except.ok (s, rest) := by
  unfold encStrPrefix
  by_cases h1 : s.length ≤ 31
  · rw [if_pos h1]
    simp only [List.cons_append, List.nil_append, readStringZC]
    rw [if_pos (by omega)]
    have hl : 0xa0 + s.length - 0xa0 = s.length := by omega
    rw [hl]
    exact readBytesN_append s rest
  · rw [if_neg h1]
    by_cases h2 : s.length ≤ 255
    · rw [if_pos h2]
      simp [readStringZC, readUintN_1, readBytesN_append]
    · rw [if_neg h2]
      by_cases h3 : s.length ≤ 65535
      · rw [if_pos h3]
        simp [readStringZC, readUintN_2 s.length (by omega) (s ++ rest), readBytesN_append]
      · rw [if_neg h3]
        simp [readStringZC, readUintN_4 s.length hs (s ++ rest), readBytesN_append]

/-- `ReadBytesBytes` reads back what `AppendBytes` wrote. -/
theorem readBytesZC_enc (s : Bytes) (hs : s.length < 4294967296) (rest : Bytes) :
    readBytesZC (encBinPrefix s.length ++ (s ++ rest)) = Except.ok (s, rest) := by
  unfold encBinPrefix
  by_cases h2 : s.length ≤ 255
  · rw [if_pos h2]
    simp [readBytesZC, readUintN_1, readBytesN_append]
  · rw [if_neg h2]
    by_cases h3 : s.length ≤ 65535
    · rw [if_pos h3]
      simp [readBytesZC, readUintN_2 s.length (by omega) (s ++ rest), readBytesN_append]
    · rw [if_neg h3]
      simp [readBytesZC, readUintN_4 s.length hs (s ++ rest), readBytesN_append]

/-- `ReadArrayHeaderBytes` reads back what `AppendArrayHeader` wrote. -/
theorem readArrayHeaderBytes_enc (n : Nat) (hn : n < 4294967296) (rest : Bytes) :
    readArrayHeaderBytes (encArrayPrefix n ++ rest) = Except.ok (n, rest) := by
  unfold encArrayPrefix
  by_cases h1 : n ≤ 15
  · rw [if_pos h1]
    simp only [List.cons_append, List.nil_append, readArrayHeaderBytes]
    rw [if_pos (by omega)]
    have hl : 0x90 + n - 0x90 = n := by omega
    rw [hl]
  · rw [if_neg h1]
    by_cases h3 : n ≤ 65535
    · rw [if_pos h3]
      simp [readArrayHeaderBytes, readUintN_2 n (by omega) rest]
    · rw [if_neg h3]
      simp [readArrayHeaderBytes, readUintN_4 n hn rest]

/-- The lead byte of what `AppendInt64` writes is that of an `int`
encoding. -/
theorem encInt_lead (v : Int) :
    ∃ lead tl, encInt v = lead :: tl ∧
      (lead < 0x80 ∨ (0xe0 ≤ lead ∧ lead < 0x100) ∨ (0xd0 ≤ lead ∧ lead ≤ 0xd3)) := by
  unfold encInt
  by_cases h0 : 0 ≤ v
  · rw [if_pos h0]
    by_cases h1 : v ≤ 127
    · rw [if_pos h1]
      exact ⟨_, _, rfl, Or.inl (by omega)⟩
    · rw [if_neg h1]
      by_cases h2 : v ≤ 32767
      · rw [if_pos h2]
        exact ⟨_, _, rfl, Or.inr (Or.inr (by decide))⟩
      · rw [if_neg h2]
        by_cases h3 : v ≤ 2147483647
        · rw [if_pos h3]
          exact ⟨_, _, rfl, Or.inr (Or.inr (by decide))⟩
        · rw [if_neg h3]
          exact ⟨_, _, rfl, Or.inr (Or.inr (by decide))⟩
  · rw [if_neg h0]
    by_cases h1 : -32 ≤ v
    · rw [if_pos h1]
      exact ⟨_, _, rfl, Or.inr (Or.inl (by omega))⟩
    · rw [if_neg h1]
      by_cases h2 : -128 ≤ v
      · rw [if_pos h2]
        exact ⟨_, _, rfl, Or.inr (Or.inr (by decide))⟩
      · rw [if_neg h2]
        by_cases h3 : -32768 ≤ v
        · rw [if_pos h3]
          exact ⟨_, _, rfl, Or.inr (Or.inr (by decide))⟩
        · rw [if_neg h3]
          by_cases h4 : -2147483648 ≤ v
          · rw [if_pos h4]
            exact ⟨_, _, rfl, Or.inr (Or.inr (by decide))⟩
          · rw [if_neg h4]
            exact ⟨_, _, rfl, Or.inr (Or.inr (by decide))⟩

/-- `ReadIntfBytes` reads what `AppendInt64` wrote as an `int64`. -/
theorem readIntfBytes_encInt (v : Int) (hlo : -9223372036854775808 ≤ v)
    (hhi : v < 9223372036854775808) (rest : Bytes) :
    readIntfBytes (encInt v ++ rest) = Except.ok (Intf.int v, rest) := by
  obtain ⟨lead, tl, he, hlead⟩ := encInt_lead v
  have hr := readInt64Bytes_encInt v hlo hhi rest
  rw [he] at hr ⊢
  simp only [List.cons_append] at hr ⊢
  unfold readIntfBytes
  simp only []
  rw [if_pos hlead, hr]
  rfl

/-- `ReadIntfBytes` reads a `uint64` below 128 as an `int64`. -/
theorem readIntfBytes_small_uint (v : Nat) (hv : v < 128) (rest : Bytes) :
    readIntfBytes (encUint v ++ rest) = Except.ok (Intf.int v, rest) := by
  unfold encUint
  rw [if_pos (by omega)]
  simp only [List.cons_append, List.nil_append, readIntfBytes]
  rw [if_pos (Or.inl (by omega))]
  simp only [readInt64Bytes]
  rw [if_pos (by omega)]
  rfl

/-- `ReadIntfBytes` reads a `uint64` of at least 128 as a `uint64`. -/
theorem readIntfBytes_large_uint (v : Nat) (hlo : 128 ≤ v) (hv : v < 18446744073709551616)
    (rest : Bytes) :
    readIntfBytes (encUint v ++ rest) = Except.ok (Intf.uint v, rest) := by
  have hr := readUint64Bytes_encUint v hv rest
  have hlead : ∃ lead tl, encUint v = lead :: tl ∧ 0xcc ≤ lead ∧ lead ≤ 0xcf := by
    unfold encUint
    rw [if_neg (by omega)]
    by_cases h2 : v ≤ 255
    · rw [if_pos h2]
      exact ⟨_, _, rfl, by decide, by decide⟩
    · rw [if_neg h2]
      by_cases h3 : v ≤ 65535
      · rw [if_pos h3]
        exact ⟨_, _, rfl, by decide, by decide⟩
      · rw [if_neg h3]
        by_cases h4 : v ≤ 4294967295
        · rw [if_pos h4]
          exact ⟨_, _, rfl, by decide, by decide⟩
        · rw [if_neg h4]
          exact ⟨_, _, rfl, by decide, by decide⟩
  obtain ⟨lead, tl, he, h1, h2⟩ := hlead
  rw [he] at hr ⊢
  simp only [List.cons_append] at hr ⊢
  unfold readIntfBytes
  simp only []
  rw [if_neg (by omega), if_pos ⟨h1, h2⟩, hr]
  rfl

/-- `ReadIntfBytes` reads a string back. -/
theorem readIntfBytes_str (s : Bytes) (hs : s.length < 4294967296) (rest : Bytes) :
    readIntfBytes (encStrPrefix s.length ++ (s ++ rest)) = Except.ok (Intf.str s, rest) := by
  have hr := readStringZC_enc s hs rest
  have hlead : ∃ lead tl, encStrPrefix s.length = lead :: tl ∧
      ((0xa0 ≤ lead ∧ lead ≤ 0xbf) ∨ (0xd9 ≤ lead ∧ lead ≤ 0xdb)) := by
    unfold encStrPrefix
    by_cases h1 : s.length ≤ 31
    · rw [if_pos h1]
      exact ⟨_, _, rfl, Or.inl (by omega)⟩
    · rw [if_neg h1]
      by_cases h2 : s.length ≤ 255
      · rw [if_pos h2]
        exact ⟨_, _, rfl, Or.inr (by decide)⟩
      · rw [if_neg h2]
        by_cases h3 : s.length ≤ 65535
        · rw [if_pos h3]
          exact ⟨_, _, rfl, Or.inr (by decide)⟩
        · rw [if_neg h3]
          exact ⟨_, _, rfl, Or.inr (by decide)⟩
  obtain ⟨lead, tl, he, hl⟩ := hlead
  rw [he] at hr ⊢
  simp only [List.cons_append] at hr ⊢
  unfold readIntfBytes
  simp only []
  rw [if_neg (by omega), if_neg (by omega), if_neg (by omega), if_neg (by omega),
    if_neg (by omega), if_neg (by omega), if_neg (by omega), if_pos hl, hr]
  rfl

/-- `ReadIntfBytes` reads a byte slice back. -/
theorem readIntfBytes_bin (s : Bytes) (hs : s.length < 4294967296) (rest : Bytes) :
    readIntfBytes (encBinPrefix s.length ++ (s ++ rest)) = Except.ok (Intf.bin s, rest) := by
  have hr := readBytesZC_enc s hs rest
  have hlead : ∃ lead tl, encBinPrefix s.length = lead :: tl ∧ 0xc4 ≤ lead ∧ lead ≤ 0xc6 := by
    unfold encBinPrefix
    by_cases h2 : s.length ≤ 255
    · rw [if_pos h2]
      exact ⟨_, _, rfl, by decide, by decide⟩
    · rw [if_neg h2]
      by_cases h3 : s.length ≤ 65535
      · rw [if_pos h3]
        exact ⟨_, _, rfl, by decide, by decide⟩
      · rw [if_neg h3]
        exact ⟨_, _, rfl, by decide, by decide⟩
  obtain ⟨lead, tl, he, h1, h2⟩ := hlead
  rw [he] at hr ⊢
  simp only [List.cons_append] at hr ⊢
  unfold readIntfBytes
  simp only []
  rw [if_neg (by omega), if_neg (by omega), if_neg (by omega), if_neg (by omega),
    if_neg (by omega), if_neg (by omega), if_neg (by omega), if_neg (by omega),
    if_pos ⟨h1, h2⟩, hr]
  rfl

/-- The library keeps the contract the round trip rests on. -/
theorem msgp_lawful : msgp.Lawful where
  require := fun _ _ => rfl
  appendString := fun o s => by simp [msgp, Msgp.encString]
  appendByte := fun o v => by simp [msgp, Msgp.encByte]
  appendInt64 := fun o v => by simp [msgp, Msgp.encInt64]
  appendUint64 := fun o v => by simp [msgp, Msgp.encUint64]
  appendArrayHeader := fun o n => by simp [msgp, Msgp.encArrayHeader]
  appendNil := fun o => by simp [msgp, Msgp.encNil]
  appendIntf := fun o v vb h => by
    cases v <;> simp [msgp, appendIntf] at h <;> subst h <;> simp [msgp, appendIntf]
  flagMarshal := fun o f fb h => by
    simp [msgp] at h
    subst h
    simp [msgp]
  readMapHeader := fun n rest hn => by
    simp only [msgp, readMapHeaderBytes]
    rw [if_pos (by omega)]
    have hl : 0x80 + n - 0x80 = n := by omega
    rw [hl]
  readMapKey := fun key rest hk _ => by
    simp only [msgp, readMapKeyZC, List.cons_append]
    rw [if_neg (by omega)]
    simp only [readStringZC]
    rw [if_pos (by omega)]
    have hl : 0xa0 + key.length - 0xa0 = key.length := by omega
    rw [hl]
    exact readBytesN_append key rest
  readString := fun s rest hs => by
    have h := readStringZC_enc s hs.1 rest
    simpa [msgp, Msgp.encString] using h
  readByte := fun v rest hv => by
    have h := readUint64Bytes_encUint (v % 256) (by omega) rest
    have hm : v % 256 = v := Nat.mod_eq_of_lt hv
    rw [hm] at h
    simp only [msgp, Msgp.encByte, List.nil_append, readByteBytes, hm, h]
    rw [if_neg (by omega)]
  readInt64 := fun v rest hlo hhi => by
    have h := readInt64Bytes_encInt v hlo hhi rest
    simpa [msgp, Msgp.encInt64] using h
  readUint64 := fun v rest hv => by
    have h := readUint64Bytes_encUint v hv rest
    simpa [msgp, Msgp.encUint64] using h
  readArrayHeader := fun n rest hn => by
    have h := readArrayHeaderBytes_enc n hn rest
    simpa [msgp, Msgp.encArrayHeader] using h
  isNil := fun rest => by simp [msgp, Msgp.encNil]
  readNil := fun rest => by simp [msgp, Msgp.encNil, readNilBytes]
  isNil_map := fun n rest hn => by
    simp only [msgp]
    simp
    omega
  flag := fun f hf => by
    refine ⟨encUint f, by simp [msgp], ?_⟩
    intro prior rest
    have h := readUint64Bytes_encUint f hf rest
    simp only [msgp, h]

/-- The values the library reads back as written are exactly the native
ones: for a value within the range of its Go type, `ReadIntfBytes` returns it
from the bytes of `AppendIntf` if and only if it is nil, a `bool`, an `int64`,
a float, a string, a byte slice, or a `uint64` of at least 128. -/
theorem msgp_ReadsBack_iff (v : Intf) (hr : v.InRange) : msgp.ReadsBack v ↔ v.Native := by
  constructor
  · intro h
    obtain ⟨vb, hvb, hread⟩ := h
    have hread0 := hread []
    cases v with
    | nil => trivial
    | bool b => trivial
    | int i => exact hr
    | uint u =>
      refine ⟨?_, hr⟩
      by_contra hlt
      have hu : u < 128 := by omega
      simp only [msgp, appendIntf, List.nil_append, Except.ok.injEq] at hvb
      subst hvb
      have h2 := readIntfBytes_small_uint u hu []
      simp only [msgp] at hread0
      rw [h2] at hread0
      simp at hread0
    | str s => exact hr
    | bin b => exact hr
    | float64 bits => exact hr
    | float32 bits => exact hr
    | other tag =>
      simp [msgp, appendIntf] at hvb
    | sint width i =>
      simp only [msgp, appendIntf, List.nil_append, Except.ok.injEq] at hvb
      subst hvb
      have hrange : -9223372036854775808 ≤ asSigned width.modulus (i % (width.modulus : Int)).toNat
          ∧ asSigned width.modulus (i % (width.modulus : Int)).toNat < 9223372036854775808 := by
        cases width <;> simp only [IntWidth.modulus, asSigned] <;> split <;> omega
      have h2 := readIntfBytes_encInt _ hrange.1 hrange.2 []
      simp only [msgp] at hread0
      rw [h2] at hread0
      simp at hread0
    | usint width u =>
      simp only [msgp, appendIntf, List.nil_append, Except.ok.injEq] at hvb
      subst hvb
      simp only [msgp] at hread0
      by_cases hu : u % width.modulus < 128
      · rw [readIntfBytes_small_uint _ hu []] at hread0
        simp at hread0
      · have hlt : u % width.modulus < 18446744073709551616 := by
          cases width <;> simp only [IntWidth.modulus] <;> omega
        rw [readIntfBytes_large_uint _ (by omega) hlt []] at hread0
        simp at hread0
  · intro h
    cases v with
    | nil =>
      exact ⟨[0xc0], rfl, fun rest => rfl⟩
    | bool b =>
      cases b
      · exact ⟨[0xc2], rfl, fun rest => rfl⟩
      · exact ⟨[0xc3], rfl, fun rest => rfl⟩
    | int i =>
      refine ⟨encInt i, by simp [msgp, appendIntf], fun rest => ?_⟩
      exact readIntfBytes_encInt i h.1 h.2 rest
    | uint u =>
      refine ⟨encUint u, by simp [msgp, appendIntf], fun rest => ?_⟩
      exact readIntfBytes_large_uint u h.1 h.2 rest
    | str s =>
      refine ⟨encStrPrefix s.length ++ s, by simp [msgp, appendIntf], fun rest => ?_⟩
      have h2 := readIntfBytes_str s h.1 rest
      simpa [msgp] using h2
    | bin b =>
      refine ⟨encBinPrefix b.length ++ b, by simp [msgp, appendIntf], fun rest => ?_⟩
      have h2 := readIntfBytes_bin b h.1 rest
      simpa [msgp] using h2
    | float64 bits =>
      refine ⟨0xcb :: be64 bits, by simp [msgp, appendIntf], fun rest => ?_⟩
      simp [msgp, readIntfBytes, readUintN_8 bits h rest, Except.map]
    | float32 bits =>
      refine ⟨0xca :: be32 bits, by simp [msgp, appendIntf], fun rest => ?_⟩
      simp [msgp, readIntfBytes, readUintN_4 bits h rest, Except.map]
    | other tag => exact absurd h (by simp [Intf.Native])
    | sint width i => exact absurd h (by simp [Intf.Native])
    | usint width u => exact absurd h (by simp [Intf.Native])

/-- A native value is within the range of its Go type. -/
theorem Intf_native_inRange {v : Intf} (h : v.Native) : v.InRange := by
  cases v with
  | nil => trivial
  | bool b => trivial
  | int i => exact h
  | uint u => exact h.2
  | str s => exact h
  | bin b => exact h
  | float64 bits => exact h
  | float32 bits => exact h
  | other tag => trivial
  | sint width i => exact absurd h (by simp [Intf.Native])
  | usint width u => exact absurd h (by simp [Intf.Native])

/-- A native column fits the library. -/
theorem Column_native_fits {c : Column} (h : c.Native) : c.Fits msgp :=
  ⟨h.1, h.2.1, h.2.2.1, h.2.2.2.1, h.2.2.2.2.1,
    (msgp_ReadsBack_iff c.Value (Intf_native_inRange h.2.2.2.2.2)).mpr h.2.2.2.2.2⟩

/-- A native row fits the library. -/
theorem RowChangedEvent_native_fits {r : RowChangedEvent} (h : r.Native) : r.Fits msgp :=
  ⟨h.1, h.2.1, h.2.2.1, h.2.2.2.1, h.2.2.2.2.1, h.2.2.2.2.2.1, h.2.2.2.2.2.2.1,
    fun c hc => Column_native_fits (h.2.2.2.2.2.2.2.1 c hc),
    fun c hc => Column_native_fits (h.2.2.2.2.2.2.2.2 c hc)⟩

/-- A native transaction event fits the library. -/
theorem TxnEvent_native_fits {e : TxnEvent} (h : e.Native) : e.Fits msgp :=
  ⟨h.1, h.2.1, h.2.2.1, h.2.2.2.1, h.2.2.2.2.1, h.2.2.2.2.2.1,
    fun r hr => RowChangedEvent_native_fits (h.2.2.2.2.2.2 r hr)⟩

/-- A sample column with a native value is native. -/
theorem columnOf_native (name : String) (flag : ColumnFlagType) (value : Intf)
    (hname : IsString (ascii name)) (hflag : flag < 18446744073709551616)
    (hvalue : value.Native) : (columnOf name flag value).Native :=
  ⟨hname, (show (3 : Nat) < 256 by decide),
    (show IsString [] from ⟨by decide, by decide⟩),
    (show IsString (ascii "utf8mb4_bin") from ⟨by decide, by decide⟩), hflag, hvalue⟩

/-- The sample event `nativeTxnEvent` is native. -/
theorem nativeTxnEvent_native : nativeTxnEvent.Native := by
  have hrow : nativeRow.Native := by
    refine ⟨by decide, by decide, by decide, by decide, by decide, by decide, by decide, ?_, ?_⟩
    · intro c hc
      simp only [nativeRow, List.mem_cons, Option.some.injEq, List.mem_singleton,
        List.not_mem_nil, or_false] at hc
      rcases hc with hc | hc | hc | hc | hc | hc | hc <;> subst hc
      · exact columnOf_native _ _ _ ⟨by decide, by decide⟩ (by decide) ⟨by decide, by decide⟩
      · exact columnOf_native _ _ _ ⟨by decide, by decide⟩ (by decide) ⟨by decide, by decide⟩
      · exact columnOf_native _ _ _ ⟨by decide, by decide⟩ (by decide) ⟨by decide, by decide⟩
      · exact columnOf_native _ _ _ ⟨by decide, by decide⟩ (by decide) ⟨by decide, by decide⟩
      · exact columnOf_native _ _ _ ⟨by decide, by decide⟩ (by decide) trivial
      · exact columnOf_native _ _ _ ⟨by decide, by decide⟩ (by decide)
          (show (4609434218613702656 : Nat) < 18446744073709551616 by decide)
      · exact columnOf_native _ _ _ ⟨by decide, by decide⟩ (by decide) trivial
    · intro c hc
      simp only [nativeRow, List.mem_cons, Option.some.injEq, List.mem_singleton,
        List.not_mem_nil, or_false] at hc
      rcases hc with hc | hc
      · cases hc
      subst hc
      exact columnOf_native _ _ _ ⟨by decide, by decide⟩ (by decide) ⟨by decide, by decide⟩
  refine ⟨by decide, ⟨by decide, by decide⟩, by decide, by decide, by decide, by decide, ?_⟩
  intro r hr
  have hr2 : r = nativeRow := by simpa [nativeTxnEvent] using hr
  rw [hr2]
  exact hrow

set_option maxRecDepth 100000 in
/-- C29 as claimed fails for a `uint64` column value below 128.  The sample
event holds a column with the `uint64` value 7; `MarshalMsg` succeeds and
`AppendIntf` writes the value as the positive fixint `0x07`; `UnmarshalMsg` of
the bytes succeeds with an empty remainder, but `ReadIntfBytes` reads a
fixint as an `int64`: the column comes back with the `int64` value 7, so the
event read differs from the event written. -/
theorem UnmarshalMsg_reads_small_uint64_as_int64 :
    sampleColumn.Value = Intf.uint 7 ∧
    msgp.AppendIntf [] (Intf.uint 7) = Except.ok [0x07] ∧
    msgp.ReadIntfBytes [0x07] = Except.ok (Intf.int 7, []) ∧
    ∃ bytes e2, sampleTxnEvent.MarshalMsg msgp [] = Except.ok bytes ∧
      TxnEvent.zero.UnmarshalMsg msgp bytes = Except.ok (e2, []) ∧
      e2 ≠ sampleTxnEvent ∧
      e2 = { sampleTxnEvent with
        Rows := [some { sampleRow with
          Columns := [some { sampleColumn with Value := Intf.int 7 }] }, none] } :=
  ⟨rfl, rfl, rfl, _, _, rfl, rfl, by decide, rfl⟩

/-- C29, amended: round trip of the generated codec over the library's
encodings.  For every `TxnEvent` `e` whose numbers are within their Go
widths, whose strings and slices are shorter than `2^32`, and whose column
values are nil, a `bool`, an `int64`, a `float64` or `float32`, a string, a
byte slice, or a `uint64` of at least 128 (`Rows`, `Columns` and `PreColumns`
may hold nil entries), `e.MarshalMsg(nil)` succeeds, and `UnmarshalMsg` of
these bytes into the zero `TxnEvent` succeeds, returns an empty remainder and
leaves the receiver equal to `e` in every field the codec carries.  The same
holds for any buffer `b` to append to, any receiver and any bytes
following. -/
theorem UnmarshalMsg_MarshalMsg (e : TxnEvent) (he : e.Native) :
    ∃ bytes : Bytes,
      e.MarshalMsg msgp [] = Except.ok bytes ∧
      TxnEvent.zero.UnmarshalMsg msgp bytes = Except.ok (e, []) ∧
      (∀ b, e.MarshalMsg msgp b = Except.ok (b ++ bytes)) ∧
      (∀ (z : TxnEvent) (rest : Bytes),
        z.UnmarshalMsg msgp (bytes ++ rest) = Except.ok (e, rest)) := by
  obtain ⟨tl, hm, hu⟩ := TxnEvent_roundtrip msgp msgp_lawful e (TxnEvent_native_fits he)
  refine ⟨0x86 :: tl, ?_, ?_, hm, hu⟩
  · simpa using hm []
  · simpa using hu TxnEvent.zero []

/-- C29, amended, at the sample event `nativeTxnEvent`: a nil row, a nil
pre-column, and column values of every native kind. -/
theorem UnmarshalMsg_MarshalMsg_witness :
    nativeTxnEvent.Native ∧
    ∃ bytes : Bytes,
      nativeTxnEvent.MarshalMsg msgp [] = Except.ok bytes ∧
      TxnEvent.zero.UnmarshalMsg msgp bytes = Except.ok (nativeTxnEvent, []) :=
  ⟨nativeTxnEvent_native,
    (UnmarshalMsg_MarshalMsg nativeTxnEvent nativeTxnEvent_native).imp
      (fun _ h => ⟨h.1, h.2.1⟩)⟩

/-! ## The generated codec: size bound -/

/-- Chaining two length bounds. -/
theorem length_step {a x y k m : Nat} (h : a ≤ x + k) (hx : x ≤ y + m) : a ≤ y + (m + k) := by
  omega

/-- What `(*Column).MarshalMsg` appends is bounded by `Msgsize`. -/
theorem Column_MarshalMsg_length (lib : Msgp) (hsz : lib.SizeBounds) (z : Column)
    (b out : Bytes) (h : z.MarshalMsg lib b = Except.ok out) :
    out.length ≤ b.length + z.Msgsize lib := by
  unfold Column.MarshalMsg at h
  dsimp only at h
  cases hf : lib.FlagMarshalMsg z.Flag
      (lib.AppendString (lib.AppendString (lib.AppendByte (lib.AppendString
        (lib.Require b (z.Msgsize lib) ++ [0x86, 0xa4, 0x6e, 0x61, 0x6d, 0x65]) z.Name ++
        [0xa4, 0x74, 0x79, 0x70, 0x65]) z.Typ ++
        [0xa7, 0x63, 0x68, 0x61, 0x72, 0x73, 0x65, 0x74]) z.Charset ++
        [0xa9, 0x63, 0x6f, 0x6c, 0x6c, 0x61, 0x74, 0x69, 0x6f, 0x6e]) z.Collation ++
        [0xa4, 0x66, 0x6c, 0x61, 0x67]) with
  | error err => rw [hf] at h; exact absurd h (by simp)
  | ok o1 =>
    rw [hf] at h
    dsimp only at h
    cases hv : lib.AppendIntf (o1 ++ [0xa6, 0x63, 0x6f, 0x6c, 0x75, 0x6d, 0x6e]) z.Value with
    | error err => rw [hv] at h; exact absurd h (by simp)
    | ok o2 =>
      rw [hv] at h
      have ho : o2 = out := by simpa using h
      subst ho
      have e := hsz.intf _ _ _ hv
      simp only [List.length_append, Nat.add_assoc] at e
      have e := length_step e (hsz.flag _ _ _ hf)
      simp only [List.length_append, Nat.add_assoc] at e
      have e := length_step e (hsz.string _ _)
      simp only [List.length_append, Nat.add_assoc] at e
      have e := length_step e (hsz.string _ _)
      simp only [List.length_append, Nat.add_assoc] at e
      have e := length_step e (hsz.byte _ _)
      simp only [List.length_append, Nat.add_assoc] at e
      have e := length_step e (hsz.string _ _)
      simp only [List.length_append, Nat.add_assoc, hsz.require, List.length_cons,
        List.length_nil] at e
      unfold Column.Msgsize
      omega

/-- What the column loops of `(*RowChangedEvent).MarshalMsg` append is bounded
by the sum `Msgsize` takes over the same entries. -/
theorem marshalColumns_length (lib : Msgp) (hsz : lib.SizeBounds) (field : String) :
    ∀ (cs : List (Option Column)) (za : Nat) (o out : Bytes),
      marshalColumns lib field za cs o = Except.ok out →
      out.length ≤ o.length + columnsMsgsize lib cs := by
  intro cs
  induction cs with
  | nil =>
    intro za o out h
    have ho : o = out := by simpa [marshalColumns] using h
    subst ho
    simp [columnsMsgsize]
  | cons c rest ih =>
    intro za o out h
    cases c with
    | none =>
      have h1 : marshalColumns lib field (za + 1) rest (lib.AppendNil o) = Except.ok out := by
        simpa [marshalColumns] using h
      have e := ih _ _ _ h1
      have e2 := hsz.nil o
      simp only [columnsMsgsize]
      omega
    | some c =>
      cases hc : c.MarshalMsg lib o with
      | error err => simp [marshalColumns, hc] at h
      | ok o1 =>
        have h1 : marshalColumns lib field (za + 1) rest o1 = Except.ok out := by
          simpa [marshalColumns, hc] using h
        have e := ih _ _ _ h1
        have e2 := Column_MarshalMsg_length lib hsz c o o1 hc
        simp only [columnsMsgsize]
        omega

/-- What `(*RowChangedEvent).MarshalMsg` appends is bounded by `Msgsize`. -/
theorem RowChangedEvent_MarshalMsg_length (lib : Msgp) (hsz : lib.SizeBounds)
    (z : RowChangedEvent) (b out : Bytes) (h : z.MarshalMsg lib b = Except.ok out) :
    out.length ≤ b.length + z.Msgsize lib := by
  unfold RowChangedEvent.MarshalMsg at h
  dsimp only at h
  split at h
  · exact absurd h (by simp)
  · rename_i o1 h1
    split at h
    · exact absurd h (by simp)
    · rename_i o2 h2
      have ho := Except.ok.inj h
      subst ho
      have e := hsz.uint64 (o2 ++ [0xae, 0x72, 0x65, 0x70, 0x6c, 0x69, 0x63, 0x61, 0x74, 0x69,
        0x6e, 0x67, 0x2d, 0x74, 0x73]) z.ReplicatingTs
      simp only [List.length_append, Nat.add_assoc] at e
      have e := length_step e (marshalColumns_length lib hsz _ _ _ _ _ h2)
      simp only [List.length_append, Nat.add_assoc] at e
      have e := length_step e (hsz.arrayHeader _ _)
      simp only [List.length_append, Nat.add_assoc] at e
      have e := length_step e (marshalColumns_length lib hsz _ _ _ _ _ h1)
      simp only [List.length_append, Nat.add_assoc] at e
      have e := length_step e (hsz.arrayHeader _ _)
      simp only [List.length_append, Nat.add_assoc] at e
      have e := length_step e (hsz.uint64 _ _)
      simp only [List.length_append, Nat.add_assoc] at e
      have e := length_step e (hsz.uint64 _ _)
      simp only [List.length_append, Nat.add_assoc] at e
      have e := length_step e (hsz.int64 _ _)
      simp only [List.length_append, Nat.add_assoc, hsz.require, List.length_cons,
        List.length_nil] at e
      unfold RowChangedEvent.Msgsize
      omega

/-- What the row loop of `(*TxnEvent).MarshalMsg` appends is bounded by the
sum `Msgsize` takes over the same entries. -/
theorem marshalRows_length (lib : Msgp) (hsz : lib.SizeBounds) :
    ∀ (rs : List (Option RowChangedEvent)) (za : Nat) (o out : Bytes),
      marshalRows lib za rs o = Except.ok out →
      out.length ≤ o.length + rowsMsgsize lib rs := by
  intro rs
  induction rs with
  | nil =>
    intro za o out h
    have ho : o = out := by simpa [marshalRows] using h
    subst ho
    simp [rowsMsgsize]
  | cons r rest ih =>
    intro za o out h
    cases r with
    | none =>
      have h1 : marshalRows lib (za + 1) rest (lib.AppendNil o) = Except.ok out := by
        simpa [marshalRows] using h
      have e := ih _ _ _ h1
      have e2 := hsz.nil o
      simp only [rowsMsgsize]
      omega
    | some r =>
      cases hc : r.MarshalMsg lib o with
      | error err => simp [marshalRows, hc] at h
      | ok o1 =>
        have h1 : marshalRows lib (za + 1) rest o1 = Except.ok out := by
          simpa [marshalRows, hc] using h
        have e := ih _ _ _ h1
        have e2 := RowChangedEvent_MarshalMsg_length lib hsz r o o1 hc
        simp only [rowsMsgsize]
        omega

/-- What `(*TxnEvent).MarshalMsg` appends is bounded by `Msgsize`. -/
theorem TxnEvent_MarshalMsg_length (lib : Msgp) (hsz : lib.SizeBounds)
    (z : TxnEvent) (b out : Bytes) (h : z.MarshalMsg lib b = Except.ok out) :
    out.length ≤ b.length + z.Msgsize lib := by
  unfold TxnEvent.MarshalMsg at h
  dsimp only at h
  split at h
  · exact absurd h (by simp)
  · rename_i o1 h1
    have ho := Except.ok.inj h
    subst ho
    have e := hsz.uint64 (lib.AppendUint64 (lib.AppendUint64
      (o1 ++ [0xab, 0x72, 0x65, 0x73, 0x6f, 0x6c, 0x76, 0x65, 0x64, 0x2d, 0x74, 0x73])
      z.ResolvedTs ++ [0xa8, 0x73, 0x74, 0x61, 0x72, 0x74, 0x2d, 0x74, 0x73]) z.StartTs ++
      [0xa9, 0x63, 0x6f, 0x6d, 0x6d, 0x69, 0x74, 0x2d, 0x74, 0x73]) z.CommitTs
    simp only [List.length_append, Nat.add_assoc] at e
    have e := length_step e (hsz.uint64 _ _)
    simp only [List.length_append, Nat.add_assoc] at e
    have e := length_step e (hsz.uint64 _ _)
    simp only [List.length_append, Nat.add_assoc] at e
    have e := length_step e (marshalRows_length lib hsz _ _ _ _ h1)
    simp only [List.length_append, Nat.add_assoc] at e
    have e := length_step e (hsz.arrayHeader _ _)
    simp only [List.length_append, Nat.add_assoc] at e
    have e := length_step e (hsz.string _ _)
    simp only [List.length_append, Nat.add_assoc] at e
    have e := length_step e (hsz.uint64 _ _)
    simp only [List.length_append, Nat.add_assoc, hsz.require, List.length_cons,
      List.length_nil] at e
    unfold TxnEvent.Msgsize
    omega

/-- What `AppendUint64` writes is at most nine bytes, and fewer for a small
number. -/
theorem encUint_length (u : Nat) :
    (encUint u).length ≤ 9 ∧ (u < 256 → (encUint u).length ≤ 2) ∧
    (u < 65536 → (encUint u).length ≤ 3) ∧ (u < 4294967296 → (encUint u).length ≤ 5) := by
  unfold encUint
  split
  · simp
  · split
    · simp
    · split
      · simp [be16]
        omega
      · split
        · simp [be32]
          omega
        · simp [be64]
          omega

/-- What `AppendInt64` writes is at most nine bytes, and fewer for a small
number. -/
theorem encInt_length (i : Int) :
    (encInt i).length ≤ 9 ∧ (-128 ≤ i → i < 128 → (encInt i).length ≤ 2) ∧
    (-32768 ≤ i → i < 32768 → (encInt i).length ≤ 3) ∧
    (-2147483648 ≤ i → i < 2147483648 → (encInt i).length ≤ 5) := by
  unfold encInt
  split
  · split
    · simp
    · split
      · simp [be16]
        omega
      · split
        · simp [be32]
          omega
        · simp [be64]
          omega
  · split
    · simp
    · split
      · simp
      · split
        · simp [be16]
          omega
        · split
          · simp [be32]
            omega
          · simp [be64]
            omega

/-- The library keeps within its size constants. -/
theorem msgp_sizeBounds : msgp.SizeBounds where
  require := fun _ _ => rfl
  string := fun o s => by
    have h : (encStrPrefix s.length).length ≤ 5 := by
      unfold encStrPrefix
      split
      · simp
      · split
        · simp
        · split <;> simp [be16, be32]
    simp only [msgp, List.length_append]
    omega
  byte := fun o v => by
    have h := (encUint_length (v % 256)).2.1 (Nat.mod_lt _ (by decide))
    simp only [msgp, List.length_append]
    omega
  int64 := fun o v => by
    have h := (encInt_length v).1
    simp only [msgp, List.length_append]
    omega
  uint64 := fun o v => by
    have h := (encUint_length v).1
    simp only [msgp, List.length_append]
    omega
  arrayHeader := fun o n => by
    have h : (encArrayPrefix n).length ≤ 5 := by
      unfold encArrayPrefix
      split
      · simp
      · split <;> simp [be16, be32]
    simp only [msgp, List.length_append]
    omega
  nil := fun o => by simp [msgp]
  intf := fun o v out h => by
    cases v with
    | nil =>
      simp only [msgp, appendIntf, Except.ok.injEq] at h
      subst h
      simp [msgp, guessSize]
    | bool b =>
      simp only [msgp, appendIntf, Except.ok.injEq] at h
      subst h
      simp [msgp, guessSize]
    | int i =>
      simp only [msgp, appendIntf, Except.ok.injEq] at h
      subst h
      have h2 := (encInt_length i).1
      simp only [msgp, guessSize, List.length_append]
      omega
    | uint u =>
      simp only [msgp, appendIntf, Except.ok.injEq] at h
      subst h
      have h2 := (encUint_length u).1
      simp only [msgp, guessSize, List.length_append]
      omega
    | str s =>
      simp only [msgp, appendIntf, Except.ok.injEq] at h
      subst h
      have h2 : (encStrPrefix s.length).length ≤ 5 := by
        unfold encStrPrefix
        split
        · simp
        · split
          · simp
          · split <;> simp [be16, be32]
      simp only [msgp, guessSize, List.length_append]
      omega
    | bin b =>
      simp only [msgp, appendIntf, Except.ok.injEq] at h
      subst h
      have h2 : (encBinPrefix b.length).length ≤ 5 := by
        unfold encBinPrefix
        split
        · simp
        · split <;> simp [be16, be32]
      simp only [msgp, guessSize, List.length_append]
      omega
    | float64 bits =>
      simp only [msgp, appendIntf, Except.ok.injEq] at h
      subst h
      simp [msgp, guessSize, be64]
    | float32 bits =>
      simp only [msgp, appendIntf, Except.ok.injEq] at h
      subst h
      simp [msgp, guessSize, be32]
    | other tag => simp [msgp, appendIntf] at h
    | sint width i =>
      simp only [msgp, appendIntf, Except.ok.injEq] at h
      subst h
      have h2 := encInt_length (asSigned width.modulus (i % (width.modulus : Int)).toNat)
      simp only [msgp, guessSize, List.length_append]
      cases width
      · have h3 := h2.2.1 (by simp only [IntWidth.modulus, asSigned]; split <;> omega)
          (by simp only [IntWidth.modulus, asSigned]; split <;> omega)
        simp only [IntWidth.size]
        omega
      · have h3 := h2.2.2.1 (by simp only [IntWidth.modulus, asSigned]; split <;> omega)
          (by simp only [IntWidth.modulus, asSigned]; split <;> omega)
        simp only [IntWidth.size]
        omega
      · have h3 := h2.2.2.2 (by simp only [IntWidth.modulus, asSigned]; split <;> omega)
          (by simp only [IntWidth.modulus, asSigned]; split <;> omega)
        simp only [IntWidth.size]
        omega
      · have h3 := h2.1
        simp only [IntWidth.size]
        omega
    | usint width u =>
      simp only [msgp, appendIntf, Except.ok.injEq] at h
      subst h
      have h2 := encUint_length (u % width.modulus)
      simp only [msgp, guessSize, List.length_append]
      cases width
      · have h3 := h2.2.1 (by simp only [IntWidth.modulus]; omega)
        simp only [IntWidth.size]
        omega
      · have h3 := h2.2.2.1 (by simp only [IntWidth.modulus]; omega)
        simp only [IntWidth.size]
        omega
      · have h3 := h2.2.2.2 (by simp only [IntWidth.modulus]; omega)
        simp only [IntWidth.size]
        omega
      · have h3 := h2.1
        simp only [IntWidth.size]
        omega
  flag := fun o f out h => by
    simp only [msgp, Except.ok.injEq] at h
    subst h
    have h2 := (encUint_length f).1
    simp only [msgp, List.length_append]
    omega

/-- C30: `Msgsize` is an upper bound on the serialized size.  For a library
whose size constants bound the primitive encodings and whose `FlagMsgsize`
and `GuessSize` bound the flag and value encodings, `MarshalMsg` of a
`TxnEvent`, of a `RowChangedEvent` and of a `Column` returns at most
`Msgsize()` bytes more than the buffer it was given.  Every fixed constant of
the three `Msgsize` methods is the length of the map key written at that
place (the leading `1` is the map header `0x86`), and `MarshalMsg` writes
these keys, shown on the zero values with the encodings of the library. -/
theorem Msgsize_bounds_MarshalMsg (lib : Msgp) (hsz : lib.SizeBounds) :
    (∀ (z : TxnEvent) (b out : Bytes), z.MarshalMsg lib b = Except.ok out →
      out.length ≤ b.length + z.Msgsize lib) ∧
    (∀ (z : RowChangedEvent) (b out : Bytes), z.MarshalMsg lib b = Except.ok out →
      out.length ≤ b.length + z.Msgsize lib) ∧
    (∀ (z : Column) (b out : Bytes), z.MarshalMsg lib b = Except.ok out →
      out.length ≤ b.length + z.Msgsize lib) ∧
    (∀ z : Column, z.Msgsize lib =
      1 + (mapKey "name").length + lib.StringPrefixSize + z.Name.length +
        (mapKey "type").length + lib.ByteSize +
        (mapKey "charset").length + lib.StringPrefixSize + z.Charset.length +
        (mapKey "collation").length + lib.StringPrefixSize + z.Collation.length +
        (mapKey "flag").length + lib.FlagMsgsize z.Flag +
        (mapKey "column").length + lib.GuessSize z.Value) ∧
    (∀ z : RowChangedEvent, z.Msgsize lib =
      1 + (mapKey "PhysicalTableID").length + lib.Int64Size +
        (mapKey "StartTs").length + lib.Uint64Size +
        (mapKey "CommitTs").length + lib.Uint64Size +
        (mapKey "columns").length + lib.ArrayHeaderSize + columnsMsgsize lib z.Columns +
        ((mapKey "pre-columns").length + lib.ArrayHeaderSize) +
        columnsMsgsize lib z.PreColumns +
        ((mapKey "replicating-ts").length + lib.Uint64Size)) ∧
    (∀ z : TxnEvent, z.Msgsize lib =
      1 + (mapKey "cluster-id").length + lib.Uint64Size +
        (mapKey "dispatcher-id").length + lib.StringPrefixSize + z.DispatcherID.length +
        (mapKey "rows").length + lib.ArrayHeaderSize + rowsMsgsize lib z.Rows +
        ((mapKey "resolved-ts").length + lib.Uint64Size +
          (mapKey "start-ts").length + lib.Uint64Size +
          (mapKey "commit-ts").length + lib.Uint64Size)) ∧
    Column.zero.MarshalMsg msgp [] = Except.ok
      (0x86 :: mapKey "name" ++ msgp.encString [] ++
        mapKey "type" ++ msgp.encByte 0 ++
        mapKey "charset" ++ msgp.encString [] ++
        mapKey "collation" ++ msgp.encString [] ++
        mapKey "flag" ++ msgp.encUint64 0 ++
        mapKey "column" ++ msgp.encNil) ∧
    RowChangedEvent.zero.MarshalMsg msgp [] = Except.ok
      (0x86 :: mapKey "PhysicalTableID" ++ msgp.encInt64 0 ++
        mapKey "StartTs" ++ msgp.encUint64 0 ++
        mapKey "CommitTs" ++ msgp.encUint64 0 ++
        mapKey "columns" ++ msgp.encArrayHeader 0 ++
        mapKey "pre-columns" ++ msgp.encArrayHeader 0 ++
        mapKey "replicating-ts" ++ msgp.encUint64 0) ∧
    TxnEvent.zero.MarshalMsg msgp [] = Except.ok
      (0x86 :: mapKey "cluster-id" ++ msgp.encUint64 0 ++
        mapKey "dispatcher-id" ++ msgp.encString [] ++
        mapKey "rows" ++ msgp.encArrayHeader 0 ++
        mapKey "resolved-ts" ++ msgp.encUint64 0 ++
        mapKey "start-ts" ++ msgp.encUint64 0 ++
        mapKey "commit-ts" ++ msgp.encUint64 0) :=
  ⟨TxnEvent_MarshalMsg_length lib hsz, RowChangedEvent_MarshalMsg_length lib hsz,
    Column_MarshalMsg_length lib hsz, fun _ => rfl, fun _ => rfl, fun _ => rfl,
    rfl, rfl, rfl⟩

/-- C30 at the sample event: the library keeps within its size constants, and
the 269 bytes it writes for the sample event are within the 403 of
`Msgsize()`. -/
theorem Msgsize_bounds_MarshalMsg_witness :
    msgp.SizeBounds ∧
    ∃ out, sampleTxnEvent.MarshalMsg msgp [] = Except.ok out ∧
      out.length ≤ ([] : Bytes).length + sampleTxnEvent.Msgsize msgp :=
  ⟨msgp_sizeBounds,
    _, rfl, (Msgsize_bounds_MarshalMsg msgp msgp_sizeBounds).1
      sampleTxnEvent [] _ rfl⟩


/-! ## Schema store: dropping a database, truncating a table -/

/-- The sample store's maps agree. -/
theorem sampleStorage_MapsConsistent : sampleStorage.MapsConsistent := by
  constructor
  · intro t info h
    by_cases ht : t = 7
    · subst ht
      have hi : info = { SchemaID := 1, Name := "t", InKVSnap := false } := by
        simpa [sampleStorage] using h.symm
      subst hi
      exact ⟨_, rfl, rfl⟩
    · simp [sampleStorage, ht] at h
  · intro s db t h ht
    by_cases hs : s = 1
    · subst hs
      simp only [sampleStorage, if_true] at h
      have hdb := Option.some.inj h
      subst hdb
      have h7 : t = 7 := by simpa using ht
      subst h7
      exact ⟨_, rfl, rfl⟩
    · simp [sampleStorage, hs] at h

/-- C31 at a `DropSchema`: the sample store holds database 1 with its table 7
and its maps agree; the event that drops database 1 is not skipped, and
`updateDatabaseInfoAndTableInfo` deletes the database from `databaseMap` but
leaves table 7 in `tableMap` with the schema id of the dropped database, so
the maps no longer agree.  The same state results from
`handleSortedDDLEvents`. -/
theorem DropSchema_leaves_tables :
    sampleStorage.MapsConsistent ∧
    shouldSkipDDL dropSchemaOne sampleStorage.databaseMap sampleStorage.tableMap = false ∧
    (∃ p2, sampleStorage.updateDatabaseInfoAndTableInfo dropSchemaOne = Except.ok p2 ∧
      p2.databaseMap 1 = none ∧
      p2.tableMap 7 = some { SchemaID := 1, Name := "t", InKVSnap := false } ∧
      ¬ p2.MapsConsistent) ∧
    (∃ p3 filled, sampleStorage.handleSortedDDLEvents [dropSchemaOne] = Except.ok (p3, filled) ∧
      p3.databaseMap 1 = none ∧
      p3.tableMap 7 = some { SchemaID := 1, Name := "t", InKVSnap := false }) := by
  refine ⟨sampleStorage_MapsConsistent, rfl, ⟨_, rfl, rfl, rfl, ?_⟩, ⟨_, _, rfl, rfl, rfl⟩⟩
  intro h
  obtain ⟨db, hdb, _⟩ := h.1 7 { SchemaID := 1, Name := "t", InKVSnap := false } rfl
  exact absurd hdb (by simp [persistentStorage.updateDatabaseInfoAndTableInfo, dropSchemaOne,
    ddlEventOf, sampleStorage])

/-- C32 at a `TruncateTable`: the event that truncates table 7 gets both
`NeedDroppedTables` (table 7) and `NeedAddedTables` (table 8) from
`fillInfluencedTableInfo` and is not skipped, yet after
`handleSortedDDLEvents` the table-trigger history is `[10, 20]` as before:
the event's timestamp 50 is only in the histories of the tables 7 and 8, and
`fetchTableTriggerDDLEvents` from 20 on returns no event. -/
theorem TruncateTable_not_in_trigger_history :
    (∃ filled, fillInfluencedTableInfo truncateSeven = Except.ok filled ∧
      filled.NeedDroppedTables = some
        { InfluenceType := InfluenceType.Normal, TableIDs := [7], SchemaID := 0,
          SchemaName := "" } ∧
      filled.NeedAddedTables =
        [{ SchemaID := 1, SchemaName := "", TableID := 8, TableName := "" }]) ∧
    shouldSkipDDL truncateSeven sampleStorage.databaseMap sampleStorage.tableMap = false ∧
    (∃ p2 filled, sampleStorage.handleSortedDDLEvents [truncateSeven] = Except.ok (p2, filled) ∧
      p2.tableTriggerDDLHistory = [10, 20] ∧
      p2.tablesDDLHistory 7 = some [20, 30, 50] ∧
      p2.tablesDDLHistory 8 = some [50] ∧
      p2.tableMap 8 = some { SchemaID := 1, Name := "t", InKVSnap := false } ∧
      p2.tableMap 7 = none ∧
      ∃ p3, p2.fetchTableTriggerDDLEvents 3 keepAll 20 10 = some (Except.ok (p3, Except.ok []))) :=
  ⟨⟨_, rfl, rfl, rfl⟩, rfl, ⟨_, _, rfl, rfl, rfl, rfl, rfl, rfl, ⟨_, rfl⟩⟩⟩

/-! ## Schema store: the mutex on the error returns -/

/-- C34 on the error returns, at the sample store (`gcTs = 5`, no table
registered, mutex free).  `getAllPhysicalTables` with `snapTs = 3` returns its
error with the write lock still held; `getTableInfo` of the unregistered
table 7 returns its error with the write lock still held;
`fetchTableDDLEvents` with `start = 3` calls `Unlock` while it holds the read
lock, which is fatal, and the read lock stays held.
`fetchTableTriggerDDLEvents` with `start = 3` returns its error with the mutex
free. -/
theorem readers_keep_mutex_on_error
    (loadAllPhysicalTablesInSnap : Nat → Nat → Except StoreError (List Table))
    (storeGetTableInfo : versionedTableInfoStore → Nat → Except StoreError TableInfo) :
    (∃ p2, sampleStorage.getAllPhysicalTables loadAllPhysicalTablesInSnap 3
        = Except.ok (p2, Except.error StoreError.snapTsSmallerThanGcTs) ∧
      p2.mu = { writer := true, readers := 0 }) ∧
    (∃ p2, sampleStorage.getTableInfo storeGetTableInfo 7 10
        = Except.ok (p2, Except.error StoreError.tableNotFound) ∧
      p2.mu = { writer := true, readers := 0 }) ∧
    (∃ p2, sampleStorage.fetchTableDDLEvents 7 3 100
        = Except.error (StoreFault.unlockOfUnlockedRWMutex, p2) ∧
      p2.mu = { writer := false, readers := 1 }) ∧
    (∃ p2, sampleStorage.fetchTableTriggerDDLEvents 1 keepAll 3 10
        = some (Except.ok (p2, Except.error StoreError.startTsSmallerThanGcTs)) ∧
      p2.mu = { writer := false, readers := 0 }) :=
  ⟨⟨_, rfl, rfl⟩, ⟨_, rfl, rfl⟩, ⟨_, rfl, rfl⟩, ⟨_, rfl, rfl⟩⟩

/-! ## Maintainer: the error lock of `onHeartBeatRequest` -/

/-- C33 on the error branch: for every maintainer whose `errLock` is free and
every heartbeat request with a non-nil `Err` (with or without a watermark or
a warning), `onHeartBeatRequest` calls `errLock.Unlock()` on the free mutex,
which is fatal: the call does not return and the error is not stored.  When
another holder has the lock, the first `Unlock` releases that holder's lock
and the second one is fatal.  The same request through `HandleEvent` ends the
same way. -/
theorem onHeartBeatRequest_unlocks_unlocked (m : Maintainer) (sender : NodeID)
    (req : HeartBeatRequest) (err : RunningError) (env : Env) :
    Maintainer.onHeartBeatRequest { m with errLock := false } sender { req with Err := some err }
      = Except.error Fault.unlockOfUnlockedMutex ∧
    Maintainer.onHeartBeatRequest { m with errLock := true } sender
      { req with Warning := none, Err := some err }
      = Except.error Fault.unlockOfUnlockedMutex ∧
    (NewMaintainer 0).HandleEvent env
      (Event.EventMessage
        { From := sender,
          body := MessageBody.HeartBeatRequest
            { Watermark := none, Statuses := 0, Warning := none, Err := some err } })
      = Except.error Fault.unlockOfUnlockedMutex := by
  refine ⟨?_, ?_, rfl⟩
  · unfold Maintainer.onHeartBeatRequest
    cases req.Watermark <;> cases req.Warning <;> rfl
  · unfold Maintainer.onHeartBeatRequest
    cases req.Watermark <;> rfl

/-! ## Maintainer: a close response without a cascade -/

/-- What `onRemoveMaintainer(false)` leaves behind. -/
theorem onRemoveMaintainer_false (m : Maintainer) (env : Env) :
    (m.onRemoveMaintainer env false).removing = true ∧
    (m.onRemoveMaintainer env false).cascadeRemoving = false ∧
    (m.onRemoveMaintainer env false).removed = true ∧
    (m.onRemoveMaintainer env false).state = ComponentState.Stopped ∧
    (m.onRemoveMaintainer env false).sent = m.sent ∧
    (m.onRemoveMaintainer env false).gaugeDecrements = m.gaugeDecrements + 1 := by
  unfold Maintainer.onRemoveMaintainer Maintainer.tryCloseChangefeed
  by_cases hs : m.state = ComponentState.Stopped <;> simp [hs]

/-- C37: a `MaintainerCloseResponse` handled while `cascadeRemoving` is false
stops the maintainer, whatever `response.Success` is and whether or not a
`RemoveMaintainerRequest` came before: `onNodeClosed` leaves `removing = true`,
`removed = true` and the state `Stopped`, sends nothing and decrements the
gauge; `nodesClosed` gains the sender only on `Success`.  Through `HandleEvent`
the same holds for every maintainer that is not yet `Stopped`. -/
theorem onNodeClosed_without_cascade (m : Maintainer) (env : Env) (sender : NodeID)
    (success : Bool) (h : m.cascadeRemoving = false) :
    (m.onNodeClosed env sender success).removing = true ∧
    (m.onNodeClosed env sender success).removed = true ∧
    (m.onNodeClosed env sender success).state = ComponentState.Stopped ∧
    (m.onNodeClosed env sender success).cascadeRemoving = false ∧
    (m.onNodeClosed env sender success).sent = m.sent ∧
    (m.onNodeClosed env sender success).gaugeDecrements = m.gaugeDecrements + 1 ∧
    (m.state ≠ ComponentState.Stopped →
      ∃ m2, m.HandleEvent env
          (Event.EventMessage
            { From := sender, body := MessageBody.MaintainerCloseResponse success })
          = Except.ok (m2, false) ∧
        m2.removing = true ∧ m2.removed = true ∧ m2.state = ComponentState.Stopped) := by
  have hclosed : ∀ q : Maintainer, q.cascadeRemoving = false →
      (q.onNodeClosed env sender success).removing = true ∧
      (q.onNodeClosed env sender success).removed = true ∧
      (q.onNodeClosed env sender success).state = ComponentState.Stopped ∧
      (q.onNodeClosed env sender success).cascadeRemoving = false ∧
      (q.onNodeClosed env sender success).sent = q.sent ∧
      (q.onNodeClosed env sender success).gaugeDecrements = q.gaugeDecrements + 1 := by
    intro q hq
    unfold Maintainer.onNodeClosed
    cases success
    · simp only [Bool.false_eq_true, if_false, hq]
      have hr := onRemoveMaintainer_false q env
      exact ⟨hr.1, hr.2.2.1, hr.2.2.2.1, hr.2.1, hr.2.2.2.2.1, hr.2.2.2.2.2⟩
    · simp only [if_true, hq]
      have hr := onRemoveMaintainer_false
        { q with nodesClosed := fun n => if n = sender then true else q.nodesClosed n } env
      exact ⟨hr.1, hr.2.2.1, hr.2.2.2.1, hr.2.1, hr.2.2.2.2.1, hr.2.2.2.2.2⟩
  obtain ⟨h1, h2, h3, h4, h5, h6⟩ := hclosed m h
  refine ⟨h1, h2, h3, h4, h5, h6, ?_⟩
  intro hs
  unfold Maintainer.HandleEvent
  rw [if_neg hs]
  by_cases hn : m.nodeChanged = true
  · simp only [hn, if_true, Maintainer.onMessage]
    have hq : ({ m.onNodeChanged env with nodeChanged := false } : Maintainer).cascadeRemoving
        = false := by
      simpa [Maintainer.onNodeChanged, Maintainer.sendMessages] using h
    obtain ⟨q1, q2, q3, _⟩ := hclosed _ hq
    exact ⟨_, rfl, q1, q2, q3⟩
  · simp only [hn, if_false, Maintainer.onMessage]
    exact ⟨_, rfl, h1, h2, h3⟩

/-- C37 at a maintainer that `NewMaintainer` has just built and that never
received a `RemoveMaintainerRequest`: a close response with `Success = false`
from node 2 stops it. -/
theorem onNodeClosed_without_cascade_witness :
    (NewMaintainer 0).removing = false ∧
    ((NewMaintainer 0).onNodeClosed tickEnv 2 false).removing = true ∧
    ((NewMaintainer 0).onNodeClosed tickEnv 2 false).removed = true ∧
    ((NewMaintainer 0).onNodeClosed tickEnv 2 false).state = ComponentState.Stopped :=
  ⟨rfl, (onNodeClosed_without_cascade (NewMaintainer 0) tickEnv 2 false rfl).1,
    (onNodeClosed_without_cascade (NewMaintainer 0) tickEnv 2 false rfl).2.1,
    (onNodeClosed_without_cascade (NewMaintainer 0) tickEnv 2 false rfl).2.2.1⟩

/-! ## Dispatcher: an action that does not match the pending event -/

/-- C36: when the status carries an action that does not match the pending
block event (no pending event, another commit timestamp, or a stage other
than `WAITING`), `HandleDispatcherStatus` makes no call on the sink and puts no
error on `errCh`, yet it puts on `blockStatusesChan` one status with
`IsBlocked = true`, `Stage = DONE` and `BlockTs`, `IsSyncPoint` taken from the
action, and it clears the pending event and its stage. -/
theorem HandleDispatcherStatus_unmatched (d : Dispatcher) (writeErr : Option Nat)
    (dispatcherStatus : DispatcherStatus) (action : DispatcherAction)
    (ha : dispatcherStatus.Action = some action)
    (hno : ∀ pendingEvent, d.blockPendingEvent = some pendingEvent →
      action.CommitTs ≠ pendingEvent.CommitTs ∨ d.blockStage ≠ BlockStage.WAITING) :
    (d.HandleDispatcherStatus writeErr dispatcherStatus).sinkCalls = d.sinkCalls ∧
    (d.HandleDispatcherStatus writeErr dispatcherStatus).errCh = d.errCh ∧
    (d.HandleDispatcherStatus writeErr dispatcherStatus).blockStatusesChan =
      d.blockStatusesChan ++
        [{ ID := d.id, IsBlocked := true, BlockTs := action.CommitTs, BlockTables := none,
           NeedDroppedTables := none, NeedAddedTables := none, UpdatedSchemas := none,
           IsSyncPoint := action.IsSyncPoint, Stage := BlockStage.DONE }] ∧
    (d.HandleDispatcherStatus writeErr dispatcherStatus).blockPendingEvent = none ∧
    (d.HandleDispatcherStatus writeErr dispatcherStatus).blockStage = BlockStage.NONE := by
  have hframe : ∀ identifier,
      (d.cancelResendTask identifier).blockPendingEvent = d.blockPendingEvent ∧
      (d.cancelResendTask identifier).blockStage = d.blockStage ∧
      (d.cancelResendTask identifier).sinkCalls = d.sinkCalls ∧
      (d.cancelResendTask identifier).errCh = d.errCh ∧
      (d.cancelResendTask identifier).blockStatusesChan = d.blockStatusesChan ∧
      (d.cancelResendTask identifier).id = d.id := by
    intro identifier
    unfold Dispatcher.cancelResendTask
    cases d.resendTaskMap identifier <;> exact ⟨rfl, rfl, rfl, rfl, rfl, rfl⟩
  have key : ∀ d1 : Dispatcher, d1.blockPendingEvent = d.blockPendingEvent →
      d1.blockStage = d.blockStage → d1.sinkCalls = d.sinkCalls → d1.errCh = d.errCh →
      d1.blockStatusesChan = d.blockStatusesChan → d1.id = d.id →
      ∀ r : Dispatcher,
        r = (match d1.getEventAndStage with
          | (some pendingEvent, blockStatus) =>
            if action.CommitTs = pendingEvent.CommitTs ∧ blockStatus = BlockStage.WAITING then
              if action.Action = Action.Write then
                match writeErr with
                | some err =>
                  { d1.updateBlockStage BlockStage.WRITING with
                    sinkCalls := (d1.updateBlockStage BlockStage.WRITING).sinkCalls ++
                      [SinkCall.WriteBlockEvent pendingEvent],
                    errCh := (d1.updateBlockStage BlockStage.WRITING).errCh ++ [err] }
                | none =>
                  Dispatcher.clearBlockStatus
                    { d1.updateBlockStage BlockStage.WRITING with
                      sinkCalls := (d1.updateBlockStage BlockStage.WRITING).sinkCalls ++
                        [SinkCall.WriteBlockEvent pendingEvent],
                      blockStatusesChan :=
                        (d1.updateBlockStage BlockStage.WRITING).blockStatusesChan ++
                        [{ ID := d1.id, IsBlocked := true, BlockTs := action.CommitTs,
                           BlockTables := none, NeedDroppedTables := none,
                           NeedAddedTables := none, UpdatedSchemas := none,
                           IsSyncPoint := action.IsSyncPoint, Stage := BlockStage.DONE }] }
              else
                Dispatcher.clearBlockStatus
                  { d1.updateBlockStage BlockStage.WRITING with
                    sinkCalls := (d1.updateBlockStage BlockStage.WRITING).sinkCalls ++
                      [SinkCall.PassBlockEvent pendingEvent],
                    blockStatusesChan :=
                      (d1.updateBlockStage BlockStage.WRITING).blockStatusesChan ++
                      [{ ID := d1.id, IsBlocked := true, BlockTs := action.CommitTs,
                         BlockTables := none, NeedDroppedTables := none,
                         NeedAddedTables := none, UpdatedSchemas := none,
                         IsSyncPoint := action.IsSyncPoint, Stage := BlockStage.DONE }] }
            else
              Dispatcher.clearBlockStatus
                { d1 with
                  blockStatusesChan := d1.blockStatusesChan ++
                    [{ ID := d1.id, IsBlocked := true, BlockTs := action.CommitTs,
                       BlockTables := none, NeedDroppedTables := none,
                       NeedAddedTables := none, UpdatedSchemas := none,
                       IsSyncPoint := action.IsSyncPoint, Stage := BlockStage.DONE }] }
          | (none, _) =>
            Dispatcher.clearBlockStatus
              { d1 with
                blockStatusesChan := d1.blockStatusesChan ++
                  [{ ID := d1.id, IsBlocked := true, BlockTs := action.CommitTs,
                     BlockTables := none, NeedDroppedTables := none,
                     NeedAddedTables := none, UpdatedSchemas := none,
                     IsSyncPoint := action.IsSyncPoint, Stage := BlockStage.DONE }] }) →
        r.sinkCalls = d.sinkCalls ∧ r.errCh = d.errCh ∧
        r.blockStatusesChan = d.blockStatusesChan ++
          [{ ID := d.id, IsBlocked := true, BlockTs := action.CommitTs, BlockTables := none,
             NeedDroppedTables := none, NeedAddedTables := none, UpdatedSchemas := none,
             IsSyncPoint := action.IsSyncPoint, Stage := BlockStage.DONE }] ∧
        r.blockPendingEvent = none ∧ r.blockStage = BlockStage.NONE := by
    intro d1 hp hst hsink herr hchan hid r hr
    unfold Dispatcher.getEventAndStage at hr
    cases hpe : d1.blockPendingEvent with
    | none =>
      rw [hpe] at hr
      subst hr
      simp [Dispatcher.clearBlockStatus, hsink, herr, hchan, hid]
    | some pendingEvent =>
      rw [hpe] at hr
      have hne := hno pendingEvent (by rw [← hp, hpe])
      have hcond : ¬ (action.CommitTs = pendingEvent.CommitTs ∧
          d1.blockStage = BlockStage.WAITING) := by
        rw [hst]
        intro hc
        cases hne with
        | inl h1 => exact h1 hc.1
        | inr h2 => exact h2 hc.2
      simp only [if_neg hcond] at hr
      subst hr
      simp [Dispatcher.clearBlockStatus, hsink, herr, hchan, hid]
  unfold Dispatcher.HandleDispatcherStatus
  rw [ha]
  cases hack : dispatcherStatus.Ack with
  | none => exact key d rfl rfl rfl rfl rfl rfl _ rfl
  | some ack =>
    obtain ⟨f1, f2, f3, f4, f5, f6⟩ :=
      hframe { CommitTs := ack.CommitTs, IsSyncPoint := ack.IsSyncPoint }
    exact key _ f1 f2 f3 f4 f5 f6 _ rfl

/-- C36 at the waiting dispatcher (pending commit timestamp 10): a `Write`
action for the timestamp 11 writes nothing, reports `DONE` for 11 and clears
the pending event. -/
theorem HandleDispatcherStatus_unmatched_witness :
    (waitingDispatcher.HandleDispatcherStatus none
      { Ack := none,
        Action := some { Action := Action.Write, CommitTs := 11, IsSyncPoint := false } }).sinkCalls
      = [] ∧
    (waitingDispatcher.HandleDispatcherStatus none
      { Ack := none,
        Action := some { Action := Action.Write, CommitTs := 11, IsSyncPoint := false } }).blockPendingEvent
      = none :=
  ⟨(HandleDispatcherStatus_unmatched waitingDispatcher none
      { Ack := none,
        Action := some { Action := Action.Write, CommitTs := 11, IsSyncPoint := false } }
      { Action := Action.Write, CommitTs := 11, IsSyncPoint := false } rfl
      (fun pendingEvent hp => Or.inl (by
        have h := Option.some.inj hp
        subst h
        decide))).1,
   (HandleDispatcherStatus_unmatched waitingDispatcher none
      { Ack := none,
        Action := some { Action := Action.Write, CommitTs := 11, IsSyncPoint := false } }
      { Action := Action.Write, CommitTs := 11, IsSyncPoint := false } rfl
      (fun pendingEvent hp => Or.inl (by
        have h := Option.some.inj hp
        subst h
        decide))).2.2.2.1⟩

/-! ## Dispatcher: the block flag of `HandleEvents` -/

/-- One turn of the loop: the flag becomes true exactly when it was true or the
event is a DML, DDL or sync point event that is not stale. -/
theorem handleEvent_block (d d1 : EventDispatcher) (spanz : Spanz) (writeErr : Option Nat)
    (n : Nat) (block block1 : Bool) (event : DispatcherEvent)
    (h : d.handleEvent spanz writeErr n block event = Except.ok (d1, block1)) :
    block1 = (block || (event.setsBlock && decide (d.resolvedTs ≤ event.GetCommitTs))) := by
  unfold EventDispatcher.handleEvent at h
  by_cases hs : event.GetCommitTs < d.resolvedTs
  · rw [if_pos hs] at h
    have hb : block = block1 := by
      have := Except.ok.inj h
      exact (Prod.mk.inj this).2
    have hd : decide (d.resolvedTs ≤ event.GetCommitTs) = false := by
      simp only [decide_eq_false_iff_not]
      omega
    rw [hd, ← hb]
    simp
  · rw [if_neg hs] at h
    have hd : decide (d.resolvedTs ≤ event.GetCommitTs) = true := by
      simp only [decide_eq_true_eq]
      omega
    rw [hd]
    cases event with
    | ResolvedEvent c r =>
      have hb := (Prod.mk.inj (Except.ok.inj h)).2
      rw [← hb]
      simp [DispatcherEvent.setsBlock]
    | DMLEvent c =>
      have hb := (Prod.mk.inj (Except.ok.inj h)).2
      rw [← hb]
      simp [DispatcherEvent.setsBlock]
    | DDLEvent e =>
      simp only at h
      by_cases hn : n ≠ 1
      · rw [if_pos hn] at h
        exact absurd h (by simp)
      · rw [if_neg hn] at h
        have hb := (Prod.mk.inj (Except.ok.inj h)).2
        rw [← hb]
        simp [DispatcherEvent.setsBlock]
    | SyncPointEvent e =>
      simp only at h
      by_cases hn : n ≠ 1
      · rw [if_pos hn] at h
        exact absurd h (by simp)
      · rw [if_neg hn] at h
        have hb := (Prod.mk.inj (Except.ok.inj h)).2
        rw [← hb]
        simp [DispatcherEvent.setsBlock]
    | HandshakeEvent c =>
      have hb := (Prod.mk.inj (Except.ok.inj h)).2
      rw [← hb]
      simp [DispatcherEvent.setsBlock]
    | Unexpected c => exact absurd h (by simp)

/-- The loop returns `true` exactly when it started with `true` or reaches a
DML, DDL or sync point event that is not stale at that moment. -/
theorem handleEventsFrom_block (spanz : Spanz) (writeErr : Option Nat) (n : Nat) :
    ∀ (events : List DispatcherEvent) (d d2 : EventDispatcher) (block block2 : Bool),
      EventDispatcher.handleEventsFrom spanz writeErr n events d block
        = Except.ok (d2, block2) →
      (block2 = true ↔ block = true ∨
        ∃ pre event post d1 block1, events = pre ++ event :: post ∧
          EventDispatcher.handleEventsFrom spanz writeErr n pre d block
            = Except.ok (d1, block1) ∧
          event.setsBlock = true ∧ d1.resolvedTs ≤ event.GetCommitTs) := by
  intro events
  induction events with
  | nil =>
    intro d d2 block block2 h
    have hb : block = block2 := (Prod.mk.inj (Except.ok.inj h)).2
    rw [← hb]
    constructor
    · intro hbt
      exact Or.inl hbt
    · intro hor
      cases hor with
      | inl hbt => exact hbt
      | inr hex =>
        obtain ⟨pre, event, post, _, _, hev, _⟩ := hex
        exact absurd hev (by simp)
  | cons e rest ih =>
    intro d d2 block block2 h
    rw [EventDispatcher.handleEventsFrom] at h
    cases hstep : d.handleEvent spanz writeErr n block e with
    | error f =>
      rw [hstep] at h
      exact absurd h (by simp)
    | ok r =>
      obtain ⟨dm, bm⟩ := r
      rw [hstep] at h
      simp only at h
      have hbm := handleEvent_block d dm spanz writeErr n block bm e hstep
      have hrest := ih dm d2 bm block2 h
      constructor
      · intro hb2
        cases hrest.mp hb2 with
        | inl hbmt =>
          rw [hbm] at hbmt
          cases hblock : block with
          | true => exact Or.inl rfl
          | false =>
            right
            rw [hblock] at hbmt
            simp only [Bool.false_or, Bool.and_eq_true, decide_eq_true_eq] at hbmt
            exact ⟨[], e, rest, d, false, rfl, by rw [EventDispatcher.handleEventsFrom],
              hbmt.1, hbmt.2⟩
        | inr hex =>
          obtain ⟨pre, event, post, d1, b1, hsplit, hpre, hev, hts⟩ := hex
          right
          refine ⟨e :: pre, event, post, d1, b1, by rw [hsplit]; rfl, ?_, hev, hts⟩
          rw [EventDispatcher.handleEventsFrom, hstep]
          exact hpre
      · intro hor
        apply hrest.mpr
        cases hor with
        | inl hbt =>
          left
          rw [hbm, hbt]
          rfl
        | inr hex =>
          obtain ⟨pre, event, post, d1, b1, hsplit, hpre, hev, hts⟩ := hex
          cases pre with
          | nil =>
            rw [EventDispatcher.handleEventsFrom] at hpre
            have hd1 : d = d1 := (Prod.mk.inj (Except.ok.inj hpre)).1
            have he : e = event := by
              have := List.cons.inj hsplit
              exact this.1
            left
            rw [hbm, he, hev, hd1]
            simp [hts]
          | cons e0 pre0 =>
            have hc := List.cons.inj hsplit
            rw [EventDispatcher.handleEventsFrom, ← hc.1, hstep] at hpre
            right
            exact ⟨pre0, event, post, d1, b1, hc.2, hpre, hev, hts⟩

/-- A batch of resolved-ts, DML and handshake events is handled to the end. -/
theorem handleEventsFrom_returns (spanz : Spanz) (writeErr : Option Nat) (n : Nat) :
    ∀ (events : List DispatcherEvent) (d : EventDispatcher) (block : Bool),
      (∀ e ∈ events, ∃ c r, e = DispatcherEvent.ResolvedEvent c r ∨
        e = DispatcherEvent.DMLEvent c ∨ e = DispatcherEvent.HandshakeEvent c) →
      ∃ d2 block2, EventDispatcher.handleEventsFrom spanz writeErr n events d block
        = Except.ok (d2, block2) := by
  intro events
  induction events with
  | nil =>
    intro d block _
    exact ⟨d, block, rfl⟩
  | cons e rest ih =>
    intro d block hall
    have hstep : ∃ d1 b1, d.handleEvent spanz writeErr n block e = Except.ok (d1, b1) := by
      obtain ⟨c, r, he⟩ := hall e (List.mem_cons_self _ _)
      unfold EventDispatcher.handleEvent
      by_cases hs : e.GetCommitTs < d.resolvedTs
      · rw [if_pos hs]
        exact ⟨_, _, rfl⟩
      · rw [if_neg hs]
        rcases he with he | he | he <;> subst he <;> exact ⟨_, _, rfl⟩
    obtain ⟨d1, b1, hs⟩ := hstep
    obtain ⟨d2, b2, hr⟩ := ih d1 b1 (fun e he => hall e (List.mem_cons_of_mem _ he))
    refine ⟨d2, b2, ?_⟩
    rw [EventDispatcher.handleEventsFrom, hs]
    exact hr

/-- C35, the code against its doc comment (`Only return false when all events
are resolvedTs Event`): on a dispatcher whose resolved timestamp is 10, the
batch of the single DML event with commit timestamp 5 is stale and returns
`false`, and so does the batch of a single handshake event (stale or not),
although neither batch holds a resolved-ts event. -/
theorem HandleEvents_false_without_resolved_event :
    (∃ d2, sampleEventDispatcher.HandleEvents sampleSpanz none [DispatcherEvent.DMLEvent 5]
      = Except.ok (d2, false)) ∧
    (∃ d2, sampleEventDispatcher.HandleEvents sampleSpanz none
      [DispatcherEvent.HandshakeEvent 20] = Except.ok (d2, false)) ∧
    (∃ d2, sampleEventDispatcher.HandleEvents sampleSpanz none
      [DispatcherEvent.HandshakeEvent 5] = Except.ok (d2, false)) :=
  ⟨⟨_, rfl⟩, ⟨_, rfl⟩, ⟨_, rfl⟩⟩

/-- What the loop of `HandleEvents` computes: it returns `true` exactly when the
batch holds a DML, DDL or sync point event that is not stale when the loop
reaches it (its commit timestamp is not below the dispatcher's resolved
timestamp after the events before it); resolved-ts events, handshake events and stale events leave
the flag as it is, so a batch of such events returns `false`.  A batch of
resolved-ts, DML and handshake events always returns, and so does a batch of
one DDL or one sync point event. -/
theorem HandleEvents_block (d : EventDispatcher) (spanz : Spanz) (writeErr : Option Nat)
    (dispatcherEvents : List DispatcherEvent) :
    (∀ d2 block, d.HandleEvents spanz writeErr dispatcherEvents = Except.ok (d2, block) →
      (block = true ↔
        ∃ pre event post d1 block1, dispatcherEvents = pre ++ event :: post ∧
          EventDispatcher.handleEventsFrom spanz writeErr dispatcherEvents.length pre d false
            = Except.ok (d1, block1) ∧
          event.setsBlock = true ∧ d1.resolvedTs ≤ event.GetCommitTs)) ∧
    ((∀ e ∈ dispatcherEvents, ∃ c r, e = DispatcherEvent.ResolvedEvent c r ∨
        e = DispatcherEvent.DMLEvent c ∨ e = DispatcherEvent.HandshakeEvent c) →
      ∃ d2 block, d.HandleEvents spanz writeErr dispatcherEvents = Except.ok (d2, block)) ∧
    ((∀ e ∈ dispatcherEvents, ∃ c r, e = DispatcherEvent.ResolvedEvent c r ∨
        e = DispatcherEvent.HandshakeEvent c) →
      ∃ d2, d.HandleEvents spanz writeErr dispatcherEvents = Except.ok (d2, false)) ∧
    (∀ event, dispatcherEvents = [DispatcherEvent.DDLEvent event] ∨
        dispatcherEvents = [DispatcherEvent.SyncPointEvent event] →
      ∃ d2, d.HandleEvents spanz writeErr dispatcherEvents
        = Except.ok (d2, decide (d.resolvedTs ≤ event.CommitTs))) := by
  have h1 : ∀ d2 block, d.HandleEvents spanz writeErr dispatcherEvents = Except.ok (d2, block) →
      (block = true ↔
        ∃ pre event post d1 block1, dispatcherEvents = pre ++ event :: post ∧
          EventDispatcher.handleEventsFrom spanz writeErr dispatcherEvents.length pre d false
            = Except.ok (d1, block1) ∧
          event.setsBlock = true ∧ d1.resolvedTs ≤ event.GetCommitTs) := by
    intro d2 block h
    have hk := handleEventsFrom_block spanz writeErr dispatcherEvents.length dispatcherEvents
      d d2 false block h
    constructor
    · intro hb
      cases hk.mp hb with
      | inl hf => exact absurd hf (by simp)
      | inr hex => exact hex
    · intro hex
      exact hk.mpr (Or.inr hex)
  refine ⟨h1, ?_, ?_, ?_⟩
  · intro hall
    exact handleEventsFrom_returns spanz writeErr dispatcherEvents.length dispatcherEvents d
      false hall
  · intro hall
    obtain ⟨d2, block, hr⟩ := handleEventsFrom_returns spanz writeErr dispatcherEvents.length
      dispatcherEvents d false (by
        intro e he
        obtain ⟨c, r, hc⟩ := hall e he
        exact ⟨c, r, hc.elim Or.inl (fun h => Or.inr (Or.inr h))⟩)
    cases hblock : block with
    | false =>
      rw [hblock] at hr
      exact ⟨d2, hr⟩
    | true =>
      rw [hblock] at hr
      obtain ⟨pre, event, post, _, _, hsplit, _, hev, _⟩ := (h1 d2 true hr).mp rfl
      have hmem : event ∈ dispatcherEvents := by
        rw [hsplit]
        simp
      obtain ⟨c, r, hc⟩ := hall event hmem
      rcases hc with hc | hc <;> subst hc <;> exact absurd hev (by simp [DispatcherEvent.setsBlock])
  · intro event hev
    rcases hev with hev | hev
    · subst hev
      by_cases hs : event.CommitTs < d.resolvedTs
      · refine ⟨d, ?_⟩
        have hd : decide (d.resolvedTs ≤ event.CommitTs) = false := by
          simp only [decide_eq_false_iff_not]
          omega
        rw [hd]
        simp [EventDispatcher.HandleEvents, EventDispatcher.handleEventsFrom,
          EventDispatcher.handleEvent, DispatcherEvent.GetCommitTs, hs]
      · have hd : decide (d.resolvedTs ≤ event.CommitTs) = true := by
          simp only [decide_eq_true_eq]
          omega
        rw [hd]
        refine ⟨{ d with
          toDispatcher := d.toDispatcher.dealWithBlockEvent spanz writeErr
            { event with typ := BlockEventType.TypeDDLEvent } }, ?_⟩
        simp [EventDispatcher.HandleEvents, EventDispatcher.handleEventsFrom,
          EventDispatcher.handleEvent, DispatcherEvent.GetCommitTs, hs]
    · subst hev
      by_cases hs : event.CommitTs < d.resolvedTs
      · refine ⟨d, ?_⟩
        have hd : decide (d.resolvedTs ≤ event.CommitTs) = false := by
          simp only [decide_eq_false_iff_not]
          omega
        rw [hd]
        simp [EventDispatcher.HandleEvents, EventDispatcher.handleEventsFrom,
          EventDispatcher.handleEvent, DispatcherEvent.GetCommitTs, hs]
      · have hd : decide (d.resolvedTs ≤ event.CommitTs) = true := by
          simp only [decide_eq_true_eq]
          omega
        rw [hd]
        refine ⟨{ d with
          toDispatcher := d.toDispatcher.dealWithBlockEvent spanz writeErr
            { event with typ := BlockEventType.TypeSyncPointEvent },
          lastSyncPointTs := event.CommitTs }, ?_⟩
        simp [EventDispatcher.HandleEvents, EventDispatcher.handleEventsFrom,
          EventDispatcher.handleEvent, DispatcherEvent.GetCommitTs, hs]

/-- At the sample dispatcher (resolved timestamp 10): the batch of a
resolved-ts event at 12 that moves the resolved timestamp to 20 and a DML
event at 15 returns, and since the DML event is stale when it is reached, the
flag is `false`. -/
theorem HandleEvents_block_witness :
    ∃ d2, sampleEventDispatcher.HandleEvents sampleSpanz none
        [DispatcherEvent.ResolvedEvent 12 20, DispatcherEvent.DMLEvent 15]
        = Except.ok (d2, false) ∧
      ¬ ∃ pre event post d1 block1,
        [DispatcherEvent.ResolvedEvent 12 20, DispatcherEvent.DMLEvent 15]
          = pre ++ event :: post ∧
        EventDispatcher.handleEventsFrom sampleSpanz none 2 pre sampleEventDispatcher false
          = Except.ok (d1, block1) ∧
        event.setsBlock = true ∧ d1.resolvedTs ≤ event.GetCommitTs :=
  ⟨_, rfl, fun hex =>
    absurd (((HandleEvents_block sampleEventDispatcher sampleSpanz none
      [DispatcherEvent.ResolvedEvent 12 20, DispatcherEvent.DMLEvent 15]).1 _ false rfl).mpr hex)
      (by decide)⟩

/-! ## Dispatcher: the filter configuration -/

/-- The inner loop appends the event names after what `ignoreEvent` holds. -/
theorem appendIgnoreEvents_eq : ∀ (events ignoreEvent : List String),
    appendIgnoreEvents events ignoreEvent = ignoreEvent ++ events := by
  intro events
  induction events with
  | nil => intro acc; simp [appendIgnoreEvents]
  | cons e rest ih => intro acc; simp [appendIgnoreEvents, ih]

/-- The outer loop appends one converted rule per input rule. -/
theorem appendEventFilters_eq : ∀ (rules : List EventFilterRule)
    (eventFilters : List (Option EventFilterRulePB)),
    appendEventFilters (rules.map some) eventFilters
      = some (eventFilters ++ rules.map (fun f => some (convertEventFilter f))) := by
  intro rules
  induction rules with
  | nil => intro acc; simp [appendEventFilters]
  | cons f rest ih => intro acc; simp [appendEventFilters, ih]

/-- C38: for a `FilterConfig` with the `n` event filters `rules`,
`toFilterConfigPB` returns `EventFilters` of length `2n`: `n` nil entries
followed by the converted rules in order; a converted rule carries the input
rule's `Matcher`, `IgnoreSQL` and value expressions, and its `IgnoreEvent` has
length `2k`: `k` empty strings followed by the `k` event names in order.  The
output is the one-to-one conversion of the input only for `n = 0`, and a
converted rule is the one-to-one conversion of its input only for `k = 0`. -/
theorem toFilterConfigPB_doubles (Rules : List String) (IgnoreTxnStartTs : List Nat)
    (rules : List EventFilterRule) :
    ∃ out, toFilterConfigPB
        { Rules := Rules, IgnoreTxnStartTs := IgnoreTxnStartTs, EventFilters := rules.map some }
        = some out ∧
      out.Rules = Rules ∧ out.IgnoreTxnStartTs = IgnoreTxnStartTs ∧
      out.EventFilters = List.replicate rules.length none
        ++ rules.map (fun f => some (convertEventFilter f)) ∧
      out.EventFilters.length = 2 * rules.length ∧
      (∀ i, i < rules.length → out.EventFilters.get? i = some none) ∧
      (∀ i (h : i < rules.length), out.EventFilters.get? (rules.length + i)
        = some (some (convertEventFilter (rules.get ⟨i, h⟩)))) ∧
      (∀ f : EventFilterRule,
        (convertEventFilter f).IgnoreEvent
          = List.replicate f.IgnoreEvent.length "" ++ f.IgnoreEvent ∧
        (convertEventFilter f).IgnoreEvent.length = 2 * f.IgnoreEvent.length ∧
        (convertEventFilter f).Matcher = f.Matcher ∧
        (convertEventFilter f).IgnoreSql = f.IgnoreSQL ∧
        (convertEventFilter f).IgnoreInsertValueExpr = f.IgnoreInsertValueExpr ∧
        (convertEventFilter f).IgnoreUpdateNewValueExpr = f.IgnoreUpdateNewValueExpr ∧
        (convertEventFilter f).IgnoreUpdateOldValueExpr = f.IgnoreUpdateOldValueExpr ∧
        (convertEventFilter f).IgnoreDeleteValueExpr = f.IgnoreDeleteValueExpr ∧
        (convertEventFilter f = oneToOneRule f ↔ f.IgnoreEvent = [])) ∧
      (out.EventFilters = rules.map (fun f => some (oneToOneRule f)) ↔ rules = []) := by
  refine ⟨{ Rules := Rules, IgnoreTxnStartTs := IgnoreTxnStartTs,
            EventFilters := List.replicate rules.length none
              ++ rules.map (fun f => some (convertEventFilter f)) }, ?_, rfl, rfl, rfl, ?_, ?_, ?_,
          ?_, ?_⟩
  · unfold toFilterConfigPB
    simp only [List.length_map, appendEventFilters_eq]
  · simp only [List.length_append, List.length_replicate, List.length_map]
    omega
  · intro i hi
    show (List.replicate rules.length none
      ++ rules.map (fun f => some (convertEventFilter f))).get? i = some none
    rw [List.get?_eq_getElem?, List.getElem?_append_left (by simpa using hi)]
    simp [hi]
  · intro i hi
    show (List.replicate rules.length none
      ++ rules.map (fun f => some (convertEventFilter f))).get? (rules.length + i) = _
    rw [List.get?_eq_getElem?, List.getElem?_append_right (by simp)]
    simp [hi]
  · intro f
    have hev : (convertEventFilter f).IgnoreEvent
        = List.replicate f.IgnoreEvent.length "" ++ f.IgnoreEvent := by
      simp only [convertEventFilter, appendIgnoreEvents_eq]
    refine ⟨hev, ?_, rfl, rfl, rfl, rfl, rfl, rfl, ?_⟩
    · rw [hev]
      simp only [List.length_append, List.length_replicate]
      omega
    · constructor
      · intro h
        have hl : (convertEventFilter f).IgnoreEvent.length = (oneToOneRule f).IgnoreEvent.length := by
          rw [h]
        rw [hev] at hl
        simp only [List.length_append, List.length_replicate, oneToOneRule] at hl
        exact List.length_eq_zero.mp (by omega)
      · intro h
        simp [convertEventFilter, oneToOneRule, h, appendIgnoreEvents]
  · show List.replicate rules.length none
      ++ rules.map (fun f => some (convertEventFilter f))
        = rules.map (fun f => some (oneToOneRule f)) ↔ rules = []
    constructor
    · intro h
      have hl := congrArg List.length h
      simp only [List.length_append, List.length_replicate, List.length_map] at hl
      exact List.length_eq_zero.mp (by omega)
    · intro h
      subst h
      rfl

/-! ## The index-value partition generator -/

/-- The conversions around the modulo are exact for a positive `int32`
partition number: the result is the hash sum modulo the partition number. -/
theorem toInt32_mod (sum32 : Nat) (partitionNum : Int) (hp : 0 < partitionNum)
    (hp2 : partitionNum < 2147483648) :
    toUint32 partitionNum ≠ 0 ∧
    toInt32 (sum32 % toUint32 partitionNum) = (sum32 : Int) % partitionNum ∧
    0 ≤ toInt32 (sum32 % toUint32 partitionNum) ∧
    toInt32 (sum32 % toUint32 partitionNum) < partitionNum := by
  have hu : toUint32 partitionNum = partitionNum.toNat := by
    unfold toUint32
    rw [Int.emod_eq_of_lt (by omega) (by omega)]
  have hpos : 0 < partitionNum.toNat := by omega
  have hlt : sum32 % partitionNum.toNat < partitionNum.toNat := Nat.mod_lt _ hpos
  have hcast : ((partitionNum.toNat : Nat) : Int) = partitionNum := Int.toNat_of_nonneg (by omega)
  have hval : toInt32 (sum32 % partitionNum.toNat) = ((sum32 % partitionNum.toNat : Nat) : Int) := by
    unfold toInt32
    have h1 : sum32 % partitionNum.toNat % 4294967296 = sum32 % partitionNum.toNat :=
      Nat.mod_eq_of_lt (by omega)
    rw [h1, if_pos (by omega)]
  rw [hu, hval]
  refine ⟨?_, ?_, ?_, ?_⟩
  · omega
  · rw [Int.natCast_mod, hcast]
  · omega
  · omega

/-- The call as a function of the state of the hasher after `Reset`: the
generator handed in only contributes its index name. -/
theorem GeneratePartitionIndexAndKey_snd (lib : PartitionLib)
    (hreset : ∀ h h2, lib.Reset h = lib.Reset h2)
    (r r2 : IndexValuePartitionGenerator) (tableInfo : PartitionTableInfo)
    (row : RowChangedEvent) (partitionNum : Int)
    (hl : r.lock = false) (hl2 : r2.lock = false) (hn : r2.IndexName = r.IndexName) :
    (r2.GeneratePartitionIndexAndKey lib tableInfo row partitionNum).map
        (fun out => (out.1.hasher, out.1.lock, out.1.IndexName, out.2))
      = (r.GeneratePartitionIndexAndKey lib tableInfo row partitionNum).map
        (fun out => (out.1.hasher, out.1.lock, out.1.IndexName, out.2)) := by
  unfold IndexValuePartitionGenerator.GeneratePartitionIndexAndKey
  simp only [hl, hl2, hn, hreset r2.hasher r.hasher, Bool.false_eq_true, if_false]

/-- A call that returns leaves the mutex free, keeps the index name, and when
it returns no error its index and key come from the hash sum of the hasher it
leaves behind. -/
theorem GeneratePartitionIndexAndKey_result (lib : PartitionLib)
    (r r2 : IndexValuePartitionGenerator) (tableInfo : PartitionTableInfo)
    (row : RowChangedEvent) (partitionNum : Int) (p : Int) (key : String)
    (err : Option PartitionError)
    (h : r.GeneratePartitionIndexAndKey lib tableInfo row partitionNum
      = Except.ok (r2, (p, key, err))) :
    r2.lock = false ∧ r2.IndexName = r.IndexName ∧
    (err = none →
      p = toInt32 (lib.Sum32 r2.hasher % 4294967296 % toUint32 partitionNum) ∧
      key = Nat.repr (lib.Sum32 r2.hasher % 4294967296) ∧
      toUint32 partitionNum ≠ 0) := by
  unfold IndexValuePartitionGenerator.GeneratePartitionIndexAndKey at h
  by_cases hl : r.lock = true
  · rw [if_pos hl] at h
    exact absurd h (by simp)
  · rw [if_neg hl] at h
    simp only at h
    have hfin : ∀ hasher : Nat,
        (if toUint32 partitionNum = 0 then
            (Except.error PartitionFault.divideByZero :
              Except PartitionFault
                (IndexValuePartitionGenerator × (Int × String × Option PartitionError)))
          else
            Except.ok ({ r with hasher := hasher, lock := false },
              (toInt32 (lib.Sum32 hasher % 4294967296 % toUint32 partitionNum),
                Nat.repr (lib.Sum32 hasher % 4294967296), none)))
          = Except.ok (r2, (p, key, err)) →
        r2.lock = false ∧ r2.IndexName = r.IndexName ∧
        (err = none →
          p = toInt32 (lib.Sum32 r2.hasher % 4294967296 % toUint32 partitionNum) ∧
          key = Nat.repr (lib.Sum32 r2.hasher % 4294967296) ∧
          toUint32 partitionNum ≠ 0) := by
      intro hasher hf
      by_cases hz : toUint32 partitionNum = 0
      · rw [if_pos hz] at hf
        exact absurd hf (by simp)
      · rw [if_neg hz] at hf
        have hinj := Prod.mk.inj (Except.ok.inj hf)
        have hr2 := hinj.1
        have hout := Prod.mk.inj hinj.2
        have hout2 := Prod.mk.inj hout.2
        subst hr2
        exact ⟨rfl, rfl, fun _ => ⟨hout.1.symm, hout2.1.symm, hz⟩⟩
    by_cases hname : r.IndexName = []
    · rw [if_pos hname] at h
      exact hfin _ h
    · rw [if_neg hname] at h
      cases hidx : tableInfo.IndexByName r.IndexName with
      | none =>
        rw [hidx] at h
        simp only at h
        have hinj := Prod.mk.inj (Except.ok.inj h)
        have hr2 := hinj.1
        have hout := Prod.mk.inj hinj.2
        have hout2 := Prod.mk.inj hout.2
        subst hr2
        refine ⟨rfl, rfl, fun he => ?_⟩
        rw [he] at hout2
        exact absurd hout2.2 (by simp)
      | some found =>
        obtain ⟨names, offsets⟩ := found
        rw [hidx] at h
        simp only at h
        cases hw : writeIndexColumns lib
            (if row.Columns.length = 0 then row.PreColumns else row.Columns) names offsets
            (lib.Write (lib.Reset r.hasher) [tableInfo.SchemaName, tableInfo.TableName]) with
        | error e =>
          rw [hw] at h
          exact absurd h (by simp)
        | ok hasher1 =>
          rw [hw] at h
          exact hfin _ h

/-- The loop over the dispatch columns writes the handle-key columns, one call
of `Write` per column. -/
theorem writeHandleKeys_eq (lib : PartitionLib) :
    ∀ (cols : List (Option Column)) (hasher : Nat),
      writeHandleKeys lib cols hasher = (handleKeyWrites lib cols).foldl lib.Write hasher := by
  intro cols
  induction cols with
  | nil => intro hasher; rfl
  | cons c rest ih =>
    intro hasher
    cases c with
    | none =>
      rw [writeHandleKeys, ih]
      rfl
    | some col =>
      by_cases hk : lib.IsHandleKey col.Flag = true
      · rw [writeHandleKeys, if_pos hk, ih]
        simp [handleKeyWrites, hk]
      · rw [writeHandleKeys, if_neg hk, ih]
        simp [handleKeyWrites, hk]

/-- The loop over the columns of an index writes one column per name when the
offsets are within the dispatch columns. -/
theorem writeIndexColumns_eq (lib : PartitionLib) (cols : List (Option Column)) :
    ∀ (names : List Bytes) (offsets : List Nat) (hasher : Nat),
      names.length ≤ offsets.length →
      (∀ o ∈ offsets.take names.length, o < cols.length) →
      writeIndexColumns lib cols names offsets hasher
        = Except.ok ((indexWrites lib cols names offsets).foldl lib.Write hasher) := by
  intro names
  induction names with
  | nil =>
    intro offsets hasher _ _
    cases offsets <;> rfl
  | cons name names ih =>
    intro offsets hasher hlen hin
    cases offsets with
    | nil => simp at hlen
    | cons offset offsets =>
      have hlen2 : names.length ≤ offsets.length := by
        simp only [List.length_cons] at hlen
        omega
      have hin2 : ∀ o ∈ offsets.take names.length, o < cols.length := by
        intro o ho
        apply hin
        simp only [List.length_cons, List.take_succ_cons]
        exact List.mem_cons_of_mem _ ho
      have ho : offset < cols.length := by
        apply hin
        simp only [List.length_cons, List.take_succ_cons]
        exact List.mem_cons_self _ _
      cases hget : cols.get? offset with
      | none =>
        have := List.get?_eq_none.mp hget
        omega
      | some entry =>
        cases entry with
        | none =>
          have hget2 : cols[offset]? = some none := by simpa using hget
          rw [writeIndexColumns]
          simp only [hget]
          rw [ih offsets hasher hlen2 hin2]
          simp [indexWrites, hget2]
        | some col =>
          have hget2 : cols[offset]? = some (some col) := by simpa using hget
          rw [writeIndexColumns]
          simp only [hget]
          rw [ih offsets _ hlen2 hin2]
          simp [indexWrites, hget2]

/-- The values the call returns for a given hash sum. -/
theorem GeneratePartitionIndexAndKey_finish (lib : PartitionLib)
    (hreset : ∀ h h2, lib.Reset h = lib.Reset h2)
    (r : IndexValuePartitionGenerator) (tableInfo : PartitionTableInfo)
    (row : RowChangedEvent) (partitionNum : Int)
    (hl : r.lock = false) (hp : 0 < partitionNum) (hp2 : partitionNum < 2147483648) :
    (r.IndexName = [] →
      ∃ r2, r.GeneratePartitionIndexAndKey lib tableInfo row partitionNum
        = Except.ok (r2,
            (((hashSum lib tableInfo (handleKeyWrites lib (dispatchColumns row)) : Nat) : Int)
                % partitionNum,
              Nat.repr (hashSum lib tableInfo (handleKeyWrites lib (dispatchColumns row))),
              none))) ∧
    (∀ names offsets, r.IndexName ≠ [] →
      tableInfo.IndexByName r.IndexName = some (names, offsets) →
      names.length ≤ offsets.length →
      (∀ o ∈ offsets.take names.length, o < (dispatchColumns row).length) →
      ∃ r2, r.GeneratePartitionIndexAndKey lib tableInfo row partitionNum
        = Except.ok (r2,
            (((hashSum lib tableInfo
                  (indexWrites lib (dispatchColumns row) names offsets) : Nat) : Int)
                % partitionNum,
              Nat.repr (hashSum lib tableInfo
                (indexWrites lib (dispatchColumns row) names offsets)),
              none))) := by
  constructor
  · intro hname
    obtain ⟨hz, hmod, _, _⟩ := toInt32_mod
      (hashSum lib tableInfo (handleKeyWrites lib (dispatchColumns row))) partitionNum hp hp2
    refine ⟨{ r with
      hasher := (handleKeyWrites lib (dispatchColumns row)).foldl lib.Write
        (lib.Write (lib.Reset 0) [tableInfo.SchemaName, tableInfo.TableName]),
      lock := false }, ?_⟩
    rw [← hmod]
    unfold IndexValuePartitionGenerator.GeneratePartitionIndexAndKey
    simp only [hl, hname, hz, Bool.false_eq_true, if_false, if_true, writeHandleKeys_eq,
      hreset r.hasher 0]
    rfl
  · intro names offsets hname hidx hlen hin
    obtain ⟨hz, hmod, _, _⟩ := toInt32_mod
      (hashSum lib tableInfo (indexWrites lib (dispatchColumns row) names offsets))
      partitionNum hp hp2
    refine ⟨{ r with
      hasher := (indexWrites lib (dispatchColumns row) names offsets).foldl lib.Write
        (lib.Write (lib.Reset 0) [tableInfo.SchemaName, tableInfo.TableName]),
      lock := false }, ?_⟩
    rw [← hmod]
    have hw := writeIndexColumns_eq lib (dispatchColumns row) names offsets
      (lib.Write (lib.Reset 0) [tableInfo.SchemaName, tableInfo.TableName]) hlen hin
    unfold dispatchColumns at hw
    unfold IndexValuePartitionGenerator.GeneratePartitionIndexAndKey
    simp only [hl, hname, hidx, hz, Bool.false_eq_true, if_false, hreset r.hasher 0, hw]
    rfl

/-- C39: for a hasher whose `Reset` forgets the state it is called on, a
generator with a free mutex and a positive `int32` partition number.
Whenever `GeneratePartitionIndexAndKey` returns no error, the index `p` is
the 32-bit hash sum modulo `partitionNum`, so `0 ≤ p < partitionNum`, and the
key is the decimal representation of the same hash sum; the mutex is free
again.  The returned values and the hasher left behind do not depend on the
state of the hasher before the call, so a second call on the same row returns
the same values.  Without an index name the call always returns without
error, and the hash sum is that of the schema name, the table name and, for
each handle-key column of the dispatch columns in order, its name and the
string of its value, and of nothing else: two rows of tables with the same
schema and table name and with the same handle-key names and values get the
same index and key, whatever their other columns and fields.  With an index name that the table has, whose offsets lie within the
dispatch columns, the hash sum is that of the schema name, the table name and,
for each column of the index, its name and the string of the value at its
offset, and two rows that agree on these get the same index and key.  With an
index name that the table does not have, it returns the index 0, the empty key
and an error. -/
theorem GeneratePartitionIndexAndKey_spec (lib : PartitionLib)
    (hreset : ∀ h h2, lib.Reset h = lib.Reset h2)
    (r : IndexValuePartitionGenerator) (tableInfo : PartitionTableInfo)
    (row : RowChangedEvent) (partitionNum : Int)
    (hl : r.lock = false) (hp : 0 < partitionNum) (hp2 : partitionNum < 2147483648) :
    (∀ r2 p key, r.GeneratePartitionIndexAndKey lib tableInfo row partitionNum
        = Except.ok (r2, (p, key, none)) →
      0 ≤ p ∧ p < partitionNum ∧
      p = ((lib.Sum32 r2.hasher % 4294967296 : Nat) : Int) % partitionNum ∧
      key = Nat.repr (lib.Sum32 r2.hasher % 4294967296) ∧
      r2.lock = false) ∧
    (∀ r1 : IndexValuePartitionGenerator, r1.lock = false → r1.IndexName = r.IndexName →
      ∀ r2 out, r.GeneratePartitionIndexAndKey lib tableInfo row partitionNum
          = Except.ok (r2, out) →
        ∃ r3, r1.GeneratePartitionIndexAndKey lib tableInfo row partitionNum
            = Except.ok (r3, out) ∧ r3.hasher = r2.hasher) ∧
    (∀ r2 out, r.GeneratePartitionIndexAndKey lib tableInfo row partitionNum
        = Except.ok (r2, out) →
      ∃ r3, r2.GeneratePartitionIndexAndKey lib tableInfo row partitionNum
          = Except.ok (r3, out)) ∧
    (r.IndexName = [] →
      ∃ r2 p key, r.GeneratePartitionIndexAndKey lib tableInfo row partitionNum
          = Except.ok (r2, (p, key, none)) ∧
        r2.hasher = writeHandleKeys lib
          (if row.Columns.length = 0 then row.PreColumns else row.Columns)
          (lib.Write (lib.Reset 0) [tableInfo.SchemaName, tableInfo.TableName])) ∧
    (r.IndexName ≠ [] → tableInfo.IndexByName r.IndexName = none →
      ∃ r2, r.GeneratePartitionIndexAndKey lib tableInfo row partitionNum
        = Except.ok (r2, (0, "", some PartitionError.ErrDispatcherFailed))) ∧
    (r.IndexName = [] →
      ∃ r2, r.GeneratePartitionIndexAndKey lib tableInfo row partitionNum
        = Except.ok (r2,
            (((hashSum lib tableInfo (handleKeyWrites lib (dispatchColumns row)) : Nat) : Int)
                % partitionNum,
              Nat.repr (hashSum lib tableInfo (handleKeyWrites lib (dispatchColumns row))),
              none))) ∧
    (∀ names offsets, r.IndexName ≠ [] →
      tableInfo.IndexByName r.IndexName = some (names, offsets) →
      names.length ≤ offsets.length →
      (∀ o ∈ offsets.take names.length, o < (dispatchColumns row).length) →
      ∃ r2, r.GeneratePartitionIndexAndKey lib tableInfo row partitionNum
        = Except.ok (r2,
            (((hashSum lib tableInfo
                  (indexWrites lib (dispatchColumns row) names offsets) : Nat) : Int)
                % partitionNum,
              Nat.repr (hashSum lib tableInfo
                (indexWrites lib (dispatchColumns row) names offsets)),
              none))) ∧
    (∀ (tableInfo2 : PartitionTableInfo) (row2 : RowChangedEvent), r.IndexName = [] →
      tableInfo2.SchemaName = tableInfo.SchemaName →
      tableInfo2.TableName = tableInfo.TableName →
      handleKeyWrites lib (dispatchColumns row2) = handleKeyWrites lib (dispatchColumns row) →
      (r.GeneratePartitionIndexAndKey lib tableInfo2 row2 partitionNum).map Prod.snd
        = (r.GeneratePartitionIndexAndKey lib tableInfo row partitionNum).map Prod.snd) ∧
    (∀ (tableInfo2 : PartitionTableInfo) (row2 : RowChangedEvent) names offsets names2 offsets2,
      r.IndexName ≠ [] →
      tableInfo2.SchemaName = tableInfo.SchemaName →
      tableInfo2.TableName = tableInfo.TableName →
      tableInfo.IndexByName r.IndexName = some (names, offsets) →
      tableInfo2.IndexByName r.IndexName = some (names2, offsets2) →
      names.length ≤ offsets.length →
      names2.length ≤ offsets2.length →
      (∀ o ∈ offsets.take names.length, o < (dispatchColumns row).length) →
      (∀ o ∈ offsets2.take names2.length, o < (dispatchColumns row2).length) →
      indexWrites lib (dispatchColumns row2) names2 offsets2
        = indexWrites lib (dispatchColumns row) names offsets →
      (r.GeneratePartitionIndexAndKey lib tableInfo2 row2 partitionNum).map Prod.snd
        = (r.GeneratePartitionIndexAndKey lib tableInfo row partitionNum).map Prod.snd) := by
  have hsame : ∀ r1 : IndexValuePartitionGenerator, r1.lock = false →
      r1.IndexName = r.IndexName →
      ∀ r2 out, r.GeneratePartitionIndexAndKey lib tableInfo row partitionNum
          = Except.ok (r2, out) →
        ∃ r3, r1.GeneratePartitionIndexAndKey lib tableInfo row partitionNum
            = Except.ok (r3, out) ∧ r3.hasher = r2.hasher := by
    intro r1 hl1 hn1 r2 out h
    have hs := GeneratePartitionIndexAndKey_snd lib hreset r r1 tableInfo row partitionNum
      hl hl1 hn1
    rw [h] at hs
    cases h1 : r1.GeneratePartitionIndexAndKey lib tableInfo row partitionNum with
    | error e =>
      rw [h1] at hs
      exact absurd hs (by simp [Except.map])
    | ok res =>
      rw [h1] at hs
      obtain ⟨r3, out3⟩ := res
      simp only [Except.map, Except.ok.injEq, Prod.mk.injEq] at hs
      exact ⟨r3, by rw [hs.2.2.2], hs.1⟩
  have hfin := GeneratePartitionIndexAndKey_finish lib hreset r tableInfo row partitionNum
    hl hp hp2
  refine ⟨?_, hsame, ?_, ?_, ?_, hfin.1, hfin.2, ?_, ?_⟩
  · intro r2 p key h
    obtain ⟨hlock, _, hres⟩ :=
      GeneratePartitionIndexAndKey_result lib r r2 tableInfo row partitionNum p key none h
    obtain ⟨hpv, hkey, _⟩ := hres rfl
    obtain ⟨_, hmod, hge, hlt⟩ :=
      toInt32_mod (lib.Sum32 r2.hasher % 4294967296) partitionNum hp hp2
    rw [hpv]
    exact ⟨hge, hlt, hmod, hkey, hlock⟩
  · intro r2 out h
    obtain ⟨p, key, err⟩ := out
    obtain ⟨hlock, hname, _⟩ :=
      GeneratePartitionIndexAndKey_result lib r r2 tableInfo row partitionNum p key err h
    obtain ⟨r3, h3, _⟩ := hsame r2 hlock hname r2 (p, key, err) h
    exact ⟨r3, h3⟩
  · intro hname
    obtain ⟨hz, _, _, _⟩ := toInt32_mod 0 partitionNum hp hp2
    refine ⟨{ r with
        hasher := writeHandleKeys lib
          (if row.Columns.length = 0 then row.PreColumns else row.Columns)
          (lib.Write (lib.Reset r.hasher) [tableInfo.SchemaName, tableInfo.TableName]),
        lock := false },
      toInt32 (lib.Sum32 (writeHandleKeys lib
          (if row.Columns.length = 0 then row.PreColumns else row.Columns)
          (lib.Write (lib.Reset r.hasher) [tableInfo.SchemaName, tableInfo.TableName]))
        % 4294967296 % toUint32 partitionNum),
      Nat.repr (lib.Sum32 (writeHandleKeys lib
          (if row.Columns.length = 0 then row.PreColumns else row.Columns)
          (lib.Write (lib.Reset r.hasher) [tableInfo.SchemaName, tableInfo.TableName]))
        % 4294967296), ?_, ?_⟩
    · unfold IndexValuePartitionGenerator.GeneratePartitionIndexAndKey
      simp only [hl, hname, hz, Bool.false_eq_true, if_false, if_true]
    · simp only [hreset r.hasher 0]
  · intro hname hidx
    refine ⟨{ r with
      hasher := lib.Write (lib.Reset r.hasher) [tableInfo.SchemaName, tableInfo.TableName],
      lock := false }, ?_⟩
    unfold IndexValuePartitionGenerator.GeneratePartitionIndexAndKey
    simp only [hl, hname, hidx, Bool.false_eq_true, if_false]
  · intro tableInfo2 row2 hname hs ht hw
    obtain ⟨ra, ha⟩ := hfin.1 hname
    obtain ⟨rb, hb⟩ := (GeneratePartitionIndexAndKey_finish lib hreset r tableInfo2 row2
      partitionNum hl hp hp2).1 hname
    have hsum : ∀ writes, hashSum lib tableInfo2 writes = hashSum lib tableInfo writes := by
      intro writes
      simp only [hashSum, hs, ht]
    rw [ha, hb, hw, hsum]
    rfl
  · intro tableInfo2 row2 names offsets names2 offsets2 hname hs ht hidx hidx2 hlen hlen2 hin hin2
      hw
    obtain ⟨ra, ha⟩ := hfin.2 names offsets hname hidx hlen hin
    obtain ⟨rb, hb⟩ := (GeneratePartitionIndexAndKey_finish lib hreset r tableInfo2 row2
      partitionNum hl hp hp2).2 names2 offsets2 hname hidx2 hlen2 hin2
    have hsum : ∀ writes, hashSum lib tableInfo2 writes = hashSum lib tableInfo writes := by
      intro writes
      simp only [hashSum, hs, ht]
    rw [ha, hb, hw, hsum]
    rfl

/-- The sample hasher's `Reset` forgets the state. -/
theorem samplePartitionLib_reset : ∀ h h2, samplePartitionLib.Reset h = samplePartitionLib.Reset h2 :=
  fun _ _ => rfl

/-- C39 at the sample row of two columns, with four partitions.  Without an
index name the hash sum is that of `d`, `t` and the handle-key column `id`
with value `7`, which is 23293: the index is 1 and the key `23293`; the column
`v`, which is no handle key, does not count.  With the index `idx` on the
column `id` the result is the same. -/
theorem GeneratePartitionIndexAndKey_spec_witness :
    (∃ r2, IndexValuePartitionGenerator.GeneratePartitionIndexAndKey
        { hasher := 99, lock := false, IndexName := [] }
        samplePartitionLib samplePartitionTableInfo samplePartitionRow 4
      = Except.ok (r2, (1, "23293", none))) ∧
    (∃ r2, IndexValuePartitionGenerator.GeneratePartitionIndexAndKey
        { hasher := 99, lock := false, IndexName := ascii "idx" }
        samplePartitionLib samplePartitionTableInfo samplePartitionRow 4
      = Except.ok (r2, (1, "23293", none))) :=
  ⟨(GeneratePartitionIndexAndKey_spec samplePartitionLib samplePartitionLib_reset
      { hasher := 99, lock := false, IndexName := [] } samplePartitionTableInfo
      samplePartitionRow 4 rfl (by decide) (by decide)).2.2.2.2.2.1 rfl,
   (GeneratePartitionIndexAndKey_spec samplePartitionLib samplePartitionLib_reset
      { hasher := 99, lock := false, IndexName := ascii "idx" } samplePartitionTableInfo
      samplePartitionRow 4 rfl (by decide) (by decide)).2.2.2.2.2.2.1 [ascii "id"] [0]
      (by decide) rfl (by decide) (by decide)⟩


/-! ## Schema store: the table map and the database map stay consistent -/

/-- The closure `createTable` keeps the maps consistent when the table id is
new. -/
theorem createTable_consistent (p p2 : persistentStorage) (event : PersistedDDLEvent)
    (schemaID tableID : Int) (hc : p.MapsConsistent) (hnew : p.tableMap tableID = none)
    (h : p.createTable event schemaID tableID = Except.ok p2) : p2.MapsConsistent := by
  unfold persistentStorage.createTable persistentStorage.addTableToDB at h
  cases hdb : p.databaseMap schemaID with
  | none => rw [hdb] at h; exact absurd h (by simp)
  | some db0 =>
    rw [hdb] at h
    simp only at h
    cases hti : event.TableInfo with
    | none => rw [hti] at h; exact absurd h (by simp)
    | some ti =>
      rw [hti] at h
      simp only at h
      have hp2 := Except.ok.inj h
      subst hp2
      constructor
      · intro t info ht
        simp only at ht
        by_cases htt : t = tableID
        · subst htt
          simp only [if_true] at ht
          have hi := (Option.some.inj ht).symm
          subst hi
          exact ⟨_, if_pos rfl, if_pos rfl⟩
        · simp only [htt, if_false] at ht
          obtain ⟨db, hd, hdt⟩ := hc.1 t info ht
          by_cases hs : info.SchemaID = schemaID
          · rw [hs, hdb] at hd
            have hdd := Option.some.inj hd
            subst hdd
            exact ⟨_, if_pos hs, (if_neg htt).trans hdt⟩
          · exact ⟨db, (if_neg hs).trans hd, hdt⟩
      · intro s db t hd hdt
        simp only at hd
        by_cases hs : s = schemaID
        · subst hs
          simp only [if_true] at hd
          have hdd := (Option.some.inj hd).symm
          subst hdd
          simp only at hdt
          by_cases htt : t = tableID
          · subst htt
            exact ⟨_, if_pos rfl, rfl⟩
          · simp only [htt, if_false] at hdt
            obtain ⟨info, hi, his⟩ := hc.2 s db0 t hdb hdt
            exact ⟨info, (if_neg htt).trans hi, his⟩
        · simp only [hs, if_false] at hd
          obtain ⟨info, hi, his⟩ := hc.2 s db t hd hdt
          have htt : t ≠ tableID := by
            intro heq
            rw [heq, hnew] at hi
            exact absurd hi (by simp)
          exact ⟨info, (if_neg htt).trans hi, his⟩

/-- The closure `dropTable` keeps the maps consistent when the schema id it is
given is the one the table map records for the table; the table is gone
afterwards and the other tables are as before. -/
theorem dropTable_consistent (p p2 : persistentStorage) (schemaID tableID : Int)
    (hc : p.MapsConsistent)
    (hs0 : ∀ info, p.tableMap tableID = some info → info.SchemaID = schemaID)
    (h : p.dropTable schemaID tableID = Except.ok p2) :
    p2.MapsConsistent ∧ p2.tableMap tableID = none ∧
    ∀ t, t ≠ tableID → p2.tableMap t = p.tableMap t := by
  unfold persistentStorage.dropTable persistentStorage.removeTableFromDB at h
  cases hdb : p.databaseMap schemaID with
  | none => rw [hdb] at h; exact absurd h (by simp)
  | some db0 =>
    rw [hdb] at h
    simp only at h
    have hp2 := Except.ok.inj h
    subst hp2
    refine ⟨⟨?_, ?_⟩, if_pos rfl, fun t ht => if_neg ht⟩
    · intro t info ht
      simp only at ht
      by_cases htt : t = tableID
      · simp [htt] at ht
      · simp only [htt, if_false] at ht
        obtain ⟨db, hd, hdt⟩ := hc.1 t info ht
        by_cases hs : info.SchemaID = schemaID
        · rw [hs, hdb] at hd
          have hdd := Option.some.inj hd
          subst hdd
          exact ⟨_, if_pos hs, (if_neg htt).trans hdt⟩
        · exact ⟨db, (if_neg hs).trans hd, hdt⟩
    · intro s db t hd hdt
      simp only at hd
      by_cases hs : s = schemaID
      · subst hs
        simp only [if_true] at hd
        have hdd := (Option.some.inj hd).symm
        subst hdd
        simp only at hdt
        by_cases htt : t = tableID
        · simp [htt] at hdt
        · simp only [htt, if_false] at hdt
          obtain ⟨info, hi, his⟩ := hc.2 s db0 t hdb hdt
          exact ⟨info, (if_neg htt).trans hi, his⟩
      · simp only [hs, if_false] at hd
        obtain ⟨info, hi, his⟩ := hc.2 s db t hd hdt
        have htt : t ≠ tableID := by
          intro heq
          rw [heq] at hi
          exact hs (by rw [← his, hs0 info hi])
        exact ⟨info, (if_neg htt).trans hi, his⟩

/-- The `ActionRenameTable` branch keeps the maps consistent. -/
theorem renameTable_consistent (p p2 : persistentStorage) (event : PersistedDDLEvent)
    (hc : p.MapsConsistent) (h : p.renameTable event = Except.ok p2) : p2.MapsConsistent := by
  unfold persistentStorage.renameTable at h
  cases htm : p.tableMap event.TableID with
  | none => rw [htm] at h; exact absurd h (by simp)
  | some tableInfo =>
    rw [htm] at h
    simp only at h
    by_cases hsame : tableInfo.SchemaID = event.SchemaID
    · simp only [hsame, ne_eq, not_true_eq_false, if_false] at h
      cases hti : event.TableInfo with
      | none => rw [hti] at h; exact absurd h (by simp)
      | some ti =>
        rw [hti] at h
        simp only at h
        have hp2 := Except.ok.inj h
        subst hp2
        constructor
        · intro t info ht
          simp only at ht
          by_cases htt : t = event.TableID
          · subst htt
            simp only [if_true, htm, Option.map_some'] at ht
            have hi := (Option.some.inj ht).symm
            subst hi
            exact hc.1 _ tableInfo htm
          · simp only [htt, if_false] at ht
            exact hc.1 t info ht
        · intro s db t hd hdt
          obtain ⟨info, hi, his⟩ := hc.2 s db t hd hdt
          by_cases htt : t = event.TableID
          · subst htt
            rw [htm] at hi
            have hii := Option.some.inj hi
            subst hii
            exact ⟨{ tableInfo with Name := ti.Name },
              (if_pos rfl).trans (by rw [htm]; rfl), his⟩
          · exact ⟨info, (if_neg htt).trans hi, his⟩
    · simp only [ne_eq, hsame, not_false_eq_true, if_true] at h
      unfold persistentStorage.removeTableFromDB at h
      simp only at h
      cases hold : p.databaseMap tableInfo.SchemaID with
      | none => rw [hold] at h; exact absurd h (by simp)
      | some dbOld =>
        rw [hold] at h
        simp only at h
        unfold persistentStorage.addTableToDB at h
        simp only at h
        have hne : ¬ event.SchemaID = tableInfo.SchemaID := fun heq => hsame heq.symm
        simp only [hne, if_false] at h
        cases hnew : p.databaseMap event.SchemaID with
        | none => rw [hnew] at h; exact absurd h (by simp)
        | some dbNew =>
          rw [hnew] at h
          simp only at h
          cases hti : event.TableInfo with
          | none => rw [hti] at h; exact absurd h (by simp)
          | some ti =>
            rw [hti] at h
            simp only at h
            have hp2 := Except.ok.inj h
            subst hp2
            constructor
            · intro t info ht
              simp only at ht
              by_cases htt : t = event.TableID
              · subst htt
                simp only [if_true, Option.map_some'] at ht
                have hi := (Option.some.inj ht).symm
                subst hi
                exact ⟨_, if_pos rfl, if_pos rfl⟩
              · simp only [htt, if_false] at ht
                obtain ⟨db, hd, hdt⟩ := hc.1 t info ht
                by_cases hs1 : info.SchemaID = event.SchemaID
                · rw [hs1, hnew] at hd
                  have hdd := Option.some.inj hd
                  subst hdd
                  exact ⟨_, if_pos hs1, (if_neg htt).trans hdt⟩
                · by_cases hs2 : info.SchemaID = tableInfo.SchemaID
                  · rw [hs2, hold] at hd
                    have hdd := Option.some.inj hd
                    subst hdd
                    exact ⟨_, (if_neg hs1).trans (if_pos hs2), (if_neg htt).trans hdt⟩
                  · exact ⟨db, (if_neg hs1).trans ((if_neg hs2).trans hd), hdt⟩
            · intro s db t hd hdt
              simp only at hd
              by_cases hs1 : s = event.SchemaID
              · subst hs1
                simp only [if_true] at hd
                have hdd := (Option.some.inj hd).symm
                subst hdd
                simp only at hdt
                by_cases htt : t = event.TableID
                · subst htt
                  exact ⟨⟨event.SchemaID, ti.Name, tableInfo.InKVSnap⟩, by simp, rfl⟩
                · simp only [htt, if_false] at hdt
                  obtain ⟨info, hi, his⟩ := hc.2 _ dbNew t hnew hdt
                  exact ⟨info, (if_neg htt).trans ((if_neg htt).trans hi), his⟩
              · simp only [hs1, if_false] at hd
                by_cases hs2 : s = tableInfo.SchemaID
                · subst hs2
                  simp only [if_true] at hd
                  have hdd := (Option.some.inj hd).symm
                  subst hdd
                  simp only at hdt
                  by_cases htt : t = event.TableID
                  · simp [htt] at hdt
                  · simp only [htt, if_false] at hdt
                    obtain ⟨info, hi, his⟩ := hc.2 _ dbOld t hold hdt
                    exact ⟨info, (if_neg htt).trans ((if_neg htt).trans hi), his⟩
                · simp only [hs2, if_false] at hd
                  obtain ⟨info, hi, his⟩ := hc.2 s db t hd hdt
                  have htt : t ≠ event.TableID := by
                    intro heq
                    rw [heq, htm] at hi
                    have hii := Option.some.inj hi
                    subst hii
                    exact hs2 his.symm
                  exact ⟨info, (if_neg htt).trans ((if_neg htt).trans hi), his⟩

/-- Apart from `DropSchema`, `updateDatabaseInfoAndTableInfo` keeps the table map
and the database map consistent for every event that is not skipped and that
agrees with the store: a `DropTable` or `TruncateTable` names the schema the
table map records for its table, and the new table of a `TruncateTable` is
not yet in the table map. -/
theorem updateDatabaseInfoAndTableInfo_consistent (p p2 : persistentStorage)
    (event : PersistedDDLEvent) (hc : p.MapsConsistent)
    (hskip : shouldSkipDDL event p.databaseMap p.tableMap = false)
    (hnot : event.Typ ≠ ActionType.ActionDropSchema)
    (hschema : event.Typ = ActionType.ActionDropTable ∨
        event.Typ = ActionType.ActionTruncateTable →
      ∀ info, p.tableMap event.TableID = some info → info.SchemaID = event.SchemaID)
    (hfresh : event.Typ = ActionType.ActionTruncateTable →
      ∀ ti, event.TableInfo = some ti → ti.ID = event.TableID ∨ p.tableMap ti.ID = none)
    (h : p.updateDatabaseInfoAndTableInfo event = Except.ok p2) : p2.MapsConsistent := by
  unfold persistentStorage.updateDatabaseInfoAndTableInfo at h
  unfold shouldSkipDDL at hskip
  cases hty : event.Typ <;> rw [hty] at h <;> simp only at h
  case ActionCreateSchema =>
    rw [hty] at hskip
    simp only at hskip
    have hnone : p.databaseMap event.SchemaID = none := by
      cases hd : p.databaseMap event.SchemaID with
      | none => rfl
      | some db => rw [hd] at hskip; exact absurd hskip (by simp)
    have hp2 := Except.ok.inj h
    subst hp2
    constructor
    · intro t info ht
      obtain ⟨db, hd, hdt⟩ := hc.1 t info ht
      have hs : info.SchemaID ≠ event.SchemaID := by
        intro heq
        rw [heq, hnone] at hd
        exact absurd hd (by simp)
      exact ⟨db, (if_neg hs).trans hd, hdt⟩
    · intro s db t hd hdt
      simp only at hd
      by_cases hs : s = event.SchemaID
      · simp only [hs, if_true] at hd
        have hdd := (Option.some.inj hd).symm
        subst hdd
        exact absurd hdt (by simp)
      · simp only [hs, if_false] at hd
        exact hc.2 s db t hd hdt
  case ActionDropSchema => exact absurd hty hnot
  case ActionCreateTable =>
    rw [hty] at hskip
    simp only at hskip
    have hnone : p.tableMap event.TableID = none := by
      cases hd : p.tableMap event.TableID with
      | none => rfl
      | some info => rw [hd] at hskip; exact absurd hskip (by simp)
    exact createTable_consistent p p2 event _ _ hc hnone h
  case ActionDropTable =>
    exact (dropTable_consistent p p2 _ _ hc (hschema (Or.inl hty)) h).1
  case ActionTruncateTable =>
    cases hd : p.dropTable event.SchemaID event.TableID with
    | error e => rw [hd] at h; exact absurd h (by simp)
    | ok p1 =>
      rw [hd] at h
      simp only at h
      cases hti : event.TableInfo with
      | none => rw [hti] at h; exact absurd h (by simp)
      | some ti =>
        rw [hti] at h
        simp only at h
        obtain ⟨hc1, hgone, hrest⟩ :=
          dropTable_consistent p p1 _ _ hc (hschema (Or.inr hty)) hd
        have hnew : p1.tableMap ti.ID = none := by
          cases hfresh hty ti hti with
          | inl heq => rw [heq]; exact hgone
          | inr hn =>
            by_cases heq : ti.ID = event.TableID
            · rw [heq]; exact hgone
            · rw [hrest _ heq]; exact hn
        exact createTable_consistent p1 p2 event _ _ hc1 hnew h
  case ActionRenameTable => exact renameTable_consistent p p2 event hc h
  case ActionOther code => exact absurd h (by simp)
  all_goals (have hp2 := Except.ok.inj h; subst hp2; exact hc)

/-! ## Schema store: which events reach the table-trigger history -/

/-- `updateDDLHistory` appends the timestamp of a `CreateSchema`, `CreateView`,
`DropSchema`, `CreateTable`, `DropTable` or `RenameTable` to the table-trigger
history, and leaves the table-trigger history as it is for a
`TruncateTable`. -/
theorem updateDDLHistory_trigger (p p1 : persistentStorage) (ddlEvent : PersistedDDLEvent)
    (h : p.updateDDLHistory ddlEvent = Except.ok p1) :
    (ddlEvent.Typ = ActionType.ActionCreateSchema ∨ ddlEvent.Typ = ActionType.ActionCreateView ∨
        ddlEvent.Typ = ActionType.ActionDropSchema ∨
        ddlEvent.Typ = ActionType.ActionCreateTable ∨
        ddlEvent.Typ = ActionType.ActionDropTable ∨
        ddlEvent.Typ = ActionType.ActionRenameTable →
      p1.tableTriggerDDLHistory = p.tableTriggerDDLHistory ++ [ddlEvent.FinishedTs]) ∧
    (ddlEvent.Typ = ActionType.ActionTruncateTable →
      p1.tableTriggerDDLHistory = p.tableTriggerDDLHistory) := by
  unfold persistentStorage.updateDDLHistory at h
  constructor
  · intro hty
    rcases hty with hty | hty | hty | hty | hty | hty <;> rw [hty] at h <;> simp only at h
    · cases h; rfl
    · cases h; rfl
    · cases hd : p.databaseMap ddlEvent.SchemaID with
      | none => rw [hd] at h; cases h
      | some db => rw [hd] at h; cases h; rfl
    · cases h; rfl
    · cases h; rfl
    · cases h; rfl
  · intro hty
    rw [hty] at h
    simp only at h
    cases hti : ddlEvent.TableInfo with
    | none => rw [hti] at h; cases h
    | some ti => rw [hti] at h; cases h; rfl

/-- One turn of the loop of `handleSortedDDLEvents` on an event that is not
skipped: the timestamp of a `CreateSchema`, `CreateView`, `DropSchema`,
`CreateTable`, `DropTable` or `RenameTable` is appended to the table-trigger
history, that of a `TruncateTable` is not. -/
theorem handleDDLEvent_trigger (p p1 : persistentStorage) (event filled : PersistedDDLEvent)
    (hskip : shouldSkipDDL event p.databaseMap p.tableMap = false)
    (h : p.handleDDLEvent event = Except.ok (p1, filled)) :
    (event.Typ = ActionType.ActionCreateSchema ∨ event.Typ = ActionType.ActionCreateView ∨
        event.Typ = ActionType.ActionDropSchema ∨
        event.Typ = ActionType.ActionCreateTable ∨
        event.Typ = ActionType.ActionDropTable ∨
        event.Typ = ActionType.ActionRenameTable →
      p1.tableTriggerDDLHistory = p.tableTriggerDDLHistory ++ [event.FinishedTs]) ∧
    (event.Typ = ActionType.ActionTruncateTable →
      p1.tableTriggerDDLHistory = p.tableTriggerDDLHistory) := by
  unfold persistentStorage.handleDDLEvent at h
  cases hn : fillSchemaName event p.databaseMap with
  | error f => rw [hn] at h; cases h
  | ok named =>
    rw [hn] at h
    simp only at h
    cases hf : fillInfluencedTableInfo named with
    | error f => rw [hf] at h; cases h
    | ok filled1 =>
      rw [hf] at h
      simp only at h
      obtain ⟨n1, n2, n3, _, n5, _⟩ := fillSchemaName_fields event named p.databaseMap hn
      obtain ⟨f1, f2, f3, _, f5, _⟩ := fillInfluencedTableInfo_fields named filled1 hf
      have hty : filled1.Typ = event.Typ := f1.trans n1
      have hts : filled1.FinishedTs = event.FinishedTs := f5.trans n5
      have hsk : shouldSkipDDL filled1 p.databaseMap p.tableMap = false := by
        unfold shouldSkipDDL at hskip ⊢
        rw [hty, f2.trans n2, f3.trans n3]
        exact hskip
      rw [hsk] at h
      simp only [Bool.false_eq_true, if_false] at h
      cases hu : p.updateDDLHistory filled1 with
      | error e => rw [hu] at h; cases h
      | ok q1 =>
        rw [hu] at h
        simp only at h
        cases hd : q1.updateDatabaseInfoAndTableInfo filled1 with
        | error e => rw [hd] at h; cases h
        | ok q2 =>
          rw [hd] at h
          simp only at h
          cases hr : q2.updateRegisteredTableInfoStore filled1 with
          | error e => rw [hr] at h; cases h
          | ok q3 =>
            rw [hr] at h
            have hq := (Prod.mk.inj (Except.ok.inj h)).1
            subst hq
            have e3 := (updateRegisteredTableInfoStore_histories q2 q3 filled1 hr).2
            have e2 := (updateDatabaseInfoAndTableInfo_histories q1 q2 filled1 hd).2
            have e1 := updateDDLHistory_trigger p q1 filled1 hu
            rw [hty, hts] at e1
            constructor
            · intro ht
              rw [e3, e2]
              exact e1.1 ht
            · intro ht
              rw [e3, e2]
              exact e1.2 ht

/-! ## Where the locks are released as they should be -/

/-- Without an `Err`, `onHeartBeatRequest` on a free `errLock` returns with the
lock free; a warning is stored under the sender, the errors are untouched. -/
theorem onHeartBeatRequest_without_err (m : Maintainer) (sender : NodeID)
    (req : HeartBeatRequest) (hfree : m.errLock = false) (herr : req.Err = none) :
    ∃ m2, m.onHeartBeatRequest sender req = Except.ok m2 ∧ m2.errLock = false ∧
      (∀ w, req.Warning = some w → m2.runningWarnings sender = some w) ∧
      m2.runningErrors = m.runningErrors := by
  unfold Maintainer.onHeartBeatRequest Maintainer.lockErr Maintainer.unlockErr
  rw [herr]
  cases hw : req.Watermark <;> cases hwarn : req.Warning <;>
    simp [hfree]

/-- On their other return paths the readers release the mutex they took: with a
free mutex, `getAllPhysicalTables` with `snapTs ≥ gcTs`, `getTableInfo` of a
registered table and `fetchTableDDLEvents` with `start ≥ gcTs` leave the mutex
as it was. -/
theorem readers_release_otherwise (p : persistentStorage)
    (loadAllPhysicalTablesInSnap : Nat → Nat → Except StoreError (List Table))
    (storeGetTableInfo : versionedTableInfoStore → Nat → Except StoreError TableInfo)
    (hfree : p.mu = { writer := false, readers := 0 }) :
    (∀ snapTs, p.gcTs ≤ snapTs →
      ∃ p2, p.getAllPhysicalTables loadAllPhysicalTablesInSnap snapTs
          = Except.ok (p2, loadAllPhysicalTablesInSnap p.gcTs snapTs) ∧ p2.mu = p.mu) ∧
    (∀ tableID ts store, p.tableInfoStoreMap tableID = some store →
      ∃ p2, p.getTableInfo storeGetTableInfo tableID ts
          = Except.ok (p2, storeGetTableInfo store ts) ∧ p2.mu = p.mu) ∧
    (∀ tableID start endTs, p.gcTs ≤ start →
      (finalState (p.fetchTableDDLEvents tableID start endTs)).mu = p.mu) := by
  refine ⟨?_, ?_, ?_⟩
  · intro snapTs hge
    unfold persistentStorage.getAllPhysicalTables persistentStorage.Lock
      persistentStorage.Unlock
    have hlt : ¬ snapTs < p.gcTs := by omega
    simp [hfree, hlt]
  · intro tableID ts store hst
    unfold persistentStorage.getTableInfo persistentStorage.Lock persistentStorage.Unlock
    simp [hfree, hst]
  · intro tableID start endTs hge
    unfold persistentStorage.fetchTableDDLEvents persistentStorage.RLock
      persistentStorage.RUnlock
    have hlt : ¬ start < p.gcTs := by omega
    simp only [hfree, Bool.false_eq_true, if_false, hlt]
    cases hh : p.tablesDDLHistory tableID with
    | none => simp [finalState]
    | some history =>
      simp only
      by_cases hidx : searchAbove history start = history.length
      · simp [hidx, finalState]
      · simp only [hidx, if_false]
        simp only [Nat.lt_add_one, if_true, Nat.add_sub_cancel, gt_iff_lt, Nat.zero_add,
          Nat.lt_one_iff, Nat.zero_lt_one]
        cases readEvents p.disk (targetTsOf history start endTs) <;> simp [finalState]

end Tigate
